import Mathlib

/-!
# Registry data layer of `infra`: tokens, default permissions, cascading deletes

A shallow embedding of `internal/registry/data.go` (namespace `Registry`), of
`internal/server/data.go` (namespace `Server`), and models of the bearer
authentication and of the configuration reconciler (namespace `Reconciler`),
whose code is not among the sources and which follow the specification.

* Go strings and `[]byte` are sequences of bytes (`GoString`, `List Byte`).
* `error` is `Option String`: `none` is `nil`, `some msg` is `errors.New(msg)`.
* The database handle `*gorm.DB` is an explicit value of type `DB` holding the
  tables and the number of random strings drawn so far; an operation returns
  its `error` together with the handle as the call leaves it. A failed call
  may leave partial writes behind, which the enclosing transaction discards.
* What the package imports from outside the repository is a parameter, bundled
  in `Env`: the SHA-256 digest, `generate.RandString`, the wall clock, bcrypt
  and the Okta directory.
-/

namespace Registry

/-! ## Bytes, strings, time -/

/-- A Go `byte`. -/
abbrev Byte := Fin 256

/-- A Go `string`: an immutable sequence of bytes; `len` is `List.length` and
`[]byte(s)` is the identity. -/
abbrev GoString := List Byte

/-- An ASCII string literal of the source as a Go string. -/
def str (s : String) : GoString := s.toList.map (fun c => Fin.ofNat c.toNat)

/-- A Go `error` value: `none` is `nil`. -/
abbrev Err := Option String

/-- A `time.Time`, as nanoseconds since the Unix epoch (an unbounded integer:
clock readings and their `Unix` seconds are far inside the `int64` range). -/
abbrev Time := Int

/-- A `time.Duration`, in nanoseconds. -/
abbrev Duration := Int

/-- The constant `time.Second`. -/
def Second : Duration := 1000000000

/-- The constant `time.Hour`. -/
def Hour : Duration := 3600 * Second

/-- The method `Time.Add`. -/
def Time.Add (t : Time) (d : Duration) : Time := t + d

/-- The method `Time.Unix`: whole seconds since the epoch, rounded down. -/
def Time.Unix (t : Time) : Int := t / Second

/-! ## `crypto/subtle` -/

/-- Go `subtle.ConstantTimeByteEq(x, y uint8) int`:
`int((uint32(x^y) - 1) >> 31)`, the subtraction wrapping at 32 bits. -/
def ConstantTimeByteEq (x y : Nat) : Int :=
  ((((x ^^^ y) % 256 + 2 ^ 32 - 1) % 2 ^ 32) >>> 31 : Nat)

/-- The loop of `subtle.ConstantTimeCompare`: `v |= x[i] ^ y[i]` over the
common indices, `v` a byte. -/
def ConstantTimeCompare.loop : List Byte → List Byte → Nat → Nat
  | a :: x, b :: y, v => ConstantTimeCompare.loop x y ((v ||| (a.val ^^^ b.val)) % 256)
  | _, _, v => v

/-- Go `subtle.ConstantTimeCompare(x, y []byte) int`: `0` on a length
mismatch, otherwise `1` exactly when no byte differs. -/
def ConstantTimeCompare (x y : List Byte) : Int :=
  if x.length ≠ y.length then 0
  else ConstantTimeByteEq (ConstantTimeCompare.loop x y 0) 0

/-! ## Constants and rows -/

def ID_LEN : Nat := 12

def TOKEN_SECRET_LEN : Nat := 24

def TOKEN_LEN : Nat := ID_LEN + TOKEN_SECRET_LEN

def API_KEY_LEN : Nat := 24

/-- A row of `users` (the `Sources` and `Permissions` association fields are
not columns and are left out). -/
structure User where
  Id : GoString := []
  Created : Int := 0
  Updated : Int := 0
  Email : GoString := []
  Password : List Byte := []
  Admin : Bool := false
  deriving DecidableEq, Repr

/-- A row of `destinations`. -/
structure Destination where
  Id : GoString := []
  Created : Int := 0
  Updated : Int := 0
  Name : GoString := []
  Type_ : GoString := []
  KubernetesCa : GoString := []
  KubernetesEndpoint : GoString := []
  KubernetesNamespace : GoString := []
  deriving DecidableEq, Repr

/-- A row of `permissions` (the `User` and `Destination` association fields
are not columns and are left out). -/
structure Permission where
  Id : GoString := []
  Created : Int := 0
  Updated : Int := 0
  Role : GoString := []
  UserId : GoString := []
  DestinationId : GoString := []
  FromConfig : Bool := false
  FromDefault : Bool := false
  deriving DecidableEq, Repr

/-- A row of `tokens` (the `User` association field is not a column). -/
structure Token where
  Id : GoString := []
  Created : Int := 0
  Updated : Int := 0
  Expires : Int := 0
  Secret : List Byte := []
  UserId : GoString := []
  deriving DecidableEq, Repr

/-- A row of `sources` (the `Users` association field is not a column). -/
structure Source where
  Id : GoString := []
  Created : Int := 0
  Updated : Int := 0
  Type_ : GoString := []
  OktaDomain : GoString := []
  OktaClientId : GoString := []
  OktaClientSecret : GoString := []
  OktaApiToken : GoString := []
  FromConfig : Bool := false
  deriving DecidableEq, Repr

/-- A row of `api_keys`. -/
structure ApiKey where
  Id : GoString := []
  Created : Int := 0
  Updated : Int := 0
  Name : GoString := []
  Key : GoString := []
  deriving DecidableEq, Repr

/-- A row of the join table `users_sources` of the many-to-many association
between users and sources. -/
structure UserSource where
  UserId : GoString := []
  SourceId : GoString := []
  deriving DecidableEq, Repr

/-! ## The database handle -/

/-- The state behind a `*gorm.DB`: one list of rows per table, in insertion
order, and `draws`, the number of calls made so far to `generate.RandString`
(process state, not a table: it selects the next result of `Env.RandString`). -/
structure DB where
  users : List User := []
  sources : List Source := []
  users_sources : List UserSource := []
  destinations : List Destination := []
  permissions : List Permission := []
  tokens : List Token := []
  api_keys : List ApiKey := []
  draws : Nat := 0
  deriving DecidableEq, Repr

/-- What the package takes from outside the repository, and the one function of
the repository the hooks call whose source is not at hand. -/
structure Env where
  /-- The digest `sha256.New(); h.Write(b); h.Sum(nil)` of `b`. -/
  sha256 : List Byte → List Byte
  /-- The result of the `k`-th call of `generate.RandString`, made with argument `n`. -/
  RandString : Nat → Nat → GoString
  /-- The reading of `time.Now()` during the call. -/
  now : Time
  /-- The call `bcrypt.GenerateFromPassword(p, bcrypt.DefaultCost)`: the hash, or
  `none` when it returns an error. -/
  GenerateFromPassword : List Byte → Option (List Byte)
  /-- Whether `bcrypt.CompareHashAndPassword(h, p)` returns `nil`. -/
  CompareHashAndPassword : List Byte → List Byte → Bool
  /-- The call `okta.Emails(domain, clientId, apiToken)`. -/
  Emails : GoString → GoString → GoString → List GoString × Err
  /-- The call `ApplyPermissions(tx, initialConfig.Permissions)` made by the
  `AfterCreate` hooks, with the error it returns and the handle as it leaves it. -/
  ApplyPermissions : DB → Err × DB

/-- Bytewise order of two strings, the order of a `TEXT` primary key. -/
def lexLt : GoString → GoString → Bool
  | [], [] => false
  | [], _ :: _ => true
  | _ :: _, [] => false
  | a :: x, b :: y => decide (a.val < b.val) || (decide (a.val = b.val) && lexLt x y)

/-- The row that `ORDER BY <primary key> LIMIT 1` returns: the one with the
least key, `none` on no rows. -/
def firstByPk {α : Type} (key : α → GoString) : List α → Option α
  | [] => none
  | r :: rs =>
    match firstByPk key rs with
    | none => some r
    | some m => if lexLt (key m) (key r) then some m else some r

/-- The `WHERE` clause gorm builds from a `*Permission` condition: one
equality per field of the condition holding a non-zero value. -/
def Permission.whereStruct (c p : Permission) : Bool :=
  decide ((c.Id = [] ∨ p.Id = c.Id) ∧ (c.Created = 0 ∨ p.Created = c.Created) ∧
    (c.Updated = 0 ∨ p.Updated = c.Updated) ∧ (c.Role = [] ∨ p.Role = c.Role) ∧
    (c.UserId = [] ∨ p.UserId = c.UserId) ∧
    (c.DestinationId = [] ∨ p.DestinationId = c.DestinationId) ∧
    (c.FromConfig = false ∨ p.FromConfig = c.FromConfig) ∧
    (c.FromDefault = false ∨ p.FromDefault = c.FromDefault))

/-- The `WHERE` clause gorm builds from a `*Token` condition. -/
def Token.whereStruct (c t : Token) : Bool :=
  decide ((c.Id = [] ∨ t.Id = c.Id) ∧ (c.Created = 0 ∨ t.Created = c.Created) ∧
    (c.Updated = 0 ∨ t.Updated = c.Updated) ∧ (c.Expires = 0 ∨ t.Expires = c.Expires) ∧
    (c.Secret = [] ∨ t.Secret = c.Secret) ∧ (c.UserId = [] ∨ t.UserId = c.UserId))

/-! ## Hooks that fill in a new row -/

/-- The hook `(*Permission).BeforeCreate`. -/
def Permission.BeforeCreate (env : Env) (g : Permission) (tx : DB) : Err × Permission × DB :=
  if g.Id = [] then
    (none, { g with Id := env.RandString tx.draws ID_LEN }, { tx with draws := tx.draws + 1 })
  else
    (none, g, tx)

/-- The hook `(*Token).BeforeCreate`. -/
def Token.BeforeCreate (env : Env) (t : Token) (tx : DB) : Err × Token × DB :=
  let r : Token × DB :=
    if t.Id = [] then
      ({ t with Id := env.RandString tx.draws ID_LEN }, { tx with draws := tx.draws + 1 })
    else
      (t, tx)
  let t := r.1
  let tx := r.2
  if t.Expires = 0 then
    (none, { t with Expires := (env.now.Add (Hour * 24)).Unix }, tx)
  else
    (none, t, tx)

/-! ## gorm statements, per table -/

/-- The value gorm writes to an `autoCreateTime` or `autoUpdateTime` column on
insert: the current Unix time where the field is still zero. -/
def autoTime (env : Env) (v : Int) : Int := if v = 0 then env.now.Unix else v

/-- The statement `tx.Create(&p)` on `permissions`: the `BeforeCreate` hook, the
`autoCreateTime` and `autoUpdateTime` columns where still zero, then the
insert, refused when the primary key is taken. -/
def DB.CreatePermission (env : Env) (tx : DB) (p : Permission) : Err × Permission × DB :=
  match Permission.BeforeCreate env p tx with
  | (some e, p, tx) => (some e, p, tx)
  | (none, p, tx) =>
    let p := { p with Created := autoTime env p.Created, Updated := autoTime env p.Updated }
    if tx.permissions.any (fun r => decide (r.Id = p.Id)) then
      (some "UNIQUE constraint failed: permissions.id", p, tx)
    else
      (none, p, { tx with permissions := tx.permissions ++ [p] })

/-- The statement `tx.Create(&t)` on `tokens`. -/
def DB.CreateToken (env : Env) (tx : DB) (t : Token) : Err × Token × DB :=
  match Token.BeforeCreate env t tx with
  | (some e, t, tx) => (some e, t, tx)
  | (none, t, tx) =>
    let t := { t with Created := autoTime env t.Created, Updated := autoTime env t.Updated }
    if tx.tokens.any (fun r => decide (r.Id = t.Id)) then
      (some "UNIQUE constraint failed: tokens.id", t, tx)
    else
      (none, t, { tx with tokens := tx.tokens ++ [t] })

/-- The statement `tx.FirstOrCreate(&permission, &cond)` with a zero
`permission`: the first row matching `cond` by primary key, or else a new row
made of `cond`. -/
def DB.FirstOrCreatePermission (env : Env) (tx : DB) (cond : Permission) :
    Err × Permission × DB :=
  match firstByPk Permission.Id (tx.permissions.filter (Permission.whereStruct cond)) with
  | some p => (none, p, tx)
  | none => tx.CreatePermission env cond

/-- The statement `tx.Save(&p)` on `permissions`: a create when the primary key
is zero, otherwise an update of every column of the row with that key
(`Updated` set to the current time), and a create when no row has that key. -/
def DB.SavePermission (env : Env) (tx : DB) (p : Permission) : Err × Permission × DB :=
  if p.Id = [] then tx.CreatePermission env p
  else if tx.permissions.any (fun r => decide (r.Id = p.Id)) then
    let p := { p with Updated := env.now.Unix }
    (none, p, { tx with
      permissions := tx.permissions.map (fun r => if r.Id = p.Id then p else r) })
  else tx.CreatePermission env p

/-- The statement `tx.Model(u).Association("Sources").Clear()`: every row of the
join table for the user goes; gorm refuses a model with a zero primary key. -/
def DB.ClearSources (tx : DB) (u : User) : Err × DB :=
  if u.Id = [] then (some "primary key required", tx)
  else (none, { tx with
    users_sources := tx.users_sources.filter (fun a => !decide (a.UserId = u.Id)) })

/-- The statement `tx.Where(&cond).Delete(&Token{})`: gorm refuses a delete
without any condition. -/
def DB.DeleteTokens (tx : DB) (cond : Token) : Err × DB :=
  if cond = {} then (some "WHERE conditions required", tx)
  else (none, { tx with tokens := tx.tokens.filter (fun t => !Token.whereStruct cond t) })

/-- The statement `tx.Where(&cond).Delete(&Permission{})`. -/
def DB.DeletePermissions (tx : DB) (cond : Permission) : Err × DB :=
  if cond = {} then (some "WHERE conditions required", tx)
  else (none, { tx with
    permissions := tx.permissions.filter (fun p => !Permission.whereStruct cond p) })

/-! ## Default permissions -/

/-- The loop of `(*User).AfterSave` over the destinations found. -/
def User.AfterSave.loop (env : Env) (u : User) (role : GoString) :
    List Destination → DB → Err × DB
  | [], tx => (none, tx)
  | d :: ds, tx =>
    match tx.FirstOrCreatePermission env
        { UserId := u.Id, DestinationId := d.Id, FromDefault := true } with
    | (some e, _, tx) => (some e, tx)
    | (none, permission, tx) =>
      let permission := { permission with Role := role }
      match tx.SavePermission env permission with
      | (some e, _, tx) => (some e, tx)
      | (none, _, tx) => User.AfterSave.loop env u role ds tx

/-- The hook `(*User).AfterSave`. -/
def User.AfterSave (env : Env) (u : User) (tx : DB) : Err × DB :=
  let destinations := tx.destinations
  let role := if u.Admin then str "cluster-admin" else str "view"
  User.AfterSave.loop env u role destinations tx

/-- The loop of `(*Destination).AfterSave` over the users found. -/
def Destination.AfterSave.loop (env : Env) (d : Destination) : List User → DB → Err × DB
  | [], tx => (none, tx)
  | u :: us, tx =>
    let role := if u.Admin then str "cluster-admin" else str "view"
    match tx.FirstOrCreatePermission env
        { UserId := u.Id, DestinationId := d.Id, Role := role, FromDefault := true } with
    | (some e, _, tx) => (some e, tx)
    | (none, _, tx) => Destination.AfterSave.loop env d us tx

/-- The hook `(*Destination).AfterSave`. -/
def Destination.AfterSave (env : Env) (d : Destination) (tx : DB) : Err × DB :=
  let users := tx.users
  Destination.AfterSave.loop env d users tx

/-! ## Cascading delete -/

/-- The hook `(*User).BeforeDelete`. -/
def User.BeforeDelete (u : User) (tx : DB) : Err × DB :=
  match tx.ClearSources u with
  | (some e, tx) => (some e, tx)
  | (none, tx) =>
    match tx.DeleteTokens { UserId := u.Id } with
    | (some e, tx) => (some e, tx)
    | (none, tx) => tx.DeletePermissions { UserId := u.Id }

/-! ## Token secrets -/

/-- The method `(*Token).CheckSecret`. -/
def Token.CheckSecret (env : Env) (t : Token) (secret : GoString) : Err :=
  if ConstantTimeCompare t.Secret (env.sha256 secret) ≠ 1 then
    some "could not verify token secret"
  else
    none

/-- The function `NewToken`; the results are the returned secret and error,
the token as the call leaves it behind the pointer, and the handle. -/
def NewToken (env : Env) (db : DB) (userId : GoString) (token : Token) :
    GoString × Err × Token × DB :=
  let secret := env.RandString db.draws TOKEN_SECRET_LEN
  let db := { db with draws := db.draws + 1 }
  let token := { token with UserId := userId, Secret := env.sha256 secret }
  match db.CreateToken env token with
  | (some e, token, db) => ([], some e, token, db)
  | (none, token, db) => (secret, none, token, db)

/-! ## Users and their sources -/

/-- What `db.Transaction` leaves behind when its function returns an error: the
tables as they were at the start; the random strings drawn meanwhile stay
drawn. -/
def DB.rollback (db tx : DB) : DB := { db with draws := tx.draws }

/-- The call `db.Transaction(fc)`: commit when `fc` returns `nil`, roll back
otherwise; inside a transaction gorm does the same with a savepoint. -/
def DB.Transaction (db : DB) (fc : DB → Err × DB) : Err × DB :=
  match fc db with
  | (none, tx) => (none, tx)
  | (some e, tx) => (some e, db.rollback tx)

/-- The error a gorm statement carries after `AddError` was called with the
results of two hooks. -/
def addError : Err → Err → Err
  | none, e => e
  | some a, none => some a
  | some a, some b => some (a ++ "; " ++ b)

/-- The hook `(*User).BeforeCreate`. -/
def User.BeforeCreate (env : Env) (u : User) (tx : DB) : Err × User × DB :=
  if u.Id = [] then
    (none, { u with Id := env.RandString tx.draws ID_LEN }, { tx with draws := tx.draws + 1 })
  else
    (none, u, tx)

/-- The hook `(*User).AfterCreate`. -/
def User.AfterCreate (env : Env) (_u : User) (tx : DB) : Err × DB :=
  env.ApplyPermissions tx

/-- The hook `(*Source).BeforeCreate`. -/
def Source.BeforeCreate (env : Env) (s : Source) (tx : DB) : Err × Source × DB :=
  if s.Id = [] then
    (none, { s with Id := env.RandString tx.draws ID_LEN }, { tx with draws := tx.draws + 1 })
  else
    (none, s, tx)

/-- The statement `tx.Create(&u)` on `users`: the `BeforeCreate` hook, the
timestamps, the insert (refused when the primary key or the unique `Email` is
taken), then the `AfterCreate` and `AfterSave` hooks, both run and their errors
added up. Inside a transaction a failed statement leaves its writes for the
transaction to discard. -/
def DB.CreateUser (env : Env) (tx : DB) (u : User) : Err × User × DB :=
  match User.BeforeCreate env u tx with
  | (some e, u, tx) => (some e, u, tx)
  | (none, u, tx) =>
    let u := { u with Created := autoTime env u.Created, Updated := autoTime env u.Updated }
    if tx.users.any (fun r => decide (r.Id = u.Id)) then
      (some "UNIQUE constraint failed: users.id", u, tx)
    else if tx.users.any (fun r => decide (r.Email = u.Email)) then
      (some "UNIQUE constraint failed: users.email", u, tx)
    else
      let tx := { tx with users := tx.users ++ [u] }
      let r1 := User.AfterCreate env u tx
      let r2 := User.AfterSave env u r1.2
      (addError r1.1 r2.1, u, r2.2)

/-- The statement `tx.Where(&User{Email: email}).Attrs(User{Admin: admin})
.FirstOrCreate(&user)`: the first row by primary key that matches the non-zero
fields of the condition and, when `user` already carries one, its primary key;
failing that, a new row made of `user`, the condition and the attributes. -/
def DB.FirstOrCreateUser (env : Env) (tx : DB) (email : GoString) (admin : Bool)
    (user : User) : Err × User × DB :=
  match firstByPk User.Id (tx.users.filter (fun r =>
      decide ((email = [] ∨ r.Email = email) ∧ (user.Id = [] ∨ r.Id = user.Id)))) with
  | some r => (none, r, tx)
  | none =>
    tx.CreateUser env { user with
      Email := if email = [] then user.Email else email
      Admin := if admin then true else user.Admin }

/-- The statement `tx.Save(&u)` on `users`: a create when the primary key is
zero; otherwise an update of every column of the row with that key (refused
when another row holds the `Email`), followed by the `AfterSave` hook, and a
create when the update has found no row. -/
def DB.SaveUser (env : Env) (tx : DB) (u : User) : Err × User × DB :=
  if u.Id = [] then tx.CreateUser env u
  else
    let u := { u with Updated := env.now.Unix }
    if tx.users.any (fun r => decide (r.Id = u.Id)) then
      if tx.users.any (fun r => decide (r.Id ≠ u.Id ∧ r.Email = u.Email)) then
        (some "UNIQUE constraint failed: users.email", u, tx)
      else
        let tx := { tx with users := tx.users.map (fun r => if r.Id = u.Id then u else r) }
        let r := User.AfterSave env u tx
        (r.1, u, r.2)
    else
      match User.AfterSave env u tx with
      | (some e, tx) => (some e, u, tx)
      | (none, tx) => tx.CreateUser env u

/-- The `WHERE` clause gorm builds from a `*Source` condition. -/
def Source.whereStruct (c s : Source) : Bool :=
  decide ((c.Id = [] ∨ s.Id = c.Id) ∧ (c.Created = 0 ∨ s.Created = c.Created) ∧
    (c.Updated = 0 ∨ s.Updated = c.Updated) ∧ (c.Type_ = [] ∨ s.Type_ = c.Type_) ∧
    (c.OktaDomain = [] ∨ s.OktaDomain = c.OktaDomain) ∧
    (c.OktaClientId = [] ∨ s.OktaClientId = c.OktaClientId) ∧
    (c.OktaClientSecret = [] ∨ s.OktaClientSecret = c.OktaClientSecret) ∧
    (c.OktaApiToken = [] ∨ s.OktaApiToken = c.OktaApiToken) ∧
    (c.FromConfig = false ∨ s.FromConfig = c.FromConfig))

/-- The pairs counted by `tx.Model(&user).Where(&cond).Association("Sources")
.Count()`: the sources matching `cond` joined with the rows of `users_sources`
that tie them to the user; none for a user without primary key. -/
def DB.userSources (tx : DB) (user : User) (cond : Source) : List (Source × UserSource) :=
  if user.Id = [] then []
  else
    (tx.sources.filter (Source.whereStruct cond)).flatMap (fun src =>
      (tx.users_sources.filter (fun a =>
        decide (a.SourceId = src.Id ∧ a.UserId = user.Id))).map (fun a => (src, a)))

/-- The call `tx.Model(&user).Where(&cond).Association("Sources").Count()`. -/
def DB.CountSources (tx : DB) (user : User) (cond : Source) : Nat :=
  (tx.userSources user cond).length

/-- The call `tx.Model(&user).Association("Sources").Append(s)`: gorm inserts the
source and the join row, both with `ON CONFLICT DO NOTHING` (`s` gets its
primary key and timestamps on the way), and runs the update hooks of the user,
that is `AfterSave`; the `UPDATE` of the user row it issues is restricted by
the condition on the source and matches no row, but building it sets the
`autoUpdateTime` field `Updated` of the user struct behind the pointer to the
current Unix time. The results are the error, the user and `s` as the call
leaves them, and the handle. -/
def DB.AppendSource (env : Env) (tx : DB) (user : User) (s : Source) :
    Err × User × Source × DB :=
  match Source.BeforeCreate env s tx with
  | (some e, s, tx) => (some e, user, s, tx)
  | (none, s, tx) =>
    let s := { s with Created := autoTime env s.Created, Updated := autoTime env s.Updated }
    let tx :=
      if tx.sources.any (fun r => decide (r.Id = s.Id ∨ r.OktaDomain = s.OktaDomain)) then tx
      else { tx with sources := tx.sources ++ [s] }
    let join : UserSource := { UserId := user.Id, SourceId := s.Id }
    let tx :=
      if tx.users_sources.any (fun a => decide (a = join)) then tx
      else { tx with users_sources := tx.users_sources ++ [join] }
    let user := { user with Updated := env.now.Unix }
    let r := User.AfterSave env user tx
    (r.1, user, s, r.2)

/-- The call `db.Model(&user).Association("Sources").Delete(s)`: the join rows
tying the user to the source go; a zero primary key on either side matches
nothing. -/
def DB.DeleteSource (tx : DB) (user : User) (s : Source) : Err × DB :=
  (none, { tx with
    users_sources := tx.users_sources.filter (fun a =>
      !decide (user.Id ≠ [] ∧ s.Id ≠ [] ∧ a.UserId = user.Id ∧ a.SourceId = s.Id)) })

/-- The statement `db.Delete(&u)` on `users`: the `BeforeDelete` hook, then the
row with the primary key goes; gorm refuses a delete without any condition. -/
def DB.DeleteUser (tx : DB) (u : User) : Err × DB :=
  match User.BeforeDelete u tx with
  | (some e, tx) => (some e, tx)
  | (none, tx) =>
    if u.Id = [] then (some "WHERE conditions required", tx)
    else (none, { tx with users := tx.users.filter (fun r => !decide (r.Id = u.Id)) })

/-- The middle of the function passed to `db.Transaction` in
`(*Source).CreateUser`: a non-empty password is hashed and the user saved with
the hash. -/
def Source.CreateUser.setPassword (env : Env) (tx : DB) (user : User) (password : GoString) :
    Err × User × DB :=
  if password ≠ [] then
    match env.GenerateFromPassword password with
    | none => (some "could not create user", user, tx)
    | some hashedPassword => tx.SaveUser env { user with Password := hashedPassword }
  else (none, user, tx)

/-- The end of the function passed to `db.Transaction` in
`(*Source).CreateUser`: the source is appended to the user's sources unless the
count of the user's sources with that id is non-zero; what `Append` returns is
dropped. The results are the user and the source behind the pointers, and the
handle. -/
def Source.CreateUser.associate (env : Env) (s : Source) (tx : DB) (user : User) :
    User × Source × DB :=
  if tx.CountSources user { Id := s.Id } = 0 then (tx.AppendSource env user s).2
  else (user, s, tx)

/-- The function passed to `db.Transaction` in `(*Source).CreateUser`; the
results are its error, the user and the source behind the pointers, and the
handle. -/
def Source.CreateUser.body (env : Env) (s : Source) (tx : DB) (user : User)
    (email password : GoString) (admin : Bool) : Err × User × Source × DB :=
  match tx.FirstOrCreateUser env email admin user with
  | (some e, user, tx) => (some e, user, s, tx)
  | (none, user, tx) =>
    match Source.CreateUser.setPassword env tx user password with
    | (some e, user, tx) => (some e, user, s, tx)
    | (none, user, tx) => (none, Source.CreateUser.associate env s tx user)

/-- The method `(*Source).CreateUser`. -/
def Source.CreateUser (env : Env) (s : Source) (db : DB) (user : User)
    (email password : GoString) (admin : Bool) : Err × User × Source × DB :=
  match Source.CreateUser.body env s db user email password admin with
  | (none, user, s, tx) => (none, user, s, tx)
  | (some e, user, s, tx) => (some e, user, s, db.rollback tx)

/-- The method `(*Source).DeleteUser`. -/
def Source.DeleteUser (s : Source) (db : DB) (u : User) : Err × DB :=
  match firstByPk User.Id (db.users.filter (fun r =>
      decide (u.Email = [] ∨ r.Email = u.Email))) with
  | none => (some "record not found", db)
  | some user =>
    match db.DeleteSource user s with
    | (some e, db) => (some e, db)
    | (none, db) =>
      if db.CountSources user {} = 0 then
        match db.DeleteUser user with
        | (some e, db) => (some e, db)
        | (none, db) => (none, db)
      else (none, db)

/-- The first loop of `(*Source).SyncUsers`: create the users of the source. -/
def Source.SyncUsers.create (env : Env) : Source → List GoString → DB → Err × Source × DB
  | s, [], tx => (none, s, tx)
  | s, email :: emails, tx =>
    match s.CreateUser env tx {} email [] false with
    | (some e, _, s, tx) => (some e, s, tx)
    | (none, _, s, tx) => Source.SyncUsers.create env s emails tx

/-- The second loop of `(*Source).SyncUsers`: delete the users not in the
source; what `DeleteUser` returns is dropped. -/
def Source.SyncUsers.delete (s : Source) : List User → DB → DB
  | [], tx => tx
  | td :: toDelete, tx => Source.SyncUsers.delete s toDelete (s.DeleteUser tx td).2

/-- The query `tx.Not("email IN ?", emails).Find(&toDelete)`; for an empty list
gorm writes `email IN (NULL)`, which no row satisfies or fails. -/
def DB.usersNotIn (tx : DB) (emails : List GoString) : List User :=
  if emails = [] then [] else tx.users.filter (fun u => !decide (u.Email ∈ emails))

/-- The method `(*Source).SyncUsers`. -/
def Source.SyncUsers (env : Env) (s : Source) (db : DB) : Err × DB :=
  if s.Type_ = str "okta" then
    match env.Emails s.OktaDomain s.OktaClientId s.OktaApiToken with
    | (_, some e) => (some e, db)
    | (emails, none) =>
      db.Transaction (fun tx =>
        match Source.SyncUsers.create env s emails tx with
        | (some e, _, tx) => (some e, tx)
        | (none, s, tx) => (none, Source.SyncUsers.delete s (tx.usersNotIn emails) tx))
  else (none, db)

/-! ## Constraints of the schema -/

/-- The primary-key constraint of `permissions`: no two rows share an `Id`. -/
def DB.permissionKeysUnique (tx : DB) : Prop := (tx.permissions.map Permission.Id).Nodup

instance (tx : DB) : Decidable tx.permissionKeysUnique :=
  inferInstanceAs (Decidable (List.Nodup _))

/-- The primary-key constraint of `users`: no two rows share an `Id`. -/
def DB.userKeysUnique (tx : DB) : Prop := (tx.users.map User.Id).Nodup

instance (tx : DB) : Decidable tx.userKeysUnique :=
  inferInstanceAs (Decidable (List.Nodup _))

/-- The baseline role of a user: what both `AfterSave` hooks compute from the
`Admin` flag. -/
def defaultRole (u : User) : GoString := if u.Admin then str "cluster-admin" else str "view"

/-- The two handles agree on every table but `permissions`. -/
def DB.sameButPermissions (tx tx' : DB) : Prop :=
  tx'.users = tx.users ∧ tx'.sources = tx.sources ∧ tx'.users_sources = tx.users_sources ∧
  tx'.destinations = tx.destinations ∧ tx'.tokens = tx.tokens ∧ tx'.api_keys = tx.api_keys

/-- The calls `s.CreateUser(db, &User{}, email, password, admin)` made `n` times
in a row, stopping at the first error. -/
def Source.CreateUser.times (env : Env) (email password : GoString) (admin : Bool) :
    Nat → Source → DB → Err × Source × DB
  | 0, s, db => (none, s, db)
  | n + 1, s, db =>
    match s.CreateUser env db {} email password admin with
    | (some e, _, s, db) => (some e, s, db)
    | (none, _, s, db) => Source.CreateUser.times env email password admin n s db

/-! ## Bearer authentication -/

/-- What becomes of an inbound call: it is answered as unauthenticated (HTTP
401, gRPC `Unauthenticated`) and the operation handler is not run, or the
handler is run. -/
inductive Outcome where
  | rejected
  | handled
  deriving DecidableEq, Repr

/-- A verified bearer credential: a session token or an API key. -/
inductive Credential where
  | token (t : Token)
  | apiKey (k : ApiKey)
  deriving DecidableEq, Repr

/-- Modelled from the spec: the token of an authorization value of the form
`Bearer <token>`; there is none in an absent value (`none`) and in a value of
another form. -/
def bearerToken : Option GoString → Option GoString
  | none => none
  | some v => if v.take 7 = str "Bearer " then some (v.drop 7) else none

/-- Modelled from the spec: `VerifyBearer`. The string is classified by its
length; a session token is looked up by its first `ID_LEN` bytes, its secret
is checked with `CheckSecret`, and an expired token fails even if the digest
matches; an API key is looked up by its value. -/
def VerifyBearer (env : Env) (db : DB) (raw : GoString) : Option Credential :=
  if raw.length = TOKEN_LEN then
    match firstByPk Token.Id (db.tokens.filter (fun t => decide (t.Id = raw.take ID_LEN))) with
    | none => none
    | some t =>
      if t.CheckSecret env (raw.drop ID_LEN) ≠ none then none
      else if t.Expires < env.now.Unix then none
      else some (Credential.token t)
  else if raw.length = API_KEY_LEN then
    match firstByPk ApiKey.Id (db.api_keys.filter (fun k => decide (k.Key = raw))) with
    | none => none
    | some k => some (Credential.apiKey k)
  else none

/-- Modelled from the spec: the bearer middleware of the HTTP API, which runs
the handler for a verified bearer credential only. -/
def bearerAuthMiddleware (env : Env) (db : DB) (authorization : Option GoString) : Outcome :=
  match bearerToken authorization with
  | none => Outcome.rejected
  | some raw =>
    match VerifyBearer env db raw with
    | none => Outcome.rejected
    | some _ => Outcome.handled

/-- What a gRPC method asks of its caller: nothing (`anyone`), a session token
(`withToken`), of an admin (`adminOnly`), or an API key (`withApiKey`). -/
structure MethodPolicy where
  anyone : Bool := false
  withToken : Bool := false
  adminOnly : Bool := false
  withApiKey : Bool := false
  deriving DecidableEq, Repr

/-- Modelled from the spec: the auth interceptor of the gRPC API. A public
method is served as it is; otherwise the bearer credential of the metadata is
verified and held against what the method asks for: a session token where the
method takes tokens, of a user whose `Admin` flag is set where the method is
administrative, or an API key where the method takes API keys. The table of
the methods is a parameter. -/
def authInterceptor (env : Env) (db : DB) (policy : GoString → MethodPolicy)
    (fullMethod : GoString) (authorization : Option GoString) : Outcome :=
  if (policy fullMethod).anyone then Outcome.handled
  else
    match bearerToken authorization with
    | none => Outcome.rejected
    | some raw =>
      match VerifyBearer env db raw with
      | none => Outcome.rejected
      | some (Credential.token t) =>
        if !(policy fullMethod).withToken then Outcome.rejected
        else if (policy fullMethod).adminOnly then
          match firstByPk User.Id (db.users.filter (fun u => decide (u.Id = t.UserId))) with
          | none => Outcome.rejected
          | some u => if u.Admin then Outcome.handled else Outcome.rejected
        else Outcome.handled
      | some (Credential.apiKey _) =>
        if (policy fullMethod).withApiKey then Outcome.handled else Outcome.rejected

/-- The primary-key constraint of `tokens`: no two rows share an `Id`. -/
def DB.tokenKeysUnique (tx : DB) : Prop := (tx.tokens.map Token.Id).Nodup

instance (tx : DB) : Decidable tx.tokenKeysUnique :=
  inferInstanceAs (Decidable (List.Nodup _))

/-! ## A concrete environment and store, for evaluating the model -/

/-- A toy digest standing in for SHA-256 where a concrete one is needed: a
32-byte string made of a polynomial checksum of the input. -/
def toyDigest (b : List Byte) : List Byte :=
  let h := b.foldl (fun h x => (31 * h + x.val + 1) % 65521) 7
  List.replicate 30 0 ++ [Fin.ofNat (h / 256), Fin.ofNat h]

/-- An environment whose `k`-th random string repeats the `k`-th lower-case
letter, at a clock reading of 1.7e18 ns; its password hash is a prefixed toy
digest and refuses more than 72 bytes, its Okta directory lists one member
(none for the domain `empty.okta.com`, an error for `down.okta.com`), and
there are no configured permissions to apply. -/
def sampleEnv : Env where
  sha256 := toyDigest
  RandString := fun k n => List.replicate n (Fin.ofNat (97 + k % 26))
  now := 1700000000000000000
  GenerateFromPassword := fun p => if p.length ≤ 72 then some (str "$2a$10$" ++ toyDigest p) else none
  CompareHashAndPassword := fun h p => decide (h = str "$2a$10$" ++ toyDigest p)
  Emails := fun domain _ _ =>
    if domain = str "down.okta.com" then ([], some "okta: unreachable")
    else if domain = str "empty.okta.com" then ([], none)
    else ([str "zoe@example.com"], none)
  ApplyPermissions := fun tx => (none, tx)

/-- A store with a plain user `alice`, an admin `root`, two destinations, a
permission of `alice` on the first destination that comes from a direct
assignment (not a default), one token per user and one source association
per user. -/
def sampleStore : DB :=
  { users := [
      { Id := str "alice", Email := str "alice@example.com" },
      { Id := str "root", Email := str "root@example.com", Admin := true }],
    users_sources := [
      { UserId := str "alice", SourceId := str "infra" },
      { UserId := str "root", SourceId := str "infra" }],
    destinations := [{ Id := str "d1", Name := str "one" }, { Id := str "d2", Name := str "two" }],
    permissions := [
      { Id := str "p0", Role := str "edit", UserId := str "alice", DestinationId := str "d1" }],
    tokens := [
      { Id := str "t-alice", UserId := str "alice" },
      { Id := str "t-root", UserId := str "root" }] }

/-- The row of `alice` in `sampleStore`. -/
def alice : User := { Id := str "alice", Email := str "alice@example.com" }

/-- The row of `root` in `sampleStore`. -/
def root : User := { Id := str "root", Email := str "root@example.com", Admin := true }

/-- The first destination of `sampleStore`. -/
def destOne : Destination := { Id := str "d1", Name := str "one" }

/-- An Okta source. -/
def oktaSource : Source :=
  { Id := str "okta-1", Type_ := str "okta", OktaDomain := str "acme.okta.com",
    OktaClientId := str "client", OktaApiToken := str "token" }

/-- The user `zoe`, a member of the Okta directory of `sampleEnv`. -/
def zoe : User := { Id := str "zoe", Email := str "zoe@example.com" }

/-- The user `yan`, who has a password and is not in the Okta directory. -/
def yan : User :=
  { Id := str "yan", Email := str "yan@example.com", Password := str "$2a$10$hash" }

/-- A store with the built-in source and `oktaSource`, `zoe` tied to the Okta
source, `yan` tied to both, and one destination. -/
def directoryStore : DB :=
  { sources := [{ Id := str "infra-0", Type_ := str "infra" }, oktaSource],
    users := [zoe, yan],
    users_sources := [
      { UserId := str "zoe", SourceId := str "okta-1" },
      { UserId := str "yan", SourceId := str "okta-1" },
      { UserId := str "yan", SourceId := str "infra-0" }],
    destinations := [{ Id := str "d1", Name := str "one" }],
    tokens := [{ Id := str "t-zoe", UserId := str "zoe" }] }

/-- A store with the Okta source and two users tied to it, neither of them in
the Okta directory of `sampleEnv`: one without an email, and `ann`, whose `Id`
sorts first. -/
def strayStore : DB :=
  { sources := [oktaSource],
    users := [
      { Id := str "zzzzzzzzzzzz" },
      { Id := str "AAAAAAAAAAAA", Email := str "ann@example.com" }],
    users_sources := [
      { UserId := str "zzzzzzzzzzzz", SourceId := str "okta-1" },
      { UserId := str "AAAAAAAAAAAA", SourceId := str "okta-1" }] }

/-- The methods the tests of the interceptor call: `Status` is public,
`ListUsers` takes a session token, `CreateUser` the session token of an admin,
`ListPermissions` an API key. -/
def testedPolicy (fullMethod : GoString) : MethodPolicy :=
  if fullMethod = str "/v1.V1/Status" then { anyone := true }
  else if fullMethod = str "/v1.V1/ListUsers" then { withToken := true }
  else if fullMethod = str "/v1.V1/CreateUser" then { withToken := true, adminOnly := true }
  else if fullMethod = str "/v1.V1/ListPermissions" then { withApiKey := true }
  else {}

/-- The session token of `alice`, with the secret `s3cr3ts3cr3ts3cr3ts3cr3t`. -/
def aliceToken : Token :=
  { Id := str "tokenalice00", UserId := str "alice", Expires := 1700086400,
    Secret := toyDigest (str "s3cr3ts3cr3ts3cr3ts3cr3t") }

/-- The session token of the admin `root`, with the same secret. -/
def rootToken : Token :=
  { Id := str "tokenroot000", UserId := str "root", Expires := 1700086400,
    Secret := toyDigest (str "s3cr3ts3cr3ts3cr3ts3cr3t") }

/-- A session token of `alice` that expired long ago. -/
def oldToken : Token :=
  { Id := str "tokenold0000", UserId := str "alice", Expires := 1600000000,
    Secret := toyDigest (str "s3cr3ts3cr3ts3cr3ts3cr3t") }

/-- The API key `default`. -/
def defaultKey : ApiKey :=
  { Id := str "key0", Name := str "default", Key := str "kkkkkkkkkkkkkkkkkkkkkkkk" }

/-- A store with the users `alice` and `root`, their session tokens, the
expired token and the API key; the clock of `sampleEnv` reads 1700000000 s. -/
def sessionStore : DB :=
  { users := [alice, root],
    tokens := [aliceToken, rootToken, oldToken],
    api_keys := [defaultKey] }

/-- Each pair of a user and a destination has at most one permission with
`FromDefault` set. -/
def DB.defaultsUnique (tx : DB) : Prop :=
  ((tx.permissions.filter (fun p => p.FromDefault)).map
    (fun p => (p.UserId, p.DestinationId))).Nodup

instance (tx : DB) : Decidable tx.defaultsUnique :=
  inferInstanceAs (Decidable (List.Nodup _))

/-- A store with the Okta source and a user `solo` who is tied to no source,
as a user is after a plain `Create`. -/
def soloStore : DB :=
  { sources := [oktaSource],
    users := [{ Id := str "solo", Email := str "solo@example.com" }] }

/-- A store where the default permission of `alice` on the first destination
still carries the role of an admin, which she is not. -/
def staleRoleStore : DB :=
  { users := [alice],
    destinations := [destOne],
    permissions := [
      { Id := str "p1", Role := str "cluster-admin", UserId := str "alice",
        DestinationId := str "d1", FromDefault := true }] }

/-- The rows of `users` have distinct, non-empty primary keys and distinct,
non-empty emails (`email` carries a unique index). -/
def DB.usersValid (tx : DB) : Prop :=
  (tx.users.map User.Id).Nodup ∧ (tx.users.map User.Email).Nodup ∧
  ∀ u ∈ tx.users, u.Id ≠ [] ∧ u.Email ≠ []

instance (tx : DB) : Decidable tx.usersValid := by
  unfold DB.usersValid
  infer_instance

/-- An Okta source whose directory, in `sampleEnv`, lists no email. -/
def quietSource : Source :=
  { Id := str "okta-1", Type_ := str "okta", OktaDomain := str "empty.okta.com",
    OktaClientId := str "client", OktaApiToken := str "token" }

/-- The store `directoryStore` with `quietSource` for its Okta source. -/
def quietStore : DB :=
  { directoryStore with sources := [{ Id := str "infra-0", Type_ := str "infra" }, quietSource] }

end Registry

/-! # The first data layer: `internal/server/data.go` -/

namespace Server

open Registry (Byte GoString Err Time str)

/-- A row of `users` of the `server` package; `ID` is the `uint` primary key
that the database fills in. -/
structure User where
  ID : Nat := 0
  Email : GoString := []
  Password : List Byte := []
  Provider : GoString := []
  Created : Int := 0
  Updated : Int := 0
  deriving DecidableEq, Repr

/-- A row of `settings` of the `server` package. -/
structure Settings where
  ID : Nat := 0
  Created : Int := 0
  Updated : Int := 0
  TokenSecret : List Byte := []
  deriving DecidableEq, Repr

/-- The state behind the `*gorm.DB` of the `server` package. -/
structure DB where
  users : List User := []
  settings : List Settings := []
  deriving DecidableEq, Repr

/-- The largest primary key in `users`, `0` on an empty table; an insert
without key takes the next integer. -/
def DB.maxID (tx : DB) : Nat := (tx.users.map User.ID).foldr max 0

/-- The row with the least `ID` of a list, as `ORDER BY id LIMIT 1` returns it. -/
def firstByID : List User → Option User
  | [] => none
  | r :: rs =>
    match firstByID rs with
    | none => some r
    | some m => if m.ID < r.ID then some m else some r

/-- The call `tx.Where("email = ?", email).First(&user)` on a zero `user`, whose
error is not looked at: the first row with the email, or `user` as it was. -/
def DB.First (tx : DB) (email : GoString) : User :=
  match firstByID (tx.users.filter (fun r => decide (r.Email = email))) with
  | some r => r
  | none => {}

/-- The statement `tx.Save(&u)`: an insert under the next primary key when `u`
has none; otherwise an update of every column of the row with the key, and an
insert under that key when there is no such row. The next key is numbered as
sqlite numbers a rowid while the largest one is below `2^63 - 1`; what sqlite
does at that bound (it looks for another free rowid) is left out. -/
def DB.Save (now : Time) (tx : DB) (u : User) : Err × User × DB :=
  if u.ID = 0 then
    let u := { u with
      ID := tx.maxID + 1
      Created := if u.Created = 0 then now.Unix else u.Created
      Updated := if u.Updated = 0 then now.Unix else u.Updated }
    (none, u, { tx with users := tx.users ++ [u] })
  else
    let u := { u with Updated := now.Unix }
    if tx.users.any (fun r => decide (r.ID = u.ID)) then
      (none, u, { tx with users := tx.users.map (fun r => if r.ID = u.ID then u else r) })
    else
      (none, u, { tx with users := tx.users ++ [u] })

/-- The statement `tx.Delete(&u)`: the row with the primary key goes; gorm
refuses a delete without any condition. -/
def DB.Delete (tx : DB) (u : User) : Err × DB :=
  if u.ID = 0 then (some "WHERE conditions required", tx)
  else (none, { tx with users := tx.users.filter (fun r => !decide (r.ID = u.ID)) })

/-- The call `db.Transaction(fc)` of the `server` package. -/
def DB.Transaction (db : DB) (fc : DB → Err × DB) : Err × DB :=
  match fc db with
  | (none, tx) => (none, tx)
  | (some e, _) => (some e, db)

/-- The inner loop of `SyncUsers` over the users found: a user whose email is
not among `emails` is deleted when it came from Okta and has no password, and
handed to the provider `infra` otherwise. -/
def SyncUsers.prune (now : Time) (emails : List GoString) : List User → DB → Err × DB
  | [], tx => (none, tx)
  | user :: users, tx =>
    if decide (user.Email ∈ emails) then SyncUsers.prune now emails users tx
    else if user.Provider = str "okta" ∧ user.Password.length = 0 then
      match tx.Delete user with
      | (some e, tx) => (some e, tx)
      | (none, tx) => SyncUsers.prune now emails users tx
    else
      match tx.Save now { user with Provider := str "infra" } with
      | (some e, _, tx) => (some e, tx)
      | (none, _, tx) => SyncUsers.prune now emails users tx

/-- The outer loop of `SyncUsers` over (what is left of) `emails`. -/
def SyncUsers.loop (now : Time) (emails : List GoString) : List GoString → DB → Err × DB
  | [], tx => (none, tx)
  | email :: rest, tx =>
    let user := tx.First email
    let user := { user with Email := email, Provider := str "okta" }
    match tx.Save now user with
    | (some e, _, tx) => (some e, tx)
    | (none, _, tx) =>
      let users := tx.users
      match SyncUsers.prune now emails users tx with
      | (some e, tx) => (some e, tx)
      | (none, tx) => SyncUsers.loop now emails rest tx

/-- The function `SyncUsers`; `now` is the reading of the clock that gorm
writes to the timestamps. -/
def SyncUsers (now : Time) (db : DB) (emails : List GoString) (_provider : GoString) :
    Err × DB :=
  db.Transaction (fun tx => SyncUsers.loop now emails emails tx)

/-- The primary-key constraint of `users`: keys are positive and no two rows
share one. -/
def DB.keysValid (tx : DB) : Prop :=
  (tx.users.map User.ID).Nodup ∧ ∀ r ∈ tx.users, r.ID ≠ 0

instance (tx : DB) : Decidable tx.keysValid :=
  inferInstanceAs (Decidable (_ ∧ _))

/-- A store with a password user who once came from Okta, a plain Okta user
and a user of the built-in provider. -/
def sampleUsers : DB :=
  { users := [
      { ID := 1, Email := str "pat@example.com", Password := str "hash", Provider := str "okta" },
      { ID := 2, Email := str "oli@example.com", Provider := str "okta" },
      { ID := 3, Email := str "ian@example.com", Password := str "hash2",
        Provider := str "infra" }] }

/-- The table `users` holds a row with the key `k`, the email `e` and the
password `p`. -/
def DB.hasUser (tx : DB) (k : Nat) (e : GoString) (p : List Byte) : Prop :=
  ∃ r ∈ tx.users, r.ID = k ∧ r.Email = e ∧ r.Password = p

instance (tx : DB) (k : Nat) (e : GoString) (p : List Byte) : Decidable (tx.hasUser k e p) :=
  inferInstanceAs (Decidable (∃ r ∈ tx.users, _))

/-- The table `users` holds a row with the key `k`, the email `e` and the
password `p` whose provider is `infra`. -/
def DB.hasBuiltin (tx : DB) (k : Nat) (e : GoString) (p : List Byte) : Prop :=
  ∃ r ∈ tx.users, r.ID = k ∧ r.Email = e ∧ r.Password = p ∧ r.Provider = str "infra"

instance (tx : DB) (k : Nat) (e : GoString) (p : List Byte) :
    Decidable (tx.hasBuiltin k e p) :=
  inferInstanceAs (Decidable (∃ r ∈ tx.users, _))

/-- What the inner loop of `SyncUsers` makes of a row of the table it loops
over: a row whose email is in the list stays as it is, a row from Okta without
a password goes, and any other row is saved with the provider `infra`. -/
def SyncUsers.pruned (now : Time) (emails : List GoString) (user : User) : Option User :=
  if user.Email ∈ emails then some user
  else if user.Provider = str "okta" ∧ user.Password.length = 0 then none
  else some { user with Provider := str "infra", Updated := now.Unix }

/-- At most one user per email. -/
def DB.emailsUnique (tx : DB) : Prop := (tx.users.map User.Email).Nodup

instance (tx : DB) : Decidable tx.emailsUnique :=
  inferInstanceAs (Decidable (List.Nodup _))

end Server

/-! # The configuration reconciler: `loadConfig` -/

namespace Reconciler

open Registry (Byte GoString Err str)

/-- What the reconciler takes from outside: the SHA-256 digest, the call
`bcrypt.GenerateFromPassword` (`none` when it returns an error) and the
encryption at rest of a client secret. -/
structure Env where
  sha256 : List Byte → List Byte
  GenerateFromPassword : List Byte → Option (List Byte)
  encrypt : GoString → GoString

/-! ## The configuration document -/

/-- An entry of `providers` of the configuration. -/
structure Provider where
  Name : GoString := []
  URL : GoString := []
  ClientID : GoString := []
  ClientSecret : GoString := []
  Kind : GoString := []
  deriving DecidableEq, Repr

/-- An entry of `users` of the configuration. -/
structure User where
  Name : GoString := []
  Email : GoString := []
  Password : GoString := []
  AccessKey : GoString := []
  deriving DecidableEq, Repr

/-- An entry of `grants` of the configuration. -/
structure Grant where
  User : GoString := []
  Group : GoString := []
  Role : GoString := []
  Resource : GoString := []
  deriving DecidableEq, Repr

/-- The configuration document. -/
structure Config where
  Providers : List Provider := []
  Users : List User := []
  Grants : List Grant := []
  deriving DecidableEq, Repr

/-! ## The persisted rows -/

/-- The provenance of a row: written by the reconciler from the configuration,
or by a runtime flow. -/
inductive Origin where
  | config
  | runtime
  deriving DecidableEq, Repr

/-- The subject of a grant: an identity or a group, each told by its name. -/
inductive Subject where
  | identity (name : GoString)
  | group (name : GoString)
  deriving DecidableEq, Repr

namespace Models

/-- A row of `providers`, identified by its name. -/
structure Provider where
  Name : GoString := []
  URL : GoString := []
  ClientID : GoString := []
  ClientSecret : GoString := []
  Kind : GoString := []
  CreatedBy : Origin := Origin.runtime
  deriving DecidableEq, Repr

/-- A row of `identities`, identified by its name. -/
structure Identity where
  Name : GoString := []
  CreatedBy : Origin := Origin.runtime
  deriving DecidableEq, Repr

/-- A row of `groups`, identified by its name. -/
structure Group where
  Name : GoString := []
  CreatedBy : Origin := Origin.runtime
  deriving DecidableEq, Repr

/-- A row of `grants`. -/
structure Grant where
  Subject : Subject := Subject.identity []
  Privilege : GoString := []
  Resource : GoString := []
  CreatedBy : Origin := Origin.runtime
  deriving DecidableEq, Repr

/-- A row of `credentials`: the password hash of the identity named. -/
structure Credential where
  Identity : GoString := []
  PasswordHash : List Byte := []
  deriving DecidableEq, Repr

/-- A row of `access_keys`. -/
structure AccessKey where
  KeyID : GoString := []
  SecretChecksum : List Byte := []
  IssuedFor : GoString := []
  deriving DecidableEq, Repr

end Models

/-- The store of the reconciler: one list of rows per table, in insertion
order. -/
structure Store where
  providers : List Models.Provider := []
  identities : List Models.Identity := []
  groups : List Models.Group := []
  grants : List Models.Grant := []
  credentials : List Models.Credential := []
  access_keys : List Models.AccessKey := []
  deriving DecidableEq, Repr

/-- The call `db.Transaction(fc)`: the store `fc` leaves when it returns no
error, the store as it was otherwise. -/
def Store.Transaction (db : Store) (fc : Store → Err × Store) : Err × Store :=
  match fc db with
  | (none, tx) => (none, tx)
  | (some e, _) => (some e, db)

/-! ## The anchors -/

/-- The name of the internal provider. -/
def InternalInfraProviderName : GoString := str "infra"

/-- The name of the internal connector identity. -/
def InternalInfraConnectorIdentityName : GoString := str "connector"

/-- The internal provider. -/
def infraProvider : Models.Provider :=
  { Name := InternalInfraProviderName, Kind := str "infra", CreatedBy := Origin.config }

/-- The internal connector identity. -/
def connectorIdentity : Models.Identity :=
  { Name := InternalInfraConnectorIdentityName, CreatedBy := Origin.config }

/-- The grant of the privilege `connector` to the connector identity. -/
def connectorGrant : Models.Grant :=
  { Subject := Subject.identity InternalInfraConnectorIdentityName,
    Privilege := str "connector", Resource := str "infra", CreatedBy := Origin.config }

/-- Whether two grants bind the same subject, resource and privilege. -/
def Models.Grant.sameTuple (g h : Models.Grant) : Bool :=
  decide (g.Subject = h.Subject ∧ g.Resource = h.Resource ∧ g.Privilege = h.Privilege)

/-- Modelled from the spec: step 1 of the reconciliation, the upsert of the
internal provider, of the connector identity and of its `connector` grant. -/
def ensureAnchors (tx : Store) : Store :=
  { tx with
    providers :=
      if tx.providers.any (fun p => decide (p.Name = InternalInfraProviderName)) then tx.providers
      else tx.providers ++ [infraProvider]
    identities :=
      if tx.identities.any (fun i => decide (i.Name = InternalInfraConnectorIdentityName)) then
        tx.identities
      else tx.identities ++ [connectorIdentity]
    grants :=
      if tx.grants.any (fun g => g.sameTuple connectorGrant) then tx.grants
      else tx.grants ++ [connectorGrant] }

/-- The config-managed identities that a reconciliation deletes: all but the
connector identity. -/
def Store.managedIdentities (tx : Store) : List GoString :=
  (tx.identities.filter (fun i =>
    decide (i.CreatedBy = Origin.config ∧ i.Name ≠ InternalInfraConnectorIdentityName))).map
      Models.Identity.Name

/-- Modelled from the spec: step 2 of the reconciliation, the deletion of what
an earlier configuration has created. The config-managed providers and grants
go, but for the internal provider and the connector grant; the config-managed
identities go, but for the connector identity, and with each its credential,
its access keys and its grants. Groups stay: `TestLoadConfigPruneConfig` counts
one group after a configuration that names none. -/
def deleteManaged (tx : Store) : Store :=
  let gone := tx.managedIdentities
  { tx with
    providers := tx.providers.filter (fun p =>
      decide (p.CreatedBy ≠ Origin.config ∨ p.Name = InternalInfraProviderName))
    identities := tx.identities.filter (fun i =>
      decide (i.CreatedBy ≠ Origin.config ∨ i.Name = InternalInfraConnectorIdentityName))
    grants := tx.grants.filter (fun g =>
      (decide (g.CreatedBy ≠ Origin.config) || g.sameTuple connectorGrant) &&
      !(gone.any (fun n => decide (g.Subject = Subject.identity n))))
    credentials := tx.credentials.filter (fun c => !decide (c.Identity ∈ gone))
    access_keys := tx.access_keys.filter (fun k => !decide (k.IssuedFor ∈ gone)) }

/-! ## Providers -/

/-- The row an entry of `providers` is stored as: the client secret is
encrypted at rest and the kind defaults to `oidc`. -/
def Provider.row (env : Env) (p : Provider) : Models.Provider :=
  { Name := p.Name, URL := p.URL, ClientID := p.ClientID,
    ClientSecret := env.encrypt p.ClientSecret,
    Kind := if p.Kind = [] then str "oidc" else p.Kind,
    CreatedBy := Origin.config }

/-- Modelled from the spec: step 3 for one entry. The name, the URL, the
client ID and the client secret are required, and the name is unique among the
providers. -/
def loadProvider (env : Env) (providers : List Models.Provider) (p : Provider) :
    Err × List Models.Provider :=
  if p.Name = [] then (some "invalid provider: name is required", providers)
  else if p.URL = [] then (some "invalid provider: url is required", providers)
  else if p.ClientID = [] then (some "invalid provider: clientID is required", providers)
  else if p.ClientSecret = [] then (some "invalid provider: clientSecret is required", providers)
  else if providers.any (fun r => decide (r.Name = p.Name)) then
    (some "UNIQUE constraint failed: providers.name", providers)
  else (none, providers ++ [p.row env])

/-- Modelled from the spec: step 3, the providers of the configuration in
order. -/
def loadProviders (env : Env) : List Provider → List Models.Provider →
    Err × List Models.Provider
  | [], providers => (none, providers)
  | p :: ps, providers =>
    match loadProvider env providers p with
    | (some e, providers) => (some e, providers)
    | (none, providers) => loadProviders env ps providers

/-! ## Identities, credentials and access keys -/

/-- The identity of the name is resolved, or created as config-managed. -/
def resolveIdentity (identities : List Models.Identity) (name : GoString) :
    List Models.Identity :=
  if identities.any (fun i => decide (i.Name = name)) then identities
  else identities ++ [{ Name := name, CreatedBy := Origin.config }]

/-- The group of the name is resolved, or created as config-managed. -/
def resolveGroup (groups : List Models.Group) (name : GoString) : List Models.Group :=
  if groups.any (fun g => decide (g.Name = name)) then groups
  else groups ++ [{ Name := name, CreatedBy := Origin.config }]

/-- The parts of an access key string `KeyID.secret`, split at the first dot;
`none` without a dot. -/
def parseAccessKey : GoString → Option (GoString × GoString)
  | [] => none
  | c :: cs =>
    if c.val = 46 then some ([], cs)
    else
      match parseAccessKey cs with
      | none => none
      | some (k, s) => some (c :: k, s)

/-- The text of a Go string, for an error message. -/
def goText (s : GoString) : String := String.mk (s.map (fun b => Char.ofNat b.val))

/-- Modelled from the spec: the sub-operation `LoadAccessKey`. The key string
is parsed into `KeyID` and secret; the row of the `KeyID` is written with the
SHA-256 digest of the secret, anew or over the row the identity has already;
a `KeyID` that belongs to another identity is a conflict. -/
def loadAccessKey (env : Env) (keys : List Models.AccessKey) (identity : GoString)
    (key : GoString) : Err × List Models.AccessKey :=
  match parseAccessKey key with
  | none => (some "invalid access key format", keys)
  | some (keyID, secret) =>
    match keys.find? (fun k => decide (k.KeyID = keyID)) with
    | none =>
      (none, keys ++ [{ KeyID := keyID, SecretChecksum := env.sha256 secret,
                        IssuedFor := identity }])
    | some found =>
      if found.IssuedFor ≠ identity then
        (some ("access key assigned to \"" ++ goText identity ++
          "\" is already assigned to another user, a user's access key must have a unique ID"),
          keys)
      else
        (none, keys.map (fun k =>
          if k.KeyID = keyID then { k with SecretChecksum := env.sha256 secret } else k))

/-- The name an entry of `users` goes by: its name, or else its email. -/
def User.identityName (u : User) : GoString := if u.Name ≠ [] then u.Name else u.Email

/-- The credential of the identity is written with the hash, anew or over the
one it has. -/
def saveCredential (credentials : List Models.Credential) (identity : GoString)
    (hash : List Byte) : List Models.Credential :=
  if credentials.any (fun c => decide (c.Identity = identity)) then
    credentials.map (fun c => if c.Identity = identity then { c with PasswordHash := hash } else c)
  else credentials ++ [{ Identity := identity, PasswordHash := hash }]

/-- The tables an entry of `users` is loaded into. -/
structure UserTables where
  identities : List Models.Identity := []
  credentials : List Models.Credential := []
  access_keys : List Models.AccessKey := []
  deriving DecidableEq, Repr

/-- Modelled from the spec: step 4 for one entry of `users`. The entry needs a
name or an email; its identity is resolved or created; a password is stored as
its hash, an access key through `loadAccessKey`. -/
def loadUser (env : Env) (t : UserTables) (u : User) : Err × UserTables :=
  if u.identityName = [] then (some "invalid user: name or email is required", t)
  else
    let t := { t with identities := resolveIdentity t.identities u.identityName }
    let r : Err × UserTables :=
      if u.Password = [] then (none, t)
      else
        match env.GenerateFromPassword u.Password with
        | none => (some "could not hash the password", t)
        | some hash =>
          (none, { t with credentials := saveCredential t.credentials u.identityName hash })
    match r with
    | (some e, t) => (some e, t)
    | (none, t) =>
      if u.AccessKey = [] then (none, t)
      else
        match loadAccessKey env t.access_keys u.identityName u.AccessKey with
        | (some e, _) => (some e, t)
        | (none, keys) => (none, { t with access_keys := keys })

/-- Modelled from the spec: step 4, the users of the configuration in order. -/
def loadUsers (env : Env) : List User → UserTables → Err × UserTables
  | [], t => (none, t)
  | u :: us, t =>
    match loadUser env t u with
    | (some e, t) => (some e, t)
    | (none, t) => loadUsers env us t

/-! ## Grants -/

/-- The tables an entry of `grants` is loaded into. -/
structure GrantTables where
  identities : List Models.Identity := []
  groups : List Models.Group := []
  grants : List Models.Grant := []
  deriving DecidableEq, Repr

/-- The error of an entry of `grants` that cannot be loaded: it needs exactly
one of user and group, and a resource. -/
def Grant.invalid (g : Grant) : Err :=
  if g.User = [] ∧ g.Group = [] then some "invalid grant: user or group is required"
  else if g.User ≠ [] ∧ g.Group ≠ [] then some "invalid grant: only one of user and group"
  else if g.Resource = [] then some "invalid grant: resource is required"
  else none

/-- The subject an entry of `grants` names. -/
def Grant.subject (g : Grant) : Subject :=
  if g.User ≠ [] then Subject.identity g.User else Subject.group g.Group

/-- The privilege an entry of `grants` stands for: its role, and `connect`
when it has none. -/
def Grant.privilege (g : Grant) : GoString := if g.Role = [] then str "connect" else g.Role

/-- The row an entry of `grants` is stored as. -/
def Grant.row (g : Grant) : Models.Grant :=
  { Subject := g.subject, Privilege := g.privilege, Resource := g.Resource,
    CreatedBy := Origin.config }

/-- The grant is stored unless a grant of its subject, resource and privilege
is there. -/
def upsertGrant (grants : List Models.Grant) (g : Models.Grant) : List Models.Grant :=
  if grants.any (fun h => h.sameTuple g) then grants else grants ++ [g]

/-- Modelled from the spec: steps 4 and 5 for one entry of `grants`. The entry
is validated, its subject is resolved or created, and the grant is upserted. -/
def loadGrant (t : GrantTables) (g : Grant) : Err × GrantTables :=
  match g.invalid with
  | some e => (some e, t)
  | none =>
    (none, {
      identities := if g.User ≠ [] then resolveIdentity t.identities g.User else t.identities
      groups := if g.User ≠ [] then t.groups else resolveGroup t.groups g.Group
      grants := upsertGrant t.grants g.row })

/-- Modelled from the spec: steps 4 and 5, the grants of the configuration in
order. -/
def loadGrants : List Grant → GrantTables → Err × GrantTables
  | [], t => (none, t)
  | g :: gs, t =>
    match loadGrant t g with
    | (some e, t) => (some e, t)
    | (none, t) => loadGrants gs t

/-! ## The reconciliation -/

/-- Modelled from the spec: steps 3 to 5 on a store from which the rows of the
earlier configuration are gone. -/
def loadAll (env : Env) (config : Config) (tx : Store) : Err × Store :=
  match loadProviders env config.Providers tx.providers with
  | (some e, _) => (some e, tx)
  | (none, providers) =>
    match loadUsers env config.Users
      { identities := tx.identities, credentials := tx.credentials,
        access_keys := tx.access_keys } with
    | (some e, _) => (some e, tx)
    | (none, ut) =>
      match loadGrants config.Grants
        { identities := ut.identities, groups := tx.groups, grants := tx.grants } with
      | (some e, _) => (some e, tx)
      | (none, gt) =>
        (none, {
          providers := providers
          identities := gt.identities
          groups := gt.groups
          grants := gt.grants
          credentials := ut.credentials
          access_keys := ut.access_keys })

/-- Modelled from the spec: `loadConfig`, the contract `Apply` of the
reconciler, in one transaction: the anchors are ensured, what an earlier
configuration created is deleted, and the providers, users and grants of the
configuration are loaded; any failure leaves the store as it was. -/
def loadConfig (env : Env) (db : Store) (config : Config) : Err × Store :=
  db.Transaction (fun tx => loadAll env config (deleteManaged (ensureAnchors tx)))

/-! ## Constraints of the schema -/

/-- Every grant to an identity names an identity of the store. -/
def Store.grantsRefer (db : Store) : Prop :=
  ∀ g ∈ db.grants, ∀ n, g.Subject = Subject.identity n →
    n ∈ db.identities.map Models.Identity.Name

/-- The unique constraint of `access_keys`: no two rows share a `KeyID`. -/
def Store.keyIDsUnique (db : Store) : Prop := (db.access_keys.map Models.AccessKey.KeyID).Nodup

instance (db : Store) : Decidable db.keyIDsUnique :=
  inferInstanceAs (Decidable (List.Nodup _))

/-! ## Notions for stating what a reconciliation leaves -/

/-- The groups that `loadGrants` leaves: the group of every entry that names
no user is resolved or created, in order. -/
def loadGroups : List Grant → List Models.Group → List Models.Group
  | [], groups => groups
  | g :: gs, groups => loadGroups gs (if g.User ≠ [] then groups else resolveGroup groups g.Group)

/-- The second list of identities is the first with config-managed identities
of new names after it. -/
def extendsIdentities (a b : List Models.Identity) : Prop :=
  ∃ new, b = a ++ new ∧
    ∀ i ∈ new, i.CreatedBy = Origin.config ∧ i.Name ∉ a.map Models.Identity.Name

/-- The second list of grants is the first with rows of the entries `gs` after
it, none of a subject, resource and privilege that the first list has. -/
def extendsGrants (gs : List Grant) (a b : List Models.Grant) : Prop :=
  ∃ new, b = a ++ new ∧
    ∀ g ∈ new, (∃ e ∈ gs, g = e.row) ∧ ∀ h ∈ a, h.sameTuple g = false

/-- Every access key of the list whose `KeyID` an entry of `us` declares is
issued for the identity of that entry. -/
def keysAgree (us : List User) (keys : List Models.AccessKey) : Prop :=
  ∀ k ∈ keys, ∀ u ∈ us, ∀ keyID secret, parseAccessKey u.AccessKey = some (keyID, secret) →
    k.KeyID = keyID → k.IssuedFor = u.identityName

/-! ## A concrete environment and configurations, for evaluating the model -/

/-- An environment with the toy digest, a password hash that prefixes the toy
digest and an encryption that prefixes `enc:`. -/
def sampleEnv : Env where
  sha256 := Registry.toyDigest
  GenerateFromPassword := fun p =>
    if p.length ≤ 72 then some (str "$2a$10$" ++ Registry.toyDigest p) else none
  encrypt := fun s => str "enc:" ++ s

/-- The first configuration of `TestLoadConfigPruneConfig`. -/
def pruneConfig : Config :=
  { Providers := [
      { Name := str "okta", URL := str "demo.okta.com", ClientID := str "client-id",
        ClientSecret := str "client-secret" }],
    Grants := [
      { User := str "test@example.com", Role := str "admin", Resource := str "test-cluster" },
      { Group := str "Everyone", Role := str "admin", Resource := str "test-cluster" }] }

/-- The second configuration of `TestLoadConfigPruneConfig`. -/
def pruneNewConfig : Config :=
  { Providers := [
      { Name := str "okta", URL := str "new-demo.okta.com", ClientID := str "new-client-id",
        ClientSecret := str "new-client-secret" }] }

/-- The first configuration of `TestLoadConfigUpdate`. -/
def updateConfig : Config :=
  { Providers := [
      { Name := str "okta", URL := str "demo.okta.com", ClientID := str "client-id",
        ClientSecret := str "client-secret" }],
    Users := [
      { Name := str "r2d2" },
      { Name := str "c3po", AccessKey := str "TllVlekkUz.NFnxSlaPQLosgkNsyzaMttfC" },
      { Email := str "john@email.com" },
      { Email := str "sarah@email.com", Password := str "supersecret" }],
    Grants := [
      { User := str "test@example.com", Role := str "admin", Resource := str "test-cluster" },
      { Group := str "Everyone", Role := str "admin", Resource := str "test-cluster" }] }

/-- The second configuration of `TestLoadConfigUpdate`. -/
def updatedConfig : Config :=
  { Providers := [
      { Name := str "atko", URL := str "demo.atko.com", ClientID := str "client-id-2",
        ClientSecret := str "client-secret-2" }],
    Grants := [
      { User := str "test@example.com", Role := str "view", Resource := str "test-cluster" },
      { Group := str "Everyone", Role := str "view", Resource := str "test-cluster" }] }

/-- A store with rows of runtime flows: the identity `ops`, who holds the
access key `TllVlekkUz` and a grant, and a provider added by hand. -/
def runtimeStore : Store :=
  { providers := [{ Name := str "manual", URL := str "manual.example.com" }],
    identities := [{ Name := str "ops" }],
    grants := [{ Subject := Subject.identity (str "ops"), Privilege := str "admin",
                 Resource := str "test-cluster" }],
    access_keys := [{ KeyID := str "opskey0000", SecretChecksum := Registry.toyDigest (str "s"),
                      IssuedFor := str "ops" }] }

/-- The users of `TestLoadConfigWithUsers`. -/
def usersConfig : Config :=
  { Users := [
      { Name := str "bob" },
      { Name := str "alice", Password := str "password" },
      { Name := str "sue", AccessKey := str "aaaaaaaaaa.bbbbbbbbbbbbbbbbbbbbbbbb" },
      { Name := str "jim", Password := str "password",
        AccessKey := str "bbbbbbbbbb.bbbbbbbbbbbbbbbbbbbbbbbb" }] }

/-- A configuration that declares one `KeyID` for `sue` twice, with two
secrets. -/
def twoSecretsConfig : Config :=
  { Users := [
      { Name := str "sue", AccessKey := str "aaaaaaaaaa.bbbbbbbbbbbbbbbbbbbbbbbb" },
      { Name := str "sue", AccessKey := str "aaaaaaaaaa.cccccccccccccccccccccccc" }] }

end Reconciler

/-! # Theorems -/

namespace Registry

/-! ## Constant-time comparison decides equality -/

theorem nat_or_eq_zero (v w : Nat) : v ||| w = 0 ↔ v = 0 ∧ w = 0 := by
  constructor
  · intro h
    have key : ∀ i, (v.testBit i || w.testBit i) = false := by
      intro i
      rw [← Nat.testBit_or, h]; simp
    constructor
    · apply Nat.eq_of_testBit_eq; intro i
      have := key i
      simp at this ⊢; exact this.1
    · apply Nat.eq_of_testBit_eq; intro i
      have := key i
      simp at this ⊢; exact this.2
  · rintro ⟨rfl, rfl⟩; rfl

theorem ConstantTimeByteEq_zero (v : Nat) (hv : v < 256) :
    ConstantTimeByteEq v 0 = 1 ↔ v = 0 := by
  unfold ConstantTimeByteEq
  rw [Nat.xor_zero, Nat.mod_eq_of_lt hv, Nat.shiftRight_eq_div_pow]
  constructor
  · intro h
    by_contra hne
    have h1 : (v + 2 ^ 32 - 1) % 2 ^ 32 = v - 1 := by omega
    rw [h1] at h
    have h2 : (v - 1) / 2 ^ 31 = 0 := Nat.div_eq_of_lt (by omega)
    rw [h2] at h
    exact absurd h (by decide)
  · rintro rfl; decide

theorem ConstantTimeCompare.loop_lt (x y : List Byte) (v : Nat) (hv : v < 256) :
    ConstantTimeCompare.loop x y v < 256 := by
  induction x generalizing y v with
  | nil => simpa [ConstantTimeCompare.loop] using hv
  | cons a x ih =>
    cases y with
    | nil => simpa [ConstantTimeCompare.loop] using hv
    | cons b y =>
      simp only [ConstantTimeCompare.loop]
      exact ih y _ (Nat.mod_lt _ (by decide))

theorem ConstantTimeCompare.loop_eq_zero (x y : List Byte) (v : Nat) (hv : v < 256)
    (hlen : x.length = y.length) :
    ConstantTimeCompare.loop x y v = 0 ↔ v = 0 ∧ x = y := by
  induction x generalizing y v with
  | nil =>
    cases y with
    | nil => simp [ConstantTimeCompare.loop]
    | cons b y => simp at hlen
  | cons a x ih =>
    cases y with
    | nil => simp at hlen
    | cons b y =>
      have hlen2 : x.length = y.length := by simpa using hlen
      have hx : a.val ^^^ b.val < 2 ^ 8 := Nat.xor_lt_two_pow a.isLt b.isLt
      have ho : v ||| (a.val ^^^ b.val) < 256 := Nat.or_lt_two_pow (n := 8) hv hx
      simp only [ConstantTimeCompare.loop]
      rw [ih y _ (Nat.mod_lt _ (by decide)) hlen2, Nat.mod_eq_of_lt ho, nat_or_eq_zero,
        Nat.xor_eq_zero]
      constructor
      · rintro ⟨⟨h1, h2⟩, h3⟩
        exact ⟨h1, by rw [Fin.ext h2, h3]⟩
      · rintro ⟨h1, h2⟩
        injection h2 with h2 h3
        exact ⟨⟨h1, by rw [h2]⟩, h3⟩

theorem ConstantTimeCompare_eq_one (x y : List Byte) :
    ConstantTimeCompare x y = 1 ↔ x = y := by
  unfold ConstantTimeCompare
  by_cases hlen : x.length = y.length
  · rw [if_neg (not_not.mpr hlen),
      ConstantTimeByteEq_zero _ (ConstantTimeCompare.loop_lt x y 0 (by decide)),
      ConstantTimeCompare.loop_eq_zero x y 0 (by decide) hlen]
    simp
  · rw [if_pos hlen]
    constructor
    · intro h; exact absurd h (by decide)
    · intro h; exact absurd (congrArg List.length h) hlen

theorem Token.CheckSecret_eq_none (env : Env) (t : Token) (s : GoString) :
    t.CheckSecret env s = none ↔ t.Secret = env.sha256 s := by
  unfold Token.CheckSecret
  by_cases h : ConstantTimeCompare t.Secret (env.sha256 s) = 1
  · have h2 : t.Secret = env.sha256 s := (ConstantTimeCompare_eq_one _ _).mp h
    rw [if_neg (not_not.mpr h)]
    simp [h2]
  · have h2 : ¬ t.Secret = env.sha256 s := fun e => h ((ConstantTimeCompare_eq_one _ _).mpr e)
    simp [h, h2]

theorem Token.CheckSecret_of_ne (env : Env) (t : Token) (s : GoString)
    (h : t.Secret ≠ env.sha256 s) :
    t.CheckSecret env s = some "could not verify token secret" := by
  unfold Token.CheckSecret
  rw [if_pos]
  exact fun e => h ((ConstantTimeCompare_eq_one _ _).mp e)

/-! ## Claims about tokens -/

/-- C1: `CheckSecret` returns no error exactly when the stored `Secret` is the
SHA-256 digest of the string; hence, for a token storing the digest of `secret`
and any `wrong` with another digest, `CheckSecret secret` succeeds and
`CheckSecret wrong` fails with "could not verify token secret", whatever
prefix the two strings share. -/
theorem CheckSecret_iff_digest (env : Env) :
    (∀ (t : Token) (s : GoString), t.CheckSecret env s = none ↔ t.Secret = env.sha256 s) ∧
    (∀ (t : Token) (secret wrong : GoString),
      env.sha256 secret ≠ env.sha256 wrong → t.Secret = env.sha256 secret →
      t.CheckSecret env secret = none ∧
      t.CheckSecret env wrong = some "could not verify token secret") := by
  refine ⟨fun t s => Token.CheckSecret_eq_none env t s, ?_⟩
  intro t secret wrong hne hst
  exact ⟨(Token.CheckSecret_eq_none env t secret).mpr hst,
    Token.CheckSecret_of_ne env t wrong (by rw [hst]; exact hne)⟩

/-- A stored digest of "secret-a" accepts "secret-a" and rejects "secret-b",
which shares the prefix "secret-". -/
theorem CheckSecret_iff_digest_witness :
    sampleEnv.sha256 (str "secret-a") ≠ sampleEnv.sha256 (str "secret-b") ∧
    ({ Secret := sampleEnv.sha256 (str "secret-a") } : Token).CheckSecret sampleEnv
      (str "secret-a") = none ∧
    ({ Secret := sampleEnv.sha256 (str "secret-a") } : Token).CheckSecret sampleEnv
      (str "secret-b") = some "could not verify token secret" :=
  ⟨by decide,
    (CheckSecret_iff_digest sampleEnv).2 { Secret := sampleEnv.sha256 (str "secret-a") }
      (str "secret-a") (str "secret-b") (by decide) rfl⟩

theorem Token.BeforeCreate_fields (env : Env) (t : Token) (tx : DB) :
    (Token.BeforeCreate env t tx).1 = none ∧
    (Token.BeforeCreate env t tx).2.1.UserId = t.UserId ∧
    (Token.BeforeCreate env t tx).2.1.Secret = t.Secret ∧
    (Token.BeforeCreate env t tx).2.1.Id =
      (if t.Id = [] then env.RandString tx.draws ID_LEN else t.Id) := by
  unfold Token.BeforeCreate
  by_cases h1 : t.Id = [] <;> by_cases h2 : t.Expires = 0 <;> simp [h1, h2]

theorem DB.CreateToken_ok (env : Env) (tx : DB) (t t' : Token) (tx' : DB)
    (h : tx.CreateToken env t = (none, t', tx')) :
    t'.UserId = t.UserId ∧ t'.Secret = t.Secret ∧
    t'.Id = (if t.Id = [] then env.RandString tx.draws ID_LEN else t.Id) ∧
    t' ∈ tx'.tokens := by
  obtain ⟨f1, f2, f3, f4⟩ := Token.BeforeCreate_fields env t tx
  rcases hb : Token.BeforeCreate env t tx with ⟨e, t1, tx1⟩
  rw [hb] at f1 f2 f3 f4
  simp only at f1 f2 f3 f4
  subst f1
  simp only [DB.CreateToken, hb] at h
  by_cases hany : (tx1.tokens.any fun r => decide (r.Id = t1.Id)) = true
  · rw [if_pos hany] at h
    simp at h
  · rw [if_neg hany] at h
    simp only [Prod.mk.injEq, true_and] at h
    obtain ⟨rfl, rfl⟩ := h
    simp [f2, f3, f4]

theorem NewToken_of_insert (env : Env) (db : DB) (userId : GoString) (token : Token)
    (e : Err) (t' : Token) (db' : DB)
    (h : DB.CreateToken env { db with draws := db.draws + 1 }
      { token with UserId := userId,
                   Secret := env.sha256 (env.RandString db.draws TOKEN_SECRET_LEN) } =
      (e, t', db')) :
    NewToken env db userId token =
      (if e = none then env.RandString db.draws TOKEN_SECRET_LEN else [], e, t', db') := by
  simp only [NewToken, h]
  cases e <;> simp

/-- C2: when the insert succeeds `NewToken` returns a secret, no error, and a
token carrying the given user id and the SHA-256 digest of that secret (which
is what the stored row holds, and differs from the secret itself as soon as
digests have 32 bytes and random strings the requested length), so the token
accepts the returned secret; when the insert fails it returns the empty
string and the error of the insert. -/
theorem NewToken_stores_digest (env : Env) (db : DB) (userId : GoString) (token : Token) :
    (NewToken env db userId token).2.1 =
      (DB.CreateToken env { db with draws := db.draws + 1 }
        { token with UserId := userId,
                     Secret := env.sha256 (env.RandString db.draws TOKEN_SECRET_LEN) }).1 ∧
    ((NewToken env db userId token).2.1 = none →
      (NewToken env db userId token).2.2.1.UserId = userId ∧
      (NewToken env db userId token).2.2.1.Secret =
        env.sha256 (NewToken env db userId token).1 ∧
      (NewToken env db userId token).2.2.1.CheckSecret env
        (NewToken env db userId token).1 = none ∧
      (NewToken env db userId token).2.2.1 ∈ (NewToken env db userId token).2.2.2.tokens ∧
      ((∀ b, (env.sha256 b).length = 32) → (∀ k n, (env.RandString k n).length = n) →
        (NewToken env db userId token).2.2.1.Secret ≠ (NewToken env db userId token).1)) ∧
    ((NewToken env db userId token).2.1 ≠ none → (NewToken env db userId token).1 = []) := by
  rcases hc : DB.CreateToken env { db with draws := db.draws + 1 }
    { token with UserId := userId,
                 Secret := env.sha256 (env.RandString db.draws TOKEN_SECRET_LEN) }
    with ⟨e, t1, db1⟩
  rw [NewToken_of_insert env db userId token e t1 db1 hc]
  cases e with
  | some e => simp
  | none =>
    obtain ⟨g1, g2, -, g4⟩ := DB.CreateToken_ok env _ _ t1 db1 hc
    simp only at g1 g2
    refine ⟨rfl, fun _ => ⟨g1, ?_, ?_, g4, ?_⟩, fun h => absurd rfl h⟩
    · simpa using g2
    · exact (Token.CheckSecret_eq_none env t1 _).mpr (by simpa using g2)
    · intro hsha hrand heq
      have h32 := congrArg List.length heq
      simp only [if_true] at h32
      rw [g2, hsha, hrand] at h32
      exact absurd h32 (by decide)

/-- On the empty store a token for user "u1" is issued, and on a store where
the identifier about to be drawn is taken the insert is refused. -/
theorem NewToken_stores_digest_witness :
    (NewToken sampleEnv {} (str "u1") {}).2.1 = none ∧
    (NewToken sampleEnv {} (str "u1") {}).2.2.1.UserId = str "u1" ∧
    (NewToken sampleEnv {} (str "u1") {}).2.2.1.Secret =
      sampleEnv.sha256 (NewToken sampleEnv {} (str "u1") {}).1 ∧
    (NewToken sampleEnv { tokens := [{ Id := str "bbbbbbbbbbbb" }] } (str "u1") {}).1 = [] :=
  ⟨by decide,
    (((NewToken_stores_digest sampleEnv {} (str "u1") {}).2.1 (by decide)).1),
    (((NewToken_stores_digest sampleEnv {} (str "u1") {}).2.1 (by decide)).2.1),
    (NewToken_stores_digest sampleEnv { tokens := [{ Id := str "bbbbbbbbbbbb" }] }
      (str "u1") {}).2.2 (by decide)⟩

theorem Time.Unix_Add_day (t : Time) : (t.Add (Hour * 24)).Unix = t.Unix + 86400 := by
  unfold Time.Add Time.Unix Hour Second
  have h : (3600 * 1000000000 * 24 : Int) = 86400 * 1000000000 := by norm_num
  rw [h]
  exact Int.add_mul_ediv_right t 86400 (by norm_num)

theorem DB.CreateToken_Expires (env : Env) (tx : DB) (t : Token) :
    (tx.CreateToken env t).2.1.Expires = (Token.BeforeCreate env t tx).2.1.Expires := by
  have hfst := (Token.BeforeCreate_fields env t tx).1
  rcases hb : Token.BeforeCreate env t tx with ⟨e, t1, tx1⟩
  rw [hb] at hfst
  simp only at hfst
  subst hfst
  simp only [DB.CreateToken, hb]
  by_cases hany : (tx1.tokens.any fun r => decide (r.Id = t1.Id)) = true
  · rw [if_pos hany]
  · rw [if_neg hany]

/-- C3: `Token.BeforeCreate` gives a token with `Expires = 0` the expiry
`time.Now()` plus 24 hours, which in Unix seconds is 86400 more than the
creation time, and leaves a non-zero `Expires` and a non-empty `Id` as they
are; it never fails, and `Create` keeps the expiry the hook has set. -/
theorem Token.BeforeCreate_expires (env : Env) (t : Token) (tx : DB) :
    (Token.BeforeCreate env t tx).1 = none ∧
    (t.Expires = 0 → (Token.BeforeCreate env t tx).2.1.Expires = env.now.Unix + 86400) ∧
    (t.Expires ≠ 0 → (Token.BeforeCreate env t tx).2.1.Expires = t.Expires) ∧
    (t.Id ≠ [] → (Token.BeforeCreate env t tx).2.1.Id = t.Id) ∧
    (tx.CreateToken env t).2.1.Expires = (Token.BeforeCreate env t tx).2.1.Expires := by
  refine ⟨?_, ?_, ?_, ?_, DB.CreateToken_Expires env tx t⟩ <;> unfold Token.BeforeCreate <;>
    by_cases h1 : t.Id = [] <;> by_cases h2 : t.Expires = 0 <;>
    simp [h1, h2, Time.Unix_Add_day]

/-- A fresh token gets an expiry 86400 s after the clock reading of
1700000000 s; a token with expiry 5 and identifier "tok" keeps both. -/
theorem Token.BeforeCreate_expires_witness :
    (Token.BeforeCreate sampleEnv {} {}).2.1.Expires = 1700000000 + 86400 ∧
    (Token.BeforeCreate sampleEnv { Id := str "tok", Expires := 5 } {}).2.1.Expires = 5 ∧
    (Token.BeforeCreate sampleEnv { Id := str "tok", Expires := 5 } {}).2.1.Id = str "tok" :=
  ⟨(Token.BeforeCreate_expires sampleEnv {} {}).2.1 rfl,
    (Token.BeforeCreate_expires sampleEnv { Id := str "tok", Expires := 5 } {}).2.2.1
      (by decide),
    (Token.BeforeCreate_expires sampleEnv { Id := str "tok", Expires := 5 } {}).2.2.2.1
      (by decide)⟩

/-- The step `CheckSecret` of the verification compares digests only and does
not look at `Expires`: its result is the same for every value of the field, so
the expiry is for the caller of `CheckSecret` to check. -/
theorem CheckSecret_ignores_Expires (env : Env) (t : Token) (s : GoString) :
    (∀ e : Int, ({ t with Expires := e } : Token).CheckSecret env s = t.CheckSecret env s) ∧
    (t.Expires < env.now.Unix → t.Secret = env.sha256 s → t.CheckSecret env s = none) := by
  refine ⟨fun e => rfl, fun _ h => (Token.CheckSecret_eq_none env t s).mpr h⟩

/-- A token that expired at second 1 passes the step `CheckSecret`. -/
theorem CheckSecret_ignores_Expires_witness :
    ({ Expires := 1, Secret := sampleEnv.sha256 (str "s") } : Token).CheckSecret sampleEnv
      (str "s") = none :=
  (CheckSecret_ignores_Expires sampleEnv { Expires := 1, Secret := sampleEnv.sha256 (str "s") }
    (str "s")).2 (by decide) rfl

theorem NewToken_ids (env : Env) (db : DB) (userId : GoString) (token : Token)
    (hid : token.Id = []) (hok : (NewToken env db userId token).2.1 = none) :
    (NewToken env db userId token).1 = env.RandString db.draws TOKEN_SECRET_LEN ∧
    (NewToken env db userId token).2.2.1.Id = env.RandString (db.draws + 1) ID_LEN := by
  rcases hc : DB.CreateToken env { db with draws := db.draws + 1 }
    { token with UserId := userId,
                 Secret := env.sha256 (env.RandString db.draws TOKEN_SECRET_LEN) }
    with ⟨e, t1, db1⟩
  rw [NewToken_of_insert env db userId token e t1 db1 hc] at hok ⊢
  simp only at hok
  subst hok
  obtain ⟨-, -, g3, -⟩ := DB.CreateToken_ok env _ _ t1 db1 hc
  simp only [hid, if_true] at g3
  exact ⟨rfl, g3⟩

/-- C5: `TOKEN_LEN = ID_LEN + TOKEN_SECRET_LEN = 12 + 24 = 36` differs from
`API_KEY_LEN = 24`; when the random-string generator returns strings of the
requested length, a token whose `Id` is filled in by `Token.BeforeCreate`
during a successful `NewToken` has an `Id` of `ID_LEN` bytes and a secret of
`TOKEN_SECRET_LEN` bytes, so `Id ++ secret` has length `TOKEN_LEN`, starts
with the `Id` and continues with the secret; and no string has both the
session-token length and the API-key length. -/
theorem bearer_shapes_by_length :
    (TOKEN_LEN = ID_LEN + TOKEN_SECRET_LEN ∧ ID_LEN = 12 ∧ TOKEN_SECRET_LEN = 24 ∧
      TOKEN_LEN = 36 ∧ API_KEY_LEN = 24 ∧ TOKEN_LEN ≠ API_KEY_LEN) ∧
    (∀ (env : Env) (db : DB) (userId : GoString) (token : Token),
      (∀ k n, (env.RandString k n).length = n) → token.Id = [] →
      (NewToken env db userId token).2.1 = none →
      ((NewToken env db userId token).2.2.1.Id ++ (NewToken env db userId token).1).length =
        TOKEN_LEN ∧
      ((NewToken env db userId token).2.2.1.Id ++ (NewToken env db userId token).1).take ID_LEN =
        (NewToken env db userId token).2.2.1.Id ∧
      ((NewToken env db userId token).2.2.1.Id ++ (NewToken env db userId token).1).drop ID_LEN =
        (NewToken env db userId token).1) ∧
    (∀ s : GoString, ¬ (s.length = TOKEN_LEN ∧ s.length = API_KEY_LEN)) := by
  refine ⟨by decide, ?_, ?_⟩
  · intro env db userId token hrand hid hok
    obtain ⟨h1, h2⟩ := NewToken_ids env db userId token hid hok
    have l1 : (NewToken env db userId token).1.length = TOKEN_SECRET_LEN := by
      rw [h1, hrand]
    have l2 : (NewToken env db userId token).2.2.1.Id.length = ID_LEN := by
      rw [h2, hrand]
    refine ⟨?_, ?_, ?_⟩
    · rw [List.length_append, l1, l2]; rfl
    · exact List.take_left' l2
    · exact List.drop_left' l2
  · rintro s ⟨h1, h2⟩
    rw [h1] at h2
    exact absurd h2 (by decide)

/-- The token issued on the empty store: its bearer string has 36 bytes and
starts with the 12 bytes of its `Id`. -/
theorem bearer_shapes_by_length_witness :
    ((NewToken sampleEnv {} (str "u1") {}).2.2.1.Id ++
      (NewToken sampleEnv {} (str "u1") {}).1).length = TOKEN_LEN ∧
    ((NewToken sampleEnv {} (str "u1") {}).2.2.1.Id ++
      (NewToken sampleEnv {} (str "u1") {}).1).take ID_LEN =
      (NewToken sampleEnv {} (str "u1") {}).2.2.1.Id :=
  ⟨(bearer_shapes_by_length.2.1 sampleEnv {} (str "u1") {}
      (fun k n => by simp [sampleEnv]) rfl (by decide)).1,
    (bearer_shapes_by_length.2.1 sampleEnv {} (str "u1") {}
      (fun k n => by simp [sampleEnv]) rfl (by decide)).2.1⟩

/-! ## The gorm statements on `permissions` -/

theorem firstByPk_none {α : Type} (key : α → GoString) (l : List α)
    (h : firstByPk key l = none) : l = [] := by
  cases l with
  | nil => rfl
  | cons r rs =>
    simp only [firstByPk] at h
    split at h
    · simp at h
    · split at h <;> simp at h

theorem firstByPk_mem {α : Type} (key : α → GoString) (l : List α) (m : α)
    (h : firstByPk key l = some m) : m ∈ l := by
  induction l generalizing m with
  | nil => simp [firstByPk] at h
  | cons r rs ih =>
    simp only [firstByPk] at h
    split at h
    · simp only [Option.some.injEq] at h
      subst h
      exact List.mem_cons_self _ _
    · rename_i m' hm'
      split at h
      · simp only [Option.some.injEq] at h
        subst h
        exact List.mem_cons_of_mem _ (ih m' hm')
      · simp only [Option.some.injEq] at h
        subst h
        exact List.mem_cons_self _ _

/-- A successful `Create` on `permissions` appends the row, with a primary key
no other row has, and copies every column but `Id` and the timestamps. -/
theorem DB.CreatePermission_ok (env : Env) (tx : DB) (p p' : Permission) (tx' : DB)
    (h : tx.CreatePermission env p = (none, p', tx')) :
    (p'.Role = p.Role ∧ p'.UserId = p.UserId ∧ p'.DestinationId = p.DestinationId ∧
      p'.FromDefault = p.FromDefault ∧ p'.FromConfig = p.FromConfig) ∧
    tx'.permissions = tx.permissions ++ [p'] ∧ (∀ r ∈ tx.permissions, r.Id ≠ p'.Id) ∧
    tx'.users = tx.users ∧ tx'.destinations = tx.destinations := by
  unfold DB.CreatePermission Permission.BeforeCreate at h
  by_cases hid : p.Id = []
  · simp only [hid, if_true] at h
    split at h
    · simp at h
    · rename_i hany
      simp only [Prod.mk.injEq, true_and] at h
      obtain ⟨rfl, rfl⟩ := h
      refine ⟨⟨rfl, rfl, rfl, rfl, rfl⟩, rfl, ?_, rfl, rfl⟩
      intro r hr heq
      exact hany (List.any_eq_true.mpr ⟨r, hr, by simpa using heq⟩)
  · simp only [hid, if_false] at h
    split at h
    · simp at h
    · rename_i hany
      simp only [Prod.mk.injEq, true_and] at h
      obtain ⟨rfl, rfl⟩ := h
      refine ⟨⟨rfl, rfl, rfl, rfl, rfl⟩, rfl, ?_, rfl, rfl⟩
      intro r hr heq
      exact hany (List.any_eq_true.mpr ⟨r, hr, by simpa using heq⟩)

/-- A successful `FirstOrCreate` on `permissions` either returns a stored row
matching the condition and writes nothing, or, no row matching, creates one
from the condition. -/
theorem DB.FirstOrCreatePermission_ok (env : Env) (tx : DB) (c p' : Permission) (tx' : DB)
    (h : tx.FirstOrCreatePermission env c = (none, p', tx')) :
    (p' ∈ tx.permissions ∧ Permission.whereStruct c p' = true ∧ tx' = tx) ∨
    ((∀ r ∈ tx.permissions, Permission.whereStruct c r = false) ∧
      tx.CreatePermission env c = (none, p', tx')) := by
  unfold DB.FirstOrCreatePermission at h
  split at h
  · rename_i p hp
    simp only [Prod.mk.injEq, true_and] at h
    obtain ⟨rfl, rfl⟩ := h
    have hm := firstByPk_mem _ _ _ hp
    rw [List.mem_filter] at hm
    exact Or.inl ⟨hm.1, hm.2, rfl⟩
  · rename_i hp
    have hnil := firstByPk_none _ _ hp
    refine Or.inr ⟨?_, h⟩
    intro r hr
    by_contra hne
    have hmem : r ∈ tx.permissions.filter (Permission.whereStruct c) :=
      List.mem_filter.mpr ⟨hr, by simpa using hne⟩
    rw [hnil] at hmem
    exact absurd hmem (List.not_mem_nil _)

/-- A successful `Save` on `permissions` either overwrites the rows holding the
primary key, or, the key being zero or unknown, creates the row. -/
theorem DB.SavePermission_ok (env : Env) (tx : DB) (p p' : Permission) (tx' : DB)
    (h : tx.SavePermission env p = (none, p', tx')) :
    (p.Id ≠ [] ∧ p' = { p with Updated := env.now.Unix } ∧
      tx'.permissions = tx.permissions.map (fun r => if r.Id = p.Id then p' else r) ∧
      tx'.users = tx.users ∧ tx'.destinations = tx.destinations) ∨
    ((p.Id = [] ∨ ∀ r ∈ tx.permissions, r.Id ≠ p.Id) ∧
      tx.CreatePermission env p = (none, p', tx')) := by
  unfold DB.SavePermission at h
  by_cases hid : p.Id = []
  · rw [if_pos hid] at h
    exact Or.inr ⟨Or.inl hid, h⟩
  · rw [if_neg hid] at h
    by_cases hany : (tx.permissions.any fun r => decide (r.Id = p.Id)) = true
    · rw [if_pos hany] at h
      simp only [Prod.mk.injEq, true_and] at h
      obtain ⟨rfl, rfl⟩ := h
      exact Or.inl ⟨hid, rfl, rfl, rfl, rfl⟩
    · rw [if_neg hany] at h
      refine Or.inr ⟨Or.inr ?_, h⟩
      intro r hr heq
      exact hany (List.any_eq_true.mpr ⟨r, hr, by simpa using heq⟩)

theorem permissionKeys_append (l : List Permission) (p : Permission)
    (hu : (l.map Permission.Id).Nodup) (hfresh : ∀ r ∈ l, r.Id ≠ p.Id) :
    ((l ++ [p]).map Permission.Id).Nodup := by
  rw [List.map_append, List.nodup_append]
  refine ⟨hu, by simp, ?_⟩
  intro a ha hb
  simp only [List.map_cons, List.map_nil, List.mem_singleton] at hb
  obtain ⟨r, hr, rfl⟩ := List.mem_map.mp ha
  exact hfresh r hr hb

theorem permissionKeys_overwrite (l : List Permission) (p : Permission) (k : GoString)
    (hk : p.Id = k) :
    (l.map (fun r => if r.Id = k then p else r)).map Permission.Id = l.map Permission.Id := by
  rw [List.map_map]
  apply List.map_congr_left
  intro r _
  by_cases h : r.Id = k
  · simp [h, hk]
  · simp [h]

/-- What one `FirstOrCreate` of a `*User.AfterSave` or `*Destination.AfterSave`
iteration does to `permissions`. -/
theorem DB.FirstOrCreatePermission_step (env : Env) (tx : DB) (c p1 : Permission) (tx1 : DB)
    (h1 : tx.FirstOrCreatePermission env c = (none, p1, tx1)) :
    p1 ∈ tx1.permissions ∧ (∀ r ∈ tx.permissions, r ∈ tx1.permissions) ∧
    (tx.permissionKeysUnique → tx1.permissionKeysUnique) ∧
    tx1.users = tx.users ∧ tx1.destinations = tx.destinations ∧
    ((p1 ∈ tx.permissions ∧ Permission.whereStruct c p1 = true ∧
        tx1.permissions = tx.permissions) ∨
      ((∀ r ∈ tx.permissions, Permission.whereStruct c r = false) ∧
        tx1.permissions = tx.permissions ++ [p1] ∧ p1.UserId = c.UserId ∧
        p1.DestinationId = c.DestinationId ∧ p1.FromDefault = c.FromDefault ∧
        p1.Role = c.Role)) := by
  rcases DB.FirstOrCreatePermission_ok env tx c p1 tx1 h1 with ⟨hm, hw, rfl⟩ | ⟨hno, hc⟩
  · exact ⟨hm, fun r hr => hr, fun hu => hu, rfl, rfl, Or.inl ⟨hm, hw, rfl⟩⟩
  · obtain ⟨⟨g1, g2, g3, g4, -⟩, happ, hfresh, hus, hds⟩ :=
      DB.CreatePermission_ok env tx c p1 tx1 hc
    refine ⟨by rw [happ]; simp, fun r hr => by rw [happ]; simp [hr], ?_, hus, hds,
      Or.inr ⟨hno, happ, g2, g3, g4, g1⟩⟩
    intro hu
    unfold DB.permissionKeysUnique
    rw [happ]
    exact permissionKeys_append _ _ hu hfresh

/-- What the `Save` of a `*User.AfterSave` iteration does to `permissions`. -/
theorem DB.SavePermission_step (env : Env) (tx1 : DB) (p1 : Permission) (role : GoString)
    (p2 : Permission) (tx2 : DB) (hu : tx1.permissionKeysUnique) (hp1 : p1 ∈ tx1.permissions)
    (h2 : tx1.SavePermission env { p1 with Role := role } = (none, p2, tx2)) :
    tx2.permissionKeysUnique ∧ tx2.users = tx1.users ∧ tx2.destinations = tx1.destinations ∧
    p2 ∈ tx2.permissions ∧
    (p2.UserId = p1.UserId ∧ p2.DestinationId = p1.DestinationId ∧
      p2.FromDefault = p1.FromDefault ∧ p2.Role = role ∧ (p2.Id = p1.Id ∨ p1.Id = [])) ∧
    (∀ r ∈ tx1.permissions, r ∈ tx2.permissions ∨ r = p1) ∧
    (∀ r ∈ tx2.permissions, r ∈ tx1.permissions ∨ r = p2) := by
  rcases DB.SavePermission_ok env tx1 _ p2 tx2 h2 with ⟨hid, hp2, hmap, hus, hds⟩ | ⟨hcase, hc⟩
  · simp only at hid hp2 hmap
    have hp2id : p2.Id = p1.Id := by rw [hp2]
    refine ⟨?_, hus, hds, ?_, ⟨by rw [hp2], by rw [hp2], by rw [hp2], by rw [hp2],
      Or.inl hp2id⟩, ?_, ?_⟩
    · unfold DB.permissionKeysUnique
      rw [hmap, permissionKeys_overwrite _ _ _ hp2id]
      exact hu
    · rw [hmap]
      exact List.mem_map.mpr ⟨p1, hp1, by simp⟩
    · intro r hr
      by_cases h : r.Id = p1.Id
      · exact Or.inr (List.inj_on_of_nodup_map hu hr hp1 h)
      · refine Or.inl ?_
        rw [hmap]
        exact List.mem_map.mpr ⟨r, hr, by simp [h]⟩
    · intro r hr
      rw [hmap] at hr
      obtain ⟨q, hq, rfl⟩ := List.mem_map.mp hr
      by_cases h : q.Id = p1.Id
      · exact Or.inr (by simp [h])
      · exact Or.inl (by simpa [h] using hq)
  · obtain ⟨⟨g1, g2, g3, g4, -⟩, happ, hfresh, hus, hds⟩ :=
      DB.CreatePermission_ok env tx1 _ p2 tx2 hc
    simp only at hcase g1 g2 g3 g4
    have hempty : p1.Id = [] := by
      rcases hcase with h | h
      · exact h
      · exact absurd rfl (h p1 hp1)
    refine ⟨?_, hus, hds, by rw [happ]; simp, ⟨g2, g3, g4, g1, Or.inr hempty⟩, ?_, ?_⟩
    · unfold DB.permissionKeysUnique
      rw [happ]
      exact permissionKeys_append _ _ hu hfresh
    · intro r hr
      exact Or.inl (by rw [happ]; simp [hr])
    · intro r hr
      rw [happ] at hr
      rcases List.mem_append.mp hr with h | h
      · exact Or.inl h
      · exact Or.inr (by simpa using h)

theorem Permission.whereStruct_default (a b ρ : GoString) (p : Permission) :
    Permission.whereStruct { UserId := a, DestinationId := b, Role := ρ, FromDefault := true } p
      = true ↔
    (ρ = [] ∨ p.Role = ρ) ∧ (a = [] ∨ p.UserId = a) ∧ (b = [] ∨ p.DestinationId = b) ∧
      p.FromDefault = true := by
  simp [Permission.whereStruct]

/-! ## The loop of `User.AfterSave` -/

theorem User.AfterSave.userLoop_cons (env : Env) (u : User) (role : GoString) (d : Destination)
    (ds : List Destination) (tx tx' : DB)
    (h : User.AfterSave.loop env u role (d :: ds) tx = (none, tx')) :
    ∃ p1 tx1 p2 tx2,
      tx.FirstOrCreatePermission env
        { UserId := u.Id, DestinationId := d.Id, FromDefault := true } = (none, p1, tx1) ∧
      tx1.SavePermission env { p1 with Role := role } = (none, p2, tx2) ∧
      User.AfterSave.loop env u role ds tx2 = (none, tx') := by
  rw [User.AfterSave.loop] at h
  rcases h1 : tx.FirstOrCreatePermission env
    { UserId := u.Id, DestinationId := d.Id, FromDefault := true } with ⟨e1, p1, tx1⟩
  simp only [h1] at h
  cases e1 with
  | some e => simp at h
  | none =>
    simp only at h
    rcases h2 : tx1.SavePermission env { p1 with Role := role } with ⟨e2, p2, tx2⟩
    simp only [h2] at h
    cases e2 with
    | some e => simp at h
    | none => exact ⟨p1, tx1, p2, tx2, rfl, h2, h⟩

/-- The loop keeps the primary keys unique, writes only `permissions`, and
keeps every property of a row that depends on its user, destination and
default flag and on its role being `role`. -/
theorem User.AfterSave.userLoop_inv (env : Env) (u : User) (role : GoString)
    (ds : List Destination) (tx tx' : DB) (hu : tx.permissionKeysUnique)
    (h : User.AfterSave.loop env u role ds tx = (none, tx')) :
    tx'.permissionKeysUnique ∧ tx'.users = tx.users ∧ tx'.destinations = tx.destinations ∧
    (∀ Q : Permission → Prop,
      (∀ p q : Permission, Q p → q.UserId = p.UserId → q.DestinationId = p.DestinationId →
        q.FromDefault = p.FromDefault → q.Role = role → Q q) →
      (∃ p ∈ tx.permissions, Q p) → ∃ p ∈ tx'.permissions, Q p) := by
  induction ds generalizing tx with
  | nil =>
    simp only [User.AfterSave.loop, Prod.mk.injEq, true_and] at h
    subst h
    exact ⟨hu, rfl, rfl, fun Q _ hex => hex⟩
  | cons d ds ih =>
    obtain ⟨p1, tx1, p2, tx2, h1, h2, h3⟩ := User.AfterSave.userLoop_cons env u role d ds tx tx' h
    obtain ⟨hp1, hkeep1, hu1, hus1, hds1, -⟩ := DB.FirstOrCreatePermission_step env tx _ p1 tx1 h1
    obtain ⟨hu2, hus2, hds2, hp2, ⟨k1, k2, k3, k4, -⟩, hkeep2, -⟩ :=
      DB.SavePermission_step env tx1 p1 role p2 tx2 (hu1 hu) hp1 h2
    obtain ⟨hu', hus', hds', hpres⟩ := ih tx2 hu2 h3
    refine ⟨hu', by rw [hus', hus2, hus1], by rw [hds', hds2, hds1], ?_⟩
    intro Q hQ ⟨r, hr, hQr⟩
    apply hpres Q hQ
    rcases hkeep2 r (hkeep1 r hr) with hr2 | rfl
    · exact ⟨r, hr2, hQr⟩
    · exact ⟨p2, hp2, hQ r p2 hQr k1 k2 k3 k4⟩

/-- After a successful loop every destination it went through has a default
permission of the user with the role. -/
theorem User.AfterSave.userLoop_exists (env : Env) (u : User) (role : GoString)
    (ds : List Destination) (tx tx' : DB) (hu : tx.permissionKeysUnique) (hid : u.Id ≠ [])
    (hds : ∀ d ∈ ds, d.Id ≠ [])
    (h : User.AfterSave.loop env u role ds tx = (none, tx')) :
    ∀ d ∈ ds, ∃ p ∈ tx'.permissions,
      p.UserId = u.Id ∧ p.DestinationId = d.Id ∧ p.FromDefault = true ∧ p.Role = role := by
  induction ds generalizing tx with
  | nil => intro d hd; exact absurd hd (List.not_mem_nil _)
  | cons d0 ds ih =>
    obtain ⟨p1, tx1, p2, tx2, h1, h2, h3⟩ := User.AfterSave.userLoop_cons env u role d0 ds tx tx' h
    obtain ⟨hp1, -, hu1, -, -, hcase⟩ := DB.FirstOrCreatePermission_step env tx _ p1 tx1 h1
    obtain ⟨hu2, -, -, hp2, ⟨k1, k2, k3, k4, -⟩, -, -⟩ :=
      DB.SavePermission_step env tx1 p1 role p2 tx2 (hu1 hu) hp1 h2
    have hd0 : d0.Id ≠ [] := hds d0 (List.mem_cons_self _ _)
    have hkey : p1.UserId = u.Id ∧ p1.DestinationId = d0.Id ∧ p1.FromDefault = true := by
      rcases hcase with ⟨-, hw, -⟩ | ⟨-, -, g1, g2, g3, -⟩
      · have hw' := (Permission.whereStruct_default u.Id d0.Id [] p1).mp hw
        exact ⟨hw'.2.1.resolve_left hid, hw'.2.2.1.resolve_left hd0, hw'.2.2.2⟩
      · exact ⟨g1, g2, g3⟩
    intro d hd
    rcases List.mem_cons.mp hd with rfl | hd
    · refine (User.AfterSave.userLoop_inv env u role ds tx2 tx' hu2 h3).2.2.2
        (fun p => p.UserId = u.Id ∧ p.DestinationId = d.Id ∧ p.FromDefault = true ∧
          p.Role = role) ?_ ⟨p2, hp2, ?_⟩
      · rintro p q ⟨a1, a2, a3, -⟩ b1 b2 b3 b4
        exact ⟨by rw [b1, a1], by rw [b2, a2], by rw [b3, a3], b4⟩
      · exact ⟨by rw [k1, hkey.1], by rw [k2, hkey.2.1], by rw [k3, hkey.2.2], k4⟩
    · exact ih tx2 hu2 (fun d hd => hds d (List.mem_cons_of_mem _ hd)) h3 d hd

/-- Where the user already has a default permission on a destination, with a
non-empty primary key, every row the loop leaves for that user and destination
carries the primary key of a row that was there before. -/
theorem User.AfterSave.userLoop_nonew (env : Env) (u : User) (role : GoString) (dId : GoString)
    (ds : List Destination) (tx tx' : DB) (hu : tx.permissionKeysUnique)
    (hex : ∃ p ∈ tx.permissions, p.UserId = u.Id ∧ p.DestinationId = dId ∧ p.FromDefault = true)
    (hne : ∀ p ∈ tx.permissions, p.UserId = u.Id → p.DestinationId = dId → p.Id ≠ [])
    (h : User.AfterSave.loop env u role ds tx = (none, tx')) :
    ∀ q ∈ tx'.permissions, q.UserId = u.Id → q.DestinationId = dId →
      q.Id ≠ [] ∧ ∃ p ∈ tx.permissions, p.Id = q.Id ∧ p.UserId = u.Id ∧ p.DestinationId = dId := by
  induction ds generalizing tx with
  | nil =>
    simp only [User.AfterSave.loop, Prod.mk.injEq, true_and] at h
    subst h
    intro q hq a b
    exact ⟨hne q hq a b, q, hq, rfl, a, b⟩
  | cons d0 ds ih =>
    obtain ⟨p1, tx1, p2, tx2, h1, h2, h3⟩ := User.AfterSave.userLoop_cons env u role d0 ds tx tx' h
    obtain ⟨hp1, hkeep1, hu1, -, -, hcase⟩ := DB.FirstOrCreatePermission_step env tx _ p1 tx1 h1
    obtain ⟨hu2, -, -, hp2, ⟨k1, k2, k3, k4, k5⟩, hkeep2, hfrom2⟩ :=
      DB.SavePermission_step env tx1 p1 role p2 tx2 (hu1 hu) hp1 h2
    obtain ⟨r0, hr0, r0u, r0d, r0f⟩ := hex
    -- a row of the user on the destination cannot have been created in this round
    have hfound : p1.UserId = u.Id → p1.DestinationId = dId → p1 ∈ tx.permissions := by
      intro a b
      rcases hcase with ⟨hm, -, -⟩ | ⟨hno, -, -, g2, -, -⟩
      · exact hm
      · have hmatch : Permission.whereStruct
            { UserId := u.Id, DestinationId := d0.Id, FromDefault := true } r0 = true := by
          apply (Permission.whereStruct_default u.Id d0.Id [] r0).mpr
          exact ⟨Or.inl rfl, Or.inr r0u, Or.inr (by rw [r0d, ← b, g2]), r0f⟩
        rw [hno r0 hr0] at hmatch
        exact absurd hmatch (by decide)
    have hstep : ∀ q ∈ tx2.permissions, q.UserId = u.Id → q.DestinationId = dId →
        q.Id ≠ [] ∧ ∃ p ∈ tx.permissions, p.Id = q.Id ∧ p.UserId = u.Id ∧
          p.DestinationId = dId := by
      intro q hq a b
      rcases hfrom2 q hq with hq1 | rfl
      · have hqtx : q ∈ tx.permissions := by
          rcases hcase with ⟨-, -, heq⟩ | ⟨-, happ, -⟩
          · rw [heq] at hq1; exact hq1
          · rw [happ] at hq1
            rcases List.mem_append.mp hq1 with h' | h'
            · exact h'
            · have hq1' : q = p1 := by simpa using h'
              subst hq1'
              exact hfound a b
        exact ⟨hne q hqtx a b, q, hqtx, rfl, a, b⟩
      · have a1 : p1.UserId = u.Id := by rw [← k1, a]
        have b1 : p1.DestinationId = dId := by rw [← k2, b]
        have hp1tx := hfound a1 b1
        have hp1id := hne p1 hp1tx a1 b1
        have hid : q.Id = p1.Id := k5.resolve_right hp1id
        exact ⟨by rw [hid]; exact hp1id, p1, hp1tx, hid.symm, a1, b1⟩
    have hex2 : ∃ p ∈ tx2.permissions,
        p.UserId = u.Id ∧ p.DestinationId = dId ∧ p.FromDefault = true := by
      rcases hkeep2 r0 (hkeep1 r0 hr0) with hr2 | rfl
      · exact ⟨r0, hr2, r0u, r0d, r0f⟩
      · exact ⟨p2, hp2, by rw [k1, r0u], by rw [k2, r0d], by rw [k3, r0f]⟩
    intro q hq a b
    obtain ⟨hqid, p, hp, e1, e2, e3⟩ :=
      ih tx2 hu2 hex2 (fun p hp a b => (hstep p hp a b).1) h3 q hq a b
    obtain ⟨-, p0, hp0, f1, f2, f3⟩ := hstep p hp e2 e3
    exact ⟨hqid, p0, hp0, by rw [f1, e1], f2, f3⟩

/-! ## The loop of `Destination.AfterSave` -/

theorem defaultRole_ne_nil (u : User) : defaultRole u ≠ [] := by
  unfold defaultRole
  cases u.Admin <;> decide

theorem Destination.AfterSave.destLoop_cons (env : Env) (d : Destination) (u : User)
    (us : List User) (tx tx' : DB)
    (h : Destination.AfterSave.loop env d (u :: us) tx = (none, tx')) :
    ∃ p1 tx1,
      tx.FirstOrCreatePermission env
        { UserId := u.Id, DestinationId := d.Id, Role := defaultRole u, FromDefault := true } =
        (none, p1, tx1) ∧
      Destination.AfterSave.loop env d us tx1 = (none, tx') := by
  rw [Destination.AfterSave.loop] at h
  rcases h1 : tx.FirstOrCreatePermission env
    { UserId := u.Id, DestinationId := d.Id, Role := defaultRole u, FromDefault := true }
    with ⟨e1, p1, tx1⟩
  unfold defaultRole at h1
  simp only [h1] at h
  cases e1 with
  | some e => simp at h
  | none => exact ⟨p1, tx1, rfl, h⟩

/-- The loop only appends to `permissions`: old rows stay, and a new row is
the default permission of one of the users, made because no stored row
matched the condition for that user. -/
theorem Destination.AfterSave.destLoop_inv (env : Env) (d : Destination) (us : List User)
    (tx tx' : DB) (h : Destination.AfterSave.loop env d us tx = (none, tx')) :
    tx'.users = tx.users ∧ tx'.destinations = tx.destinations ∧
    (∀ r ∈ tx.permissions, r ∈ tx'.permissions) ∧
    (∀ q ∈ tx'.permissions, q ∈ tx.permissions ∨
      ∃ u ∈ us, q.UserId = u.Id ∧ q.DestinationId = d.Id ∧ q.FromDefault = true ∧
        q.Role = defaultRole u ∧
        ∀ r ∈ tx.permissions, Permission.whereStruct
          { UserId := u.Id, DestinationId := d.Id, Role := defaultRole u, FromDefault := true }
          r = false) := by
  induction us generalizing tx with
  | nil =>
    simp only [Destination.AfterSave.loop, Prod.mk.injEq, true_and] at h
    subst h
    exact ⟨rfl, rfl, fun r hr => hr, fun q hq => Or.inl hq⟩
  | cons u us ih =>
    obtain ⟨p1, tx1, h1, h2⟩ := Destination.AfterSave.destLoop_cons env d u us tx tx' h
    obtain ⟨-, hkeep1, -, hus1, hds1, hcase⟩ :=
      DB.FirstOrCreatePermission_step env tx _ p1 tx1 h1
    obtain ⟨hus', hds', hkeep', hfrom'⟩ := ih tx1 h2
    refine ⟨by rw [hus', hus1], by rw [hds', hds1], fun r hr => hkeep' r (hkeep1 r hr), ?_⟩
    intro q hq
    rcases hfrom' q hq with hq1 | ⟨u', hu', a, b, c, e, hno⟩
    · rcases hcase with ⟨-, -, heq⟩ | ⟨hno, happ, g1, g2, g3, g4⟩
      · exact Or.inl (by rw [heq] at hq1; exact hq1)
      · rw [happ] at hq1
        rcases List.mem_append.mp hq1 with h' | h'
        · exact Or.inl h'
        · have hq1' : q = p1 := by simpa using h'
          subst hq1'
          exact Or.inr ⟨u, List.mem_cons_self _ _, g1, g2, g3, g4, hno⟩
    · exact Or.inr ⟨u', List.mem_cons_of_mem _ hu', a, b, c, e,
        fun r hr => hno r (hkeep1 r hr)⟩

/-- After a successful loop every user it went through has a default
permission on the destination with the baseline role of the user. -/
theorem Destination.AfterSave.destLoop_exists (env : Env) (d : Destination) (us : List User)
    (tx tx' : DB) (hid : d.Id ≠ []) (hus : ∀ u ∈ us, u.Id ≠ [])
    (h : Destination.AfterSave.loop env d us tx = (none, tx')) :
    ∀ u ∈ us, ∃ p ∈ tx'.permissions,
      p.UserId = u.Id ∧ p.DestinationId = d.Id ∧ p.FromDefault = true ∧
        p.Role = defaultRole u := by
  induction us generalizing tx with
  | nil => intro u hu; exact absurd hu (List.not_mem_nil _)
  | cons u0 us ih =>
    obtain ⟨p1, tx1, h1, h2⟩ := Destination.AfterSave.destLoop_cons env d u0 us tx tx' h
    obtain ⟨hp1, -, -, -, -, hcase⟩ := DB.FirstOrCreatePermission_step env tx _ p1 tx1 h1
    intro u hu
    rcases List.mem_cons.mp hu with rfl | hu
    · refine ⟨p1, (Destination.AfterSave.destLoop_inv env d us tx1 tx' h2).2.2.1 p1 hp1, ?_⟩
      rcases hcase with ⟨-, hw, -⟩ | ⟨-, -, g1, g2, g3, g4⟩
      · have hw' := (Permission.whereStruct_default u.Id d.Id (defaultRole u) p1).mp hw
        exact ⟨hw'.2.1.resolve_left (hus u (List.mem_cons_self _ _)),
          hw'.2.2.1.resolve_left hid, hw'.2.2.2, hw'.1.resolve_left (defaultRole_ne_nil u)⟩
      · exact ⟨g1, g2, g3, g4⟩
    · exact ih tx1 (fun u hu => hus u (List.mem_cons_of_mem _ hu)) h2 u hu

/-! ## Claims about default permissions -/

theorem User.AfterSave_eq_userLoop (env : Env) (u : User) (tx : DB)
    (hok : (User.AfterSave env u tx).1 = none) :
    User.AfterSave.loop env u (defaultRole u) tx.destinations tx =
      (none, (User.AfterSave env u tx).2) := by
  have h : User.AfterSave env u tx =
      User.AfterSave.loop env u (defaultRole u) tx.destinations tx := rfl
  rw [h] at hok ⊢
  exact Prod.ext hok rfl

theorem Destination.AfterSave_eq_destLoop (env : Env) (d : Destination) (tx : DB)
    (hok : (Destination.AfterSave env d tx).1 = none) :
    Destination.AfterSave.loop env d tx.users tx =
      (none, (Destination.AfterSave env d tx).2) := by
  have h : Destination.AfterSave env d tx =
      Destination.AfterSave.loop env d tx.users tx := rfl
  rw [h] at hok ⊢
  exact Prod.ext hok rfl

/-- C6: on a store whose permissions have distinct primary keys and whose
destinations have non-empty ones, after `User.AfterSave u` succeeds for a
user with a non-empty `Id`, the destinations are those of before and each of
them has a permission with `UserId = u.Id`, `DestinationId = d.Id` and
`FromDefault = true`. -/
theorem User.AfterSave_grants_every_destination (env : Env) (u : User) (tx : DB)
    (hkeys : tx.permissionKeysUnique) (hid : u.Id ≠ [])
    (hds : ∀ d ∈ tx.destinations, d.Id ≠ [])
    (hok : (User.AfterSave env u tx).1 = none) :
    (User.AfterSave env u tx).2.destinations = tx.destinations ∧
    ∀ d ∈ tx.destinations, ∃ p ∈ (User.AfterSave env u tx).2.permissions,
      p.UserId = u.Id ∧ p.DestinationId = d.Id ∧ p.FromDefault = true := by
  have h := User.AfterSave_eq_userLoop env u tx hok
  refine ⟨(User.AfterSave.userLoop_inv env u _ _ tx _ hkeys h).2.2.1, ?_⟩
  intro d hd
  obtain ⟨p, hp, a, b, c, -⟩ := User.AfterSave.userLoop_exists env u _ _ tx _ hkeys hid hds h d hd
  exact ⟨p, hp, a, b, c⟩

/-- After `AfterSave` for `alice` on the sample store, whose only permission
is a direct one, she has a default permission on the first destination. -/
theorem User.AfterSave_grants_every_destination_witness :
    ∃ p ∈ (User.AfterSave sampleEnv alice sampleStore).2.permissions,
      p.UserId = alice.Id ∧ p.DestinationId = destOne.Id ∧ p.FromDefault = true :=
  (User.AfterSave_grants_every_destination sampleEnv alice sampleStore (by decide) (by decide)
    (by decide) (by decide)).2 destOne (by decide)

/-- C7: on a store whose users have non-empty primary keys, after
`Destination.AfterSave d` succeeds for a destination with a non-empty `Id`,
the users are those of before and each of them has a permission with
`UserId = u.Id`, `DestinationId = d.Id` and `FromDefault = true`. -/
theorem Destination.AfterSave_grants_every_user (env : Env) (d : Destination) (tx : DB)
    (hid : d.Id ≠ []) (hus : ∀ u ∈ tx.users, u.Id ≠ [])
    (hok : (Destination.AfterSave env d tx).1 = none) :
    (Destination.AfterSave env d tx).2.users = tx.users ∧
    ∀ u ∈ tx.users, ∃ p ∈ (Destination.AfterSave env d tx).2.permissions,
      p.UserId = u.Id ∧ p.DestinationId = d.Id ∧ p.FromDefault = true := by
  have h := Destination.AfterSave_eq_destLoop env d tx hok
  refine ⟨(Destination.AfterSave.destLoop_inv env d _ tx _ h).1, ?_⟩
  intro u hu
  obtain ⟨p, hp, a, b, c, -⟩ := Destination.AfterSave.destLoop_exists env d _ tx _ hid hus h u hu
  exact ⟨p, hp, a, b, c⟩

/-- After `AfterSave` for the first destination of the sample store, `root`
has a default permission on it. -/
theorem Destination.AfterSave_grants_every_user_witness :
    ∃ p ∈ (Destination.AfterSave sampleEnv destOne sampleStore).2.permissions,
      p.UserId = root.Id ∧ p.DestinationId = destOne.Id ∧ p.FromDefault = true :=
  (Destination.AfterSave_grants_every_user sampleEnv destOne sampleStore (by decide)
    (by decide) (by decide)).2 root (by decide)

/-- C8, as stated, fails: for the admin `root` both hooks succeed on the sample
store and every default permission they leave for `root` has the role
`cluster-admin`, which is not `admin`. -/
theorem default_role_admin_counterexample :
    root.Admin = true ∧ str "cluster-admin" ≠ str "admin" ∧
    (User.AfterSave sampleEnv root sampleStore).1 = none ∧
    ((User.AfterSave sampleEnv root sampleStore).2.permissions.filter
        (fun p => decide (p.UserId = root.Id ∧ p.FromDefault = true))).map
      (fun p => (p.DestinationId, p.Role)) =
      [(str "d1", str "cluster-admin"), (str "d2", str "cluster-admin")] ∧
    (Destination.AfterSave sampleEnv destOne sampleStore).1 = none ∧
    ((Destination.AfterSave sampleEnv destOne sampleStore).2.permissions.filter
        (fun p => decide (p.UserId = root.Id ∧ p.FromDefault = true))).map
      (fun p => (p.DestinationId, p.Role)) = [(str "d1", str "cluster-admin")] := by
  decide

/-- C8, amended: the baseline permission that `User.AfterSave` leaves for the
user on each destination, and that `Destination.AfterSave` leaves for each
user on the destination, carries the role `view` when the user's `Admin` flag
is false and `cluster-admin` when it is true. -/
theorem default_role_by_admin_flag (env : Env) (tx : DB) :
    (∀ u : User, defaultRole u = if u.Admin then str "cluster-admin" else str "view") ∧
    (∀ u : User, tx.permissionKeysUnique → u.Id ≠ [] → (∀ d ∈ tx.destinations, d.Id ≠ []) →
      (User.AfterSave env u tx).1 = none →
      ∀ d ∈ tx.destinations, ∃ p ∈ (User.AfterSave env u tx).2.permissions,
        p.UserId = u.Id ∧ p.DestinationId = d.Id ∧ p.FromDefault = true ∧
          p.Role = defaultRole u) ∧
    (∀ d : Destination, d.Id ≠ [] → (∀ u ∈ tx.users, u.Id ≠ []) →
      (Destination.AfterSave env d tx).1 = none →
      ∀ u ∈ tx.users, ∃ p ∈ (Destination.AfterSave env d tx).2.permissions,
        p.UserId = u.Id ∧ p.DestinationId = d.Id ∧ p.FromDefault = true ∧
          p.Role = defaultRole u) := by
  refine ⟨fun u => rfl, ?_, ?_⟩
  · intro u hkeys hid hds hok
    exact User.AfterSave.userLoop_exists env u _ _ tx _ hkeys hid hds (User.AfterSave_eq_userLoop env u tx hok)
  · intro d hid hus hok
    exact Destination.AfterSave.destLoop_exists env d _ tx _ hid hus
      (Destination.AfterSave_eq_destLoop env d tx hok)

/-- On the sample store `alice` gets a `view` permission on the first
destination from `User.AfterSave`, and `root` a `cluster-admin` permission on it
from `Destination.AfterSave`. -/
theorem default_role_by_admin_flag_witness :
    (∃ p ∈ (User.AfterSave sampleEnv alice sampleStore).2.permissions,
      p.UserId = alice.Id ∧ p.DestinationId = destOne.Id ∧ p.FromDefault = true ∧
        p.Role = defaultRole alice) ∧
    (∃ p ∈ (Destination.AfterSave sampleEnv destOne sampleStore).2.permissions,
      p.UserId = root.Id ∧ p.DestinationId = destOne.Id ∧ p.FromDefault = true ∧
        p.Role = defaultRole root) ∧
    defaultRole alice = str "view" ∧ defaultRole root = str "cluster-admin" :=
  ⟨(default_role_by_admin_flag sampleEnv sampleStore).2.1 alice (by decide) (by decide)
      (by decide) (by decide) destOne (by decide),
    (default_role_by_admin_flag sampleEnv sampleStore).2.2 destOne (by decide) (by decide)
      (by decide) root (by decide),
    by decide, by decide⟩

/-- C9, as stated, fails: in the sample store `alice` holds a non-default
permission on the first destination and no default one, and still both hooks
succeed and leave a default permission of `alice` on that destination next to
the direct one. -/
theorem default_despite_direct_counterexample :
    (sampleStore.permissions.filter
        (fun p => decide (p.UserId = alice.Id ∧ p.DestinationId = destOne.Id))).map
      (fun p => (p.Id, p.FromDefault, p.Role)) = [(str "p0", false, str "edit")] ∧
    (User.AfterSave sampleEnv alice sampleStore).1 = none ∧
    ((User.AfterSave sampleEnv alice sampleStore).2.permissions.filter
        (fun p => decide (p.UserId = alice.Id ∧ p.DestinationId = destOne.Id))).map
      (fun p => (p.Id, p.FromDefault, p.Role)) =
      [(str "p0", false, str "edit"), (str "aaaaaaaaaaaa", true, str "view")] ∧
    (Destination.AfterSave sampleEnv destOne sampleStore).1 = none ∧
    ((Destination.AfterSave sampleEnv destOne sampleStore).2.permissions.filter
        (fun p => decide (p.UserId = alice.Id ∧ p.DestinationId = destOne.Id))).map
      (fun p => (p.Id, p.FromDefault, p.Role)) =
      [(str "p0", false, str "edit"), (str "aaaaaaaaaaaa", true, str "view")] := by
  decide

/-- C9, amended: what stops a hook from creating a baseline permission for
`(u, d)` is a permission with `FromDefault = true`, not a non-default one.
Where `u` already holds a default permission on `d` (for
`Destination.AfterSave`: one with the baseline role of `u`), the rows for
`(u, d)` after the hook carry primary keys that were there before; where `u`
holds only non-default permissions on `d`, or none, a successful hook leaves a
new default row for `(u, d)`. -/
theorem default_unless_default_exists (env : Env) (tx : DB) :
    (∀ (u : User) (dId : GoString), tx.permissionKeysUnique →
      (∃ p ∈ tx.permissions, p.UserId = u.Id ∧ p.DestinationId = dId ∧ p.FromDefault = true) →
      (∀ p ∈ tx.permissions, p.UserId = u.Id → p.DestinationId = dId → p.Id ≠ []) →
      (User.AfterSave env u tx).1 = none →
      ∀ q ∈ (User.AfterSave env u tx).2.permissions, q.UserId = u.Id → q.DestinationId = dId →
        ∃ p ∈ tx.permissions, p.Id = q.Id) ∧
    (∀ (d : Destination) (u : User), tx.userKeysUnique → u ∈ tx.users →
      (∃ p ∈ tx.permissions, p.UserId = u.Id ∧ p.DestinationId = d.Id ∧
        p.FromDefault = true ∧ p.Role = defaultRole u) →
      (Destination.AfterSave env d tx).1 = none →
      ∀ q ∈ (Destination.AfterSave env d tx).2.permissions, q.UserId = u.Id →
        q.DestinationId = d.Id → q ∈ tx.permissions) ∧
    (∀ (u : User) (d : Destination), tx.permissionKeysUnique → u.Id ≠ [] →
      (∀ d ∈ tx.destinations, d.Id ≠ []) → d ∈ tx.destinations →
      (∀ p ∈ tx.permissions, p.UserId = u.Id → p.DestinationId = d.Id →
        p.FromDefault = false) →
      (User.AfterSave env u tx).1 = none →
      ∃ q ∈ (User.AfterSave env u tx).2.permissions, q ∉ tx.permissions ∧
        q.UserId = u.Id ∧ q.DestinationId = d.Id ∧ q.FromDefault = true) ∧
    (∀ (d : Destination) (u : User), d.Id ≠ [] → (∀ u ∈ tx.users, u.Id ≠ []) →
      u ∈ tx.users →
      (∀ p ∈ tx.permissions, p.UserId = u.Id → p.DestinationId = d.Id →
        p.FromDefault = false) →
      (Destination.AfterSave env d tx).1 = none →
      ∃ q ∈ (Destination.AfterSave env d tx).2.permissions, q ∉ tx.permissions ∧
        q.UserId = u.Id ∧ q.DestinationId = d.Id ∧ q.FromDefault = true) := by
  refine ⟨?_, ?_, ?_, ?_⟩
  · intro u dId hkeys hex hne hok q hq a b
    obtain ⟨-, p, hp, e, -, -⟩ := User.AfterSave.userLoop_nonew env u _ dId _ tx _ hkeys hex hne
      (User.AfterSave_eq_userLoop env u tx hok) q hq a b
    exact ⟨p, hp, e⟩
  · intro d u hkeys hu ⟨r0, hr0, r0u, r0d, r0f, r0r⟩ hok q hq a b
    rcases (Destination.AfterSave.destLoop_inv env d _ tx _
      (Destination.AfterSave_eq_destLoop env d tx hok)).2.2.2 q hq with h | ⟨u', hu', a', -, -, -, hno⟩
    · exact h
    · have huu : u' = u := List.inj_on_of_nodup_map hkeys hu' hu (by rw [← a', a])
      subst huu
      have hmatch : Permission.whereStruct
          { UserId := u'.Id, DestinationId := d.Id, Role := defaultRole u',
            FromDefault := true } r0 = true :=
        (Permission.whereStruct_default u'.Id d.Id (defaultRole u') r0).mpr
          ⟨Or.inr r0r, Or.inr r0u, Or.inr r0d, r0f⟩
      rw [hno r0 hr0] at hmatch
      exact absurd hmatch (by decide)
  · intro u d hkeys hid hds hd hnon hok
    obtain ⟨q, hq, a, b, c, -⟩ := User.AfterSave.userLoop_exists env u _ _ tx _ hkeys hid hds
      (User.AfterSave_eq_userLoop env u tx hok) d hd
    refine ⟨q, hq, ?_, a, b, c⟩
    intro hqtx
    rw [hnon q hqtx a b] at c
    exact absurd c (by decide)
  · intro d u hid hus hu hnon hok
    obtain ⟨q, hq, a, b, c, -⟩ := Destination.AfterSave.destLoop_exists env d _ tx _ hid hus
      (Destination.AfterSave_eq_destLoop env d tx hok) u hu
    refine ⟨q, hq, ?_, a, b, c⟩
    intro hqtx
    rw [hnon q hqtx a b] at c
    exact absurd c (by decide)

/-- On the sample store, where the only permission of `alice` on the first
destination is a direct one, each hook leaves a new default row for the pair;
run again on the store `User.AfterSave` has left, where `alice` holds her
default `view` permission, neither hook adds a row for the pair. -/
theorem default_unless_default_exists_witness :
    (∃ q ∈ (User.AfterSave sampleEnv alice sampleStore).2.permissions,
      q ∉ sampleStore.permissions ∧ q.UserId = alice.Id ∧ q.DestinationId = destOne.Id ∧
        q.FromDefault = true) ∧
    (∃ q ∈ (Destination.AfterSave sampleEnv destOne sampleStore).2.permissions,
      q ∉ sampleStore.permissions ∧ q.UserId = alice.Id ∧ q.DestinationId = destOne.Id ∧
        q.FromDefault = true) ∧
    (∀ q ∈ (User.AfterSave sampleEnv alice
        (User.AfterSave sampleEnv alice sampleStore).2).2.permissions,
      q.UserId = alice.Id → q.DestinationId = destOne.Id →
      ∃ p ∈ (User.AfterSave sampleEnv alice sampleStore).2.permissions, p.Id = q.Id) ∧
    (∀ q ∈ (Destination.AfterSave sampleEnv destOne
        (User.AfterSave sampleEnv alice sampleStore).2).2.permissions,
      q.UserId = alice.Id → q.DestinationId = destOne.Id →
      q ∈ (User.AfterSave sampleEnv alice sampleStore).2.permissions) :=
  ⟨(default_unless_default_exists sampleEnv sampleStore).2.2.1 alice destOne (by decide)
      (by decide) (by decide) (by decide) (by decide) (by decide),
    (default_unless_default_exists sampleEnv sampleStore).2.2.2 destOne alice (by decide)
      (by decide) (by decide) (by decide) (by decide),
    (default_unless_default_exists sampleEnv
      (User.AfterSave sampleEnv alice sampleStore).2).1 alice destOne.Id (by decide)
      (by decide) (by decide) (by decide),
    (default_unless_default_exists sampleEnv
      (User.AfterSave sampleEnv alice sampleStore).2).2.1 destOne alice (by decide)
      (by decide) (by decide) (by decide)⟩

/-! ## Cascading delete -/

theorem Token.whereStruct_byUser (a : GoString) (ha : a ≠ []) (t : Token) :
    Token.whereStruct { UserId := a } t = decide (t.UserId = a) := by
  simp [Token.whereStruct, ha]

theorem Permission.whereStruct_ofUser (a : GoString) (ha : a ≠ []) (p : Permission) :
    Permission.whereStruct { UserId := a } p = decide (p.UserId = a) := by
  simp [Permission.whereStruct, ha]

/-- With a non-empty `Id` the hook succeeds and filters the three tables. -/
theorem User.BeforeDelete_eq (u : User) (tx : DB) (hid : u.Id ≠ []) :
    User.BeforeDelete u tx = (none, { tx with
      users_sources := tx.users_sources.filter (fun a => !decide (a.UserId = u.Id))
      tokens := tx.tokens.filter (fun t => !decide (t.UserId = u.Id))
      permissions := tx.permissions.filter (fun p => !decide (p.UserId = u.Id)) }) := by
  have h1 : ¬ (({ UserId := u.Id } : Token) = {}) := by
    intro h
    exact hid (congrArg Token.UserId h)
  have h2 : ¬ (({ UserId := u.Id } : Permission) = {}) := by
    intro h
    exact hid (congrArg Permission.UserId h)
  have h3 : (fun t => !Token.whereStruct { UserId := u.Id } t) =
      fun t => !decide (t.UserId = u.Id) := by
    funext t; rw [Token.whereStruct_byUser u.Id hid]
  have h4 : (fun p => !Permission.whereStruct { UserId := u.Id } p) =
      fun p => !decide (p.UserId = u.Id) := by
    funext p; rw [Permission.whereStruct_ofUser u.Id hid]
  simp only [User.BeforeDelete, DB.ClearSources, DB.DeleteTokens, DB.DeletePermissions,
    if_neg hid, if_neg h1, if_neg h2, h3, h4]

theorem filter_other_user {α : Type} (key : α → GoString) (a v : GoString) (hv : v ≠ a)
    (l : List α) :
    (l.filter (fun r => !decide (key r = a))).filter (fun r => decide (key r = v)) =
      l.filter (fun r => decide (key r = v)) := by
  rw [List.filter_filter]
  apply List.filter_congr
  intro r _
  by_cases h : key r = v
  · simp [h, hv]
  · simp [h]

/-- C10: `User.BeforeDelete u` succeeds exactly when `u.Id` is non-empty, and
then the tokens are the previous tokens with `UserId ≠ u.Id`, the permissions
the previous permissions with `UserId ≠ u.Id`, the source associations the
previous ones of other users, so that `u` has none; the tokens, permissions
and associations of any other user, and the other tables, are unchanged. -/
theorem User.BeforeDelete_cascade (u : User) (tx : DB) :
    ((User.BeforeDelete u tx).1 = none ↔ u.Id ≠ []) ∧
    ((User.BeforeDelete u tx).1 = none →
      ((User.BeforeDelete u tx).2.tokens =
          tx.tokens.filter (fun t => !decide (t.UserId = u.Id)) ∧
        (User.BeforeDelete u tx).2.permissions =
          tx.permissions.filter (fun p => !decide (p.UserId = u.Id)) ∧
        (User.BeforeDelete u tx).2.users_sources =
          tx.users_sources.filter (fun a => !decide (a.UserId = u.Id))) ∧
      (∀ a ∈ (User.BeforeDelete u tx).2.users_sources, a.UserId ≠ u.Id) ∧
      (∀ v : GoString, v ≠ u.Id →
        (User.BeforeDelete u tx).2.tokens.filter (fun t => decide (t.UserId = v)) =
          tx.tokens.filter (fun t => decide (t.UserId = v)) ∧
        (User.BeforeDelete u tx).2.permissions.filter (fun p => decide (p.UserId = v)) =
          tx.permissions.filter (fun p => decide (p.UserId = v)) ∧
        (User.BeforeDelete u tx).2.users_sources.filter (fun a => decide (a.UserId = v)) =
          tx.users_sources.filter (fun a => decide (a.UserId = v))) ∧
      (User.BeforeDelete u tx).2.users = tx.users ∧
      (User.BeforeDelete u tx).2.sources = tx.sources ∧
      (User.BeforeDelete u tx).2.destinations = tx.destinations ∧
      (User.BeforeDelete u tx).2.api_keys = tx.api_keys) := by
  by_cases hid : u.Id = []
  · have hfail : (User.BeforeDelete u tx).1 = some "primary key required" := by
      simp [User.BeforeDelete, DB.ClearSources, hid]
    rw [hfail]
    simp [hid]
  · rw [User.BeforeDelete_eq u tx hid]
    refine ⟨⟨fun _ => hid, fun _ => rfl⟩, fun _ => ⟨⟨rfl, rfl, rfl⟩, ?_, ?_, rfl, rfl, rfl, rfl⟩⟩
    · intro a ha
      have := (List.mem_filter.mp ha).2
      simpa using this
    · intro v hv
      exact ⟨filter_other_user Token.UserId u.Id v hv _,
        filter_other_user Permission.UserId u.Id v hv _,
        filter_other_user UserSource.UserId u.Id v hv _⟩

/-- Deleting `alice` from the sample store leaves the token of `root` only,
no permission, and the association of `root` only. -/
theorem User.BeforeDelete_cascade_witness :
    (User.BeforeDelete alice sampleStore).1 = none ∧
    (User.BeforeDelete alice sampleStore).2.tokens =
      [{ Id := str "t-root", UserId := str "root" }] ∧
    (User.BeforeDelete alice sampleStore).2.permissions = [] ∧
    (User.BeforeDelete alice sampleStore).2.users_sources =
      [{ UserId := str "root", SourceId := str "infra" }] :=
  ⟨by decide,
    ((User.BeforeDelete_cascade alice sampleStore).2 (by decide)).1.1.trans (by decide),
    ((User.BeforeDelete_cascade alice sampleStore).2 (by decide)).1.2.1.trans (by decide),
    ((User.BeforeDelete_cascade alice sampleStore).2 (by decide)).1.2.2.trans (by decide)⟩

/-! ## The hooks write `permissions` only -/

theorem DB.sameButPermissions_refl (tx : DB) : tx.sameButPermissions tx :=
  ⟨rfl, rfl, rfl, rfl, rfl, rfl⟩

theorem DB.sameButPermissions_trans {a b c : DB} (h1 : a.sameButPermissions b)
    (h2 : b.sameButPermissions c) : a.sameButPermissions c := by
  obtain ⟨a1, a2, a3, a4, a5, a6⟩ := h1
  obtain ⟨b1, b2, b3, b4, b5, b6⟩ := h2
  exact ⟨b1.trans a1, b2.trans a2, b3.trans a3, b4.trans a4, b5.trans a5, b6.trans a6⟩

theorem DB.CreatePermission_frame (env : Env) (tx : DB) (p : Permission) :
    tx.sameButPermissions (tx.CreatePermission env p).2.2 := by
  unfold DB.CreatePermission Permission.BeforeCreate
  by_cases hid : p.Id = []
  · simp only [hid, if_true]
    split <;> exact ⟨rfl, rfl, rfl, rfl, rfl, rfl⟩
  · simp only [hid, if_false]
    split <;> exact ⟨rfl, rfl, rfl, rfl, rfl, rfl⟩

theorem DB.FirstOrCreatePermission_frame (env : Env) (tx : DB) (c : Permission) :
    tx.sameButPermissions (tx.FirstOrCreatePermission env c).2.2 := by
  unfold DB.FirstOrCreatePermission
  split
  · exact DB.sameButPermissions_refl tx
  · exact DB.CreatePermission_frame env tx c

theorem DB.SavePermission_frame (env : Env) (tx : DB) (p : Permission) :
    tx.sameButPermissions (tx.SavePermission env p).2.2 := by
  unfold DB.SavePermission
  split
  · exact DB.CreatePermission_frame env tx p
  · split
    · exact ⟨rfl, rfl, rfl, rfl, rfl, rfl⟩
    · exact DB.CreatePermission_frame env tx p

theorem User.AfterSave.userLoop_frame (env : Env) (u : User) (role : GoString)
    (ds : List Destination) (tx : DB) :
    tx.sameButPermissions (User.AfterSave.loop env u role ds tx).2 := by
  induction ds generalizing tx with
  | nil => exact DB.sameButPermissions_refl tx
  | cons d ds ih =>
    rw [User.AfterSave.loop]
    have h1 := DB.FirstOrCreatePermission_frame env tx
      { UserId := u.Id, DestinationId := d.Id, FromDefault := true }
    rcases hc : tx.FirstOrCreatePermission env
      { UserId := u.Id, DestinationId := d.Id, FromDefault := true } with ⟨e1, p1, tx1⟩
    rw [hc] at h1
    cases e1 with
    | some e => exact h1
    | none =>
      simp only
      have h2 := DB.SavePermission_frame env tx1 { p1 with Role := role }
      rcases hs : tx1.SavePermission env { p1 with Role := role } with ⟨e2, p2, tx2⟩
      rw [hs] at h2
      cases e2 with
      | some e => exact DB.sameButPermissions_trans h1 h2
      | none => exact DB.sameButPermissions_trans (DB.sameButPermissions_trans h1 h2) (ih tx2)

theorem User.AfterSave_frame (env : Env) (u : User) (tx : DB) :
    tx.sameButPermissions (User.AfterSave env u tx).2 :=
  User.AfterSave.userLoop_frame env u _ _ tx

/-! ## `Source.CreateUser` for an email that has its user -/

theorem firstByPk_isSome {α : Type} (key : α → GoString) (l : List α) (hl : l ≠ []) :
    ∃ m, firstByPk key l = some m := by
  cases h : firstByPk key l with
  | none => exact absurd (firstByPk_none key l h) hl
  | some m => exact ⟨m, rfl⟩

theorem DB.AppendSource_spec (env : Env) (tx : DB) (user : User) (s : Source) (hs : s.Id ≠ []) :
    (tx.AppendSource env user s).2.2.1.Id = s.Id ∧
    (tx.AppendSource env user s).2.2.2.users = tx.users ∧
    (tx.AppendSource env user s).2.2.2.users_sources =
      (if (⟨user.Id, s.Id⟩ : UserSource) ∈ tx.users_sources then tx.users_sources
       else tx.users_sources ++ [⟨user.Id, s.Id⟩]) ∧
    (∀ r ∈ tx.sources, r ∈ (tx.AppendSource env user s).2.2.2.sources) := by
  unfold DB.AppendSource Source.BeforeCreate
  simp only [hs, if_false]
  refine ⟨trivial, ?_, ?_, ?_⟩
  · rw [(User.AfterSave_frame env _ _).1]
    split <;> split <;> rfl
  · rw [(User.AfterSave_frame env _ _).2.2.1]
    by_cases hj : (⟨user.Id, s.Id⟩ : UserSource) ∈ tx.users_sources
    · rw [if_pos hj]
      split <;> simp [hj]
    · rw [if_neg hj]
      split <;> simp [hj]
  · intro r hr
    rw [(User.AfterSave_frame env _ _).2.1]
    split <;> split <;> simp [hr]

/-- A non-zero count for the condition on a source id means the join row is
there. -/
theorem DB.CountSources_ne_zero (tx : DB) (user : User) (sid : GoString) (hs : sid ≠ [])
    (h : tx.CountSources user { Id := sid } ≠ 0) :
    (⟨user.Id, sid⟩ : UserSource) ∈ tx.users_sources := by
  unfold DB.CountSources DB.userSources at h
  by_cases hu : user.Id = []
  · simp [hu] at h
  · rw [if_neg hu] at h
    have hne : (List.flatMap (tx.sources.filter (Source.whereStruct { Id := sid })) fun src =>
        (tx.users_sources.filter fun a =>
          decide (a.SourceId = src.Id ∧ a.UserId = user.Id)).map fun a => (src, a)) ≠ [] := by
      intro hnil
      rw [hnil] at h
      exact h rfl
    obtain ⟨pr, hpr⟩ := List.exists_mem_of_ne_nil _ hne
    rw [List.mem_flatMap] at hpr
    obtain ⟨src, hsrc, hmem⟩ := hpr
    rw [List.mem_map] at hmem
    obtain ⟨a, ha, -⟩ := hmem
    rw [List.mem_filter] at hsrc ha
    have hw : src.Id = sid := by
      have := hsrc.2
      simp [Source.whereStruct, hs] at this
      exact this
    have ha2 : a.SourceId = src.Id ∧ a.UserId = user.Id := by simpa using ha.2
    have : a = (⟨user.Id, sid⟩ : UserSource) := by
      cases a
      simp only [UserSource.mk.injEq]
      exact ⟨ha2.2, ha2.1.trans hw⟩
    rw [← this]
    exact ha.1

/-- An update through `Save` of a row that is there, when it succeeds, replaces
the row and leaves the other tables but `permissions` alone. -/
theorem DB.SaveUser_existing (env : Env) (tx : DB) (u : User) (hid : u.Id ≠ [])
    (hrow : ∃ r ∈ tx.users, r.Id = u.Id)
    (hok : (tx.SaveUser env u).1 = none) :
    (tx.SaveUser env u).2.1 = { u with Updated := env.now.Unix } ∧
    (tx.SaveUser env u).2.2.users =
      tx.users.map (fun r => if r.Id = u.Id then { u with Updated := env.now.Unix } else r) ∧
    (tx.SaveUser env u).2.2.users_sources = tx.users_sources ∧
    (tx.SaveUser env u).2.2.sources = tx.sources ∧
    (∀ r ∈ tx.users, r.Id ≠ u.Id → r.Email ≠ u.Email) := by
  obtain ⟨r0, hr0, hr0id⟩ := hrow
  have hany : (tx.users.any fun r => decide (r.Id = u.Id)) = true :=
    List.any_eq_true.mpr ⟨r0, hr0, by simpa using hr0id⟩
  unfold DB.SaveUser at hok ⊢
  simp only [hid, if_false, hany, if_true] at hok ⊢
  by_cases hdup : (tx.users.any fun r => decide (r.Id ≠ u.Id ∧ r.Email = u.Email)) = true
  · rw [if_pos hdup] at hok
    exact absurd hok (by simp)
  · rw [if_neg hdup] at hok ⊢
    have hf := User.AfterSave_frame env { u with Updated := env.now.Unix }
      { tx with users := tx.users.map (fun r =>
          if r.Id = u.Id then { u with Updated := env.now.Unix } else r) }
    refine ⟨rfl, hf.1, hf.2.2.1, hf.2.1, ?_⟩
    intro r hr hne heq
    exact hdup (List.any_eq_true.mpr ⟨r, hr, by simp [hne, heq]⟩)

theorem DB.FirstOrCreateUser_found (env : Env) (db : DB) (email : GoString) (admin : Bool)
    (x : User) (he : email ≠ []) (hx : x ∈ db.users) (hxe : x.Email = email)
    (huniq : ∀ y ∈ db.users, y.Email = email → y = x) :
    db.FirstOrCreateUser env email admin {} = (none, x, db) := by
  unfold DB.FirstOrCreateUser
  have hmem : x ∈ db.users.filter (fun r =>
      decide ((email = [] ∨ r.Email = email) ∧ (({} : User).Id = [] ∨ r.Id = ({} : User).Id))) :=
    List.mem_filter.mpr ⟨hx, by simp [hxe]⟩
  obtain ⟨m, hm⟩ := firstByPk_isSome User.Id _ (List.ne_nil_of_mem hmem)
  have hm2 := List.mem_filter.mp (firstByPk_mem _ _ _ hm)
  have hme : m.Email = email := by
    have := hm2.2
    simp [he] at this
    exact this
  have hmx : m = x := huniq m hm2.1 hme
  rw [hm, hmx]

/-- An insert into `users` is refused when the `Email` is taken. -/
theorem DB.CreateUser_email_taken (env : Env) (tx : DB) (u : User)
    (h : ∃ r ∈ tx.users, r.Email = u.Email) : (tx.CreateUser env u).1 ≠ none := by
  obtain ⟨r, hr, hre⟩ := h
  unfold DB.CreateUser User.BeforeCreate
  by_cases hid : u.Id = []
  · simp only [hid, if_true]
    split
    · simp
    · have hany : (tx.users.any fun r => decide (r.Email = u.Email)) = true :=
        List.any_eq_true.mpr ⟨r, hr, by simpa using hre⟩
      simp only at hany ⊢
      rw [if_pos hany]
      simp
  · simp only [hid, if_false]
    split
    · simp
    · have hany : (tx.users.any fun r => decide (r.Email = u.Email)) = true :=
        List.any_eq_true.mpr ⟨r, hr, by simpa using hre⟩
      simp only at hany ⊢
      rw [if_pos hany]
      simp

theorem users_overwrite_self (l : List User) (x : User) (hu : (l.map User.Id).Nodup)
    (hx : x ∈ l) : l.map (fun r => if r.Id = x.Id then x else r) = l := by
  conv_rhs => rw [← List.map_id l]
  apply List.map_congr_left
  intro r hr
  by_cases h : r.Id = x.Id
  · simp [h, List.inj_on_of_nodup_map hu hr hx h]
  · simp [h]

/-- What the password step does to a user row that is there. -/
theorem Source.CreateUser.setPassword_existing (env : Env) (db : DB) (x : User)
    (password : GoString) (hx : x ∈ db.users) (hkeys : db.userKeysUnique)
    (hok : (Source.CreateUser.setPassword env db x password).1 = none) :
    ∃ x', (Source.CreateUser.setPassword env db x password).2.1 = x' ∧
      x'.Id = x.Id ∧ x'.Email = x.Email ∧ x'.Admin = x.Admin ∧
      (password = [] → x' = x) ∧
      (password ≠ [] → env.GenerateFromPassword password = some x'.Password) ∧
      (Source.CreateUser.setPassword env db x password).2.2.users =
        db.users.map (fun r => if r.Id = x.Id then x' else r) ∧
      (Source.CreateUser.setPassword env db x password).2.2.users_sources = db.users_sources ∧
      (Source.CreateUser.setPassword env db x password).2.2.sources = db.sources := by
  unfold Source.CreateUser.setPassword at hok ⊢
  by_cases hp : password = []
  · subst hp
    rw [if_neg (not_not.mpr rfl)]
    exact ⟨x, rfl, rfl, rfl, rfl, fun _ => rfl, fun h => absurd rfl h,
      (users_overwrite_self _ x hkeys hx).symm, rfl, rfl⟩
  · rw [if_pos hp] at hok ⊢
    cases hg : env.GenerateFromPassword password with
    | none =>
      rw [hg] at hok
      exact absurd hok (by simp)
    | some h =>
      rw [hg] at hok
      simp only at hok ⊢
      have hid : x.Id ≠ [] := by
        intro hid
        have hsave : db.SaveUser env { x with Password := h } =
            db.CreateUser env { x with Password := h } := by
          unfold DB.SaveUser
          rw [if_pos hid]
        rw [hsave] at hok
        exact DB.CreateUser_email_taken env db { x with Password := h } ⟨x, hx, rfl⟩ hok
      obtain ⟨s1, s2, s3, s4, -⟩ := DB.SaveUser_existing env db { x with Password := h } hid
        ⟨x, hx, rfl⟩ hok
      refine ⟨{ x with Password := h, Updated := env.now.Unix }, s1, rfl, rfl, rfl,
        fun hp' => absurd hp' hp, fun _ => rfl, s2, s3, s4⟩

/-- What the association step leaves: the join row of the user and the source,
exactly once, next to the rows that were there. -/
theorem Source.CreateUser.associate_spec (env : Env) (s : Source) (tx : DB) (user : User)
    (hs : s.Id ≠ []) (hjoin : tx.users_sources.Nodup) :
    (Source.CreateUser.associate env s tx user).2.1.Id = s.Id ∧
    (Source.CreateUser.associate env s tx user).2.2.users = tx.users ∧
    (Source.CreateUser.associate env s tx user).2.2.users_sources.Nodup ∧
    (Source.CreateUser.associate env s tx user).2.2.users_sources.count ⟨user.Id, s.Id⟩ = 1 ∧
    (∀ a ∈ tx.users_sources, a ∈ (Source.CreateUser.associate env s tx user).2.2.users_sources) ∧
    (∀ a ∈ (Source.CreateUser.associate env s tx user).2.2.users_sources,
      a ∈ tx.users_sources ∨ a = ⟨user.Id, s.Id⟩) ∧
    (∀ src ∈ tx.sources, src ∈ (Source.CreateUser.associate env s tx user).2.2.sources) := by
  unfold Source.CreateUser.associate
  by_cases hc : tx.CountSources user { Id := s.Id } = 0
  · rw [if_pos hc]
    obtain ⟨a1, a2, a3, a4⟩ := DB.AppendSource_spec env tx user s hs
    refine ⟨a1, a2, ?_, ?_, ?_, ?_, a4⟩
    all_goals rw [a3]
    all_goals by_cases hj : (⟨user.Id, s.Id⟩ : UserSource) ∈ tx.users_sources
    · rw [if_pos hj]; exact hjoin
    · rw [if_neg hj]
      exact List.Nodup.append hjoin (List.nodup_singleton _)
        (by simpa [List.disjoint_singleton] using hj)
    · rw [if_pos hj]; exact List.count_eq_one_of_mem hjoin hj
    · rw [if_neg hj]
      exact List.count_eq_one_of_mem
        (List.Nodup.append hjoin (List.nodup_singleton _)
          (by simpa [List.disjoint_singleton] using hj)) (by simp)
    · rw [if_pos hj]; exact fun a ha => ha
    · rw [if_neg hj]; exact fun a ha => List.mem_append_left _ ha
    · rw [if_pos hj]; exact fun a ha => Or.inl ha
    · rw [if_neg hj]
      intro a ha
      rcases List.mem_append.mp ha with h | h
      · exact Or.inl h
      · exact Or.inr (by simpa using h)
  · rw [if_neg hc]
    have hj := DB.CountSources_ne_zero tx user s.Id hs hc
    exact ⟨rfl, rfl, hjoin, List.count_eq_one_of_mem hjoin hj, fun a ha => ha,
      fun a ha => Or.inl ha, fun src h => h⟩

/-- The user struct behind the pointer after the last step of `CreateUser`: as
it was, or with `Updated` rewritten by `Append`. -/
theorem Source.CreateUser.associate_user (env : Env) (s : Source) (tx : DB) (user : User) :
    (Source.CreateUser.associate env s tx user).1 = user ∨
    (Source.CreateUser.associate env s tx user).1 = { user with Updated := env.now.Unix } := by
  unfold Source.CreateUser.associate
  by_cases hc : tx.CountSources user { Id := s.Id } = 0
  · rw [if_pos hc]
    right
    by_cases hs : s.Id = [] <;> simp [DB.AppendSource, Source.BeforeCreate, hs]
  · rw [if_neg hc]
    exact Or.inl rfl

/-- The last step of `CreateUser` leaves every field of the user struct but
`Updated` as it was. -/
theorem Source.CreateUser.associate_fields (env : Env) (s : Source) (tx : DB) (user : User) :
    (Source.CreateUser.associate env s tx user).1.Id = user.Id ∧
    (Source.CreateUser.associate env s tx user).1.Email = user.Email ∧
    (Source.CreateUser.associate env s tx user).1.Password = user.Password ∧
    (Source.CreateUser.associate env s tx user).1.Admin = user.Admin ∧
    (Source.CreateUser.associate env s tx user).1.Created = user.Created := by
  rcases Source.CreateUser.associate_user env s tx user with h | h <;> rw [h] <;>
    exact ⟨rfl, rfl, rfl, rfl, rfl⟩

theorem Source.CreateUser_of_steps (env : Env) (s : Source) (db : DB) (user : User)
    (email password : GoString) (admin : Bool) (x x1 : User) (tx0 tx1 : DB)
    (hfound : db.FirstOrCreateUser env email admin user = (none, x, tx0))
    (hsp : Source.CreateUser.setPassword env tx0 x password = (none, x1, tx1)) :
    s.CreateUser env db user email password admin =
      (none, Source.CreateUser.associate env s tx1 x1) := by
  simp only [Source.CreateUser, Source.CreateUser.body, hfound, hsp]

theorem Source.CreateUser_of_failed_save (env : Env) (s : Source) (db : DB) (user : User)
    (email password : GoString) (admin : Bool) (x x1 : User) (tx0 tx1 : DB) (e : String)
    (hfound : db.FirstOrCreateUser env email admin user = (none, x, tx0))
    (hsp : Source.CreateUser.setPassword env tx0 x password = (some e, x1, tx1)) :
    s.CreateUser env db user email password admin = (some e, x1, s, db.rollback tx1) := by
  simp only [Source.CreateUser, Source.CreateUser.body, hfound, hsp]

theorem Source.CreateUser_of_failed_find (env : Env) (s : Source) (db : DB) (user : User)
    (email password : GoString) (admin : Bool) (x : User) (tx0 : DB) (e : String)
    (hfound : db.FirstOrCreateUser env email admin user = (some e, x, tx0)) :
    s.CreateUser env db user email password admin = (some e, x, s, db.rollback tx0) := by
  simp only [Source.CreateUser, Source.CreateUser.body, hfound]

/-- A successful `CreateUser` for an email that has its user: the row is kept
(with the new hash when a password is given), no row is added, and the user is
tied to the source exactly once. -/
theorem Source.CreateUser_existing (env : Env) (s : Source) (db : DB) (x : User)
    (email password : GoString) (admin : Bool)
    (hs : s.Id ≠ []) (he : email ≠ []) (hx : x ∈ db.users) (hxe : x.Email = email)
    (huniq : ∀ y ∈ db.users, y.Email = email → y = x) (hkeys : db.userKeysUnique)
    (hjoin : db.users_sources.Nodup)
    (hok : (s.CreateUser env db {} email password admin).1 = none) :
    ∃ x', ((s.CreateUser env db {} email password admin).2.1 = x' ∨
        (s.CreateUser env db {} email password admin).2.1 =
          { x' with Updated := env.now.Unix }) ∧
      x' ∈ (s.CreateUser env db {} email password admin).2.2.2.users ∧
      x'.Id = x.Id ∧ x'.Email = email ∧ x'.Admin = x.Admin ∧ (password = [] → x' = x) ∧
      (password ≠ [] → env.GenerateFromPassword password = some x'.Password) ∧
      (s.CreateUser env db {} email password admin).2.2.2.users =
        db.users.map (fun r => if r.Id = x.Id then x' else r) ∧
      (s.CreateUser env db {} email password admin).2.2.1.Id = s.Id ∧
      (s.CreateUser env db {} email password admin).2.2.2.users_sources.Nodup ∧
      (s.CreateUser env db {} email password admin).2.2.2.users_sources.count
        ⟨x.Id, s.Id⟩ = 1 ∧
      (∀ a ∈ db.users_sources,
        a ∈ (s.CreateUser env db {} email password admin).2.2.2.users_sources) ∧
      (∀ a ∈ (s.CreateUser env db {} email password admin).2.2.2.users_sources,
        a ∈ db.users_sources ∨ a = ⟨x.Id, s.Id⟩) ∧
      (∀ src ∈ db.sources, src ∈ (s.CreateUser env db {} email password admin).2.2.2.sources) := by
  have hfound := DB.FirstOrCreateUser_found env db email admin x he hx hxe huniq
  rcases hsp : Source.CreateUser.setPassword env db x password with ⟨e, x1, tx1⟩
  cases e with
  | some e =>
    rw [Source.CreateUser_of_failed_save env s db {} email password admin x x1 db tx1 e hfound
      hsp] at hok
    exact absurd hok (by simp)
  | none =>
    rw [Source.CreateUser_of_steps env s db {} email password admin x x1 db tx1 hfound hsp]
    simp only
    obtain ⟨x', p1, p2, p3, p4, p5, p6, p7, p8, p9⟩ :=
      Source.CreateUser.setPassword_existing env db x password hx hkeys (by rw [hsp])
    rw [hsp] at p1 p7 p8 p9
    simp only at p1 p7 p8 p9
    subst p1
    have hj1 : tx1.users_sources.Nodup := by rw [p8]; exact hjoin
    obtain ⟨a1, a2, a3, a4, a5, a6, a7⟩ :=
      Source.CreateUser.associate_spec env s tx1 x1 hs hj1
    rw [p2] at a4 a6
    rw [p8] at a5 a6
    refine ⟨x1, Source.CreateUser.associate_user env s tx1 x1, ?_, p2, p3.trans hxe, p4, p5, p6,
      by rw [a2, p7], a1, a3, a4, a5, a6, fun src h => a7 src (by rw [p9]; exact h)⟩
    rw [a2, p7]
    exact List.mem_map.mpr ⟨x, hx, by simp⟩

theorem users_with_email_one (l : List User) (x : User) (email : GoString)
    (hnodup : (l.map User.Id).Nodup) (hx : x ∈ l) (hxe : x.Email = email)
    (huniq : ∀ y ∈ l, y.Email = email → y = x) :
    (l.filter (fun u => decide (u.Email = email))).length = 1 := by
  have hnd : (l.filter (fun u => decide (u.Email = email))).Nodup :=
    (List.Nodup.of_map _ hnodup).filter _
  have hmem : x ∈ l.filter (fun u => decide (u.Email = email)) :=
    List.mem_filter.mpr ⟨hx, by simpa using hxe⟩
  have hall : ∀ b ∈ l.filter (fun u => decide (u.Email = email)), x = b := by
    intro b hb
    have hb2 := List.mem_filter.mp hb
    exact (huniq b hb2.1 (by simpa using hb2.2)).symm
  rw [← List.count_eq_length.mpr hall]
  exact List.count_eq_one_of_mem hnd hmem

theorem users_overwrite_keys (l : List User) (x' : User) (k : GoString) (hk : x'.Id = k) :
    (l.map (fun r => if r.Id = k then x' else r)).map User.Id = l.map User.Id := by
  rw [List.map_map]
  apply List.map_congr_left
  intro r _
  by_cases h : r.Id = k
  · simp [h, hk]
  · simp [h]

theorem Source.CreateUser.times_succ (env : Env) (email password : GoString) (admin : Bool)
    (n : Nat) (s s' : Source) (db db' : DB) (u : User)
    (h : s.CreateUser env db {} email password admin = (none, u, s', db')) :
    Source.CreateUser.times env email password admin (n + 1) s db =
      Source.CreateUser.times env email password admin n s' db' := by
  simp only [Source.CreateUser.times, h]

theorem Source.CreateUser.times_fail (env : Env) (email password : GoString) (admin : Bool)
    (n : Nat) (s s' : Source) (db db' : DB) (u : User) (e : String)
    (h : s.CreateUser env db {} email password admin = (some e, u, s', db')) :
    Source.CreateUser.times env email password admin (n + 1) s db = (some e, s', db') := by
  simp only [Source.CreateUser.times, h]

/-- However often the call is repeated for an email that has its user, the
users keep their number and primary keys, one user has the email, and the
user is tied to the source exactly once. -/
theorem Source.CreateUser.times_existing (env : Env) (email password : GoString)
    (admin : Bool) (he : email ≠ []) (n : Nat) :
    ∀ (s : Source) (db : DB) (x : User), s.Id ≠ [] → x ∈ db.users → x.Email = email →
      (∀ y ∈ db.users, y.Email = email → y = x) → db.userKeysUnique →
      db.users_sources.Nodup →
      (Source.CreateUser.times env email password admin (n + 1) s db).1 = none →
      (Source.CreateUser.times env email password admin (n + 1) s db).2.2.users.map User.Id =
        db.users.map User.Id ∧
      ((Source.CreateUser.times env email password admin (n + 1) s db).2.2.users.filter
        (fun u => decide (u.Email = email))).length = 1 ∧
      (Source.CreateUser.times env email password admin (n + 1) s db).2.2.users_sources.count
        ⟨x.Id, s.Id⟩ = 1 := by
  induction n with
  | zero =>
    intro s db x hs hx hxe huniq hkeys hjoin hok
    rcases hc : s.CreateUser env db {} email password admin with ⟨e, u, s', db'⟩
    cases e with
    | some e =>
      rw [Source.CreateUser.times_fail env email password admin 0 s s' db db' u e hc] at hok
      exact absurd hok (by simp)
    | none =>
      rw [Source.CreateUser.times_succ env email password admin 0 s s' db db' u hc]
      obtain ⟨x', -, q2, q3, q4, -, -, -, q8, -, -, q11, -, -, -⟩ :=
        Source.CreateUser_existing env s db x email password admin hs he hx hxe huniq hkeys
          hjoin (by rw [hc])
      rw [hc] at q2 q8 q11
      simp only at q2 q8 q11
      have hids : db'.users.map User.Id = db.users.map User.Id := by
        rw [q8]; exact users_overwrite_keys _ x' x.Id q3
      refine ⟨hids, ?_, q11⟩
      apply users_with_email_one db'.users x' email (by rw [hids]; exact hkeys) q2 q4
      intro y hy hye
      rw [q8] at hy
      obtain ⟨r, hr, rfl⟩ := List.mem_map.mp hy
      by_cases h : r.Id = x.Id
      · simp [h]
      · simp only [h, if_false] at hye ⊢
        exact absurd (congrArg User.Id (huniq r hr hye)) h
  | succ n ih =>
    intro s db x hs hx hxe huniq hkeys hjoin hok
    rcases hc : s.CreateUser env db {} email password admin with ⟨e, u, s', db'⟩
    cases e with
    | some e =>
      rw [Source.CreateUser.times_fail env email password admin (n + 1) s s' db db' u e hc]
        at hok
      exact absurd hok (by simp)
    | none =>
      rw [Source.CreateUser.times_succ env email password admin (n + 1) s s' db db' u hc]
        at hok ⊢
      obtain ⟨x', -, q2, q3, q4, -, -, -, q8, q9, q10, -, -, -, -⟩ :=
        Source.CreateUser_existing env s db x email password admin hs he hx hxe huniq hkeys
          hjoin (by rw [hc])
      rw [hc] at q2 q8 q9 q10
      simp only at q2 q8 q9 q10
      have hids : db'.users.map User.Id = db.users.map User.Id := by
        rw [q8]; exact users_overwrite_keys _ x' x.Id q3
      have huniq' : ∀ y ∈ db'.users, y.Email = email → y = x' := by
        intro y hy hye
        rw [q8] at hy
        obtain ⟨r, hr, rfl⟩ := List.mem_map.mp hy
        by_cases h : r.Id = x.Id
        · simp [h]
        · simp only [h, if_false] at hye ⊢
          exact absurd (congrArg User.Id (huniq r hr hye)) h
      have hkeys' : db'.userKeysUnique := by
        unfold DB.userKeysUnique
        rw [hids]; exact hkeys
      obtain ⟨r1, r2, r3⟩ := ih s' db' x' (by rw [q9]; exact hs) q2 q4 huniq' hkeys' q10 hok
      rw [q3, q9] at r3
      exact ⟨r1.trans hids, r2, r3⟩

/-- For a source with a primary key and a non-empty email that
exactly one user `x` of the store has (primary keys and join rows without
duplicates), a successful `CreateUser` returns that user, adds no user row
(the rows keep their primary keys, one of them has the email) and leaves the
join row of `x` and the source exactly once; so does any number of repeated
calls. -/
theorem CreateUser_existing_user_once (env : Env) (s : Source) (db : DB) (x : User)
    (email password : GoString) (admin : Bool)
    (hs : s.Id ≠ []) (he : email ≠ []) (hx : x ∈ db.users) (hxe : x.Email = email)
    (huniq : ∀ y ∈ db.users, y.Email = email → y = x) (hkeys : db.userKeysUnique)
    (hjoin : db.users_sources.Nodup) :
    ((s.CreateUser env db {} email password admin).1 = none →
      (s.CreateUser env db {} email password admin).2.1.Id = x.Id ∧
      (s.CreateUser env db {} email password admin).2.2.2.users.length = db.users.length) ∧
    (∀ n : Nat,
      (Source.CreateUser.times env email password admin (n + 1) s db).1 = none →
      (Source.CreateUser.times env email password admin (n + 1) s db).2.2.users.map User.Id =
        db.users.map User.Id ∧
      ((Source.CreateUser.times env email password admin (n + 1) s db).2.2.users.filter
        (fun u => decide (u.Email = email))).length = 1 ∧
      (Source.CreateUser.times env email password admin (n + 1) s db).2.2.users_sources.count
        ⟨x.Id, s.Id⟩ = 1) := by
  refine ⟨?_, ?_⟩
  · intro hok
    obtain ⟨x', q1, -, q3, -, -, -, -, q8, -⟩ :=
      Source.CreateUser_existing env s db x email password admin hs he hx hxe huniq hkeys
        hjoin hok
    refine ⟨?_, ?_⟩
    · rcases q1 with h | h <;> rw [h] <;> exact q3
    · rw [q8, List.length_map]
  · intro n hok
    exact Source.CreateUser.times_existing env email password admin he n s db x hs hx hxe
      huniq hkeys hjoin hok

/-- Three calls for `zoe` on the directory store leave her one row and one tie
to the Okta source. -/
theorem CreateUser_existing_user_once_witness :
    (Source.CreateUser.times sampleEnv (str "zoe@example.com") [] false 3 oktaSource
      directoryStore).2.2.users.map User.Id = directoryStore.users.map User.Id ∧
    ((Source.CreateUser.times sampleEnv (str "zoe@example.com") [] false 3 oktaSource
      directoryStore).2.2.users.filter
        (fun u => decide (u.Email = str "zoe@example.com"))).length = 1 ∧
    (Source.CreateUser.times sampleEnv (str "zoe@example.com") [] false 3 oktaSource
      directoryStore).2.2.users_sources.count ⟨zoe.Id, oktaSource.Id⟩ = 1 :=
  (CreateUser_existing_user_once sampleEnv oktaSource directoryStore zoe
    (str "zoe@example.com") [] false (by decide) (by decide) (by decide) (by decide)
    (by decide) (by decide) (by decide)).2 2 (by decide)

/-- C11, the divergence: on `strayStore` a user with the empty email exists,
yet `CreateUser` with the empty email for the built-in source looks up without
a condition (gorm drops the zero-valued `Email` of the struct condition),
returns `ann` and ties her to the source; the user with the empty email, for
whom the docstring of `CreateUser` promises the association, is not tied to
the source on return. -/
theorem CreateUser_empty_email_ties_another :
    (∃ u ∈ strayStore.users, u.Email = [] ∧ u.Id = str "zzzzzzzzzzzz") ∧
    (Source.CreateUser sampleEnv { Id := str "infra-0", Type_ := str "infra" } strayStore {} []
      [] false).1 = none ∧
    (Source.CreateUser sampleEnv { Id := str "infra-0", Type_ := str "infra" } strayStore {} []
      [] false).2.1.Email = str "ann@example.com" ∧
    (⟨str "zzzzzzzzzzzz", str "infra-0"⟩ : UserSource) ∉
      (Source.CreateUser sampleEnv { Id := str "infra-0", Type_ := str "infra" } strayStore {} []
        [] false).2.2.2.users_sources ∧
    (⟨str "AAAAAAAAAAAA", str "infra-0"⟩ : UserSource) ∈
      (Source.CreateUser sampleEnv { Id := str "infra-0", Type_ := str "infra" } strayStore {} []
        [] false).2.2.2.users_sources := by
  decide

/-! ## Passwords -/

/-- A successful insert into `users` returns the row it has inserted, which
copies every column but `Id` and the timestamps, and which is still there if
applying the configured permissions does not write `users`. -/
theorem DB.CreateUser_ok (env : Env) (tx : DB) (u : User)
    (hok : (tx.CreateUser env u).1 = none) :
    (tx.CreateUser env u).2.1.Password = u.Password ∧
    (tx.CreateUser env u).2.1.Email = u.Email ∧
    (tx.CreateUser env u).2.1.Admin = u.Admin ∧
    ((∀ t, (env.ApplyPermissions t).2.users = t.users) →
      (tx.CreateUser env u).2.2.users = tx.users ++ [(tx.CreateUser env u).2.1]) := by
  unfold DB.CreateUser User.BeforeCreate at hok ⊢
  by_cases hid : u.Id = []
  · simp only [hid, if_true] at hok ⊢
    split at hok
    · exact absurd hok (by simp)
    · rename_i h1
      rw [if_neg h1]
      split at hok
      · exact absurd hok (by simp)
      · rename_i h2
        rw [if_neg h2]
        refine ⟨rfl, rfl, rfl, ?_⟩
        intro hperm
        simp only [User.AfterCreate]
        rw [(User.AfterSave_frame env _ _).1, hperm]
  · simp only [hid, if_false] at hok ⊢
    split at hok
    · exact absurd hok (by simp)
    · rename_i h1
      rw [if_neg h1]
      split at hok
      · exact absurd hok (by simp)
      · rename_i h2
        rw [if_neg h2]
        refine ⟨rfl, rfl, rfl, ?_⟩
        intro hperm
        simp only [User.AfterCreate]
        rw [(User.AfterSave_frame env _ _).1, hperm]

/-- A successful `Save` on `users` returns the row with the password it was
given, and the row is in the table if applying the configured permissions
does not write `users`. -/
theorem DB.SaveUser_ok (env : Env) (tx : DB) (u : User)
    (hperm : ∀ t, (env.ApplyPermissions t).2.users = t.users)
    (hok : (tx.SaveUser env u).1 = none) :
    (tx.SaveUser env u).2.1.Password = u.Password ∧
    (tx.SaveUser env u).2.1 ∈ (tx.SaveUser env u).2.2.users := by
  unfold DB.SaveUser at hok ⊢
  by_cases hid : u.Id = []
  · rw [if_pos hid] at hok ⊢
    obtain ⟨c1, -, -, c4⟩ := DB.CreateUser_ok env tx u hok
    exact ⟨c1, by rw [c4 hperm]; simp⟩
  · rw [if_neg hid] at hok ⊢
    simp only at hok ⊢
    by_cases hany : (tx.users.any fun r => decide (r.Id = u.Id)) = true
    · rw [if_pos hany] at hok ⊢
      by_cases hdup : (tx.users.any fun r => decide (r.Id ≠ u.Id ∧ r.Email = u.Email)) = true
      · rw [if_pos hdup] at hok
        exact absurd hok (by simp)
      · rw [if_neg hdup]
        refine ⟨rfl, ?_⟩
        simp only
        rw [(User.AfterSave_frame env _ _).1]
        obtain ⟨r, hr, hrid⟩ := List.any_eq_true.mp hany
        have hrid' : r.Id = u.Id := by simpa using hrid
        exact List.mem_map.mpr ⟨r, hr, by simp [hrid']⟩
    · rw [if_neg hany] at hok ⊢
      rcases hs : User.AfterSave env { u with Updated := env.now.Unix } tx with ⟨e, tx1⟩
      rw [hs] at hok
      cases e with
      | some e => exact absurd hok (by simp)
      | none =>
        simp only at hok ⊢
        obtain ⟨c1, -, -, c4⟩ := DB.CreateUser_ok env tx1 _ hok
        exact ⟨c1, by rw [c4 hperm]; simp⟩

theorem DB.AppendSource_users (env : Env) (tx : DB) (user : User) (s : Source) :
    (tx.AppendSource env user s).2.2.2.users = tx.users := by
  unfold DB.AppendSource Source.BeforeCreate
  by_cases hs : s.Id = []
  · simp only [hs, if_true]
    rw [(User.AfterSave_frame env _ _).1]
    split <;> split <;> rfl
  · simp only [hs, if_false]
    rw [(User.AfterSave_frame env _ _).1]
    split <;> split <;> rfl

theorem Source.CreateUser.associate_users (env : Env) (s : Source) (tx : DB) (user : User) :
    (Source.CreateUser.associate env s tx user).2.2.users = tx.users := by
  unfold Source.CreateUser.associate
  split
  · exact DB.AppendSource_users env tx user s
  · rfl

/-- With a non-empty password a successful password step stores the hash. -/
theorem Source.CreateUser.setPassword_hashed (env : Env) (tx : DB) (user : User)
    (password : GoString) (hp : password ≠ [])
    (hperm : ∀ t, (env.ApplyPermissions t).2.users = t.users)
    (hok : (Source.CreateUser.setPassword env tx user password).1 = none) :
    env.GenerateFromPassword password =
      some (Source.CreateUser.setPassword env tx user password).2.1.Password ∧
    (Source.CreateUser.setPassword env tx user password).2.1 ∈
      (Source.CreateUser.setPassword env tx user password).2.2.users := by
  unfold Source.CreateUser.setPassword at hok ⊢
  rw [if_pos hp] at hok ⊢
  cases hg : env.GenerateFromPassword password with
  | none =>
    rw [hg] at hok
    exact absurd hok (by simp)
  | some h =>
    rw [hg] at hok
    simp only at hok ⊢
    obtain ⟨c1, c2⟩ := DB.SaveUser_ok env tx { user with Password := h } hperm hok
    exact ⟨by rw [c1], c2⟩

/-- C12: with a non-empty password a successful `CreateUser` returns and
stores a user whose `Password` is what `bcrypt.GenerateFromPassword` made of
the password (which verifies against the password, and differs from it, as far
as bcrypt does what it promises; the stored row is found as long as applying
the configured permissions does not write `users`, and the user returned is
that row, up to the `Updated` that `Append` rewrites on the struct); when
hashing fails the call fails, with "could not create user" once the user was
found or created, and the transaction restores every table; with an empty
password nothing is written to `users` after the user was found or created,
and the user returned is the one found or created, up to `Updated`. -/
theorem CreateUser_password_hashed (env : Env) (s : Source) (db : DB) (user : User)
    (email password : GoString) (admin : Bool) :
    (password ≠ [] → (∀ t, (env.ApplyPermissions t).2.users = t.users) →
      (s.CreateUser env db user email password admin).1 = none →
      env.GenerateFromPassword password =
        some (s.CreateUser env db user email password admin).2.1.Password ∧
      (∃ r ∈ (s.CreateUser env db user email password admin).2.2.2.users,
        env.GenerateFromPassword password = some r.Password ∧
        ((s.CreateUser env db user email password admin).2.1 = r ∨
          (s.CreateUser env db user email password admin).2.1 =
            { r with Updated := env.now.Unix })) ∧
      ((∀ h, env.GenerateFromPassword password = some h →
          env.CompareHashAndPassword h password = true) →
        env.CompareHashAndPassword
          (s.CreateUser env db user email password admin).2.1.Password password = true) ∧
      ((∀ h, env.GenerateFromPassword password = some h → h ≠ password) →
        (s.CreateUser env db user email password admin).2.1.Password ≠ password)) ∧
    (password ≠ [] → env.GenerateFromPassword password = none →
      (s.CreateUser env db user email password admin).1 ≠ none ∧
      (s.CreateUser env db user email password admin).2.2.2 =
        db.rollback (s.CreateUser env db user email password admin).2.2.2 ∧
      (s.CreateUser env db user email password admin).2.2.2.users = db.users ∧
      ((db.FirstOrCreateUser env email admin user).1 = none →
        (s.CreateUser env db user email password admin).1 = some "could not create user")) ∧
    (password = [] → (s.CreateUser env db user email password admin).1 = none →
      ((s.CreateUser env db user email password admin).2.1 =
          (db.FirstOrCreateUser env email admin user).2.1 ∨
        (s.CreateUser env db user email password admin).2.1 =
          { (db.FirstOrCreateUser env email admin user).2.1 with Updated := env.now.Unix }) ∧
      (s.CreateUser env db user email password admin).2.2.2.users =
        (db.FirstOrCreateUser env email admin user).2.2.users) := by
  rcases hf : db.FirstOrCreateUser env email admin user with ⟨e0, x, tx0⟩
  cases e0 with
  | some e0 =>
    rw [Source.CreateUser_of_failed_find env s db user email password admin x tx0 e0 hf]
    refine ⟨fun _ _ h => absurd h (by simp), fun _ _ => ⟨by simp, rfl, rfl, ?_⟩,
      fun _ h => absurd h (by simp)⟩
    intro h
    exact absurd h (by simp)
  | none =>
    rcases hsp : Source.CreateUser.setPassword env tx0 x password with ⟨e1, x1, tx1⟩
    cases e1 with
    | some e1 =>
      rw [Source.CreateUser_of_failed_save env s db user email password admin x x1 tx0 tx1 e1
        hf hsp]
      refine ⟨fun _ _ h => absurd h (by simp), fun hp hg => ⟨by simp, rfl, rfl, fun _ => ?_⟩,
        fun _ h => absurd h (by simp)⟩
      have he : (Source.CreateUser.setPassword env tx0 x password).1 =
          some "could not create user" := by
        unfold Source.CreateUser.setPassword
        rw [if_pos hp, hg]
      rw [hsp] at he
      simp only at he ⊢
      rw [he]
    | none =>
      rw [Source.CreateUser_of_steps env s db user email password admin x x1 tx0 tx1 hf hsp]
      have hpw := (Source.CreateUser.associate_fields env s tx1 x1).2.2.1
      refine ⟨?_, ?_, ?_⟩
      · intro hp hperm _
        obtain ⟨g1, g2⟩ := Source.CreateUser.setPassword_hashed env tx0 x password hp hperm
          (by rw [hsp])
        rw [hsp] at g1 g2
        simp only at g1 g2 ⊢
        rw [hpw]
        refine ⟨g1, ⟨x1, ?_, g1, Source.CreateUser.associate_user env s tx1 x1⟩,
          fun hc => hc _ g1, fun hn => hn _ g1⟩
        rw [Source.CreateUser.associate_users]
        exact g2
      · intro hp hg
        have he : (Source.CreateUser.setPassword env tx0 x password).1 =
            some "could not create user" := by
          unfold Source.CreateUser.setPassword
          rw [if_pos hp, hg]
        rw [hsp] at he
        exact absurd he (by simp)
      · intro hp _
        have h0 : Source.CreateUser.setPassword env tx0 x password = (none, x, tx0) := by
          unfold Source.CreateUser.setPassword
          rw [if_neg (not_not.mpr hp)]
        rw [hsp] at h0
        simp only [Prod.mk.injEq, true_and] at h0
        obtain ⟨rfl, rfl⟩ := h0
        exact ⟨Source.CreateUser.associate_user env s tx1 x1,
          Source.CreateUser.associate_users env s tx1 x1⟩

/-! ## `Source.DeleteUser` -/

theorem Source.DeleteUser_of_found (s : Source) (db : DB) (u x : User)
    (hfound : firstByPk User.Id (db.users.filter (fun r =>
      decide (u.Email = [] ∨ r.Email = u.Email))) = some x) :
    s.DeleteUser db u =
      (if (db.DeleteSource x s).2.CountSources x {} = 0 then (db.DeleteSource x s).2.DeleteUser x
       else (none, (db.DeleteSource x s).2)) := by
  simp only [Source.DeleteUser, hfound, DB.DeleteSource]
  split
  · split <;> simp_all
  · rfl

theorem Source.DeleteUser_of_missing (s : Source) (db : DB) (u : User)
    (hfound : firstByPk User.Id (db.users.filter (fun r =>
      decide (u.Email = [] ∨ r.Email = u.Email))) = none) :
    s.DeleteUser db u = (some "record not found", db) := by
  simp only [Source.DeleteUser, hfound]

/-- A successful `Delete` on `users` removes the rows with the primary key,
after the cascade of `BeforeDelete`. -/
theorem DB.DeleteUser_ok (tx : DB) (x : User) (hok : (tx.DeleteUser x).1 = none) :
    x.Id ≠ [] ∧
    (tx.DeleteUser x).2.users = tx.users.filter (fun r => !decide (r.Id = x.Id)) ∧
    (tx.DeleteUser x).2.users_sources =
      tx.users_sources.filter (fun a => !decide (a.UserId = x.Id)) := by
  by_cases hid : x.Id = []
  · have hfail : (tx.DeleteUser x).1 ≠ none := by
      have hb : (User.BeforeDelete x tx).1 = some "primary key required" := by
        simp [User.BeforeDelete, DB.ClearSources, hid]
      unfold DB.DeleteUser
      rcases hbd : User.BeforeDelete x tx with ⟨e, tx1⟩
      rw [hbd] at hb
      simp only at hb
      subst hb
      simp
    exact absurd hok hfail
  · refine ⟨hid, ?_⟩
    unfold DB.DeleteUser
    rw [User.BeforeDelete_eq x tx hid]
    simp only
    rw [if_neg hid]
    exact ⟨rfl, rfl⟩

/-- C13: when `DeleteUser` succeeds for the user `x` its lookup by `u.Email`
finds, and the source has a primary key, `x` is no longer tied to the source;
if `x` was tied to no other source, no row with the primary key of `x` is left
in `users`; if `x` is tied to another source of the store, `users` is
unchanged and `users_sources` has lost the row of `x` and the source only. -/
theorem DeleteUser_drops_association (s : Source) (db : DB) (u x : User) (hs : s.Id ≠ [])
    (hfound : firstByPk User.Id (db.users.filter (fun r =>
      decide (u.Email = [] ∨ r.Email = u.Email))) = some x)
    (hok : (s.DeleteUser db u).1 = none) :
    (x ∈ db.users ∧ (u.Email = [] ∨ x.Email = u.Email)) ∧
    (⟨x.Id, s.Id⟩ : UserSource) ∉ (s.DeleteUser db u).2.users_sources ∧
    ((∀ a ∈ db.users_sources, a.UserId = x.Id → a.SourceId = s.Id) →
      ∀ r ∈ (s.DeleteUser db u).2.users, r.Id ≠ x.Id) ∧
    ((∃ src ∈ db.sources, src.Id ≠ s.Id ∧ (⟨x.Id, src.Id⟩ : UserSource) ∈ db.users_sources) →
      (s.DeleteUser db u).2.users = db.users ∧
      (s.DeleteUser db u).2.users_sources =
        db.users_sources.filter (fun a => !decide (a = (⟨x.Id, s.Id⟩ : UserSource))) ∧
      (s.DeleteUser db u).2.sources = db.sources) := by
  have hxm := List.mem_filter.mp (firstByPk_mem _ _ _ hfound)
  refine ⟨⟨hxm.1, by simpa using hxm.2⟩, ?_⟩
  rw [Source.DeleteUser_of_found s db u x hfound] at hok ⊢
  by_cases hc : (db.DeleteSource x s).2.CountSources x {} = 0
  · rw [if_pos hc] at hok ⊢
    obtain ⟨hid, d1, d2⟩ := DB.DeleteUser_ok _ x hok
    refine ⟨?_, ?_, ?_⟩
    · rw [d2]
      intro hmem
      have := (List.mem_filter.mp hmem).2
      simp at this
    · intro _ r hr
      rw [d1] at hr
      have := (List.mem_filter.mp hr).2
      simpa using this
    · rintro ⟨src, hsrc, hne, hj⟩
      exfalso
      have hj' : (⟨x.Id, src.Id⟩ : UserSource) ∈ (db.DeleteSource x s).2.users_sources := by
        simp only [DB.DeleteSource]
        exact List.mem_filter.mpr ⟨hj, by simp [hne]⟩
      have hpair : (src, (⟨x.Id, src.Id⟩ : UserSource)) ∈
          (db.DeleteSource x s).2.userSources x {} := by
        unfold DB.userSources
        rw [if_neg hid]
        rw [List.mem_flatMap]
        refine ⟨src, List.mem_filter.mpr ⟨hsrc, by simp [Source.whereStruct]⟩, ?_⟩
        exact List.mem_map.mpr ⟨_, List.mem_filter.mpr ⟨hj', by simp⟩, rfl⟩
      unfold DB.CountSources at hc
      rw [List.length_eq_zero] at hc
      rw [hc] at hpair
      exact absurd hpair (List.not_mem_nil _)
  · rw [if_neg hc] at hok ⊢
    have hid : x.Id ≠ [] := by
      intro hid
      apply hc
      unfold DB.CountSources DB.userSources
      rw [if_pos hid]
      rfl
    refine ⟨?_, ?_, ?_⟩
    · simp only [DB.DeleteSource]
      intro hmem
      have := (List.mem_filter.mp hmem).2
      simp [hid, hs] at this
    · intro honly
      exfalso
      apply hc
      unfold DB.CountSources DB.userSources
      rw [if_neg hid, List.length_eq_zero]
      apply List.eq_nil_iff_forall_not_mem.mpr
      intro pr hpr
      rw [List.mem_flatMap] at hpr
      obtain ⟨src, -, hmem⟩ := hpr
      obtain ⟨a, ha, -⟩ := List.mem_map.mp hmem
      have ha1 := List.mem_filter.mp ha
      have ha2 : a.SourceId = src.Id ∧ a.UserId = x.Id := by simpa using ha1.2
      simp only [DB.DeleteSource] at ha1
      have ha3 := List.mem_filter.mp ha1.1
      have ha4 := ha3.2
      simp [hid, hs, ha2.2] at ha4
      exact ha4 (honly a ha3.1 ha2.2)
    · intro _
      refine ⟨rfl, ?_, rfl⟩
      simp only [DB.DeleteSource]
      apply List.filter_congr
      intro a _
      cases a
      simp [hid, hs]

/-- On the directory store a new user with the password `pw` is stored with the
prefixed digest of `pw`, a password of 73 bytes makes the call fail with every
table as it was, and without a password `zoe` is returned as she is found,
up to `Updated`. -/
theorem CreateUser_password_hashed_witness :
    (sampleEnv.GenerateFromPassword (str "pw") = some (oktaSource.CreateUser sampleEnv
        directoryStore {} (str "new@example.com") (str "pw") false).2.1.Password ∧
      (∃ r ∈ (oktaSource.CreateUser sampleEnv directoryStore {} (str "new@example.com")
          (str "pw") false).2.2.2.users,
        sampleEnv.GenerateFromPassword (str "pw") = some r.Password ∧
        ((oktaSource.CreateUser sampleEnv directoryStore {} (str "new@example.com") (str "pw")
            false).2.1 = r ∨
          (oktaSource.CreateUser sampleEnv directoryStore {} (str "new@example.com") (str "pw")
            false).2.1 = { r with Updated := sampleEnv.now.Unix })) ∧
      sampleEnv.CompareHashAndPassword (oktaSource.CreateUser sampleEnv directoryStore {}
        (str "new@example.com") (str "pw") false).2.1.Password (str "pw") = true ∧
      (oktaSource.CreateUser sampleEnv directoryStore {} (str "new@example.com") (str "pw")
        false).2.1.Password ≠ str "pw") ∧
    ((oktaSource.CreateUser sampleEnv directoryStore {} (str "new@example.com")
        (List.replicate 73 65) false).1 = some "could not create user" ∧
      (oktaSource.CreateUser sampleEnv directoryStore {} (str "new@example.com")
        (List.replicate 73 65) false).2.2.2.users = directoryStore.users) ∧
    ((oktaSource.CreateUser sampleEnv directoryStore {} (str "zoe@example.com") []
        false).2.1 = (directoryStore.FirstOrCreateUser sampleEnv (str "zoe@example.com")
          false {}).2.1 ∨
      (oktaSource.CreateUser sampleEnv directoryStore {} (str "zoe@example.com") []
        false).2.1 = { (directoryStore.FirstOrCreateUser sampleEnv (str "zoe@example.com")
          false {}).2.1 with Updated := sampleEnv.now.Unix }) := by
  have ha := (CreateUser_password_hashed sampleEnv oktaSource directoryStore {}
    (str "new@example.com") (str "pw") false).1 (by decide) (fun _ => rfl) (by decide)
  have hb := (CreateUser_password_hashed sampleEnv oktaSource directoryStore {}
    (str "new@example.com") (List.replicate 73 65) false).2.1 (by decide) (by decide)
  have hc := (CreateUser_password_hashed sampleEnv oktaSource directoryStore {}
    (str "zoe@example.com") [] false).2.2 rfl (by decide)
  refine ⟨⟨ha.1, ha.2.1, ha.2.2.1 ?_, ha.2.2.2 ?_⟩, ⟨hb.2.2.2 (by decide), hb.2.2.1⟩, ?_⟩
  · intro h hg
    have : h = str "$2a$10$" ++ toyDigest (str "pw") := by
      have h2 : sampleEnv.GenerateFromPassword (str "pw") =
          some (str "$2a$10$" ++ toyDigest (str "pw")) := by decide
      rw [h2] at hg
      exact (Option.some.inj hg).symm
    subst this
    decide
  · intro h hg
    have : h = str "$2a$10$" ++ toyDigest (str "pw") := by
      have h2 : sampleEnv.GenerateFromPassword (str "pw") =
          some (str "$2a$10$" ++ toyDigest (str "pw")) := by decide
      rw [h2] at hg
      exact (Option.some.inj hg).symm
    subst this
    decide
  · exact hc.1

/-- On the directory store the Okta source drops `zoe`, whose only source it
is, and keeps `yan`, who is tied to the built-in source as well. -/
theorem DeleteUser_drops_association_witness :
    (∀ r ∈ (oktaSource.DeleteUser directoryStore zoe).2.users, r.Id ≠ zoe.Id) ∧
    (⟨zoe.Id, oktaSource.Id⟩ : UserSource) ∉
      (oktaSource.DeleteUser directoryStore zoe).2.users_sources ∧
    (oktaSource.DeleteUser directoryStore yan).2.users = directoryStore.users ∧
    (⟨yan.Id, oktaSource.Id⟩ : UserSource) ∉
      (oktaSource.DeleteUser directoryStore yan).2.users_sources := by
  have hz := DeleteUser_drops_association oktaSource directoryStore zoe zoe (by decide)
    (by decide) (by decide)
  have hy := DeleteUser_drops_association oktaSource directoryStore yan yan (by decide)
    (by decide) (by decide)
  exact ⟨hz.2.2.1 (by decide), hz.2.1,
    (hy.2.2.2 ⟨{ Id := str "infra-0", Type_ := str "infra" }, by decide, by decide,
      by decide⟩).1, hy.2.1⟩

/-! ## `Source.SyncUsers` -/

/-- C15, the divergence: on `strayStore` the second loop of `SyncUsers` calls
`DeleteUser` for the user without email, which unties and deletes `ann`, and
then for `ann`, which fails with "record not found"; `SyncUsers` all the same
returns no error and commits a store that differs from the one it was given. -/
theorem SyncUsers_commits_after_failed_delete :
    (Source.SyncUsers.create sampleEnv oktaSource [str "zoe@example.com"] strayStore).1 = none ∧
    (Source.SyncUsers.create sampleEnv oktaSource [str "zoe@example.com"]
        strayStore).2.2.usersNotIn [str "zoe@example.com"] = strayStore.users ∧
    (oktaSource.DeleteUser (oktaSource.DeleteUser (Source.SyncUsers.create sampleEnv oktaSource
        [str "zoe@example.com"] strayStore).2.2 { Id := str "zzzzzzzzzzzz" }).2
      { Id := str "AAAAAAAAAAAA", Email := str "ann@example.com" }).1 =
        some "record not found" ∧
    (oktaSource.SyncUsers sampleEnv strayStore).1 = none ∧
    (oktaSource.SyncUsers sampleEnv strayStore).2.users.map User.Email =
      [[], str "zoe@example.com"] ∧
    (oktaSource.SyncUsers sampleEnv strayStore).2 ≠ strayStore := by
  decide

/-- Whenever `SyncUsers` returns an error, every table is as it was. -/
theorem Source.SyncUsers_error_restores (env : Env) (s : Source) (db : DB) (e : String)
    (h : (s.SyncUsers env db).1 = some e) :
    (s.SyncUsers env db).2 = db.rollback (s.SyncUsers env db).2 := by
  unfold Source.SyncUsers at h ⊢
  by_cases ht : s.Type_ = str "okta"
  · rw [if_pos ht] at h ⊢
    rcases hem : env.Emails s.OktaDomain s.OktaClientId s.OktaApiToken with ⟨emails, err⟩
    rw [hem] at h
    cases err with
    | some e1 => rfl
    | none =>
      simp only [DB.Transaction] at h ⊢
      rcases hc : Source.SyncUsers.create env s emails db with ⟨e1, s1, tx1⟩
      rw [hc] at h
      cases e1 with
      | some e1 => rfl
      | none => exact absurd h (by simp)
  · rw [if_neg ht] at h
    exact absurd h (by simp)

/-! ## Bearer authentication -/

theorem bearerToken_bearer (raw : GoString) :
    bearerToken (some (str "Bearer " ++ raw)) = some raw := by
  have hl : (str "Bearer ").length = 7 := by decide
  simp only [bearerToken]
  rw [if_pos (List.take_left' hl), List.drop_left' hl]

theorem bearerAuthMiddleware_of_none (env : Env) (db : DB) (authorization : Option GoString)
    (h : ∀ raw, bearerToken authorization = some raw → VerifyBearer env db raw = none) :
    bearerAuthMiddleware env db authorization = Outcome.rejected := by
  unfold bearerAuthMiddleware
  cases hb : bearerToken authorization with
  | none => rfl
  | some raw => simp only [h raw hb]

theorem authInterceptor_of_none (env : Env) (db : DB) (policy : GoString → MethodPolicy)
    (fullMethod : GoString) (authorization : Option GoString)
    (hp : (policy fullMethod).anyone = false)
    (h : ∀ raw, bearerToken authorization = some raw → VerifyBearer env db raw = none) :
    authInterceptor env db policy fullMethod authorization = Outcome.rejected := by
  unfold authInterceptor
  rw [hp]
  cases hb : bearerToken authorization with
  | none => rfl
  | some raw => simp only [h raw hb, Bool.false_eq_true, if_false]

/-- A string that is no session token and no API key of the store is not
verified. -/
theorem VerifyBearer_unmatched (env : Env) (db : DB) (raw : GoString)
    (ht : ∀ t ∈ db.tokens, t.Id = raw.take ID_LEN → t.Secret ≠ env.sha256 (raw.drop ID_LEN))
    (hk : ∀ k ∈ db.api_keys, k.Key ≠ raw) : VerifyBearer env db raw = none := by
  unfold VerifyBearer
  split
  · cases hf : firstByPk Token.Id (db.tokens.filter (fun t => decide (t.Id = raw.take ID_LEN)))
      with
    | none => rfl
    | some t =>
      have hm := List.mem_filter.mp (firstByPk_mem _ _ _ hf)
      have hne : t.CheckSecret env (raw.drop ID_LEN) ≠ none := by
        intro hc
        exact ht t hm.1 (by simpa using hm.2) ((Token.CheckSecret_eq_none env t _).mp hc)
      simp only [if_pos hne]
  · split
    · cases hf : firstByPk ApiKey.Id (db.api_keys.filter (fun k => decide (k.Key = raw))) with
      | none => rfl
      | some k =>
        have hm := List.mem_filter.mp (firstByPk_mem _ _ _ hf)
        exact absurd (by simpa using hm.2) (hk k hm.1)
    · rfl

theorem VerifyBearer_wrong_length (env : Env) (db : DB) (raw : GoString)
    (h1 : raw.length ≠ TOKEN_LEN) (h2 : raw.length ≠ API_KEY_LEN) :
    VerifyBearer env db raw = none := by
  unfold VerifyBearer
  rw [if_neg h1, if_neg h2]

/-- The bearer string of a stored token is looked up and checked to the point
where the expiry decides. -/
theorem VerifyBearer_stored (env : Env) (db : DB) (t : Token) (secret : GoString)
    (ht : t ∈ db.tokens) (hu : db.tokenKeysUnique) (hid : t.Id.length = ID_LEN)
    (hs : secret.length = TOKEN_SECRET_LEN) (hd : t.Secret = env.sha256 secret) :
    VerifyBearer env db (t.Id ++ secret) =
      if t.Expires < env.now.Unix then none else some (Credential.token t) := by
  have hlen : (t.Id ++ secret).length = TOKEN_LEN := by
    rw [List.length_append, hid, hs]; rfl
  have htake : (t.Id ++ secret).take ID_LEN = t.Id := List.take_left' hid
  have hdrop : (t.Id ++ secret).drop ID_LEN = secret := List.drop_left' hid
  unfold VerifyBearer
  rw [if_pos hlen, htake, hdrop]
  have hne : db.tokens.filter (fun r => decide (r.Id = t.Id)) ≠ [] := by
    intro h
    have : t ∈ db.tokens.filter (fun r => decide (r.Id = t.Id)) :=
      List.mem_filter.mpr ⟨ht, by simp⟩
    rw [h] at this
    exact absurd this (List.not_mem_nil _)
  obtain ⟨m, hm⟩ := firstByPk_isSome Token.Id _ hne
  have hmm := List.mem_filter.mp (firstByPk_mem _ _ _ hm)
  have hmt : m = t := List.inj_on_of_nodup_map hu hmm.1 ht (by simpa using hmm.2)
  subst hmt
  rw [hm]
  simp only
  rw [if_neg (not_not.mpr ((Token.CheckSecret_eq_none env m secret).mpr hd))]

/-- C4: the verification of a bearer credential fails for every stored session
token whose `Expires` lies in the past: the bearer string made of its `Id` and
any secret of the length of a token secret is refused by `VerifyBearer`, also
when the SHA-256 digest of the secret is the stored `Secret`, in which case the
step `CheckSecret` has passed. -/
theorem VerifyBearer_rejects_expired (env : Env) (db : DB) (t : Token)
    (ht : t ∈ db.tokens) (hu : db.tokenKeysUnique) (hid : t.Id.length = ID_LEN)
    (hexp : t.Expires < env.now.Unix) :
    ∀ secret : GoString, secret.length = TOKEN_SECRET_LEN →
      VerifyBearer env db (t.Id ++ secret) = none ∧
      (env.sha256 secret = t.Secret → t.CheckSecret env secret = none) := by
  intro secret hs
  refine ⟨?_, fun hd => (Token.CheckSecret_eq_none env t secret).mpr hd.symm⟩
  by_cases hd : t.Secret = env.sha256 secret
  · rw [VerifyBearer_stored env db t secret ht hu hid hs hd, if_pos hexp]
  · have hlen : (t.Id ++ secret).length = TOKEN_LEN := by
      rw [List.length_append, hid, hs]; rfl
    have htake : (t.Id ++ secret).take ID_LEN = t.Id := List.take_left' hid
    have hdrop : (t.Id ++ secret).drop ID_LEN = secret := List.drop_left' hid
    have hne : db.tokens.filter (fun r => decide (r.Id = t.Id)) ≠ [] := by
      intro h
      have : t ∈ db.tokens.filter (fun r => decide (r.Id = t.Id)) :=
        List.mem_filter.mpr ⟨ht, by simp⟩
      rw [h] at this
      exact absurd this (List.not_mem_nil _)
    obtain ⟨m, hm⟩ := firstByPk_isSome Token.Id _ hne
    have hmm := List.mem_filter.mp (firstByPk_mem _ _ _ hm)
    have hmt : m = t := List.inj_on_of_nodup_map hu hmm.1 ht (by simpa using hmm.2)
    subst hmt
    have hc : m.CheckSecret env secret ≠ none :=
      fun h => hd ((Token.CheckSecret_eq_none env m secret).mp h)
    unfold VerifyBearer
    rw [if_pos hlen, htake, hdrop, hm]
    simp only
    rw [if_pos hc]

/-- The third token of `sessionStore` expired long before the clock reading of
`sampleEnv`: with its own secret, whose digest is the stored one, the bearer
string is refused although `CheckSecret` passes. -/
theorem VerifyBearer_rejects_expired_witness :
    VerifyBearer sampleEnv sessionStore (oldToken.Id ++ str "s3cr3ts3cr3ts3cr3ts3cr3t") =
      none ∧
    (sampleEnv.sha256 (str "s3cr3ts3cr3ts3cr3ts3cr3t") = oldToken.Secret →
      oldToken.CheckSecret sampleEnv (str "s3cr3ts3cr3ts3cr3ts3cr3t") = none) :=
  VerifyBearer_rejects_expired sampleEnv sessionStore oldToken (by decide) (by decide)
    (by decide) (by decide) (str "s3cr3ts3cr3ts3cr3ts3cr3t") (by decide)

/-- C16 as amended: a call whose authorization value is absent, empty, not of
the form `Bearer <token>`, carries a token whose length is neither `TOKEN_LEN`
nor `API_KEY_LEN`, or carries a token that matches no stored session token and
no stored API key, is rejected by the bearer middleware and, for a method that
is not public, by the auth interceptor; the bearer string made of the `Id` and
the secret of a stored token that has not expired is served by the middleware
and, for a method that takes the tokens of any user, by the interceptor; the
same string is rejected once the token has expired. -/
theorem bearer_rejected_unless_verified (env : Env) (db : DB)
    (policy : GoString → MethodPolicy) (fullMethod : GoString) :
    (∀ authorization : Option GoString,
      (authorization = none ∨ authorization = some [] ∨
        (∃ v, authorization = some v ∧ v.take 7 ≠ str "Bearer ") ∨
        (∃ raw, authorization = some (str "Bearer " ++ raw) ∧
          raw.length ≠ TOKEN_LEN ∧ raw.length ≠ API_KEY_LEN) ∨
        (∃ raw, authorization = some (str "Bearer " ++ raw) ∧
          (∀ t ∈ db.tokens, t.Id = raw.take ID_LEN →
            t.Secret ≠ env.sha256 (raw.drop ID_LEN)) ∧
          (∀ k ∈ db.api_keys, k.Key ≠ raw))) →
      bearerAuthMiddleware env db authorization = Outcome.rejected ∧
      ((policy fullMethod).anyone = false →
        authInterceptor env db policy fullMethod authorization = Outcome.rejected)) ∧
    (∀ (t : Token) (secret : GoString), t ∈ db.tokens → db.tokenKeysUnique →
      t.Id.length = ID_LEN → secret.length = TOKEN_SECRET_LEN →
      t.Secret = env.sha256 secret →
      (env.now.Unix ≤ t.Expires →
        bearerAuthMiddleware env db (some (str "Bearer " ++ (t.Id ++ secret))) =
          Outcome.handled ∧
        ((policy fullMethod).withToken = true → (policy fullMethod).adminOnly = false →
          authInterceptor env db policy fullMethod (some (str "Bearer " ++ (t.Id ++ secret))) =
            Outcome.handled)) ∧
      (t.Expires < env.now.Unix →
        bearerAuthMiddleware env db (some (str "Bearer " ++ (t.Id ++ secret))) =
          Outcome.rejected ∧
        ((policy fullMethod).anyone = false →
          authInterceptor env db policy fullMethod (some (str "Bearer " ++ (t.Id ++ secret))) =
            Outcome.rejected))) := by
  constructor
  · intro authorization h
    have key : ∀ raw, bearerToken authorization = some raw → VerifyBearer env db raw = none := by
      intro raw hb
      rcases h with h | h | ⟨v, h, hv⟩ | ⟨r, h, h1, h2⟩ | ⟨r, h, h1, h2⟩
      · subst h
        simp [bearerToken] at hb
      · subst h
        have h0 : bearerToken (some []) = none := by decide
        rw [h0] at hb
        exact absurd hb (by simp)
      · subst h
        simp only [bearerToken, if_neg hv] at hb
        exact absurd hb (by simp)
      · subst h
        rw [bearerToken_bearer] at hb
        cases hb
        exact VerifyBearer_wrong_length env db _ h1 h2
      · subst h
        rw [bearerToken_bearer] at hb
        cases hb
        exact VerifyBearer_unmatched env db _ h1 h2
    exact ⟨bearerAuthMiddleware_of_none env db authorization key,
      fun hp => authInterceptor_of_none env db policy fullMethod authorization hp key⟩
  · intro t secret ht hu hid hs hd
    have hv := VerifyBearer_stored env db t secret ht hu hid hs hd
    constructor
    · intro hexp
      rw [if_neg (not_lt.mpr hexp)] at hv
      constructor
      · simp only [bearerAuthMiddleware, bearerToken_bearer, hv]
      · intro h1 h2
        simp only [authInterceptor, bearerToken_bearer, hv, h1, h2]
        split <;> simp
    · intro hexp
      rw [if_pos hexp] at hv
      refine ⟨?_, fun hp => ?_⟩
      · simp only [bearerAuthMiddleware, bearerToken_bearer, hv]
      · simp only [authInterceptor, bearerToken_bearer, hv, hp]
        simp

/-- The counterexample to claim C16 as stated: the third token of
`sessionStore` is stored with the digest of its secret, and the bearer string
made of its `Id` and its secret is rejected, because the token has expired. -/
theorem bearer_expired_counterexample :
    (∃ t ∈ sessionStore.tokens, t.Id = str "tokenold0000" ∧
      t.Secret = sampleEnv.sha256 (str "s3cr3ts3cr3ts3cr3ts3cr3t") ∧
      t.CheckSecret sampleEnv (str "s3cr3ts3cr3ts3cr3ts3cr3t") = none) ∧
    bearerAuthMiddleware sampleEnv sessionStore
      (some (str "Bearer tokenold0000s3cr3ts3cr3ts3cr3ts3cr3t")) = Outcome.rejected ∧
    authInterceptor sampleEnv sessionStore testedPolicy (str "/v1.V1/ListUsers")
      (some (str "Bearer tokenold0000s3cr3ts3cr3ts3cr3ts3cr3t")) = Outcome.rejected := by
  decide

/-- On `sessionStore` the value `Bearer hello` is rejected and the bearer string
of the token of `alice` is served, by the middleware and by the interceptor for
`ListUsers`. -/
theorem bearer_rejected_unless_verified_witness :
    (bearerAuthMiddleware sampleEnv sessionStore (some (str "Bearer " ++ str "hello")) =
        Outcome.rejected ∧
      authInterceptor sampleEnv sessionStore testedPolicy (str "/v1.V1/ListUsers")
        (some (str "Bearer " ++ str "hello")) = Outcome.rejected) ∧
    (bearerAuthMiddleware sampleEnv sessionStore
        (some (str "Bearer " ++ (aliceToken.Id ++ str "s3cr3ts3cr3ts3cr3ts3cr3t"))) =
        Outcome.handled ∧
      authInterceptor sampleEnv sessionStore testedPolicy (str "/v1.V1/ListUsers")
        (some (str "Bearer " ++ (aliceToken.Id ++ str "s3cr3ts3cr3ts3cr3ts3cr3t"))) =
        Outcome.handled) := by
  have h := bearer_rejected_unless_verified sampleEnv sessionStore testedPolicy
    (str "/v1.V1/ListUsers")
  have h1 := h.1 (some (str "Bearer " ++ str "hello"))
    (Or.inr (Or.inr (Or.inr (Or.inl ⟨str "hello", rfl, by decide, by decide⟩))))
  have h2 := (h.2 aliceToken (str "s3cr3ts3cr3ts3cr3ts3cr3t")
    (by decide) (by decide) (by decide) (by decide) (by decide)).1 (by decide)
  exact ⟨⟨h1.1, h1.2 (by decide)⟩, h2.1, h2.2 (by decide) (by decide)⟩

/-- Where the table of the methods makes `/v1.V1/CreateUser` a method for
the session tokens of admins only, the interceptor serves a call to it exactly
when the call carries a verified session token whose user has the `Admin` flag
set; a verified session token of a user without the flag is rejected for it
and served for `/v1.V1/ListUsers`, a method for the tokens of any user; a
verified API key is rejected for it and served for `/v1.V1/ListPermissions`, a
method for API keys. -/
theorem authInterceptor_admin_method (env : Env) (db : DB) (policy : GoString → MethodPolicy)
    (authorization : Option GoString)
    (hCreate : policy (str "/v1.V1/CreateUser") = { withToken := true, adminOnly := true })
    (hList : (policy (str "/v1.V1/ListUsers")).withToken = true ∧
      (policy (str "/v1.V1/ListUsers")).adminOnly = false)
    (hPerm : (policy (str "/v1.V1/ListPermissions")).withApiKey = true) :
    (authInterceptor env db policy (str "/v1.V1/CreateUser") authorization = Outcome.handled ↔
      ∃ raw t u, bearerToken authorization = some raw ∧
        VerifyBearer env db raw = some (Credential.token t) ∧
        firstByPk User.Id (db.users.filter (fun u => decide (u.Id = t.UserId))) = some u ∧
        u.Admin = true) ∧
    (∀ raw t, bearerToken authorization = some raw →
      VerifyBearer env db raw = some (Credential.token t) →
      (∀ u, firstByPk User.Id (db.users.filter (fun u => decide (u.Id = t.UserId))) = some u →
        u.Admin = false) →
      authInterceptor env db policy (str "/v1.V1/CreateUser") authorization =
        Outcome.rejected ∧
      authInterceptor env db policy (str "/v1.V1/ListUsers") authorization =
        Outcome.handled) ∧
    (∀ raw k, bearerToken authorization = some raw →
      VerifyBearer env db raw = some (Credential.apiKey k) →
      authInterceptor env db policy (str "/v1.V1/CreateUser") authorization =
        Outcome.rejected ∧
      authInterceptor env db policy (str "/v1.V1/ListPermissions") authorization =
        Outcome.handled) := by
  refine ⟨?_, ?_, ?_⟩
  · cases hb : bearerToken authorization with
    | none => simp [authInterceptor, hCreate, hb]
    | some raw =>
      cases hv : VerifyBearer env db raw with
      | none => simp [authInterceptor, hCreate, hb, hv]
      | some c =>
        cases c with
        | apiKey k => simp [authInterceptor, hCreate, hb, hv]
        | token t =>
          cases hf : firstByPk User.Id (db.users.filter (fun u => decide (u.Id = t.UserId))) with
          | none => simp [authInterceptor, hCreate, hb, hv, hf]
          | some u =>
            by_cases ha : u.Admin = true
            · simp [authInterceptor, hCreate, hb, hv, hf, ha]
            · simp [authInterceptor, hCreate, hb, hv, hf, ha]
  · intro raw t hb hv hna
    constructor
    · unfold authInterceptor
      rw [hCreate]
      simp only [Bool.false_eq_true, if_false, Bool.not_true, if_true, hb, hv]
      cases hf : firstByPk User.Id (db.users.filter (fun u => decide (u.Id = t.UserId))) with
      | none => rfl
      | some u => simp [hna u hf]
    · unfold authInterceptor
      simp only [hb, hv, hList.1, hList.2]
      split <;> simp
  · intro raw k hb hv
    constructor
    · unfold authInterceptor
      rw [hCreate]
      simp only [Bool.false_eq_true, if_false, hb, hv]
    · unfold authInterceptor
      simp only [hb, hv, hPerm]
      split <;> simp

/-- On `sessionStore` the token of `alice`, who is no admin, is rejected for
`CreateUser` and served for `ListUsers`; the token of the admin `root` is
served for `CreateUser`; the API key is rejected for `CreateUser` and served
for `ListPermissions`. -/
theorem authInterceptor_admin_method_witness :
    (authInterceptor sampleEnv sessionStore testedPolicy (str "/v1.V1/CreateUser")
        (some (str "Bearer tokenalice00s3cr3ts3cr3ts3cr3ts3cr3t")) = Outcome.rejected ∧
      authInterceptor sampleEnv sessionStore testedPolicy (str "/v1.V1/ListUsers")
        (some (str "Bearer tokenalice00s3cr3ts3cr3ts3cr3ts3cr3t")) = Outcome.handled) ∧
    authInterceptor sampleEnv sessionStore testedPolicy (str "/v1.V1/CreateUser")
      (some (str "Bearer tokenroot000s3cr3ts3cr3ts3cr3ts3cr3t")) = Outcome.handled ∧
    (authInterceptor sampleEnv sessionStore testedPolicy (str "/v1.V1/CreateUser")
        (some (str "Bearer kkkkkkkkkkkkkkkkkkkkkkkk")) = Outcome.rejected ∧
      authInterceptor sampleEnv sessionStore testedPolicy (str "/v1.V1/ListPermissions")
        (some (str "Bearer kkkkkkkkkkkkkkkkkkkkkkkk")) = Outcome.handled) :=
  ⟨(authInterceptor_admin_method sampleEnv sessionStore testedPolicy
      (some (str "Bearer tokenalice00s3cr3ts3cr3ts3cr3ts3cr3t")) (by decide) (by decide)
      (by decide)).2.1 (str "tokenalice00s3cr3ts3cr3ts3cr3ts3cr3t") aliceToken
      (by decide) (by decide)
      (fun u hu => by
        have h : some u = some alice := hu.symm.trans (by decide)
        rw [Option.some.inj h]
        rfl),
    ((authInterceptor_admin_method sampleEnv sessionStore testedPolicy
      (some (str "Bearer tokenroot000s3cr3ts3cr3ts3cr3ts3cr3t")) (by decide) (by decide)
      (by decide)).1).mpr ⟨str "tokenroot000s3cr3ts3cr3ts3cr3ts3cr3t", rootToken, root,
        by decide, by decide, by decide, rfl⟩,
    (authInterceptor_admin_method sampleEnv sessionStore testedPolicy
      (some (str "Bearer kkkkkkkkkkkkkkkkkkkkkkkk")) (by decide) (by decide)
      (by decide)).2.2 (str "kkkkkkkkkkkkkkkkkkkkkkkk") defaultKey (by decide) (by decide)⟩

/-! ## The `admin` argument of `Source.CreateUser` -/

theorem DB.FirstOrCreateUser_of_found (env : Env) (db : DB) (email : GoString) (admin : Bool)
    (user x : User)
    (hfound : firstByPk User.Id (db.users.filter (fun r =>
      decide ((email = [] ∨ r.Email = email) ∧ (user.Id = [] ∨ r.Id = user.Id)))) = some x) :
    db.FirstOrCreateUser env email admin user = (none, x, db) := by
  simp only [DB.FirstOrCreateUser, hfound]

theorem DB.FirstOrCreateUser_of_missing (env : Env) (db : DB) (email : GoString) (admin : Bool)
    (user : User)
    (hfound : firstByPk User.Id (db.users.filter (fun r =>
      decide ((email = [] ∨ r.Email = email) ∧ (user.Id = [] ∨ r.Id = user.Id)))) = none) :
    db.FirstOrCreateUser env email admin user =
      db.CreateUser env { user with
        Email := if email = [] then user.Email else email
        Admin := if admin then true else user.Admin } := by
  simp only [DB.FirstOrCreateUser, hfound]

/-- The user that `Create` returns has the `Admin` flag it was given. -/
theorem DB.CreateUser_Admin (env : Env) (tx : DB) (u : User) :
    (tx.CreateUser env u).2.1.Admin = u.Admin := by
  unfold DB.CreateUser User.BeforeCreate
  by_cases hid : u.Id = []
  · simp only [hid, if_true]
    split
    · rfl
    · split <;> rfl
  · simp only [hid, if_false]
    split
    · rfl
    · split <;> rfl

/-- The user that `Save` returns has the `Admin` flag it was given. -/
theorem DB.SaveUser_Admin (env : Env) (tx : DB) (u : User) :
    (tx.SaveUser env u).2.1.Admin = u.Admin := by
  unfold DB.SaveUser
  by_cases hid : u.Id = []
  · rw [if_pos hid]
    exact DB.CreateUser_Admin env tx u
  · rw [if_neg hid]
    simp only
    split
    · split <;> rfl
    · split
      · rfl
      · exact DB.CreateUser_Admin env _ _

theorem Source.CreateUser.setPassword_Admin (env : Env) (tx : DB) (user : User)
    (password : GoString) :
    (Source.CreateUser.setPassword env tx user password).2.1.Admin = user.Admin := by
  unfold Source.CreateUser.setPassword
  by_cases hp : password = []
  · rw [if_neg (not_not.mpr hp)]
  · rw [if_pos hp]
    cases env.GenerateFromPassword password with
    | none => rfl
    | some h => exact DB.SaveUser_Admin env tx _

/-- The user that `CreateUser` returns has the flag of the user that the
lookup or the insert has returned. -/
theorem Source.CreateUser_flag (env : Env) (s : Source) (db : DB) (user : User)
    (email password : GoString) (admin : Bool)
    (hok : (s.CreateUser env db user email password admin).1 = none) :
    (s.CreateUser env db user email password admin).2.1.Admin =
      (db.FirstOrCreateUser env email admin user).2.1.Admin := by
  rcases hf : db.FirstOrCreateUser env email admin user with ⟨e0, x, tx0⟩
  cases e0 with
  | some e0 =>
    rw [Source.CreateUser_of_failed_find env s db user email password admin x tx0 e0 hf] at hok
    exact absurd hok (by simp)
  | none =>
    rcases hsp : Source.CreateUser.setPassword env tx0 x password with ⟨e1, x1, tx1⟩
    cases e1 with
    | some e1 =>
      rw [Source.CreateUser_of_failed_save env s db user email password admin x x1 tx0 tx1 e1
        hf hsp] at hok
      exact absurd hok (by simp)
    | none =>
      rw [Source.CreateUser_of_steps env s db user email password admin x x1 tx0 tx1 hf hsp]
      have := Source.CreateUser.setPassword_Admin env tx0 x password
      rw [hsp] at this
      exact (Source.CreateUser.associate_fields env s tx1 x1).2.2.2.1.trans this

/-- C27: when the lookup of `CreateUser` finds a user, the call does not read
its `admin` argument (it returns the same with any two values), the user it
returns has the flag of the user found, and on a store with distinct primary
keys every row keeps its primary key and its flag; when the lookup finds no
user, the user returned by a successful call has the flag `admin`, or the flag
of the `user` passed in if that is set. -/
theorem CreateUser_admin_only_for_new (env : Env) (s : Source) (db : DB) (user : User)
    (email password : GoString) :
    (∀ x, firstByPk User.Id (db.users.filter (fun r =>
        decide ((email = [] ∨ r.Email = email) ∧ (user.Id = [] ∨ r.Id = user.Id)))) = some x →
      (∀ admin admin', s.CreateUser env db user email password admin =
        s.CreateUser env db user email password admin') ∧
      (∀ admin, (s.CreateUser env db user email password admin).1 = none →
        (s.CreateUser env db user email password admin).2.1.Admin = x.Admin ∧
        (db.userKeysUnique →
          (s.CreateUser env db user email password admin).2.2.2.users.map
              (fun r => (r.Id, r.Admin)) =
            db.users.map (fun r => (r.Id, r.Admin))))) ∧
    (firstByPk User.Id (db.users.filter (fun r =>
        decide ((email = [] ∨ r.Email = email) ∧ (user.Id = [] ∨ r.Id = user.Id)))) = none →
      ∀ admin, (s.CreateUser env db user email password admin).1 = none →
        (s.CreateUser env db user email password admin).2.1.Admin = (admin || user.Admin)) := by
  constructor
  · intro x hfound
    have hf := fun admin => DB.FirstOrCreateUser_of_found env db email admin user x hfound
    have hx : x ∈ db.users := (List.mem_filter.mp (firstByPk_mem _ _ _ hfound)).1
    refine ⟨?_, ?_⟩
    · intro admin admin'
      simp only [Source.CreateUser, Source.CreateUser.body, hf]
    · intro admin hok
      have hA := Source.CreateUser_flag env s db user email password admin hok
      rw [hf admin] at hA
      refine ⟨hA, ?_⟩
      intro hkeys
      rcases hsp : Source.CreateUser.setPassword env db x password with ⟨e1, x1, tx1⟩
      cases e1 with
      | some e1 =>
        rw [Source.CreateUser_of_failed_save env s db user email password admin x x1 db tx1 e1
          (hf admin) hsp] at hok
        exact absurd hok (by simp)
      | none =>
        rw [Source.CreateUser_of_steps env s db user email password admin x x1 db tx1
          (hf admin) hsp]
        obtain ⟨x', h1, h2, _, h4, _, _, h7, _, _⟩ :=
          Source.CreateUser.setPassword_existing env db x password hx hkeys (by rw [hsp])
        rw [hsp] at h1 h7
        simp only at h1 h7
        subst h1
        simp only
        rw [Source.CreateUser.associate_users, h7, List.map_map]
        apply List.map_congr_left
        intro r hr
        by_cases hid : r.Id = x.Id
        · have : r = x := List.inj_on_of_nodup_map hkeys hr hx hid
          simp [this, h2, h4]
        · simp [hid]
  · intro hmiss admin hok
    have hA := Source.CreateUser_flag env s db user email password admin hok
    rw [hA, DB.FirstOrCreateUser_of_missing env db email admin user hmiss,
      DB.CreateUser_Admin]
    cases admin <;> simp

/-- On the directory store `zoe`, who is no admin, is returned as she is when
`CreateUser` is called for her email with `admin` set, and a newcomer gets the
flag of the argument. -/
theorem CreateUser_admin_only_for_new_witness :
    (oktaSource.CreateUser sampleEnv directoryStore {} (str "zoe@example.com") []
      true).2.1.Admin = false ∧
    (oktaSource.CreateUser sampleEnv directoryStore {} (str "zoe@example.com") []
      true).2.2.2.users.map (fun r => (r.Id, r.Admin)) =
      directoryStore.users.map (fun r => (r.Id, r.Admin)) ∧
    (oktaSource.CreateUser sampleEnv directoryStore {} (str "new@example.com") []
      true).2.1.Admin = true := by
  have h := CreateUser_admin_only_for_new sampleEnv oktaSource directoryStore {}
    (str "zoe@example.com") []
  have h1 := (h.1 zoe (by decide)).2 true (by decide)
  have h2 := (CreateUser_admin_only_for_new sampleEnv oktaSource directoryStore {}
    (str "new@example.com") []).2 (by decide) true (by decide)
  exact ⟨h1.1, h1.2 (by decide), h2⟩

/-! ## `Source.DeleteUser` for a user outside the source -/

theorem DB.DeleteSource_of_untied (tx : DB) (x : User) (s : Source)
    (hno : (⟨x.Id, s.Id⟩ : UserSource) ∉ tx.users_sources) :
    tx.DeleteSource x s = (none, tx) := by
  have hf : tx.users_sources.filter (fun a =>
      !decide (x.Id ≠ [] ∧ s.Id ≠ [] ∧ a.UserId = x.Id ∧ a.SourceId = s.Id)) =
      tx.users_sources := by
    rw [List.filter_eq_self]
    intro a ha
    simp only [Bool.not_eq_true', decide_eq_false_iff_not]
    rintro ⟨_, _, h1, h2⟩
    apply hno
    have : a = ⟨x.Id, s.Id⟩ := by
      cases a
      simp only at h1 h2
      rw [h1, h2]
    rw [← this]
    exact ha
  simp only [DB.DeleteSource, hf]

theorem Source.whereStruct_zero (src : Source) : Source.whereStruct {} src = true := by
  simp [Source.whereStruct]

theorem DB.CountSources_of_tied (tx : DB) (x : User) (src : Source) (hid : x.Id ≠ [])
    (hsrc : src ∈ tx.sources) (hj : (⟨x.Id, src.Id⟩ : UserSource) ∈ tx.users_sources) :
    tx.CountSources x {} ≠ 0 := by
  unfold DB.CountSources DB.userSources
  rw [if_neg hid]
  intro h
  have hnil := List.length_eq_zero.mp h
  have hmem : ((src, (⟨x.Id, src.Id⟩ : UserSource)) : Source × UserSource) ∈
      (tx.sources.filter (Source.whereStruct {})).flatMap (fun src =>
        (tx.users_sources.filter (fun a =>
          decide (a.SourceId = src.Id ∧ a.UserId = x.Id))).map (fun a => (src, a))) := by
    rw [List.mem_flatMap]
    refine ⟨src, List.mem_filter.mpr ⟨hsrc, Source.whereStruct_zero src⟩, ?_⟩
    exact List.mem_map.mpr ⟨_, List.mem_filter.mpr ⟨hj, by simp⟩, rfl⟩
  rw [hnil] at hmem
  exact absurd hmem (List.not_mem_nil _)

/-- C28 as amended: `DeleteUser` for a user `x` found by `u.Email` who is not
tied to the source returns `nil` and the store as it was when `x` is tied to
some source of the store; when `x` is tied to no source the call deletes `x`,
as `db.Delete` does, so that after a successful call no row has the primary
key of `x`; and when the lookup finds no user the call returns "record not
found" and the store as it was. -/
theorem DeleteUser_of_outsider (s : Source) (db : DB) (u : User) :
    (∀ x, firstByPk User.Id (db.users.filter (fun r =>
        decide (u.Email = [] ∨ r.Email = u.Email))) = some x →
      (⟨x.Id, s.Id⟩ : UserSource) ∉ db.users_sources →
      ((∃ src ∈ db.sources, (⟨x.Id, src.Id⟩ : UserSource) ∈ db.users_sources) → x.Id ≠ [] →
        s.DeleteUser db u = (none, db)) ∧
      (db.CountSources x {} = 0 →
        s.DeleteUser db u = db.DeleteUser x ∧
        ((s.DeleteUser db u).1 = none → ∀ r ∈ (s.DeleteUser db u).2.users, r.Id ≠ x.Id))) ∧
    (firstByPk User.Id (db.users.filter (fun r =>
        decide (u.Email = [] ∨ r.Email = u.Email))) = none →
      s.DeleteUser db u = (some "record not found", db)) := by
  constructor
  · intro x hfound hno
    have hd := DB.DeleteSource_of_untied db x s hno
    have heq := Source.DeleteUser_of_found s db u x hfound
    rw [hd] at heq
    simp only at heq
    constructor
    · rintro ⟨src, hsrc, hj⟩ hid
      rw [heq, if_neg (DB.CountSources_of_tied db x src hid hsrc hj)]
    · intro hc
      rw [heq, if_pos hc]
      refine ⟨rfl, ?_⟩
      intro hok r hr
      obtain ⟨_, h2, _⟩ := DB.DeleteUser_ok db x hok
      rw [h2] at hr
      simpa using (List.mem_filter.mp hr).2
  · intro hmiss
    exact Source.DeleteUser_of_missing s db u hmiss

/-- The counterexample to claim C28 as stated: on `soloStore` the user `solo`
is found by her email and is tied to no source, so not to the Okta source
either; `DeleteUser` of the Okta source returns `nil` and her row is gone. -/
theorem DeleteUser_outsider_counterexample :
    (∃ x ∈ soloStore.users, x.Email = str "solo@example.com" ∧
      (⟨x.Id, oktaSource.Id⟩ : UserSource) ∉ soloStore.users_sources) ∧
    (oktaSource.DeleteUser soloStore { Email := str "solo@example.com" }).1 = none ∧
    (oktaSource.DeleteUser soloStore { Email := str "solo@example.com" }).2.users = [] := by
  decide

/-- On the directory store `yan` is tied to both sources: a third source leaves
him and the store as they are; and a lookup for an email that no user has
fails with "record not found". -/
theorem DeleteUser_of_outsider_witness :
    Source.DeleteUser { Id := str "ldap-9", Type_ := str "ldap" } directoryStore yan =
      (none, directoryStore) ∧
    oktaSource.DeleteUser directoryStore { Email := str "nobody@example.com" } =
      (some "record not found", directoryStore) :=
  ⟨((DeleteUser_of_outsider { Id := str "ldap-9", Type_ := str "ldap" } directoryStore yan).1
      yan (by decide) (by decide)).1 ⟨oktaSource, by decide, by decide⟩ (by decide),
    (DeleteUser_of_outsider oktaSource directoryStore
      { Email := str "nobody@example.com" }).2 (by decide)⟩

/-! ## The default permissions stay unique -/

theorem defaultsUnique_append (l : List Permission) (p : Permission)
    (hu : ((l.filter (fun p => p.FromDefault)).map
      (fun p => (p.UserId, p.DestinationId))).Nodup)
    (hfresh : p.FromDefault = true → ∀ r ∈ l, r.FromDefault = true →
      ¬ (r.UserId = p.UserId ∧ r.DestinationId = p.DestinationId)) :
    (((l ++ [p]).filter (fun p => p.FromDefault)).map
      (fun p => (p.UserId, p.DestinationId))).Nodup := by
  rw [List.filter_append, List.map_append, List.nodup_append]
  refine ⟨hu, ?_, ?_⟩
  · rw [List.filter_cons]
    split <;> simp
  · intro a ha hb
    rw [List.filter_cons] at hb
    by_cases hp : p.FromDefault = true
    · rw [if_pos hp] at hb
      simp only [List.filter_nil, List.map_cons, List.map_nil, List.mem_singleton] at hb
      obtain ⟨r, hr, hra⟩ := List.mem_map.mp ha
      have hrm := List.mem_filter.mp hr
      rw [hb] at hra
      simp only [Prod.mk.injEq] at hra
      exact hfresh hp r hrm.1 hrm.2 hra
    · rw [if_neg hp] at hb
      simp at hb

theorem defaultsUnique_overwrite (l : List Permission) (p p' : Permission)
    (hk : (l.map Permission.Id).Nodup) (hp : p ∈ l) (hid : p'.Id = p.Id)
    (h1 : p'.UserId = p.UserId) (h2 : p'.DestinationId = p.DestinationId)
    (h3 : p'.FromDefault = p.FromDefault) :
    ((l.map (fun r => if r.Id = p'.Id then p' else r)).filter (fun p => p.FromDefault)).map
      (fun p => (p.UserId, p.DestinationId)) =
    (l.filter (fun p => p.FromDefault)).map (fun p => (p.UserId, p.DestinationId)) := by
  have key : ∀ m : List Permission, (∀ r ∈ m, r ∈ l) →
      ((m.map (fun r => if r.Id = p'.Id then p' else r)).filter (fun p => p.FromDefault)).map
        (fun p => (p.UserId, p.DestinationId)) =
      (m.filter (fun p => p.FromDefault)).map (fun p => (p.UserId, p.DestinationId)) := by
    intro m
    induction m with
    | nil => intro _; rfl
    | cons r m ih =>
      intro hsub
      have ihm := ih (fun q hq => hsub q (List.mem_cons_of_mem _ hq))
      have hr : r ∈ l := hsub r (List.mem_cons_self _ _)
      rw [List.map_cons, List.filter_cons, List.filter_cons]
      by_cases hrid : r.Id = p'.Id
      · have hrp : r = p := List.inj_on_of_nodup_map hk hr hp (hrid.trans hid)
        rw [if_pos hrid]
        subst hrp
        by_cases hf : r.FromDefault = true
        · rw [if_pos (h3.trans hf), if_pos hf, List.map_cons, List.map_cons, ihm, h1, h2]
        · rw [if_neg (by rw [h3]; exact hf), if_neg hf, ihm]
      · rw [if_neg hrid]
        by_cases hf : r.FromDefault = true
        · rw [if_pos hf, if_pos hf, List.map_cons, List.map_cons, ihm]
        · rw [if_neg hf, if_neg hf, ihm]
  exact key l (fun _ h => h)

/-- What `Create` leaves in `permissions`, with or without error: the rows
that were there, and after them, on success, the new row, whose fields are
those given and whose primary key is new, and drawn when none was given. -/
theorem DB.CreatePermission_rows (env : Env) (tx : DB) (p : Permission) :
    ((tx.CreatePermission env p).1 ≠ none ∧
      (tx.CreatePermission env p).2.2.permissions = tx.permissions ∧
      (tx.CreatePermission env p).2.2.users = tx.users) ∨
    ((tx.CreatePermission env p).1 = none ∧
      (tx.CreatePermission env p).2.2.permissions =
        tx.permissions ++ [(tx.CreatePermission env p).2.1] ∧
      (tx.CreatePermission env p).2.2.users = tx.users ∧
      (tx.CreatePermission env p).2.1.UserId = p.UserId ∧
      (tx.CreatePermission env p).2.1.DestinationId = p.DestinationId ∧
      (tx.CreatePermission env p).2.1.FromDefault = p.FromDefault ∧
      (tx.CreatePermission env p).2.1.Role = p.Role ∧
      (tx.CreatePermission env p).2.1.Id =
        (if p.Id = [] then env.RandString tx.draws ID_LEN else p.Id) ∧
      ∀ r ∈ tx.permissions, r.Id ≠ (tx.CreatePermission env p).2.1.Id) := by
  unfold DB.CreatePermission Permission.BeforeCreate
  by_cases hid : p.Id = []
  · simp only [hid, if_true]
    split
    · left
      exact ⟨by simp, rfl, rfl⟩
    · rename_i hany
      right
      refine ⟨rfl, rfl, rfl, rfl, rfl, rfl, rfl, rfl, ?_⟩
      intro r hr h
      exact hany (List.any_eq_true.mpr ⟨r, hr, decide_eq_true h⟩)
  · simp only [hid, if_false]
    split
    · left
      exact ⟨by simp, rfl, rfl⟩
    · rename_i hany
      right
      refine ⟨rfl, rfl, rfl, rfl, rfl, rfl, rfl, rfl, ?_⟩
      intro r hr h
      exact hany (List.any_eq_true.mpr ⟨r, hr, decide_eq_true h⟩)

/-- A `Save` of a stored permission with another role never fails and keeps
the primary keys and the default permissions as they are. -/
theorem DB.SavePermission_stored (env : Env) (tx : DB) (p : Permission) (role : GoString)
    (hp : p ∈ tx.permissions) (hd : tx.defaultsUnique) (hk : tx.permissionKeysUnique)
    (hne : ∀ r ∈ tx.permissions, r.Id ≠ []) :
    (tx.SavePermission env { p with Role := role }).1 = none ∧
    (tx.SavePermission env { p with Role := role }).2.2.defaultsUnique ∧
    (tx.SavePermission env { p with Role := role }).2.2.permissionKeysUnique ∧
    (∀ r ∈ (tx.SavePermission env { p with Role := role }).2.2.permissions, r.Id ≠ []) ∧
    (tx.SavePermission env { p with Role := role }).2.2.users = tx.users := by
  have hid : p.Id ≠ [] := hne p hp
  have hany : tx.permissions.any (fun r => decide (r.Id = p.Id)) = true :=
    List.any_eq_true.mpr ⟨p, hp, by simp⟩
  simp only [DB.SavePermission, if_neg hid, hany, if_true]
  refine ⟨trivial, ?_, ?_, ?_, trivial⟩
  · unfold DB.defaultsUnique at hd ⊢
    simp only
    rw [defaultsUnique_overwrite tx.permissions p
      { p with Role := role, Updated := env.now.Unix } hk hp rfl rfl rfl rfl]
    exact hd
  · unfold DB.permissionKeysUnique at hk ⊢
    have := permissionKeys_overwrite tx.permissions
      { p with Role := role, Updated := env.now.Unix } p.Id rfl
    simp only at this ⊢
    rw [this]
    exact hk
  · intro r hr
    obtain ⟨q, hq, rfl⟩ := List.mem_map.mp hr
    by_cases h : q.Id = p.Id
    · rw [if_pos h]
      exact hid
    · rw [if_neg h]
      exact hne q hq

/-- A `FirstOrCreate` on `permissions` for a default permission, with or
without error, keeps the default permissions unique as long as no default
permission of the pair escapes the condition. -/
theorem DB.FirstOrCreatePermission_unique (env : Env) (tx : DB) (c : Permission)
    (hrand : ∀ k, env.RandString k ID_LEN ≠ []) (hc : c.Id = [])
    (hd : tx.defaultsUnique) (hk : tx.permissionKeysUnique)
    (hne : ∀ r ∈ tx.permissions, r.Id ≠ [])
    (hcover : ∀ r ∈ tx.permissions, r.FromDefault = true → r.UserId = c.UserId →
      r.DestinationId = c.DestinationId → Permission.whereStruct c r = true) :
    (tx.FirstOrCreatePermission env c).2.2.defaultsUnique ∧
    (tx.FirstOrCreatePermission env c).2.2.permissionKeysUnique ∧
    (∀ r ∈ (tx.FirstOrCreatePermission env c).2.2.permissions, r.Id ≠ []) ∧
    (tx.FirstOrCreatePermission env c).2.2.users = tx.users ∧
    ((tx.FirstOrCreatePermission env c).1 = none →
      (tx.FirstOrCreatePermission env c).2.1 ∈
        (tx.FirstOrCreatePermission env c).2.2.permissions) ∧
    (∀ r ∈ (tx.FirstOrCreatePermission env c).2.2.permissions, r ∈ tx.permissions ∨
      (r.UserId = c.UserId ∧ r.DestinationId = c.DestinationId ∧ r.Role = c.Role ∧
        r.FromDefault = c.FromDefault)) := by
  unfold DB.FirstOrCreatePermission
  cases hf : firstByPk Permission.Id (tx.permissions.filter (Permission.whereStruct c)) with
  | some p =>
    have hp := (List.mem_filter.mp (firstByPk_mem _ _ _ hf)).1
    exact ⟨hd, hk, hne, rfl, fun _ => hp, fun r hr => Or.inl hr⟩
  | none =>
    have hnil := firstByPk_none _ _ hf
    have hnone : ∀ r ∈ tx.permissions, Permission.whereStruct c r = false := by
      intro r hr
      by_contra h
      have : r ∈ tx.permissions.filter (Permission.whereStruct c) :=
        List.mem_filter.mpr ⟨hr, by simpa using h⟩
      rw [hnil] at this
      exact absurd this (List.not_mem_nil _)
    simp only
    rcases DB.CreatePermission_rows env tx c with ⟨h1, h2, h3⟩ | ⟨h1, h2, h3, f1, f2, f3, f4, f5, f6⟩
    · refine ⟨?_, ?_, ?_, h3, fun h => absurd h h1, ?_⟩
      · unfold DB.defaultsUnique at hd ⊢
        rw [h2]; exact hd
      · unfold DB.permissionKeysUnique at hk ⊢
        rw [h2]; exact hk
      · rw [h2]; exact hne
      · rw [h2]; exact fun r hr => Or.inl hr
    · rw [if_pos hc] at f5
      refine ⟨?_, ?_, ?_, h3, ?_, ?_⟩
      · unfold DB.defaultsUnique at hd ⊢
        rw [h2]
        apply defaultsUnique_append _ _ hd
        intro _ r hr hrf hpair
        have := hcover r hr hrf (hpair.1.trans f1) (hpair.2.trans f2)
        rw [hnone r hr] at this
        exact absurd this (by simp)
      · unfold DB.permissionKeysUnique at hk ⊢
        rw [h2]
        exact permissionKeys_append _ _ hk f6
      · rw [h2]
        intro r hr
        rcases List.mem_append.mp hr with h | h
        · exact hne r h
        · rw [List.mem_singleton.mp h, f5]
          exact hrand _
      · intro _
        rw [h2]
        exact List.mem_append_right _ (List.mem_singleton.mpr rfl)
      · rw [h2]
        intro r hr
        rcases List.mem_append.mp hr with h | h
        · exact Or.inl h
        · rw [List.mem_singleton.mp h]
          exact Or.inr ⟨f1, f2, f4, f3⟩

/-- The loop of `User.AfterSave`, with or without error, keeps the default
permissions unique. -/
theorem User.AfterSave.userLoop_unique (env : Env) (u : User) (role : GoString)
    (hrand : ∀ k, env.RandString k ID_LEN ≠ []) :
    ∀ (ds : List Destination) (tx : DB), tx.defaultsUnique → tx.permissionKeysUnique →
      (∀ r ∈ tx.permissions, r.Id ≠ []) →
      (User.AfterSave.loop env u role ds tx).2.defaultsUnique := by
  intro ds
  induction ds with
  | nil => intro tx hd _ _; exact hd
  | cons d ds ih =>
    intro tx hd hk hne
    obtain ⟨a1, a2, a3, _, a5, _⟩ := DB.FirstOrCreatePermission_unique env tx
      { UserId := u.Id, DestinationId := d.Id, FromDefault := true } hrand rfl hd hk hne
      (by
        intro r _ hrf h1 h2
        rw [Permission.whereStruct_default u.Id d.Id [] r]
        exact ⟨Or.inl rfl, Or.inr h1, Or.inr h2, hrf⟩)
    unfold User.AfterSave.loop
    rcases hf : tx.FirstOrCreatePermission env
      { UserId := u.Id, DestinationId := d.Id, FromDefault := true } with ⟨e, p1, tx1⟩
    rw [hf] at a1 a2 a3 a5
    simp only at a1 a2 a3 a5
    cases e with
    | some e => exact a1
    | none =>
      simp only
      obtain ⟨b1, b2, b3, b4, _⟩ := DB.SavePermission_stored env tx1 p1 role (a5 rfl) a1 a2 a3
      rcases hs : tx1.SavePermission env { p1 with Role := role } with ⟨e2, p2, tx2⟩
      rw [hs] at b1 b2 b3 b4
      simp only at b1 b2 b3 b4
      subst b1
      exact ih tx2 b2 b3 b4

/-- The loop of `Destination.AfterSave`, with or without error, keeps the
default permissions unique when the default permissions on the destination
carry the default roles of their users. -/
theorem Destination.AfterSave.destLoop_unique (env : Env) (d : Destination)
    (hrand : ∀ k, env.RandString k ID_LEN ≠ []) (users : List User)
    (hukeys : (users.map User.Id).Nodup) :
    ∀ (us : List User) (tx : DB), (∀ u ∈ us, u ∈ users) → tx.defaultsUnique →
      tx.permissionKeysUnique → (∀ r ∈ tx.permissions, r.Id ≠ []) →
      (∀ r ∈ tx.permissions, r.FromDefault = true → r.DestinationId = d.Id →
        ∀ u ∈ users, r.UserId = u.Id → r.Role = defaultRole u) →
      (Destination.AfterSave.loop env d us tx).2.defaultsUnique := by
  intro us
  induction us with
  | nil => intro tx _ hd _ _ _; exact hd
  | cons u us ih =>
    intro tx hsub hd hk hne hroles
    have hu : u ∈ users := hsub u (List.mem_cons_self _ _)
    obtain ⟨a1, a2, a3, _, _, a6⟩ := DB.FirstOrCreatePermission_unique env tx
      { UserId := u.Id, DestinationId := d.Id, Role := defaultRole u, FromDefault := true }
      hrand rfl hd hk hne
      (by
        intro r hr hrf h1 h2
        rw [Permission.whereStruct_default u.Id d.Id (defaultRole u) r]
        exact ⟨Or.inr (hroles r hr hrf h2 u hu h1), Or.inr h1, Or.inr h2, hrf⟩)
    unfold Destination.AfterSave.loop
    simp only
    have hrole : (if u.Admin = true then str "cluster-admin" else str "view") = defaultRole u :=
      rfl
    rw [hrole]
    rcases hf : tx.FirstOrCreatePermission env
      { UserId := u.Id, DestinationId := d.Id, Role := defaultRole u, FromDefault := true }
      with ⟨e, p1, tx1⟩
    rw [hf] at a1 a2 a3 a6
    simp only at a1 a2 a3 a6
    cases e with
    | some e => exact a1
    | none =>
      simp only
      apply ih tx1 (fun v hv => hsub v (List.mem_cons_of_mem _ hv)) a1 a2 a3
      intro r hr hrf hrd v hv hrv
      rcases a6 r hr with h | ⟨h1, _, h3, _⟩
      · exact hroles r h hrf hrd v hv hrv
      · have : v = u := List.inj_on_of_nodup_map hukeys hv hu (hrv.symm.trans h1)
        rw [this]
        exact h3

/-- C29 as amended: on a store where each pair of a user and a destination has
at most one permission with `FromDefault` set, and the permissions have
distinct, non-empty primary keys, the same holds of the store that
`User.AfterSave` leaves, for any user; and of the store that
`Destination.AfterSave` leaves, for any destination, provided the users have
distinct primary keys and the default permissions on that destination carry
the default roles of their users. (The random strings drawn for primary keys
are taken to be non-empty.) -/
theorem defaults_stay_unique (env : Env) (tx : DB)
    (hrand : ∀ k, env.RandString k ID_LEN ≠ []) (hd : tx.defaultsUnique)
    (hk : tx.permissionKeysUnique) (hne : ∀ r ∈ tx.permissions, r.Id ≠ []) :
    (∀ u : User, (User.AfterSave env u tx).2.defaultsUnique) ∧
    (∀ d : Destination, tx.userKeysUnique →
      (∀ r ∈ tx.permissions, r.FromDefault = true → r.DestinationId = d.Id →
        ∀ u ∈ tx.users, r.UserId = u.Id → r.Role = defaultRole u) →
      (Destination.AfterSave env d tx).2.defaultsUnique) := by
  constructor
  · intro u
    exact User.AfterSave.userLoop_unique env u _ hrand tx.destinations tx hd hk hne
  · intro d huk hroles
    exact Destination.AfterSave.destLoop_unique env d hrand tx.users huk tx.users tx
      (fun _ h => h) hd hk hne hroles

/-- The counterexample to claim C29 as stated: on `staleRoleStore` the pair of
`alice` and the first destination has one default permission, with the role
`cluster-admin`; `Destination.AfterSave` looks for one with the role `view`,
finds none and adds a second default permission for the pair. -/
theorem defaults_doubled_counterexample :
    staleRoleStore.defaultsUnique ∧
    (Destination.AfterSave sampleEnv destOne staleRoleStore).1 = none ∧
    ((Destination.AfterSave sampleEnv destOne staleRoleStore).2.permissions.filter
        (fun p => decide (p.UserId = alice.Id ∧ p.DestinationId = destOne.Id ∧
          p.FromDefault = true))).map (fun p => (p.Id, p.Role)) =
      [(str "p1", str "cluster-admin"), (str "aaaaaaaaaaaa", str "view")] ∧
    ¬ (Destination.AfterSave sampleEnv destOne staleRoleStore).2.defaultsUnique := by
  decide

/-- On `staleRoleStore` the hook of `alice` rewrites the role of her default
permission and adds none; on `sampleStore`, which has no default permission,
the hook of the first destination adds one per user. -/
theorem defaults_stay_unique_witness :
    (User.AfterSave sampleEnv alice staleRoleStore).2.defaultsUnique ∧
    (Destination.AfterSave sampleEnv destOne sampleStore).2.defaultsUnique := by
  have hrand : ∀ k, sampleEnv.RandString k ID_LEN ≠ [] := by
    intro k h
    have hl := congrArg List.length h
    simp [sampleEnv, ID_LEN] at hl
  exact ⟨(defaults_stay_unique sampleEnv staleRoleStore hrand (by decide) (by decide)
      (by decide)).1 alice,
    (defaults_stay_unique sampleEnv sampleStore hrand (by decide) (by decide)
      (by decide)).2 destOne (by decide) (by decide)⟩

/-! ## `Source.SyncUsers` against the directory -/

/-- A successful `Create` on `users`, when applying the configured permissions
writes `permissions` only: the row is appended, with a primary key and an
email no other row has, and `users_sources` is untouched. -/
theorem DB.CreateUser_fresh (env : Env) (tx : DB) (u : User)
    (hperm : ∀ t : DB, t.sameButPermissions (env.ApplyPermissions t).2)
    (hok : (tx.CreateUser env u).1 = none) :
    (tx.CreateUser env u).2.1.Email = u.Email ∧
    (tx.CreateUser env u).2.1.Id =
      (if u.Id = [] then env.RandString tx.draws ID_LEN else u.Id) ∧
    (∀ r ∈ tx.users, r.Id ≠ (tx.CreateUser env u).2.1.Id) ∧
    (∀ r ∈ tx.users, r.Email ≠ u.Email) ∧
    (tx.CreateUser env u).2.2.users = tx.users ++ [(tx.CreateUser env u).2.1] ∧
    (tx.CreateUser env u).2.2.users_sources = tx.users_sources := by
  unfold DB.CreateUser User.BeforeCreate at hok ⊢
  by_cases hid : u.Id = []
  · simp only [hid, if_true] at hok ⊢
    split at hok
    · exact absurd hok (by simp)
    · rename_i h1
      rw [if_neg h1]
      split at hok
      · exact absurd hok (by simp)
      · rename_i h2
        rw [if_neg h2]
        refine ⟨rfl, rfl, ?_, ?_, ?_, ?_⟩
        · intro r hr heq
          exact h1 (List.any_eq_true.mpr ⟨r, hr, by simpa using heq⟩)
        · intro r hr heq
          exact h2 (List.any_eq_true.mpr ⟨r, hr, by simpa using heq⟩)
        · simp only [User.AfterCreate]
          rw [(User.AfterSave_frame env _ _).1, (hperm _).1]
        · simp only [User.AfterCreate]
          rw [(User.AfterSave_frame env _ _).2.2.1, (hperm _).2.2.1]
  · simp only [hid, if_false] at hok ⊢
    split at hok
    · exact absurd hok (by simp)
    · rename_i h1
      rw [if_neg h1]
      split at hok
      · exact absurd hok (by simp)
      · rename_i h2
        rw [if_neg h2]
        refine ⟨rfl, rfl, ?_, ?_, ?_, ?_⟩
        · intro r hr heq
          exact h1 (List.any_eq_true.mpr ⟨r, hr, by simpa using heq⟩)
        · intro r hr heq
          exact h2 (List.any_eq_true.mpr ⟨r, hr, by simpa using heq⟩)
        · simp only [User.AfterCreate]
          rw [(User.AfterSave_frame env _ _).1, (hperm _).1]
        · simp only [User.AfterCreate]
          rw [(User.AfterSave_frame env _ _).2.2.1, (hperm _).2.2.1]

/-- After the last step of `CreateUser` the user is tied to the source, and no
row of `users` or `users_sources` is lost. -/
theorem Source.CreateUser.associate_tied (env : Env) (s : Source) (tx : DB) (user : User)
    (hs : s.Id ≠ []) :
    (Source.CreateUser.associate env s tx user).2.1.Id = s.Id ∧
    (Source.CreateUser.associate env s tx user).2.2.users = tx.users ∧
    (∀ a ∈ tx.users_sources, a ∈ (Source.CreateUser.associate env s tx user).2.2.users_sources) ∧
    (⟨user.Id, s.Id⟩ : UserSource) ∈
      (Source.CreateUser.associate env s tx user).2.2.users_sources := by
  unfold Source.CreateUser.associate
  by_cases hc : tx.CountSources user { Id := s.Id } = 0
  · rw [if_pos hc]
    obtain ⟨a1, a2, a3, _⟩ := DB.AppendSource_spec env tx user s hs
    refine ⟨a1, a2, ?_, ?_⟩
    all_goals rw [a3]
    all_goals by_cases hj : (⟨user.Id, s.Id⟩ : UserSource) ∈ tx.users_sources
    · rw [if_pos hj]; exact fun a ha => ha
    · rw [if_neg hj]; exact fun a ha => List.mem_append_left _ ha
    · rw [if_pos hj]; exact hj
    · rw [if_neg hj]; exact List.mem_append_right _ (List.mem_singleton.mpr rfl)
  · rw [if_neg hc]
    exact ⟨rfl, rfl, fun a ha => ha, DB.CountSources_ne_zero tx user s.Id hs hc⟩

/-- One round of the first loop of `SyncUsers`: a successful
`s.CreateUser(tx, &User{}, email, "", false)` keeps the rows of `users` and
`users_sources`, keeps `users` valid, and leaves a user with the email tied to
the source. -/
theorem Source.CreateUser_round (env : Env) (s : Source) (tx : DB) (email : GoString)
    (hperm : ∀ t : DB, t.sameButPermissions (env.ApplyPermissions t).2)
    (hrand : ∀ k, env.RandString k ID_LEN ≠ [])
    (hs : s.Id ≠ []) (he : email ≠ []) (hv : tx.usersValid)
    (hok : (s.CreateUser env tx {} email [] false).1 = none) :
    (s.CreateUser env tx {} email [] false).2.2.1.Id = s.Id ∧
    (s.CreateUser env tx {} email [] false).2.2.2.usersValid ∧
    (∀ u ∈ tx.users, u ∈ (s.CreateUser env tx {} email [] false).2.2.2.users) ∧
    (∀ a ∈ tx.users_sources,
      a ∈ (s.CreateUser env tx {} email [] false).2.2.2.users_sources) ∧
    (∃ x ∈ (s.CreateUser env tx {} email [] false).2.2.2.users, x.Email = email ∧
      (⟨x.Id, s.Id⟩ : UserSource) ∈
        (s.CreateUser env tx {} email [] false).2.2.2.users_sources) := by
  have hsp : ∀ (t : DB) (x : User), Source.CreateUser.setPassword env t x [] = (none, x, t) := by
    intro t x
    simp [Source.CreateUser.setPassword]
  cases hf : firstByPk User.Id (tx.users.filter (fun r =>
      decide ((email = [] ∨ r.Email = email) ∧ (({} : User).Id = [] ∨ r.Id = ({} : User).Id))))
    with
  | some x =>
    have hfound := DB.FirstOrCreateUser_of_found env tx email false {} x hf
    have hx := List.mem_filter.mp (firstByPk_mem _ _ _ hf)
    have hxe : x.Email = email := by
      have := hx.2
      simp [he] at this
      exact this
    rw [Source.CreateUser_of_steps env s tx {} email [] false x x tx tx hfound (hsp tx x)]
    obtain ⟨a1, a2, a3, a4⟩ := Source.CreateUser.associate_tied env s tx x hs
    refine ⟨a1, ?_, ?_, a3, ⟨x, ?_, hxe, a4⟩⟩
    · unfold DB.usersValid at hv ⊢
      rw [a2]; exact hv
    · rw [a2]; exact fun u hu => hu
    · rw [a2]; exact hx.1
  | none =>
    have hmiss := DB.FirstOrCreateUser_of_missing env tx email false {} hf
    rcases hc : tx.CreateUser env { ({} : User) with
        Email := if email = [] then ({} : User).Email else email
        Admin := if false = true then true else ({} : User).Admin } with ⟨e, x, tx0⟩
    rw [hc] at hmiss
    cases e with
    | some e =>
      rw [Source.CreateUser_of_failed_find env s tx {} email [] false x tx0 e hmiss] at hok
      exact absurd hok (by simp)
    | none =>
      obtain ⟨c1, c2, c3, c4, c5, c6⟩ := DB.CreateUser_fresh env tx _ hperm
        (by rw [hc])
      rw [hc] at c1 c2 c3 c5 c6
      simp only [if_neg he] at c1 c4
      simp only [if_true] at c2 c3 c5 c6
      rw [Source.CreateUser_of_steps env s tx {} email [] false x x tx0 tx0 hmiss (hsp tx0 x)]
      obtain ⟨a1, a2, a3, a4⟩ := Source.CreateUser.associate_tied env s tx0 x hs
      refine ⟨a1, ?_, ?_, ?_, ⟨x, ?_, c1, a4⟩⟩
      · unfold DB.usersValid at hv ⊢
        rw [a2, c5]
        obtain ⟨v1, v2, v3⟩ := hv
        refine ⟨?_, ?_, ?_⟩
        · rw [List.map_append, List.nodup_append]
          refine ⟨v1, by simp, ?_⟩
          intro a ha hb
          simp only [List.map_cons, List.map_nil, List.mem_singleton] at hb
          obtain ⟨r, hr, rfl⟩ := List.mem_map.mp ha
          exact c3 r hr hb
        · rw [List.map_append, List.nodup_append]
          refine ⟨v2, by simp, ?_⟩
          intro a ha hb
          simp only [List.map_cons, List.map_nil, List.mem_singleton] at hb
          obtain ⟨r, hr, rfl⟩ := List.mem_map.mp ha
          exact c4 r hr (hb.trans c1)
        · intro u hu
          rcases List.mem_append.mp hu with h | h
          · exact v3 u h
          · rw [List.mem_singleton.mp h]
            exact ⟨by rw [c2]; exact hrand _, by rw [c1]; exact he⟩
      · rw [a2, c5]; exact fun u hu => List.mem_append_left _ hu
      · intro a ha
        exact a3 a (by rw [c6]; exact ha)
      · rw [a2, c5]; exact List.mem_append_right _ (List.mem_singleton.mpr rfl)

/-- The first loop of `SyncUsers`, when it succeeds, leaves every email of the
list with a user tied to the source. -/
theorem Source.SyncUsers.create_spec (env : Env)
    (hperm : ∀ t : DB, t.sameButPermissions (env.ApplyPermissions t).2)
    (hrand : ∀ k, env.RandString k ID_LEN ≠ []) :
    ∀ (emails : List GoString) (s : Source) (tx : DB), s.Id ≠ [] → [] ∉ emails →
      tx.usersValid → (Source.SyncUsers.create env s emails tx).1 = none →
      (Source.SyncUsers.create env s emails tx).2.1.Id = s.Id ∧
      (Source.SyncUsers.create env s emails tx).2.2.usersValid ∧
      (∀ u ∈ tx.users, u ∈ (Source.SyncUsers.create env s emails tx).2.2.users) ∧
      (∀ a ∈ tx.users_sources,
        a ∈ (Source.SyncUsers.create env s emails tx).2.2.users_sources) ∧
      (∀ e ∈ emails, ∃ x ∈ (Source.SyncUsers.create env s emails tx).2.2.users,
        x.Email = e ∧ (⟨x.Id, s.Id⟩ : UserSource) ∈
          (Source.SyncUsers.create env s emails tx).2.2.users_sources) := by
  intro emails
  induction emails with
  | nil =>
    intro s tx _ _ hv _
    exact ⟨rfl, hv, fun u hu => hu, fun a ha => ha, fun e he => absurd he (List.not_mem_nil _)⟩
  | cons email emails ih =>
    intro s tx hs hne hv hok
    have he : email ≠ [] := fun h => hne (by rw [h]; exact List.mem_cons_self _ _)
    have hne' : [] ∉ emails := fun h => hne (List.mem_cons_of_mem _ h)
    unfold Source.SyncUsers.create at hok ⊢
    rcases hc : s.CreateUser env tx {} email [] false with ⟨e, x, s1, tx1⟩
    rw [hc] at hok
    cases e with
    | some e => exact absurd hok (by simp)
    | none =>
      simp only at hok ⊢
      obtain ⟨r1, r2, r3, r4, x1, hx1, hx1e, hx1j⟩ :=
        Source.CreateUser_round env s tx email hperm hrand hs he hv (by rw [hc])
      rw [hc] at r1 r2 r3 r4 hx1 hx1j
      simp only at r1 r2 r3 r4 hx1 hx1j
      have hs1 : s1.Id ≠ [] := by rw [r1]; exact hs
      obtain ⟨i1, i2, i3, i4, i5⟩ := ih s1 tx1 hs1 hne' r2 hok
      refine ⟨i1.trans r1, i2, fun u hu => i3 u (r3 u hu), fun a ha => i4 a (r4 a ha), ?_⟩
      intro e1 he1
      rcases List.mem_cons.mp he1 with h | h
      · subst h
        exact ⟨x1, i3 x1 hx1, hx1e, i4 _ hx1j⟩
      · obtain ⟨y, hy, hye, hyj⟩ := i5 e1 h
        exact ⟨y, hy, hye, by rw [← r1]; exact hyj⟩

theorem DB.DeleteUser_of_key (tx : DB) (x : User) (hid : x.Id ≠ []) :
    (tx.DeleteUser x).1 = none := by
  unfold DB.DeleteUser
  rw [User.BeforeDelete_eq x tx hid]
  simp only
  rw [if_neg hid]

/-- One round of the second loop of `SyncUsers` on valid `users`: the users
with another email keep their row and their associations, the user with the
email is no longer tied to the source, and no row is added. -/
theorem Source.DeleteUser_round (s : Source) (tx : DB) (td : User) (hs : s.Id ≠ [])
    (hv : tx.usersValid) (htd : td.Email ≠ []) :
    (s.DeleteUser tx td).2.users.Sublist tx.users ∧
    (∀ a ∈ (s.DeleteUser tx td).2.users_sources, a ∈ tx.users_sources) ∧
    (∀ y ∈ tx.users, y.Email ≠ td.Email → y ∈ (s.DeleteUser tx td).2.users ∧
      ∀ a ∈ tx.users_sources, a.UserId = y.Id → a ∈ (s.DeleteUser tx td).2.users_sources) ∧
    (∀ y ∈ tx.users, y.Email = td.Email →
      (⟨y.Id, s.Id⟩ : UserSource) ∉ (s.DeleteUser tx td).2.users_sources) := by
  obtain ⟨v1, v2, v3⟩ := hv
  cases hf : firstByPk User.Id (tx.users.filter (fun r =>
      decide (td.Email = [] ∨ r.Email = td.Email))) with
  | none =>
    rw [Source.DeleteUser_of_missing s tx td hf]
    refine ⟨List.Sublist.refl _, fun a ha => ha, fun y hy _ => ⟨hy, fun a ha _ => ha⟩, ?_⟩
    intro y hy hye
    have : y ∈ tx.users.filter (fun r => decide (td.Email = [] ∨ r.Email = td.Email)) :=
      List.mem_filter.mpr ⟨hy, by simp [hye]⟩
    rw [firstByPk_none _ _ hf] at this
    exact absurd this (List.not_mem_nil _)
  | some x =>
    have hx := List.mem_filter.mp (firstByPk_mem _ _ _ hf)
    have hxe : x.Email = td.Email := by
      have := hx.2
      simp [htd] at this
      exact this
    have hxid : x.Id ≠ [] := (v3 x hx.1).1
    have hsame : ∀ y ∈ tx.users, y.Email = td.Email → y = x := fun y hy hye =>
      List.inj_on_of_nodup_map v2 hy hx.1 (hye.trans hxe.symm)
    have hother : ∀ y ∈ tx.users, y.Email ≠ td.Email → y.Id ≠ x.Id := by
      intro y hy hye hid
      have := List.inj_on_of_nodup_map v1 hy hx.1 hid
      rw [this] at hye
      exact hye hxe
    rw [Source.DeleteUser_of_found s tx td x hf]
    have hds : (tx.DeleteSource x s).2.users = tx.users := rfl
    have hdj : (tx.DeleteSource x s).2.users_sources = tx.users_sources.filter (fun a =>
        !decide (x.Id ≠ [] ∧ s.Id ≠ [] ∧ a.UserId = x.Id ∧ a.SourceId = s.Id)) := rfl
    by_cases hc : (tx.DeleteSource x s).2.CountSources x {} = 0
    · rw [if_pos hc]
      obtain ⟨_, d2, d3⟩ := DB.DeleteUser_ok (tx.DeleteSource x s).2 x
        (DB.DeleteUser_of_key _ x hxid)
      rw [d2, d3, hds, hdj]
      refine ⟨List.filter_sublist _, ?_, ?_, ?_⟩
      · intro a ha
        exact (List.mem_filter.mp (List.mem_filter.mp ha).1).1
      · intro y hy hye
        have hyx := hother y hy hye
        refine ⟨List.mem_filter.mpr ⟨hy, by simp [hyx]⟩, ?_⟩
        intro a ha hay
        have hax : a.UserId ≠ x.Id := by rw [hay]; exact hyx
        exact List.mem_filter.mpr ⟨List.mem_filter.mpr ⟨ha, by simp [hax]⟩, by simp [hax]⟩
      · intro y hy hye hmem
        rw [hsame y hy hye] at hmem
        have := (List.mem_filter.mp hmem).2
        simp at this
    · rw [if_neg hc]
      simp only
      rw [hds, hdj]
      refine ⟨List.Sublist.refl _, ?_, ?_, ?_⟩
      · intro a ha
        exact (List.mem_filter.mp ha).1
      · intro y hy hye
        have hyx := hother y hy hye
        refine ⟨hy, ?_⟩
        intro a ha hay
        have hax : a.UserId ≠ x.Id := by rw [hay]; exact hyx
        exact List.mem_filter.mpr ⟨ha, by simp [hax]⟩
      · intro y hy hye hmem
        rw [hsame y hy hye] at hmem
        have := (List.mem_filter.mp hmem).2
        simp [hxid, hs] at this

theorem DB.usersValid_of_sublist (tx tx' : DB) (hsub : tx'.users.Sublist tx.users)
    (hv : tx.usersValid) : tx'.usersValid :=
  ⟨List.Nodup.sublist (List.Sublist.map _ hsub) hv.1,
    List.Nodup.sublist (List.Sublist.map _ hsub) hv.2.1,
    fun u hu => hv.2.2 u (hsub.subset hu)⟩

/-- The second loop of `SyncUsers` on valid `users`: the users whose email is
not among those of the list keep their row and their associations, the others
are no longer tied to the source. -/
theorem Source.SyncUsers.delete_spec (s : Source) (hs : s.Id ≠ []) :
    ∀ (toDelete : List User) (tx : DB), tx.usersValid → (∀ td ∈ toDelete, td.Email ≠ []) →
      (Source.SyncUsers.delete s toDelete tx).users.Sublist tx.users ∧
      (∀ a ∈ (Source.SyncUsers.delete s toDelete tx).users_sources, a ∈ tx.users_sources) ∧
      (∀ y ∈ tx.users, (∀ td ∈ toDelete, y.Email ≠ td.Email) →
        y ∈ (Source.SyncUsers.delete s toDelete tx).users ∧
        ∀ a ∈ tx.users_sources, a.UserId = y.Id →
          a ∈ (Source.SyncUsers.delete s toDelete tx).users_sources) ∧
      (∀ y ∈ tx.users, (∃ td ∈ toDelete, y.Email = td.Email) →
        (⟨y.Id, s.Id⟩ : UserSource) ∉ (Source.SyncUsers.delete s toDelete tx).users_sources) := by
  intro toDelete
  induction toDelete with
  | nil =>
    intro tx _ _
    refine ⟨List.Sublist.refl _, fun a ha => ha, fun y hy _ => ⟨hy, fun a ha _ => ha⟩, ?_⟩
    rintro y _ ⟨td, htd, _⟩
    exact absurd htd (List.not_mem_nil _)
  | cons td toDelete ih =>
    intro tx hv hne
    obtain ⟨r1, r2, r3, r4⟩ := Source.DeleteUser_round s tx td hs hv
      (hne td (List.mem_cons_self _ _))
    have hv1 := DB.usersValid_of_sublist tx _ r1 hv
    obtain ⟨i1, i2, i3, i4⟩ := ih (s.DeleteUser tx td).2 hv1
      (fun t ht => hne t (List.mem_cons_of_mem _ ht))
    unfold Source.SyncUsers.delete
    refine ⟨i1.trans r1, fun a ha => r2 a (i2 a ha), ?_, ?_⟩
    · intro y hy hall
      obtain ⟨q1, q2⟩ := r3 y hy (hall td (List.mem_cons_self _ _))
      obtain ⟨q3, q4⟩ := i3 y q1 (fun t ht => hall t (List.mem_cons_of_mem _ ht))
      exact ⟨q3, fun a ha hay => q4 a (q2 a ha hay) hay⟩
    · rintro y hy ⟨t, ht, hyt⟩ hmem
      by_cases hye : y.Email = td.Email
      · exact r4 y hy hye (i2 _ hmem)
      · rcases List.mem_cons.mp ht with h | h
        · rw [h] at hyt
          exact hye hyt
        · exact i4 y (r3 y hy hye).1 ⟨t, h, hyt⟩ hmem

/-- For a source of a type other than okta `SyncUsers` returns
nil and changes nothing. For a source of type okta with a primary key, on a
store whose users have distinct non-empty primary keys and distinct non-empty
emails, and a directory list that does not hold the empty email, after
`SyncUsers` succeeds every email of the list has a user tied to the source,
and, when the list is not empty, no user whose email is not in the list is
tied to the source. (Applying the configured permissions is taken to write
`permissions` only, and the random strings drawn for primary keys to be
non-empty.) -/
theorem SyncUsers_follows_directory (env : Env) (s : Source) (db : DB) :
    (s.Type_ ≠ str "okta" → s.SyncUsers env db = (none, db)) ∧
    (∀ emails : List GoString, s.Type_ = str "okta" →
      env.Emails s.OktaDomain s.OktaClientId s.OktaApiToken = (emails, none) →
      (∀ t : DB, t.sameButPermissions (env.ApplyPermissions t).2) →
      (∀ k, env.RandString k ID_LEN ≠ []) →
      s.Id ≠ [] → db.usersValid → [] ∉ emails →
      (s.SyncUsers env db).1 = none →
      (∀ e ∈ emails, ∃ x ∈ (s.SyncUsers env db).2.users, x.Email = e ∧
        (⟨x.Id, s.Id⟩ : UserSource) ∈ (s.SyncUsers env db).2.users_sources) ∧
      (emails ≠ [] → ∀ u ∈ (s.SyncUsers env db).2.users, u.Email ∉ emails →
        (⟨u.Id, s.Id⟩ : UserSource) ∉ (s.SyncUsers env db).2.users_sources)) := by
  constructor
  · intro ht
    unfold Source.SyncUsers
    rw [if_neg ht]
  · intro emails ht hem hperm hrand hs hv hne hok
    unfold Source.SyncUsers at hok ⊢
    rw [if_pos ht] at hok ⊢
    rw [hem] at hok ⊢
    simp only [DB.Transaction] at hok ⊢
    rcases hc : Source.SyncUsers.create env s emails db with ⟨e, s1, tx1⟩
    rw [hc] at hok
    cases e with
    | some e => exact absurd hok (by simp)
    | none =>
      simp only
      obtain ⟨c1, c2, _, _, c5⟩ :=
        Source.SyncUsers.create_spec env hperm hrand emails s db hs hne hv (by rw [hc])
      rw [hc] at c1 c2 c5
      simp only at c1 c2 c5
      have hs1 : s1.Id ≠ [] := by rw [c1]; exact hs
      have hdel : ∀ td ∈ tx1.usersNotIn emails, td ∈ tx1.users ∧ td.Email ∉ emails := by
        intro td htd
        unfold DB.usersNotIn at htd
        split at htd
        · exact absurd htd (List.not_mem_nil _)
        · have := List.mem_filter.mp htd
          exact ⟨this.1, by simpa using this.2⟩
      obtain ⟨d1, _, d3, d4⟩ := Source.SyncUsers.delete_spec s1 hs1 (tx1.usersNotIn emails) tx1
        c2 (fun td htd => (c2.2.2 td (hdel td htd).1).2)
      constructor
      · intro e he
        obtain ⟨x, hx, hxe, hxj⟩ := c5 e he
        obtain ⟨q1, q2⟩ := d3 x hx (by
          intro td htd heq
          apply (hdel td htd).2
          rw [← heq, hxe]
          exact he)
        exact ⟨x, q1, hxe, q2 _ hxj rfl⟩
      · intro hnil u hu hue
        have hu1 : u ∈ tx1.users := d1.subset hu
        have hmem : u ∈ tx1.usersNotIn emails := by
          unfold DB.usersNotIn
          rw [if_neg hnil]
          exact List.mem_filter.mpr ⟨hu1, by simpa using hue⟩
        rw [← c1]
        exact d4 u hu1 ⟨u, hmem, rfl⟩

/-- C23, the divergence: the directory of `quietSource` lists no email; the
second loop of `SyncUsers`, which is to delete the users not in the source,
gets no user from `Not("email IN ?", emails)`, so `SyncUsers` succeeds on
`quietStore` and changes nothing: `zoe` and `yan`, whose emails are not in the
(empty) list, remain tied to the source. -/
theorem SyncUsers_empty_directory_deletes_nobody :
    quietSource.Type_ = str "okta" ∧
    sampleEnv.Emails quietSource.OktaDomain quietSource.OktaClientId
      quietSource.OktaApiToken = ([], none) ∧
    quietStore.usersNotIn [] = [] ∧
    quietSource.SyncUsers sampleEnv quietStore = (none, quietStore) ∧
    zoe ∈ quietStore.users ∧
    (⟨zoe.Id, quietSource.Id⟩ : UserSource) ∈ quietStore.users_sources ∧
    yan ∈ quietStore.users ∧
    (⟨yan.Id, quietSource.Id⟩ : UserSource) ∈ quietStore.users_sources := by
  decide

/-- On `directoryStore` the directory of `oktaSource` lists `zoe` only: after
`SyncUsers` she is tied to the source and `yan` is not; a source of type
`infra` is left alone. -/
theorem SyncUsers_follows_directory_witness :
    ((∀ e ∈ [str "zoe@example.com"],
        ∃ x ∈ (oktaSource.SyncUsers sampleEnv directoryStore).2.users, x.Email = e ∧
          (⟨x.Id, oktaSource.Id⟩ : UserSource) ∈
            (oktaSource.SyncUsers sampleEnv directoryStore).2.users_sources) ∧
      ([str "zoe@example.com"] ≠ [] →
        ∀ u ∈ (oktaSource.SyncUsers sampleEnv directoryStore).2.users,
          u.Email ∉ [str "zoe@example.com"] →
          (⟨u.Id, oktaSource.Id⟩ : UserSource) ∉
            (oktaSource.SyncUsers sampleEnv directoryStore).2.users_sources)) ∧
    Source.SyncUsers sampleEnv { Id := str "infra-0", Type_ := str "infra" } directoryStore =
      (none, directoryStore) :=
  ⟨(SyncUsers_follows_directory sampleEnv oktaSource directoryStore).2
      [str "zoe@example.com"] (by decide) (by decide)
      (fun t => DB.sameButPermissions_refl t)
      (fun k h => by
        have hl := congrArg List.length h
        simp [sampleEnv, ID_LEN] at hl)
      (by decide) (by decide) (by decide) (by decide),
    (SyncUsers_follows_directory sampleEnv { Id := str "infra-0", Type_ := str "infra" }
      directoryStore).1 (by decide)⟩

end Registry

namespace Server

open Registry (Byte GoString Err Time str)

/-! ## `SyncUsers` of the first data layer -/

theorem DB.le_maxID (tx : DB) : ∀ r ∈ tx.users, r.ID ≤ tx.maxID := by
  unfold DB.maxID
  induction tx.users with
  | nil => intro r hr; exact absurd hr (List.not_mem_nil _)
  | cons a l ih =>
    intro r hr
    simp only [List.map_cons, List.foldr_cons]
    rcases List.mem_cons.mp hr with rfl | h
    · exact le_max_left _ _
    · exact le_trans (ih r h) (le_max_right _ _)

/-- What `Save` does to `users`: it never fails, keeps the keys valid, keeps
every row with another key, and leaves the saved row in the table. -/
theorem DB.Save_spec (now : Time) (tx : DB) (u : User) (hwf : tx.keysValid) :
    (tx.Save now u).1 = none ∧ (tx.Save now u).2.2.keysValid ∧
    (∀ r ∈ tx.users, r.ID ≠ u.ID → r ∈ (tx.Save now u).2.2.users) ∧
    (u.ID ≠ 0 → { u with Updated := now.Unix } ∈ (tx.Save now u).2.2.users) ∧
    (∀ r ∈ (tx.Save now u).2.2.users, r ∈ tx.users ∨
      (r.Email = u.Email ∧ r.Password = u.Password ∧ r.Provider = u.Provider ∧
        (u.ID ≠ 0 → r.ID = u.ID))) := by
  obtain ⟨hnd, hnz⟩ := hwf
  unfold DB.Save
  by_cases hid : u.ID = 0
  · rw [if_pos hid]
    refine ⟨rfl, ⟨?_, ?_⟩, ?_, fun h => absurd hid h, ?_⟩
    · simp only [List.map_append, List.map_cons, List.map_nil]
      rw [List.nodup_append]
      refine ⟨hnd, List.nodup_singleton _, ?_⟩
      intro a ha hb
      obtain ⟨r, hr, rfl⟩ := List.mem_map.mp ha
      have := DB.le_maxID tx r hr
      simp only [List.mem_singleton] at hb
      omega
    · intro r hr
      rcases List.mem_append.mp hr with h | h
      · exact hnz r h
      · simp only [List.mem_singleton] at h
        subst h
        simp
    · intro r hr _
      exact List.mem_append_left _ hr
    · intro r hr
      rcases List.mem_append.mp hr with h | h
      · exact Or.inl h
      · simp only [List.mem_singleton] at h
        subst h
        exact Or.inr ⟨rfl, rfl, rfl, fun h => absurd hid h⟩
  · rw [if_neg hid]
    simp only
    by_cases hany : (tx.users.any fun r => decide (r.ID = u.ID)) = true
    · rw [if_pos hany]
      obtain ⟨r0, hr0, hr0id⟩ := List.any_eq_true.mp hany
      have hr0id' : r0.ID = u.ID := by simpa using hr0id
      refine ⟨rfl, ⟨?_, ?_⟩, ?_, ?_, ?_⟩
      · have hmap : (tx.users.map (fun r => if r.ID = u.ID then
            ({ u with Updated := now.Unix } : User) else r)).map User.ID =
            tx.users.map User.ID := by
          rw [List.map_map]
          apply List.map_congr_left
          intro r _
          by_cases h : r.ID = u.ID
          · simp [h]
          · simp [h]
        simp only
        rw [hmap]
        exact hnd
      · intro r hr
        obtain ⟨q, hq, rfl⟩ := List.mem_map.mp hr
        by_cases h : q.ID = u.ID
        · simp [h, hid]
        · simp only [h, if_false]
          exact hnz q hq
      · intro r hr hne
        exact List.mem_map.mpr ⟨r, hr, by simp [hne]⟩
      · intro _
        exact List.mem_map.mpr ⟨r0, hr0, by simp [hr0id']⟩
      · intro r hr
        obtain ⟨q, hq, rfl⟩ := List.mem_map.mp hr
        by_cases h : q.ID = u.ID
        · rw [if_pos h]
          exact Or.inr ⟨rfl, rfl, rfl, fun _ => rfl⟩
        · rw [if_neg h]
          exact Or.inl hq
    · rw [if_neg hany]
      have hfresh : ∀ r ∈ tx.users, r.ID ≠ u.ID := by
        intro r hr heq
        exact hany (List.any_eq_true.mpr ⟨r, hr, by simpa using heq⟩)
      refine ⟨rfl, ⟨?_, ?_⟩, ?_, ?_, ?_⟩
      · simp only [List.map_append, List.map_cons, List.map_nil]
        rw [List.nodup_append]
        refine ⟨hnd, List.nodup_singleton _, ?_⟩
        intro a ha hb
        obtain ⟨r, hr, rfl⟩ := List.mem_map.mp ha
        simp only [List.mem_singleton] at hb
        exact hfresh r hr hb
      · intro r hr
        rcases List.mem_append.mp hr with h | h
        · exact hnz r h
        · simp only [List.mem_singleton] at h
          subst h
          exact hid
      · intro r hr _
        exact List.mem_append_left _ hr
      · intro _
        simp
      · intro r hr
        rcases List.mem_append.mp hr with h | h
        · exact Or.inl h
        · simp only [List.mem_singleton] at h
          subst h
          exact Or.inr ⟨rfl, rfl, rfl, fun _ => rfl⟩

/-- What `Delete` does to `users` for a row with a key. -/
theorem DB.Delete_spec (tx : DB) (u : User) (hwf : tx.keysValid) (hid : u.ID ≠ 0) :
    (tx.Delete u).1 = none ∧ (tx.Delete u).2.keysValid ∧
    (∀ r ∈ tx.users, r.ID ≠ u.ID → r ∈ (tx.Delete u).2.users) ∧
    (∀ r ∈ (tx.Delete u).2.users, r ∈ tx.users) := by
  obtain ⟨hnd, hnz⟩ := hwf
  unfold DB.Delete
  rw [if_neg hid]
  refine ⟨rfl, ⟨?_, ?_⟩, ?_, ?_⟩
  · exact (List.Nodup.sublist (List.Sublist.map _ (List.filter_sublist _)) hnd)
  · intro r hr
    exact hnz r (List.mem_filter.mp hr).1
  · intro r hr hne
    exact List.mem_filter.mpr ⟨hr, by simpa using hne⟩
  · intro r hr
    exact (List.mem_filter.mp hr).1

theorem firstByID_mem : ∀ (l : List User) (r : User), firstByID l = some r → r ∈ l
  | [], r, h => by simp [firstByID] at h
  | a :: l, r, h => by
    unfold firstByID at h
    cases hm : firstByID l with
    | none =>
      rw [hm] at h
      simp only [Option.some.injEq] at h
      subst h
      exact List.mem_cons_self _ _
    | some m =>
      rw [hm] at h
      simp only at h
      by_cases hlt : m.ID < a.ID
      · rw [if_pos hlt] at h
        simp only [Option.some.injEq] at h
        subst h
        exact List.mem_cons_of_mem _ (firstByID_mem l m hm)
      · rw [if_neg hlt] at h
        simp only [Option.some.injEq] at h
        subst h
        exact List.mem_cons_self _ _

/-- The row that `First` leaves in `user`: a row of the table with the email,
or the zero value. -/
theorem DB.First_spec (tx : DB) (email : GoString) :
    (tx.First email).ID = 0 ∨ (tx.First email ∈ tx.users ∧ (tx.First email).Email = email) := by
  unfold DB.First
  cases h : firstByID (tx.users.filter (fun r => decide (r.Email = email))) with
  | none => exact Or.inl rfl
  | some r =>
    have := List.mem_filter.mp (firstByID_mem _ _ h)
    exact Or.inr ⟨this.1, by simpa using this.2⟩

/-- Two rows of a table with valid keys that share the key are one row. -/
theorem DB.keysValid_inj (tx : DB) (hwf : tx.keysValid) (a b : User)
    (ha : a ∈ tx.users) (hb : b ∈ tx.users) (h : a.ID = b.ID) : a = b :=
  List.inj_on_of_nodup_map hwf.1 ha hb h

theorem DB.hasBuiltin_hasUser (tx : DB) (k : Nat) (e : GoString) (p : List Byte)
    (h : tx.hasBuiltin k e p) : tx.hasUser k e p := by
  obtain ⟨r, hr, h1, h2, h3, _⟩ := h
  exact ⟨r, hr, h1, h2, h3⟩

/-- The inner loop of `SyncUsers` never fails on a table with valid keys,
keeps a row with a password, and hands it to `infra` when its email is not in
the list and the rows looped over include it. -/
theorem SyncUsers.prune_spec (now : Time) (emails : List GoString) (k : Nat) (e : GoString)
    (p : List Byte) (hp : p ≠ []) :
    ∀ (l : List User) (tx : DB), tx.keysValid →
      (∀ q ∈ l, q.ID ≠ 0 ∧ (q.ID = k → q.Email = e ∧ q.Password = p)) →
      (SyncUsers.prune now emails l tx).1 = none ∧
      (SyncUsers.prune now emails l tx).2.keysValid ∧
      (tx.hasUser k e p → (SyncUsers.prune now emails l tx).2.hasUser k e p) ∧
      (e ∉ emails →
        (tx.hasBuiltin k e p → (SyncUsers.prune now emails l tx).2.hasBuiltin k e p) ∧
        ((∃ q ∈ l, q.ID = k) → (SyncUsers.prune now emails l tx).2.hasBuiltin k e p)) := by
  intro l
  induction l with
  | nil =>
    intro tx hwf _
    refine ⟨rfl, hwf, fun h => h, fun _ => ⟨fun h => h, ?_⟩⟩
    rintro ⟨q, hq, _⟩
    exact absurd hq (List.not_mem_nil _)
  | cons a l ih =>
    intro tx hwf hl
    have hl' : ∀ q ∈ l, q.ID ≠ 0 ∧ (q.ID = k → q.Email = e ∧ q.Password = p) :=
      fun q hq => hl q (List.mem_cons_of_mem _ hq)
    obtain ⟨ha0, hak⟩ := hl a (List.mem_cons_self _ _)
    unfold SyncUsers.prune
    by_cases hin : a.Email ∈ emails
    · rw [if_pos (by simpa using hin)]
      obtain ⟨i1, i2, i3, i4⟩ := ih tx hwf hl'
      refine ⟨i1, i2, i3, fun hne => ⟨(i4 hne).1, ?_⟩⟩
      rintro ⟨q, hq, hqk⟩
      rcases List.mem_cons.mp hq with rfl | hq'
      · exact absurd ((hak hqk).1 ▸ hin) hne
      · exact (i4 hne).2 ⟨q, hq', hqk⟩
    · rw [if_neg (by simpa using hin)]
      by_cases hdel : a.Provider = str "okta" ∧ a.Password.length = 0
      · rw [if_pos hdel]
        obtain ⟨d1, d2, d3, _⟩ := DB.Delete_spec tx a hwf ha0
        have hne : a.ID ≠ k := by
          intro h
          have := (hak h).2
          rw [← this] at hp
          exact hp (List.length_eq_zero.mp hdel.2)
        rcases hd : tx.Delete a with ⟨err, tx1⟩
        rw [hd] at d1 d2 d3
        simp only at d1 d2 d3
        subst d1
        simp only
        obtain ⟨i1, i2, i3, i4⟩ := ih tx1 d2 hl'
        have keepP : tx.hasUser k e p → tx1.hasUser k e p := by
          rintro ⟨r, hr, h1, h2, h3⟩
          exact ⟨r, d3 r hr (by rw [h1]; exact fun h => hne h.symm), h1, h2, h3⟩
        have keepQ : tx.hasBuiltin k e p → tx1.hasBuiltin k e p := by
          rintro ⟨r, hr, h1, h2, h3, h4⟩
          exact ⟨r, d3 r hr (by rw [h1]; exact fun h => hne h.symm), h1, h2, h3, h4⟩
        refine ⟨i1, i2, fun h => i3 (keepP h), fun hn => ⟨fun h => (i4 hn).1 (keepQ h), ?_⟩⟩
        rintro ⟨q, hq, hqk⟩
        rcases List.mem_cons.mp hq with rfl | hq'
        · exact absurd hqk hne
        · exact (i4 hn).2 ⟨q, hq', hqk⟩
      · rw [if_neg hdel]
        obtain ⟨s1, s2, s3, s4, _⟩ := DB.Save_spec now tx { a with Provider := str "infra" } hwf
        rcases hs : tx.Save now { a with Provider := str "infra" } with ⟨err, u1, tx1⟩
        rw [hs] at s1 s2 s3 s4
        simp only at s1 s2 s3 s4
        subst s1
        simp only
        obtain ⟨i1, i2, i3, i4⟩ := ih tx1 s2 hl'
        by_cases hk : a.ID = k
        · have hQ : tx1.hasBuiltin k e p :=
            ⟨_, s4 ha0, hk, (hak hk).1, (hak hk).2, rfl⟩
          refine ⟨i1, i2, fun _ => i3 (DB.hasBuiltin_hasUser _ _ _ _ hQ), fun hn =>
            ⟨fun _ => (i4 hn).1 hQ, fun _ => (i4 hn).1 hQ⟩⟩
        · have keepP : tx.hasUser k e p → tx1.hasUser k e p := by
            rintro ⟨r, hr, h1, h2, h3⟩
            exact ⟨r, s3 r hr (by rw [h1]; exact fun h => hk h.symm), h1, h2, h3⟩
          have keepQ : tx.hasBuiltin k e p → tx1.hasBuiltin k e p := by
            rintro ⟨r, hr, h1, h2, h3, h4⟩
            exact ⟨r, s3 r hr (by rw [h1]; exact fun h => hk h.symm), h1, h2, h3, h4⟩
          refine ⟨i1, i2, fun h => i3 (keepP h), fun hn => ⟨fun h => (i4 hn).1 (keepQ h), ?_⟩⟩
          rintro ⟨q, hq, hqk⟩
          rcases List.mem_cons.mp hq with rfl | hq'
          · exact absurd hqk hk
          · exact (i4 hn).2 ⟨q, hq', hqk⟩


/-- The outer loop of `SyncUsers` never fails on a table with valid keys and
keeps a row with a password; after one round the row is with `infra` when its
email is not in the list. -/
theorem SyncUsers.loop_spec (now : Time) (emails : List GoString) (k : Nat) (e : GoString)
    (p : List Byte) (hp : p ≠ []) :
    ∀ (rest : List GoString) (tx : DB), tx.keysValid → (∀ x ∈ rest, x ∈ emails) →
      (SyncUsers.loop now emails rest tx).1 = none ∧
      (SyncUsers.loop now emails rest tx).2.keysValid ∧
      (tx.hasUser k e p → (SyncUsers.loop now emails rest tx).2.hasUser k e p) ∧
      (e ∉ emails →
        (tx.hasBuiltin k e p → (SyncUsers.loop now emails rest tx).2.hasBuiltin k e p) ∧
        (tx.hasUser k e p → rest ≠ [] →
          (SyncUsers.loop now emails rest tx).2.hasBuiltin k e p)) := by
  intro rest
  induction rest with
  | nil =>
    intro tx hwf _
    exact ⟨rfl, hwf, fun h => h, fun _ => ⟨fun h => h, fun _ h => absurd rfl h⟩⟩
  | cons email rest ih =>
    intro tx hwf hsub
    have hsub' : ∀ x ∈ rest, x ∈ emails := fun x hx => hsub x (List.mem_cons_of_mem _ hx)
    have hemail : email ∈ emails := hsub email (List.mem_cons_self _ _)
    unfold SyncUsers.loop
    simp only
    obtain ⟨s1, s2, s3, s4, s5⟩ := DB.Save_spec now tx
      { tx.First email with Email := email, Provider := str "okta" } hwf
    rcases hs : tx.Save now { tx.First email with Email := email, Provider := str "okta" }
      with ⟨err, u1, tx1⟩
    rw [hs] at s1 s2 s3 s4 s5
    simp only at s1 s2 s3 s4 s5
    subst s1
    simp only
    -- the row with the key `k` after the save
    have keepP : tx.hasUser k e p → tx1.hasUser k e p := by
      rintro ⟨r, hr, h1, h2, h3⟩
      by_cases hk : (tx.First email).ID = k
      · rcases DB.First_spec tx email with h0 | ⟨hmem, hem⟩
        · exact absurd (h1 ▸ hk ▸ h0) (hwf.2 r hr)
        · have hrr : tx.First email = r :=
            DB.keysValid_inj tx hwf _ _ hmem hr (hk.trans h1.symm)
          have hk0 : (tx.First email).ID ≠ 0 := hrr ▸ hwf.2 r hr
          refine ⟨_, s4 hk0, hk, ?_, ?_⟩
          · rw [← h2, ← hrr, hem]
          · rw [← h3, ← hrr]
      · exact ⟨r, s3 r hr (by rw [h1]; exact fun h => hk h.symm), h1, h2, h3⟩
    have keepQ : e ∉ emails → tx.hasBuiltin k e p → tx1.hasBuiltin k e p := by
      rintro hn ⟨r, hr, h1, h2, h3, h4⟩
      have hk : (tx.First email).ID ≠ k := by
        intro hk
        rcases DB.First_spec tx email with h0 | ⟨hmem, hem⟩
        · exact absurd (h1 ▸ hk ▸ h0) (hwf.2 r hr)
        · have hrr : tx.First email = r :=
            DB.keysValid_inj tx hwf _ _ hmem hr (hk.trans h1.symm)
          rw [hrr, h2] at hem
          exact hn (hem ▸ hemail)
      exact ⟨r, s3 r hr (by rw [h1]; exact fun h => hk h.symm), h1, h2, h3, h4⟩
    have hsnap : tx1.hasUser k e p →
        ∀ q ∈ tx1.users, q.ID ≠ 0 ∧ (q.ID = k → q.Email = e ∧ q.Password = p) := by
      rintro ⟨r, hr, h1, h2, h3⟩ q hq
      refine ⟨s2.2 q hq, fun hqk => ?_⟩
      have : q = r := DB.keysValid_inj tx1 s2 _ _ hq hr (hqk.trans h1.symm)
      exact this ▸ ⟨h2, h3⟩
    -- the rows looped over agree with the table on the key `k`, whether or not
    -- the table has such a row
    have hsnap' : ∀ q ∈ tx1.users,
        q.ID ≠ 0 ∧ (q.ID = (if tx1.hasUser k e p then k else 0) →
          q.Email = e ∧ q.Password = p) := by
      intro q hq
      by_cases hP : tx1.hasUser k e p
      · rw [if_pos hP]
        exact hsnap hP q hq
      · rw [if_neg hP]
        exact ⟨s2.2 q hq, fun h => absurd h (s2.2 q hq)⟩
    by_cases hP : tx1.hasUser k e p
    · obtain ⟨p1, p2, p3, p4⟩ :=
        SyncUsers.prune_spec now emails k e p hp tx1.users tx1 s2 (hsnap hP)
      rcases hpr : SyncUsers.prune now emails tx1.users tx1 with ⟨err, tx2⟩
      rw [hpr] at p1 p2 p3 p4
      simp only at p1 p2 p3 p4
      subst p1
      simp only
      obtain ⟨i1, i2, i3, i4⟩ := ih tx2 p2 hsub'
      refine ⟨i1, i2, fun _ => i3 (p3 hP), fun hn => ⟨fun h => (i4 hn).1 ((p4 hn).1 (keepQ hn h)),
        fun _ _ => (i4 hn).1 ((p4 hn).2 ?_)⟩⟩
      obtain ⟨r, hr, h1, _⟩ := hP
      exact ⟨r, hr, h1⟩
    · have hl : ∀ q ∈ tx1.users, q.ID ≠ 0 ∧ (q.ID = 0 → q.Email = e ∧ q.Password = p) :=
        fun q hq => ⟨s2.2 q hq, fun h => absurd h (s2.2 q hq)⟩
      obtain ⟨p1, p2, _, _⟩ :=
        SyncUsers.prune_spec now emails 0 e p hp tx1.users tx1 s2 hl
      rcases hpr : SyncUsers.prune now emails tx1.users tx1 with ⟨err, tx2⟩
      rw [hpr] at p1 p2
      simp only at p1 p2
      subst p1
      simp only
      obtain ⟨i1, i2, _, _⟩ := ih tx2 p2 hsub'
      exact ⟨i1, i2, fun h => absurd (keepP h) hP, fun hn =>
        ⟨fun h => absurd (DB.hasBuiltin_hasUser _ _ _ _ (keepQ hn h)) hP,
         fun h _ => absurd (keepP h) hP⟩⟩

/-- A run of the loop without error is committed. -/
theorem SyncUsers_of_loop (now : Time) (db : DB) (emails : List GoString)
    (provider : GoString) (tx : DB) (h : SyncUsers.loop now emails emails db = (none, tx)) :
    SyncUsers now db emails provider = (none, tx) := by
  simp only [SyncUsers, DB.Transaction, h]

/-- Claim C14 as amended: on a store whose primary keys are valid `SyncUsers`
returns without error and a user with a non-empty password is still there
afterwards, with its key, email and password; when the list of emails is not
empty and lacks the user's email, the user's provider is `infra` afterwards. -/
theorem SyncUsers_keeps_password_users (now : Time) (db : DB) (emails : List GoString)
    (provider : GoString) (u : User) (hkeys : db.keysValid) (hu : u ∈ db.users)
    (hp : u.Password ≠ []) :
    (SyncUsers now db emails provider).1 = none ∧
    (∃ r ∈ (SyncUsers now db emails provider).2.users,
      r.ID = u.ID ∧ r.Email = u.Email ∧ r.Password = u.Password) ∧
    (emails ≠ [] → u.Email ∉ emails →
      ∃ r ∈ (SyncUsers now db emails provider).2.users,
        r.ID = u.ID ∧ r.Email = u.Email ∧ r.Password = u.Password ∧
        r.Provider = str "infra") := by
  obtain ⟨l1, _, l3, l4⟩ := SyncUsers.loop_spec now emails u.ID u.Email u.Password hp
    emails db hkeys (fun _ h => h)
  have hP : db.hasUser u.ID u.Email u.Password := ⟨u, hu, rfl, rfl, rfl⟩
  rcases hl : SyncUsers.loop now emails emails db with ⟨err, tx⟩
  rw [hl] at l1 l3 l4
  simp only at l1 l3 l4
  subst l1
  rw [SyncUsers_of_loop now db emails provider tx hl]
  exact ⟨rfl, l3 hP, fun hne hn => (l4 hn).2 hP hne⟩

/-- The counterexample to claim C14 as stated: with an empty list of emails
`SyncUsers` returns without error and the password user `pat`, whose email is
not in the list, keeps the provider `okta`. -/
theorem SyncUsers_empty_list_counterexample :
    (SyncUsers 5000000000 sampleUsers [] (str "okta")).1 = none ∧
    (∃ u ∈ sampleUsers.users, u.Password ≠ [] ∧ u.Email ∉ ([] : List GoString) ∧
      ∀ r ∈ (SyncUsers 5000000000 sampleUsers [] (str "okta")).2.users,
        r.ID = u.ID → r.Provider ≠ str "infra") := by
  decide

theorem SyncUsers_keeps_password_users_witness :
    sampleUsers.keysValid ∧
    (SyncUsers 5000000000 sampleUsers [str "oli@example.com"] (str "okta")).1 = none ∧
    (∃ r ∈ (SyncUsers 5000000000 sampleUsers [str "oli@example.com"] (str "okta")).2.users,
      r.ID = 1 ∧ r.Email = str "pat@example.com" ∧ r.Password = str "hash" ∧
      r.Provider = str "infra") := by
  have h := SyncUsers_keeps_password_users 5000000000 sampleUsers [str "oli@example.com"]
    (str "okta")
    { ID := 1, Email := str "pat@example.com", Password := str "hash", Provider := str "okta" }
    (by decide) (by decide) (by decide)
  exact ⟨by decide, h.1, h.2.2 (by decide) (by decide)⟩

/-! ## The rounds of `SyncUsers`, row by row -/

theorem filter_other_ID (pre l : List User) (r : User)
    (hnd : ((pre ++ r :: l).map User.ID).Nodup) :
    (pre ++ r :: l).filter (fun q => !decide (q.ID = r.ID)) = pre ++ l := by
  have hpre : ∀ q ∈ pre, q.ID ≠ r.ID := by
    intro q hq h
    rw [List.map_append, List.nodup_append] at hnd
    exact hnd.2.2 (List.mem_map_of_mem _ hq) (by rw [h]; simp)
  have hl : ∀ q ∈ l, q.ID ≠ r.ID := by
    intro q hq h
    rw [List.map_append, List.nodup_append] at hnd
    have := hnd.2.1
    rw [List.map_cons, List.nodup_cons] at this
    exact this.1 (by rw [← h]; exact List.mem_map_of_mem _ hq)
  rw [List.filter_append, List.filter_cons]
  simp only [decide_True, Bool.not_true, Bool.false_eq_true, if_false]
  rw [List.filter_eq_self.mpr, List.filter_eq_self.mpr]
  · intro q hq
    simpa using hl q hq
  · intro q hq
    simpa using hpre q hq

theorem map_replace_ID (pre l : List User) (r r' : User)
    (hnd : ((pre ++ r :: l).map User.ID).Nodup) :
    (pre ++ r :: l).map (fun q => if q.ID = r.ID then r' else q) = pre ++ r' :: l := by
  have hpre : ∀ q ∈ pre, q.ID ≠ r.ID := by
    intro q hq h
    rw [List.map_append, List.nodup_append] at hnd
    exact hnd.2.2 (List.mem_map_of_mem _ hq) (by rw [h]; simp)
  have hl : ∀ q ∈ l, q.ID ≠ r.ID := by
    intro q hq h
    rw [List.map_append, List.nodup_append] at hnd
    have := hnd.2.1
    rw [List.map_cons, List.nodup_cons] at this
    exact this.1 (by rw [← h]; exact List.mem_map_of_mem _ hq)
  rw [List.map_append, List.map_cons, if_pos rfl]
  congr 1
  · conv_rhs => rw [← List.map_id pre]
    apply List.map_congr_left
    intro q hq
    rw [if_neg (hpre q hq)]
    rfl
  · congr 1
    conv_rhs => rw [← List.map_id l]
    apply List.map_congr_left
    intro q hq
    rw [if_neg (hl q hq)]
    rfl

/-- The inner loop over the rows of the table, from any point on: the rows
still to come are replaced by what `SyncUsers.pruned` makes of them. -/
theorem SyncUsers.prune_eq (now : Time) (emails : List GoString) (settings : List Settings) :
    ∀ (l pre : List User), ((pre ++ l).map User.ID).Nodup → (∀ r ∈ l, r.ID ≠ 0) →
      SyncUsers.prune now emails l { users := pre ++ l, settings := settings } =
        (none, { users := pre ++ l.filterMap (SyncUsers.pruned now emails),
                 settings := settings }) := by
  intro l
  induction l with
  | nil => intro pre _ _; rfl
  | cons r l ih =>
    intro pre hnd hnz
    have hr0 : r.ID ≠ 0 := hnz r (List.mem_cons_self _ _)
    have hnz' : ∀ q ∈ l, q.ID ≠ 0 := fun q hq => hnz q (List.mem_cons_of_mem _ hq)
    unfold SyncUsers.prune
    by_cases hin : r.Email ∈ emails
    · rw [if_pos (decide_eq_true hin)]
      have h := ih (pre ++ [r]) (by simpa using hnd) hnz'
      simp only [List.append_assoc, List.singleton_append] at h
      rw [h, List.filterMap_cons]
      simp only [SyncUsers.pruned, if_pos hin]
    · rw [if_neg (by simpa using hin)]
      by_cases hdel : r.Provider = str "okta" ∧ r.Password.length = 0
      · rw [if_pos hdel]
        have hd : DB.Delete { users := pre ++ r :: l, settings := settings } r =
            (none, { users := pre ++ l, settings := settings }) := by
          simp only [DB.Delete, if_neg hr0]
          rw [filter_other_ID pre l r hnd]
        rw [hd]
        simp only
        have hnd' : ((pre ++ l).map User.ID).Nodup := by
          rw [List.map_append] at hnd ⊢
          rw [List.map_cons] at hnd
          exact List.Nodup.sublist
            (List.Sublist.append_left (List.sublist_cons_self _ _) _) hnd
        rw [ih pre hnd' hnz', List.filterMap_cons]
        simp only [SyncUsers.pruned, if_neg hin, if_pos hdel]
      · rw [if_neg hdel]
        have hany : (pre ++ r :: l).any (fun q => decide (q.ID = r.ID)) = true :=
          List.any_eq_true.mpr ⟨r, by simp, by simp⟩
        have hs : DB.Save now { users := pre ++ r :: l, settings := settings }
            { r with Provider := str "infra" } =
            (none, { r with Provider := str "infra", Updated := now.Unix },
              { users := pre ++ { r with Provider := str "infra", Updated := now.Unix } :: l,
                settings := settings }) := by
          simp only [DB.Save, if_neg hr0, hany, if_true]
          rw [map_replace_ID pre l r _ hnd]
        rw [hs]
        simp only
        have h := ih (pre ++ [{ r with Provider := str "infra", Updated := now.Unix }])
          (by simpa using hnd) hnz'
        simp only [List.append_assoc, List.singleton_append] at h
        rw [h, List.filterMap_cons]
        simp only [SyncUsers.pruned, if_neg hin, if_neg hdel]

theorem firstByID_none (l : List User) (h : firstByID l = none) : l = [] := by
  cases l with
  | nil => rfl
  | cons r rs =>
    unfold firstByID at h
    cases hm : firstByID rs with
    | none => rw [hm] at h; simp at h
    | some m =>
      rw [hm] at h
      simp only at h
      split at h <;> simp at h

theorem SyncUsers.pruned_some (now : Time) (emails : List GoString) (q r : User)
    (h : SyncUsers.pruned now emails q = some r) :
    r.ID = q.ID ∧ r.Email = q.Email ∧ r.Password = q.Password ∧
    (q.Email ∈ emails → r = q) ∧
    (q.Email ∉ emails → r.Provider = str "infra" ∧
      ¬ (q.Provider = str "okta" ∧ q.Password.length = 0)) := by
  unfold SyncUsers.pruned at h
  by_cases hin : q.Email ∈ emails
  · rw [if_pos hin] at h
    cases h
    exact ⟨rfl, rfl, rfl, fun _ => rfl, fun c => absurd hin c⟩
  · rw [if_neg hin] at h
    by_cases hdel : q.Provider = str "okta" ∧ q.Password.length = 0
    · rw [if_pos hdel] at h
      exact absurd h (by simp)
    · rw [if_neg hdel] at h
      cases h
      exact ⟨rfl, rfl, rfl, fun c => absurd c hin, fun _ => ⟨rfl, hdel⟩⟩

theorem SyncUsers.pruned_keys (now : Time) (emails : List GoString) :
    ∀ l : List User,
      ((l.filterMap (SyncUsers.pruned now emails)).map User.ID).Sublist (l.map User.ID) ∧
      ((l.filterMap (SyncUsers.pruned now emails)).map User.Email).Sublist
        (l.map User.Email) := by
  intro l
  induction l with
  | nil => exact ⟨List.Sublist.refl _, List.Sublist.refl _⟩
  | cons q l ih =>
    rw [List.filterMap_cons]
    cases h : SyncUsers.pruned now emails q with
    | none =>
      simp only [List.map_cons]
      exact ⟨List.Sublist.cons _ ih.1, List.Sublist.cons _ ih.2⟩
    | some r =>
      obtain ⟨h1, h2, _⟩ := SyncUsers.pruned_some now emails q r h
      simp only [List.map_cons, h1, h2]
      exact ⟨List.Sublist.cons₂ _ ih.1, List.Sublist.cons₂ _ ih.2⟩

/-- The `Save` of a round of `SyncUsers`: it never fails on valid keys; a row
with the email and the provider `okta` is there afterwards; the rows of other
emails are the ones that were there; and the emails stay distinct. -/
theorem SyncUsers.save_spec (now : Time) (tx : DB) (email : GoString) (hwf : tx.keysValid) :
    (tx.Save now { tx.First email with Email := email, Provider := str "okta" }).1 = none ∧
    (tx.Save now { tx.First email with Email := email, Provider := str "okta" }).2.2.keysValid ∧
    (∃ r ∈ (tx.Save now
        { tx.First email with Email := email, Provider := str "okta" }).2.2.users,
      r.Email = email ∧ r.Provider = str "okta") ∧
    (∀ q ∈ tx.users, q.Email ≠ email →
      q ∈ (tx.Save now { tx.First email with Email := email, Provider := str "okta" }).2.2.users) ∧
    (∀ q ∈ (tx.Save now
        { tx.First email with Email := email, Provider := str "okta" }).2.2.users,
      q.Email ≠ email → q ∈ tx.users) ∧
    (tx.emailsUnique →
      (tx.Save now
        { tx.First email with Email := email, Provider := str "okta" }).2.2.emailsUnique) := by
  obtain ⟨s1, s2, s3, s4, s5⟩ := DB.Save_spec now tx
    { tx.First email with Email := email, Provider := str "okta" } hwf
  refine ⟨s1, s2, ?_, ?_, ?_, ?_⟩
  · cases hf : firstByID (tx.users.filter (fun r => decide (r.Email = email))) with
    | none =>
      have h0 : tx.First email = {} := by simp only [DB.First, hf]
      rw [h0]
      simp only [DB.Save, if_true]
      exact ⟨_, List.mem_append_right _ (List.mem_singleton.mpr rfl), rfl, rfl⟩
    | some r =>
      have h0 : tx.First email = r := by simp only [DB.First, hf]
      have hr := List.mem_filter.mp (firstByID_mem _ _ hf)
      have hid : r.ID ≠ 0 := hwf.2 r hr.1
      exact ⟨_, s4 (by rw [h0]; exact hid), rfl, rfl⟩
  · intro q hq hne
    apply s3 q hq
    intro hid
    cases hf : firstByID (tx.users.filter (fun r => decide (r.Email = email))) with
    | none =>
      have h0 : tx.First email = {} := by simp only [DB.First, hf]
      rw [h0] at hid
      exact hwf.2 q hq hid
    | some r =>
      have h0 : tx.First email = r := by simp only [DB.First, hf]
      have hr := List.mem_filter.mp (firstByID_mem _ _ hf)
      rw [h0] at hid
      have : q = r := DB.keysValid_inj tx hwf q r hq hr.1 hid
      rw [this] at hne
      exact hne (by simpa using hr.2)
  · intro q hq hne
    rcases s5 q hq with h | h
    · exact h
    · exact absurd h.1 hne
  · intro hu
    unfold DB.emailsUnique at hu ⊢
    cases hf : firstByID (tx.users.filter (fun r => decide (r.Email = email))) with
    | none =>
      have h0 : tx.First email = {} := by simp only [DB.First, hf]
      have hnone : email ∉ tx.users.map User.Email := by
        intro hmem
        obtain ⟨q, hq, hqe⟩ := List.mem_map.mp hmem
        have : q ∈ tx.users.filter (fun r => decide (r.Email = email)) :=
          List.mem_filter.mpr ⟨hq, decide_eq_true hqe⟩
        rw [firstByID_none _ hf] at this
        exact absurd this (List.not_mem_nil _)
      rw [h0]
      simp only [DB.Save, if_true, List.map_append, List.map_cons, List.map_nil]
      rw [List.nodup_append]
      refine ⟨hu, List.nodup_singleton _, ?_⟩
      intro a ha hb
      rw [List.mem_singleton.mp hb] at ha
      exact hnone ha
    | some r =>
      have h0 : tx.First email = r := by simp only [DB.First, hf]
      have hr := List.mem_filter.mp (firstByID_mem _ _ hf)
      have hre : r.Email = email := by simpa using hr.2
      have hid : r.ID ≠ 0 := hwf.2 r hr.1
      have hany : tx.users.any (fun q => decide (q.ID = r.ID)) = true :=
        List.any_eq_true.mpr ⟨r, hr.1, by simp⟩
      rw [h0]
      simp only [DB.Save, if_neg hid, hany, if_true]
      have hmap : (tx.users.map (fun q => if q.ID = r.ID then
          ({ r with Email := email, Provider := str "okta", Updated := now.Unix } : User)
          else q)).map User.Email = tx.users.map User.Email := by
        rw [List.map_map]
        apply List.map_congr_left
        intro q hq
        by_cases h : q.ID = r.ID
        · have : q = r := DB.keysValid_inj tx hwf q r hq hr.1 h
          simp [h, this, hre]
        · simp [h]
      rw [hmap]
      exact hu

/-- One round of the outer loop on valid keys: the `Save`, then the rows that
`SyncUsers.pruned` leaves. -/
theorem SyncUsers.loop_round (now : Time) (emails : List GoString) (email : GoString)
    (rest : List GoString) (tx : DB) (hwf : tx.keysValid) :
    SyncUsers.loop now emails (email :: rest) tx =
      SyncUsers.loop now emails rest
        { users := (tx.Save now
            { tx.First email with Email := email, Provider := str "okta" }).2.2.users.filterMap
              (SyncUsers.pruned now emails),
          settings := (tx.Save now
            { tx.First email with Email := email, Provider := str "okta" }).2.2.settings } := by
  obtain ⟨s1, s2, _⟩ := SyncUsers.save_spec now tx email hwf
  rcases hs : tx.Save now { tx.First email with Email := email, Provider := str "okta" }
    with ⟨e, u1, tx1⟩
  rw [hs] at s1 s2
  simp only at s1 s2
  subst s1
  have hp := SyncUsers.prune_eq now emails tx1.settings tx1.users [] (by simpa using s2.1) s2.2
  simp only [List.nil_append] at hp
  conv_lhs => unfold SyncUsers.loop
  simp only [hs]
  rw [hp]

/-- What one round of the outer loop, for an email of the list, leaves of a
table with valid keys and distinct emails. -/
theorem SyncUsers.round_spec (now : Time) (emails : List GoString) (email : GoString)
    (tx : DB) (hwf : tx.keysValid) (hu : tx.emailsUnique) (hin : email ∈ emails) :
    (∃ tx2, (∀ rest, SyncUsers.loop now emails (email :: rest) tx =
        SyncUsers.loop now emails rest tx2) ∧
      tx2.keysValid ∧ tx2.emailsUnique ∧
      (∃ r ∈ tx2.users, r.Email = email ∧ r.Provider = str "okta") ∧
      (∀ q ∈ tx.users, q.Email ∈ emails → q.Email ≠ email → q ∈ tx2.users) ∧
      (∀ r ∈ tx2.users, r.Email ∉ emails → r.Provider = str "infra" ∧
        ∃ q ∈ tx.users, q.ID = r.ID ∧ q.Email = r.Email ∧ q.Password = r.Password ∧
          ¬ (q.Provider = str "okta" ∧ q.Password.length = 0)) ∧
      (∀ q ∈ tx.users, q.Email ∉ emails →
        ¬ (q.Provider = str "okta" ∧ q.Password.length = 0) →
        ∃ r ∈ tx2.users, r.ID = q.ID ∧ r.Email = q.Email ∧ r.Password = q.Password ∧
          r.Provider = str "infra")) := by
  obtain ⟨_, s2, ⟨r1, hr1, hr1e, hr1p⟩, s4, s5, s6⟩ := SyncUsers.save_spec now tx email hwf
  have hround := fun rest => SyncUsers.loop_round now emails email rest tx hwf
  have s6 := s6 hu
  generalize (tx.Save now
    { tx.First email with Email := email, Provider := str "okta" }).2.2 = tx1
    at hround s2 hr1 s4 s5 s6
  obtain ⟨k1, k2⟩ := SyncUsers.pruned_keys now emails tx1.users
  refine ⟨_, hround, ⟨?_, ?_⟩, ?_, ?_, ?_, ?_, ?_⟩
  · exact List.Nodup.sublist k1 s2.1
  · intro r hr
    obtain ⟨q, hq, hqr⟩ := List.mem_filterMap.mp hr
    rw [(SyncUsers.pruned_some now emails q r hqr).1]
    exact s2.2 q hq
  · exact List.Nodup.sublist k2 s6
  · refine ⟨r1, List.mem_filterMap.mpr ⟨r1, hr1, ?_⟩, hr1e, hr1p⟩
    simp only [SyncUsers.pruned, hr1e, if_pos hin]
  · intro q hq hqin hne
    refine List.mem_filterMap.mpr ⟨q, s4 q hq hne, ?_⟩
    simp only [SyncUsers.pruned, if_pos hqin]
  · intro r hr hrn
    obtain ⟨q, hq, hqr⟩ := List.mem_filterMap.mp hr
    obtain ⟨h1, h2, h3, _, h5⟩ := SyncUsers.pruned_some now emails q r hqr
    have hqn : q.Email ∉ emails := by rw [← h2]; exact hrn
    have hqe : q.Email ≠ email := fun h => hqn (h ▸ hin)
    exact ⟨(h5 hqn).1, q, s5 q hq hqe, h1.symm, h2.symm, h3.symm, (h5 hqn).2⟩
  · intro q hq hqn hnd
    have hqe : q.Email ≠ email := fun h => hqn (h ▸ hin)
    refine ⟨{ q with Provider := str "infra", Updated := now.Unix },
      List.mem_filterMap.mpr ⟨q, s4 q hq hqe, ?_⟩, rfl, rfl, rfl, rfl⟩
    simp only [SyncUsers.pruned, if_neg hqn, if_neg hnd]

theorem okta_ne_infra : str "infra" ≠ str "okta" := by decide

/-- What the outer loop leaves of a table with valid keys and distinct emails,
from any point of the list on. -/
theorem SyncUsers.loop_rounds (now : Time) (emails : List GoString) :
    ∀ (rest : List GoString) (tx : DB), tx.keysValid → tx.emailsUnique →
      (∀ x ∈ rest, x ∈ emails) →
      (SyncUsers.loop now emails rest tx).1 = none ∧
      (SyncUsers.loop now emails rest tx).2.keysValid ∧
      (SyncUsers.loop now emails rest tx).2.emailsUnique ∧
      (∀ e ∈ emails, (e ∈ rest ∨ ∃ r ∈ tx.users, r.Email = e ∧ r.Provider = str "okta") →
        ∃ r ∈ (SyncUsers.loop now emails rest tx).2.users,
          r.Email = e ∧ r.Provider = str "okta") ∧
      (∀ r ∈ (SyncUsers.loop now emails rest tx).2.users, r.Email ∉ emails →
        ∃ q ∈ tx.users, q.ID = r.ID ∧ q.Email = r.Email ∧ q.Password = r.Password ∧
          (rest ≠ [] → r.Provider = str "infra" ∧
            ¬ (q.Provider = str "okta" ∧ q.Password.length = 0))) ∧
      (∀ q ∈ tx.users, q.Email ∉ emails →
        (rest ≠ [] → ¬ (q.Provider = str "okta" ∧ q.Password.length = 0)) →
        (rest = [] → q.Provider = str "infra") →
        ∃ r ∈ (SyncUsers.loop now emails rest tx).2.users,
          r.ID = q.ID ∧ r.Email = q.Email ∧ r.Password = q.Password ∧
          r.Provider = str "infra") := by
  intro rest
  induction rest with
  | nil =>
    intro tx hwf hu _
    refine ⟨rfl, hwf, hu, ?_, ?_, ?_⟩
    · rintro e _ (h | h)
      · exact absurd h (List.not_mem_nil _)
      · exact h
    · intro r hr _
      exact ⟨r, hr, rfl, rfl, rfl, fun h => absurd rfl h⟩
    · intro q hq _ _ h
      exact ⟨q, hq, rfl, rfl, rfl, h rfl⟩
  | cons email rest ih =>
    intro tx hwf hu hsub
    have hin : email ∈ emails := hsub email (List.mem_cons_self _ _)
    obtain ⟨tx2, heq, t1, t2, ⟨r1, hr1, hr1e, hr1p⟩, t4, t5, t6⟩ :=
      SyncUsers.round_spec now emails email tx hwf hu hin
    rw [heq rest]
    obtain ⟨i1, i2, i3, i4, i5, i6⟩ := ih tx2 t1 t2
      (fun x hx => hsub x (List.mem_cons_of_mem _ hx))
    refine ⟨i1, i2, i3, ?_, ?_, ?_⟩
    · intro e he h
      apply i4 e he
      by_cases hee : e = email
      · exact Or.inr ⟨r1, hr1, hr1e.trans hee.symm, hr1p⟩
      · rcases h with h | ⟨r, hr, hre, hrp⟩
        · rcases List.mem_cons.mp h with h | h
          · exact absurd h hee
          · exact Or.inl h
        · exact Or.inr ⟨r, t4 r hr (hre ▸ he) (by rw [hre]; exact hee), hre, hrp⟩
    · intro r hr hrn
      obtain ⟨q2, hq2, a1, a2, a3, _⟩ := i5 r hr hrn
      obtain ⟨b0, q, hq, b1, b2, b3, b4⟩ := t5 q2 hq2 (by rw [a2]; exact hrn)
      refine ⟨q, hq, b1.trans a1, b2.trans a2, b3.trans a3, fun _ => ⟨?_, b4⟩⟩
      -- the provider of the row at the end
      by_cases hrest : rest = []
      · subst hrest
        have hr' : r ∈ tx2.users := hr
        exact (t5 r hr' hrn).1
      · exact ((i5 r hr hrn).choose_spec.2.2.2.2 hrest).1
    · intro q hq hqn hnd _
      obtain ⟨r2, hr2, c1, c2, c3, c4⟩ := t6 q hq hqn (hnd (by simp))
      obtain ⟨r, hr, d1, d2, d3, d4⟩ := i6 r2 hr2 (by rw [c2]; exact hqn)
        (fun _ h => okta_ne_infra (c4.symm.trans h.1)) (fun _ => c4)
      exact ⟨r, hr, d1.trans c1, d2.trans c2, d3.trans c3, d4⟩

theorem filter_length_one {α β : Type} [DecidableEq β] (f : α → β) :
    ∀ (l : List α) (a : α), (l.map f).Nodup → a ∈ l →
      (l.filter (fun x => decide (f x = f a))).length = 1 := by
  intro l
  induction l with
  | nil => intro a _ ha; exact absurd ha (List.not_mem_nil _)
  | cons b l ih =>
    intro a hnd ha
    rw [List.map_cons, List.nodup_cons] at hnd
    rw [List.filter_cons]
    by_cases hb : f b = f a
    · rw [if_pos (decide_eq_true hb)]
      have : l.filter (fun x => decide (f x = f a)) = [] := by
        rw [List.filter_eq_nil_iff]
        intro x hx hxa
        exact hnd.1 (by rw [hb, ← of_decide_eq_true hxa]; exact List.mem_map_of_mem _ hx)
      rw [this]
      rfl
    · rw [if_neg (by simpa using hb)]
      rcases List.mem_cons.mp ha with h | h
      · exact absurd (by rw [h]) hb
      · exact ih a hnd.2 h

/-- C24: on a store with valid primary keys and at most one user per email,
for a list of emails that is not empty, `SyncUsers` returns `nil` and then
every email of the list has exactly one user, whose provider is `okta`; a user
whose email is not in the list and who came from Okta without a password is
gone (no row has its email); and any other user whose email is not in the list
is still there, with its key, email and password, and with the provider
`infra`. -/
theorem SyncUsers_reconciles (now : Time) (db : DB) (emails : List GoString)
    (provider : GoString) (hkeys : db.keysValid) (huniq : db.emailsUnique)
    (hne : emails ≠ []) :
    (SyncUsers now db emails provider).1 = none ∧
    (∀ e ∈ emails,
      ((SyncUsers now db emails provider).2.users.filter
        (fun r => decide (r.Email = e))).length = 1 ∧
      ∀ r ∈ (SyncUsers now db emails provider).2.users, r.Email = e →
        r.Provider = str "okta") ∧
    (∀ u ∈ db.users, u.Email ∉ emails → u.Provider = str "okta" → u.Password = [] →
      ∀ r ∈ (SyncUsers now db emails provider).2.users, r.Email ≠ u.Email) ∧
    (∀ u ∈ db.users, u.Email ∉ emails → ¬ (u.Provider = str "okta" ∧ u.Password = []) →
      ∃ r ∈ (SyncUsers now db emails provider).2.users,
        r.ID = u.ID ∧ r.Email = u.Email ∧ r.Password = u.Password ∧
        r.Provider = str "infra") := by
  obtain ⟨i1, _, i3, i4, i5, i6⟩ := SyncUsers.loop_rounds now emails emails db hkeys huniq
    (fun _ h => h)
  rcases hl : SyncUsers.loop now emails emails db with ⟨err, tx⟩
  rw [hl] at i1 i3 i4 i5 i6
  simp only at i1 i3 i4 i5 i6
  subst i1
  rw [SyncUsers_of_loop now db emails provider tx hl]
  refine ⟨rfl, ?_, ?_, ?_⟩
  · intro e he
    obtain ⟨r0, hr0, hr0e, hr0p⟩ := i4 e he (Or.inl he)
    constructor
    · have := filter_length_one User.Email tx.users r0 i3 hr0
      rw [hr0e] at this
      exact this
    · intro r hr hre
      have : r = r0 := List.inj_on_of_nodup_map i3 hr hr0 (hre.trans hr0e.symm)
      rw [this]
      exact hr0p
  · intro u hu hun hp hpw r hr hre
    obtain ⟨q, hq, _, q2, _, q4⟩ := i5 r hr (by rw [hre]; exact hun)
    have : q = u := List.inj_on_of_nodup_map huniq hq hu (q2.trans hre)
    subst this
    exact (q4 hne).2 ⟨hp, by rw [hpw]; rfl⟩
  · intro u hu hun hnd
    exact i6 u hu hun (fun _ h => hnd ⟨h.1, List.length_eq_zero.mp h.2⟩)
      (fun h => absurd h hne)

/-- On `sampleUsers`, synced with the email of a newcomer: the newcomer has one
user, with the provider `okta`; `oli`, who came from Okta without a password,
is gone; `pat` and `ian`, who have passwords, are with `infra`. -/
theorem SyncUsers_reconciles_witness :
    (SyncUsers 5000000000 sampleUsers [str "new@example.com"] (str "okta")).1 = none ∧
    ((SyncUsers 5000000000 sampleUsers [str "new@example.com"] (str "okta")).2.users.filter
      (fun r => decide (r.Email = str "new@example.com"))).length = 1 ∧
    (∀ r ∈ (SyncUsers 5000000000 sampleUsers [str "new@example.com"] (str "okta")).2.users,
      r.Email ≠ str "oli@example.com") ∧
    (∃ r ∈ (SyncUsers 5000000000 sampleUsers [str "new@example.com"] (str "okta")).2.users,
      r.ID = 1 ∧ r.Email = str "pat@example.com" ∧ r.Password = str "hash" ∧
      r.Provider = str "infra") := by
  have h := SyncUsers_reconciles 5000000000 sampleUsers [str "new@example.com"] (str "okta")
    (by decide) (by decide) (by decide)
  exact ⟨h.1, (h.2.1 _ (List.mem_singleton.mpr rfl)).1,
    h.2.2.1 { ID := 2, Email := str "oli@example.com", Provider := str "okta" } (by decide)
      (by decide) rfl rfl,
    h.2.2.2 { ID := 1, Email := str "pat@example.com", Password := str "hash",
              Provider := str "okta" } (by decide) (by decide) (by decide)⟩

/-! ## The empty list and the `provider` argument -/

/-- C25: called with an empty list of emails, `SyncUsers` returns `nil` and the
store it was given, whatever the store: the loop over the emails, which holds
the pruning, is not entered, so no row is deleted and no provider rewritten. -/
theorem SyncUsers_empty_list_unchanged (now : Time) (db : DB) (provider : GoString) :
    SyncUsers now db [] provider = (none, db) ∧
    (SyncUsers now db [] provider).2.users = db.users :=
  ⟨rfl, rfl⟩

/-- C26: `SyncUsers` does not read its `provider` argument: with any two
provider strings it returns the same error and the same store, so the same
user rows. -/
theorem SyncUsers_ignores_provider (now : Time) (db : DB) (emails : List GoString)
    (p1 p2 : GoString) :
    SyncUsers now db emails p1 = SyncUsers now db emails p2 ∧
    (SyncUsers now db emails p1).1 = (SyncUsers now db emails p2).1 ∧
    (SyncUsers now db emails p1).2.users = (SyncUsers now db emails p2).2.users :=
  ⟨rfl, rfl, rfl⟩

end Server

namespace Reconciler

open Registry (Byte GoString Err str)

/-! ## The transaction of `loadConfig` -/

theorem loadConfig_of_loadAll (env : Env) (db : Store) (config : Config) (tx : Store)
    (h : loadAll env config (deleteManaged (ensureAnchors db)) = (none, tx)) :
    loadConfig env db config = (none, tx) := by
  simp only [loadConfig, Store.Transaction, h]

theorem loadConfig_of_failed (env : Env) (db : Store) (config : Config) (e : String)
    (tx : Store) (h : loadAll env config (deleteManaged (ensureAnchors db)) = (some e, tx)) :
    loadConfig env db config = (some e, db) := by
  simp only [loadConfig, Store.Transaction, h]

/-- A `loadConfig` that returns no error has loaded the configuration. -/
theorem loadAll_of_loadConfig (env : Env) (db : Store) (config : Config)
    (h : (loadConfig env db config).1 = none) :
    loadAll env config (deleteManaged (ensureAnchors db)) =
      (none, (loadConfig env db config).2) := by
  rcases hl : loadAll env config (deleteManaged (ensureAnchors db)) with ⟨e, tx⟩
  cases e with
  | none => rw [loadConfig_of_loadAll env db config tx hl]
  | some e =>
    rw [loadConfig_of_failed env db config e tx hl] at h
    exact absurd h (by simp)

/-- A `loadConfig` that returns an error leaves the store as it was. -/
theorem loadConfig_error_unchanged (env : Env) (db : Store) (config : Config)
    (h : (loadConfig env db config).1 ≠ none) : (loadConfig env db config).2 = db := by
  rcases hl : loadAll env config (deleteManaged (ensureAnchors db)) with ⟨e, tx⟩
  cases e with
  | none =>
    rw [loadConfig_of_loadAll env db config tx hl] at h
    exact absurd rfl h
  | some e => rw [loadConfig_of_failed env db config e tx hl]

/-! ## Invalid entries -/

theorem loadProviders_invalid (env : Env) :
    ∀ (ps : List Provider) (providers : List Models.Provider),
      (∃ p ∈ ps, p.Name = [] ∨ p.URL = [] ∨ p.ClientID = [] ∨ p.ClientSecret = []) →
      (loadProviders env ps providers).1 ≠ none := by
  intro ps
  induction ps with
  | nil =>
    rintro providers ⟨p, hp, _⟩
    exact absurd hp (List.not_mem_nil _)
  | cons a ps ih =>
    rintro providers ⟨p, hp, hbad⟩
    unfold loadProviders
    rcases hl : loadProvider env providers a with ⟨e, providers1⟩
    cases e with
    | some e => simp
    | none =>
      simp only
      rcases List.mem_cons.mp hp with rfl | hp'
      · exfalso
        unfold loadProvider at hl
        rcases hbad with h | h | h | h
        · rw [if_pos h] at hl
          exact absurd (congrArg Prod.fst hl) (by simp)
        · by_cases h1 : p.Name = []
          · rw [if_pos h1] at hl
            exact absurd (congrArg Prod.fst hl) (by simp)
          · rw [if_neg h1, if_pos h] at hl
            exact absurd (congrArg Prod.fst hl) (by simp)
        · by_cases h1 : p.Name = []
          · rw [if_pos h1] at hl
            exact absurd (congrArg Prod.fst hl) (by simp)
          · by_cases h2 : p.URL = []
            · rw [if_neg h1, if_pos h2] at hl
              exact absurd (congrArg Prod.fst hl) (by simp)
            · rw [if_neg h1, if_neg h2, if_pos h] at hl
              exact absurd (congrArg Prod.fst hl) (by simp)
        · by_cases h1 : p.Name = []
          · rw [if_pos h1] at hl
            exact absurd (congrArg Prod.fst hl) (by simp)
          · by_cases h2 : p.URL = []
            · rw [if_neg h1, if_pos h2] at hl
              exact absurd (congrArg Prod.fst hl) (by simp)
            · by_cases h3 : p.ClientID = []
              · rw [if_neg h1, if_neg h2, if_pos h3] at hl
                exact absurd (congrArg Prod.fst hl) (by simp)
              · rw [if_neg h1, if_neg h2, if_neg h3, if_pos h] at hl
                exact absurd (congrArg Prod.fst hl) (by simp)
      · exact ih providers1 ⟨p, hp', hbad⟩

theorem Grant.invalid_of_missing (g : Grant)
    (h : (g.User = [] ∧ g.Group = []) ∨ g.Resource = []) : g.invalid ≠ none := by
  unfold Grant.invalid
  by_cases h1 : g.User = [] ∧ g.Group = []
  · rw [if_pos h1]
    simp
  · rw [if_neg h1]
    by_cases h2 : g.User ≠ [] ∧ g.Group ≠ []
    · rw [if_pos h2]
      simp
    · rw [if_neg h2]
      rcases h with h | h
      · exact absurd h h1
      · rw [if_pos h]
        simp

theorem loadGrants_invalid :
    ∀ (gs : List Grant) (t : GrantTables),
      (∃ g ∈ gs, (g.User = [] ∧ g.Group = []) ∨ g.Resource = []) →
      (loadGrants gs t).1 ≠ none := by
  intro gs
  induction gs with
  | nil =>
    rintro t ⟨g, hg, _⟩
    exact absurd hg (List.not_mem_nil _)
  | cons a gs ih =>
    rintro t ⟨g, hg, hbad⟩
    unfold loadGrants
    rcases hl : loadGrant t a with ⟨e, t1⟩
    cases e with
    | some e => simp
    | none =>
      simp only
      rcases List.mem_cons.mp hg with rfl | hg'
      · exfalso
        unfold loadGrant at hl
        cases hi : g.invalid with
        | none => exact Grant.invalid_of_missing g hbad hi
        | some e =>
          rw [hi] at hl
          exact absurd (congrArg Prod.fst hl) (by simp)
      · exact ih t1 ⟨g, hg', hbad⟩

theorem loadAll_invalid (env : Env) (config : Config) (tx : Store)
    (h : (∃ p ∈ config.Providers,
        p.Name = [] ∨ p.URL = [] ∨ p.ClientID = [] ∨ p.ClientSecret = []) ∨
      (∃ g ∈ config.Grants, (g.User = [] ∧ g.Group = []) ∨ g.Resource = [])) :
    (loadAll env config tx).1 ≠ none := by
  unfold loadAll
  rcases hp : loadProviders env config.Providers tx.providers with ⟨e1, providers⟩
  cases e1 with
  | some e1 => simp
  | none =>
    simp only
    rcases hu : loadUsers env config.Users
      { identities := tx.identities, credentials := tx.credentials,
        access_keys := tx.access_keys } with ⟨e2, ut⟩
    cases e2 with
    | some e2 => simp
    | none =>
      simp only
      rcases hg : loadGrants config.Grants
        { identities := ut.identities, groups := tx.groups, grants := tx.grants } with ⟨e3, gt⟩
      cases e3 with
      | some e3 => simp
      | none =>
        exfalso
        rcases h with h | h
        · have := loadProviders_invalid env config.Providers tx.providers h
          rw [hp] at this
          exact this rfl
        · have := loadGrants_invalid config.Grants
            { identities := ut.identities, groups := tx.groups, grants := tx.grants } h
          rw [hg] at this
          exact this rfl

/-- C20: for a configuration with a provider that lacks a name, a URL, a
client ID or a client secret, or with a grant that names neither a user nor a
group or lacks a resource, `loadConfig` returns an error and the store it
returns is the store it was given. -/
theorem loadConfig_invalid_unchanged (env : Env) (db : Store) (config : Config)
    (h : (∃ p ∈ config.Providers,
        p.Name = [] ∨ p.URL = [] ∨ p.ClientID = [] ∨ p.ClientSecret = []) ∨
      (∃ g ∈ config.Grants, (g.User = [] ∧ g.Group = []) ∨ g.Resource = [])) :
    (loadConfig env db config).1 ≠ none ∧ (loadConfig env db config).2 = db := by
  have he : (loadConfig env db config).1 ≠ none := by
    intro hok
    have hl := loadAll_of_loadConfig env db config hok
    exact loadAll_invalid env config _ h (by rw [hl])
  exact ⟨he, loadConfig_error_unchanged env db config he⟩

/-- A configuration whose second provider has no URL, after a valid first
provider and with valid grants, fails on the store that `pruneConfig` leaves,
and the store is as it was. -/
theorem loadConfig_invalid_unchanged_witness :
    (loadConfig sampleEnv (loadConfig sampleEnv {} pruneConfig).2
      { pruneConfig with Providers := pruneNewConfig.Providers ++
          [{ Name := str "azure", ClientID := str "client-id",
             ClientSecret := str "client-secret" }] }).1 ≠ none ∧
    (loadConfig sampleEnv (loadConfig sampleEnv {} pruneConfig).2
      { pruneConfig with Providers := pruneNewConfig.Providers ++
          [{ Name := str "azure", ClientID := str "client-id",
             ClientSecret := str "client-secret" }] }).2 =
      (loadConfig sampleEnv {} pruneConfig).2 :=
  loadConfig_invalid_unchanged sampleEnv (loadConfig sampleEnv {} pruneConfig).2
    { pruneConfig with Providers := pruneNewConfig.Providers ++
        [{ Name := str "azure", ClientID := str "client-id",
           ClientSecret := str "client-secret" }] }
    (Or.inl ⟨{ Name := str "azure", ClientID := str "client-id",
               ClientSecret := str "client-secret" }, by decide, by decide⟩)

/-! ## The anchors and the deletion -/

theorem ensureAnchors_has (db : Store) :
    (∃ p ∈ (ensureAnchors db).providers, p.Name = InternalInfraProviderName) ∧
    (∃ i ∈ (ensureAnchors db).identities, i.Name = InternalInfraConnectorIdentityName) ∧
    (∃ g ∈ (ensureAnchors db).grants, g.sameTuple connectorGrant = true) := by
  refine ⟨?_, ?_, ?_⟩
  · simp only [ensureAnchors]
    split
    · rename_i h
      obtain ⟨p, hp, hn⟩ := List.any_eq_true.mp h
      exact ⟨p, hp, by simpa using hn⟩
    · exact ⟨infraProvider, List.mem_append_right _ (List.mem_singleton.mpr rfl), rfl⟩
  · simp only [ensureAnchors]
    split
    · rename_i h
      obtain ⟨p, hp, hn⟩ := List.any_eq_true.mp h
      exact ⟨p, hp, by simpa using hn⟩
    · exact ⟨connectorIdentity, List.mem_append_right _ (List.mem_singleton.mpr rfl), rfl⟩
  · simp only [ensureAnchors]
    split
    · rename_i h
      obtain ⟨p, hp, hn⟩ := List.any_eq_true.mp h
      exact ⟨p, hp, hn⟩
    · exact ⟨connectorGrant, List.mem_append_right _ (List.mem_singleton.mpr rfl), by decide⟩

theorem ensureAnchors_fixed (db : Store)
    (hp : ∃ p ∈ db.providers, p.Name = InternalInfraProviderName)
    (hi : ∃ i ∈ db.identities, i.Name = InternalInfraConnectorIdentityName)
    (hg : ∃ g ∈ db.grants, g.sameTuple connectorGrant = true) : ensureAnchors db = db := by
  have h1 : db.providers.any (fun p => decide (p.Name = InternalInfraProviderName)) = true := by
    obtain ⟨p, hp, hn⟩ := hp
    exact List.any_eq_true.mpr ⟨p, hp, by simpa using hn⟩
  have h2 : db.identities.any
      (fun i => decide (i.Name = InternalInfraConnectorIdentityName)) = true := by
    obtain ⟨p, hp, hn⟩ := hi
    exact List.any_eq_true.mpr ⟨p, hp, by simpa using hn⟩
  have h3 : db.grants.any (fun g => g.sameTuple connectorGrant) = true := by
    obtain ⟨p, hp, hn⟩ := hg
    exact List.any_eq_true.mpr ⟨p, hp, hn⟩
  simp only [ensureAnchors, h1, h2, h3, if_true]

theorem ensureAnchors_mem (db : Store) :
    (∀ p ∈ (ensureAnchors db).providers, p ∈ db.providers ∨ p = infraProvider) ∧
    (∀ i ∈ (ensureAnchors db).identities, i ∈ db.identities ∨ i = connectorIdentity) ∧
    (∀ g ∈ (ensureAnchors db).grants, g ∈ db.grants ∨ g = connectorGrant) ∧
    (∀ i ∈ db.identities, i ∈ (ensureAnchors db).identities) ∧
    (ensureAnchors db).access_keys = db.access_keys ∧
    (ensureAnchors db).groups = db.groups := by
  refine ⟨?_, ?_, ?_, ?_, rfl, rfl⟩
  · intro p hp
    simp only [ensureAnchors] at hp
    split at hp
    · exact Or.inl hp
    · rcases List.mem_append.mp hp with h | h
      · exact Or.inl h
      · exact Or.inr (List.mem_singleton.mp h)
  · intro p hp
    simp only [ensureAnchors] at hp
    split at hp
    · exact Or.inl hp
    · rcases List.mem_append.mp hp with h | h
      · exact Or.inl h
      · exact Or.inr (List.mem_singleton.mp h)
  · intro p hp
    simp only [ensureAnchors] at hp
    split at hp
    · exact Or.inl hp
    · rcases List.mem_append.mp hp with h | h
      · exact Or.inl h
      · exact Or.inr (List.mem_singleton.mp h)
  · intro i hi
    simp only [ensureAnchors]
    split
    · exact hi
    · exact List.mem_append_left _ hi

theorem sameTuple_connector_subject (g : Models.Grant)
    (h : g.sameTuple connectorGrant = true) :
    g.Subject = Subject.identity InternalInfraConnectorIdentityName := by
  unfold Models.Grant.sameTuple at h
  exact (of_decide_eq_true h).1

theorem sameTuple_trans_connector (g h : Models.Grant) (h1 : h.sameTuple g = false)
    (h2 : h.sameTuple connectorGrant = true) : g.sameTuple connectorGrant = false := by
  unfold Models.Grant.sameTuple at h1 h2 ⊢
  have a := of_decide_eq_true h2
  have b := of_decide_eq_false h1
  apply decide_eq_false
  rintro ⟨c1, c2, c3⟩
  exact b ⟨a.1.trans c1.symm, a.2.1.trans c2.symm, a.2.2.trans c3.symm⟩

theorem managedIdentities_mem (db : Store) (n : GoString) :
    n ∈ db.managedIdentities ↔ ∃ i ∈ db.identities, i.Name = n ∧
      i.CreatedBy = Origin.config ∧ i.Name ≠ InternalInfraConnectorIdentityName := by
  unfold Store.managedIdentities
  constructor
  · intro h
    obtain ⟨i, hi, rfl⟩ := List.mem_map.mp h
    have := List.mem_filter.mp hi
    exact ⟨i, this.1, rfl, of_decide_eq_true this.2⟩
  · rintro ⟨i, hi, rfl, h⟩
    exact List.mem_map.mpr ⟨i, List.mem_filter.mpr ⟨hi, decide_eq_true h⟩, rfl⟩

/-- What the first two steps of a reconciliation leave: no config-managed
provider, identity or grant but the anchors, which are there; grants to
identities of the store, if it was so before; and no two access keys of one
`KeyID`, if it was so before. -/
theorem deleteManaged_ensureAnchors_spec (db : Store) :
    (∀ p ∈ (deleteManaged (ensureAnchors db)).providers,
      p.CreatedBy ≠ Origin.config ∨ p.Name = InternalInfraProviderName) ∧
    (∃ p ∈ (deleteManaged (ensureAnchors db)).providers, p.Name = InternalInfraProviderName) ∧
    (∀ i ∈ (deleteManaged (ensureAnchors db)).identities,
      i.CreatedBy ≠ Origin.config ∨ i.Name = InternalInfraConnectorIdentityName) ∧
    (∃ i ∈ (deleteManaged (ensureAnchors db)).identities,
      i.Name = InternalInfraConnectorIdentityName) ∧
    (∀ g ∈ (deleteManaged (ensureAnchors db)).grants,
      g.CreatedBy ≠ Origin.config ∨ g.sameTuple connectorGrant = true) ∧
    (∃ g ∈ (deleteManaged (ensureAnchors db)).grants, g.sameTuple connectorGrant = true) ∧
    (db.grantsRefer → (deleteManaged (ensureAnchors db)).grantsRefer) ∧
    (db.keyIDsUnique → (deleteManaged (ensureAnchors db)).keyIDsUnique) := by
  obtain ⟨⟨p0, hp0, hp0n⟩, ⟨i0, hi0, hi0n⟩, ⟨g0, hg0, hg0t⟩⟩ := ensureAnchors_has db
  have hconn : InternalInfraConnectorIdentityName ∉ (ensureAnchors db).managedIdentities := by
    intro h
    obtain ⟨i, _, h1, _, h3⟩ := (managedIdentities_mem _ _).mp h
    exact h3 h1
  refine ⟨?_, ?_, ?_, ?_, ?_, ?_, ?_, ?_⟩
  · intro p hp
    exact of_decide_eq_true (List.mem_filter.mp hp).2
  · exact ⟨p0, List.mem_filter.mpr ⟨hp0, decide_eq_true (Or.inr hp0n)⟩, hp0n⟩
  · intro i hi
    exact of_decide_eq_true (List.mem_filter.mp hi).2
  · exact ⟨i0, List.mem_filter.mpr ⟨hi0, decide_eq_true (Or.inr hi0n)⟩, hi0n⟩
  · intro g hg
    have := (List.mem_filter.mp hg).2
    simp only [Bool.and_eq_true, Bool.or_eq_true, decide_eq_true_eq] at this
    exact this.1
  · refine ⟨g0, List.mem_filter.mpr ⟨hg0, ?_⟩, hg0t⟩
    simp only [Bool.and_eq_true, Bool.or_eq_true, decide_eq_true_eq, Bool.not_eq_true']
    refine ⟨Or.inr hg0t, ?_⟩
    rw [List.any_eq_false]
    intro n hn
    rw [sameTuple_connector_subject g0 hg0t]
    intro h
    have h' := of_decide_eq_true h
    injection h' with h''
    exact hconn (h'' ▸ hn)
  · intro href g hg n hsub
    have hgm := List.mem_filter.mp hg
    have hcond := hgm.2
    simp only [Bool.and_eq_true, Bool.or_eq_true, decide_eq_true_eq, Bool.not_eq_true'] at hcond
    have hngone : n ∉ (ensureAnchors db).managedIdentities := by
      intro hn
      have := List.any_eq_false.mp hcond.2 n hn
      exact this (decide_eq_true hsub)
    -- the identity of the name is in the store with the anchors
    have hex : ∃ i ∈ (ensureAnchors db).identities, i.Name = n := by
      rcases (ensureAnchors_mem db).2.2.1 g hgm.1 with h | h
      · obtain ⟨i, hi, hin⟩ := List.mem_map.mp (href g h n hsub)
        exact ⟨i, (ensureAnchors_mem db).2.2.2.1 i hi, hin⟩
      · subst h
        have : n = InternalInfraConnectorIdentityName := by
          have h' : Subject.identity InternalInfraConnectorIdentityName = Subject.identity n :=
            hsub
          injection h' with h''
          exact h''.symm
        exact ⟨i0, hi0, hi0n.trans this.symm⟩
    obtain ⟨i, hi, hin⟩ := hex
    refine List.mem_map.mpr ⟨i, List.mem_filter.mpr ⟨hi, decide_eq_true ?_⟩, hin⟩
    by_cases hc : i.CreatedBy = Origin.config
    · right
      by_contra hne
      exact hngone ((managedIdentities_mem _ _).mpr ⟨i, hi, hin, hc, hne⟩)
    · exact Or.inl hc
  · intro hk
    unfold Store.keyIDsUnique at hk ⊢
    exact List.Nodup.sublist (List.Sublist.map _ (List.filter_sublist _)) hk

theorem filter_append_new {α : Type} (p : α → Bool) (a new : List α)
    (ha : ∀ x ∈ a, p x = true) (hn : ∀ x ∈ new, p x = false) :
    (a ++ new).filter p = a := by
  rw [List.filter_append, List.filter_eq_self.mpr ha, List.filter_eq_nil_iff.mpr, List.append_nil]
  intro x hx
  rw [hn x hx]
  simp

/-- The deletion undoes a load: from a store that has, after rows that the
deletion keeps, only config-managed providers, identities and grants of new
names and tuples, the deletion leaves the providers, identities and grants
that were there before, and every group. -/
theorem deleteManaged_of_extends (gs : List Grant) (x y : Store)
    (hP : ∀ p ∈ x.providers, p.CreatedBy ≠ Origin.config ∨ p.Name = InternalInfraProviderName)
    (hPa : ∃ p ∈ x.providers, p.Name = InternalInfraProviderName)
    (hI : ∀ i ∈ x.identities,
      i.CreatedBy ≠ Origin.config ∨ i.Name = InternalInfraConnectorIdentityName)
    (hIa : ∃ i ∈ x.identities, i.Name = InternalInfraConnectorIdentityName)
    (hR : ∀ g ∈ x.grants, g.CreatedBy ≠ Origin.config ∨ g.sameTuple connectorGrant = true)
    (hRa : ∃ g ∈ x.grants, g.sameTuple connectorGrant = true)
    (href : x.grantsRefer)
    (eP : ∃ new, y.providers = x.providers ++ new ∧ ∀ p ∈ new,
      p.CreatedBy = Origin.config ∧ p.Name ∉ x.providers.map Models.Provider.Name)
    (eI : extendsIdentities x.identities y.identities)
    (eR : extendsGrants gs x.grants y.grants) :
    (deleteManaged y).providers = x.providers ∧
    (deleteManaged y).identities = x.identities ∧
    (deleteManaged y).grants = x.grants ∧
    (deleteManaged y).groups = y.groups ∧
    (deleteManaged y).access_keys =
      y.access_keys.filter (fun k => !decide (k.IssuedFor ∈ y.managedIdentities)) := by
  obtain ⟨newP, hyP, hnewP⟩ := eP
  obtain ⟨newI, hyI, hnewI⟩ := eI
  obtain ⟨newR, hyR, hnewR⟩ := eR
  obtain ⟨p0, hp0, hp0n⟩ := hPa
  obtain ⟨i0, hi0, hi0n⟩ := hIa
  obtain ⟨g0, hg0, hg0t⟩ := hRa
  -- the identities that go are the new ones
  have hgone : ∀ n ∈ y.managedIdentities, n ∉ x.identities.map Models.Identity.Name := by
    intro n hn
    obtain ⟨i, hi, hin, hc, hne⟩ := (managedIdentities_mem _ _).mp hn
    rw [hyI] at hi
    rcases List.mem_append.mp hi with h | h
    · rcases hI i h with h1 | h1
      · exact absurd hc h1
      · exact absurd h1 hne
    · rw [← hin]
      exact (hnewI i h).2
  refine ⟨?_, ?_, ?_, rfl, rfl⟩
  · simp only [deleteManaged, hyP]
    apply filter_append_new
    · intro p hp
      exact decide_eq_true (hP p hp)
    · intro p hp
      apply decide_eq_false
      rintro (h | h)
      · exact h (hnewP p hp).1
      · apply (hnewP p hp).2
        rw [h, ← hp0n]
        exact List.mem_map_of_mem _ hp0
  · simp only [deleteManaged, hyI]
    apply filter_append_new
    · intro p hp
      exact decide_eq_true (hI p hp)
    · intro p hp
      apply decide_eq_false
      rintro (h | h)
      · exact h (hnewI p hp).1
      · apply (hnewI p hp).2
        rw [h, ← hi0n]
        exact List.mem_map_of_mem _ hi0
  · simp only [deleteManaged]
    rw [hyR]
    apply filter_append_new
    · intro g hg
      simp only [Bool.and_eq_true, Bool.or_eq_true, decide_eq_true_eq, Bool.not_eq_true']
      refine ⟨hR g hg, ?_⟩
      rw [List.any_eq_false]
      intro n hn h
      exact hgone n hn (href g hg n (of_decide_eq_true h))
    · intro g hg
      obtain ⟨⟨e, _, he⟩, hfresh⟩ := hnewR g hg
      have h1 : g.CreatedBy = Origin.config := by rw [he]; rfl
      have h2 : g.sameTuple connectorGrant = false :=
        sameTuple_trans_connector g g0 (hfresh g0 hg0) hg0t
      simp [h1, h2]

/-! ## What the loaders append -/

theorem loadProvider_ok (env : Env) (providers providers1 : List Models.Provider)
    (p : Provider) (h : loadProvider env providers p = (none, providers1)) :
    providers1 = providers ++ [p.row env] ∧
    p.Name ∉ providers.map Models.Provider.Name := by
  unfold loadProvider at h
  split at h
  · exact absurd (congrArg Prod.fst h) (by simp)
  · split at h
    · exact absurd (congrArg Prod.fst h) (by simp)
    · split at h
      · exact absurd (congrArg Prod.fst h) (by simp)
      · split at h
        · exact absurd (congrArg Prod.fst h) (by simp)
        · split at h
          · exact absurd (congrArg Prod.fst h) (by simp)
          · rename_i hany
            refine ⟨(congrArg Prod.snd h).symm, ?_⟩
            intro hmem
            obtain ⟨r, hr, hrn⟩ := List.mem_map.mp hmem
            exact hany (List.any_eq_true.mpr ⟨r, hr, decide_eq_true hrn⟩)

/-- A successful `loadProviders` appends the rows of the entries, whose names
are not among the providers that were there. -/
theorem loadProviders_ok (env : Env) :
    ∀ (ps : List Provider) (providers providers1 : List Models.Provider),
      loadProviders env ps providers = (none, providers1) →
      providers1 = providers ++ ps.map (Provider.row env) ∧
      ∀ p ∈ ps, p.Name ∉ providers.map Models.Provider.Name := by
  intro ps
  induction ps with
  | nil =>
    intro providers providers1 h
    simp only [loadProviders, Prod.mk.injEq, true_and] at h
    subst h
    exact ⟨by simp, fun p hp => absurd hp (List.not_mem_nil _)⟩
  | cons a ps ih =>
    intro providers providers1 h
    unfold loadProviders at h
    rcases hl : loadProvider env providers a with ⟨e, mid⟩
    rw [hl] at h
    cases e with
    | some e => exact absurd (congrArg Prod.fst h) (by simp)
    | none =>
      simp only at h
      obtain ⟨h1, h2⟩ := loadProvider_ok env providers mid a hl
      obtain ⟨h3, h4⟩ := ih mid providers1 h
      subst h1
      refine ⟨by rw [h3]; simp, ?_⟩
      intro p hp
      rcases List.mem_cons.mp hp with rfl | hp'
      · exact h2
      · intro hmem
        apply h4 p hp'
        rw [List.map_append]
        exact List.mem_append_left _ hmem

theorem extendsIdentities_refl (a : List Models.Identity) : extendsIdentities a a :=
  ⟨[], by simp, fun i hi => absurd hi (List.not_mem_nil _)⟩

theorem extendsIdentities_trans (a b c : List Models.Identity)
    (h1 : extendsIdentities a b) (h2 : extendsIdentities b c) : extendsIdentities a c := by
  obtain ⟨n1, rfl, hn1⟩ := h1
  obtain ⟨n2, rfl, hn2⟩ := h2
  refine ⟨n1 ++ n2, by simp, ?_⟩
  intro i hi
  rcases List.mem_append.mp hi with h | h
  · exact hn1 i h
  · refine ⟨(hn2 i h).1, fun hmem => (hn2 i h).2 ?_⟩
    rw [List.map_append]
    exact List.mem_append_left _ hmem

theorem resolveIdentity_extends (a : List Models.Identity) (n : GoString) :
    extendsIdentities a (resolveIdentity a n) := by
  unfold resolveIdentity
  split
  · exact extendsIdentities_refl a
  · rename_i hany
    refine ⟨[{ Name := n, CreatedBy := Origin.config }], rfl, ?_⟩
    intro i hi
    rw [List.mem_singleton.mp hi]
    refine ⟨rfl, ?_⟩
    intro hmem
    obtain ⟨r, hr, hrn⟩ := List.mem_map.mp hmem
    exact hany (List.any_eq_true.mpr ⟨r, hr, decide_eq_true hrn⟩)

theorem extendsGrants_refl (gs : List Grant) (a : List Models.Grant) : extendsGrants gs a a :=
  ⟨[], by simp, fun i hi => absurd hi (List.not_mem_nil _)⟩

theorem extendsGrants_cons (g : Grant) (gs : List Grant) (a b c : List Models.Grant)
    (h1 : extendsGrants [g] a b) (h2 : extendsGrants gs b c) : extendsGrants (g :: gs) a c := by
  obtain ⟨n1, rfl, hn1⟩ := h1
  obtain ⟨n2, rfl, hn2⟩ := h2
  refine ⟨n1 ++ n2, by simp, ?_⟩
  intro i hi
  rcases List.mem_append.mp hi with h | h
  · obtain ⟨⟨e, he, hie⟩, hf⟩ := hn1 i h
    exact ⟨⟨e, by rw [List.mem_singleton.mp he]; exact List.mem_cons_self _ _, hie⟩, hf⟩
  · obtain ⟨⟨e, he, hie⟩, hf⟩ := hn2 i h
    exact ⟨⟨e, List.mem_cons_of_mem _ he, hie⟩, fun x hx => hf x (List.mem_append_left _ hx)⟩

theorem upsertGrant_extends (a : List Models.Grant) (g : Grant) :
    extendsGrants [g] a (upsertGrant a g.row) := by
  unfold upsertGrant
  split
  · exact extendsGrants_refl _ a
  · rename_i hany
    refine ⟨[g.row], rfl, ?_⟩
    intro i hi
    rw [List.mem_singleton.mp hi]
    refine ⟨⟨g, List.mem_singleton.mpr rfl, rfl⟩, ?_⟩
    intro h hh
    by_contra hc
    exact hany (List.any_eq_true.mpr ⟨h, hh, by simpa using hc⟩)

theorem loadGrant_ok (t t1 : GrantTables) (g : Grant) (h : loadGrant t g = (none, t1)) :
    t1 = { identities := if g.User ≠ [] then resolveIdentity t.identities g.User
                         else t.identities
           groups := if g.User ≠ [] then t.groups else resolveGroup t.groups g.Group
           grants := upsertGrant t.grants g.row } ∧
    ∀ t', loadGrant t' g =
      (none, { identities := if g.User ≠ [] then resolveIdentity t'.identities g.User
                             else t'.identities
               groups := if g.User ≠ [] then t'.groups else resolveGroup t'.groups g.Group
               grants := upsertGrant t'.grants g.row }) := by
  unfold loadGrant at h ⊢
  cases hi : g.invalid with
  | some e =>
    rw [hi] at h
    exact absurd (congrArg Prod.fst h) (by simp)
  | none =>
    rw [hi] at h
    simp only [Prod.mk.injEq, true_and] at h
    exact ⟨h.symm, fun t' => rfl⟩

/-- A successful `loadGrants` appends config-managed identities of new names
and rows of the entries with new tuples, leaves the groups of `loadGroups`,
and does the same from any other list of groups. -/
theorem loadGrants_ok :
    ∀ (gs : List Grant) (t t1 : GrantTables), loadGrants gs t = (none, t1) →
      extendsIdentities t.identities t1.identities ∧
      extendsGrants gs t.grants t1.grants ∧
      t1.groups = loadGroups gs t.groups ∧
      ∀ groups, loadGrants gs { t with groups := groups } =
        (none, { t1 with groups := loadGroups gs groups }) := by
  intro gs
  induction gs with
  | nil =>
    intro t t1 h
    simp only [loadGrants, Prod.mk.injEq, true_and] at h
    subst h
    exact ⟨extendsIdentities_refl _, extendsGrants_refl _ _, rfl, fun _ => rfl⟩
  | cons g gs ih =>
    intro t t1 h
    unfold loadGrants at h
    rcases hl : loadGrant t g with ⟨e, mid⟩
    rw [hl] at h
    cases e with
    | some e => exact absurd (congrArg Prod.fst h) (by simp)
    | none =>
      simp only at h
      obtain ⟨hmid, hany⟩ := loadGrant_ok t mid g hl
      obtain ⟨i1, i2, i3, i4⟩ := ih mid t1 h
      have hmi : extendsIdentities t.identities mid.identities := by
        rw [hmid]
        simp only
        split
        · exact resolveIdentity_extends _ _
        · exact extendsIdentities_refl _
      have hmg : extendsGrants [g] t.grants mid.grants := by
        rw [hmid]
        exact upsertGrant_extends _ _
      have hmgr : mid.groups = if g.User ≠ [] then t.groups else resolveGroup t.groups g.Group := by
        rw [hmid]
      refine ⟨extendsIdentities_trans _ _ _ hmi i1, extendsGrants_cons g gs _ _ _ hmg i2, ?_, ?_⟩
      · rw [i3, hmgr]
        rfl
      · intro groups
        unfold loadGrants
        rw [hany { t with groups := groups }]
        simp only
        have := i4 (if g.User ≠ [] then groups else resolveGroup groups g.Group)
        rw [hmid] at this
        simp only at this
        rw [this]
        rfl

theorem resolveGroup_mem (groups : List Models.Group) (n : GoString) :
    n ∈ (resolveGroup groups n).map Models.Group.Name ∧
    ∀ m ∈ groups.map Models.Group.Name, m ∈ (resolveGroup groups n).map Models.Group.Name := by
  unfold resolveGroup
  split
  · rename_i h
    obtain ⟨g, hg, hn⟩ := List.any_eq_true.mp h
    exact ⟨List.mem_map.mpr ⟨g, hg, of_decide_eq_true hn⟩, fun m hm => hm⟩
  · constructor
    · rw [List.map_append]
      exact List.mem_append_right _ (List.mem_singleton.mpr rfl)
    · intro m hm
      rw [List.map_append]
      exact List.mem_append_left _ hm

theorem resolveGroup_of_mem (groups : List Models.Group) (n : GoString)
    (h : n ∈ groups.map Models.Group.Name) : resolveGroup groups n = groups := by
  unfold resolveGroup
  obtain ⟨g, hg, hn⟩ := List.mem_map.mp h
  rw [if_pos (List.any_eq_true.mpr ⟨g, hg, decide_eq_true hn⟩)]

theorem loadGroups_mono :
    ∀ (gs : List Grant) (groups : List Models.Group),
      ∀ m ∈ groups.map Models.Group.Name, m ∈ (loadGroups gs groups).map Models.Group.Name := by
  intro gs
  induction gs with
  | nil => intro groups m hm; exact hm
  | cons g gs ih =>
    intro groups m hm
    unfold loadGroups
    apply ih
    split
    · exact hm
    · exact (resolveGroup_mem groups g.Group).2 m hm

theorem loadGroups_has :
    ∀ (gs : List Grant) (groups : List Models.Group),
      ∀ g ∈ gs, g.User = [] → g.Group ∈ (loadGroups gs groups).map Models.Group.Name := by
  intro gs
  induction gs with
  | nil => intro groups g hg; exact absurd hg (List.not_mem_nil _)
  | cons a gs ih =>
    intro groups g hg hu
    unfold loadGroups
    rcases List.mem_cons.mp hg with rfl | hg'
    · apply loadGroups_mono
      rw [if_neg (not_not.mpr hu)]
      exact (resolveGroup_mem groups g.Group).1
    · exact ih _ g hg' hu

theorem loadGroups_fixed :
    ∀ (gs : List Grant) (groups : List Models.Group),
      (∀ g ∈ gs, g.User = [] → g.Group ∈ groups.map Models.Group.Name) →
      loadGroups gs groups = groups := by
  intro gs
  induction gs with
  | nil => intro groups _; rfl
  | cons a gs ih =>
    intro groups h
    unfold loadGroups
    by_cases hu : a.User = []
    · rw [if_neg (not_not.mpr hu), resolveGroup_of_mem groups a.Group
        (h a (List.mem_cons_self _ _) hu)]
      exact ih groups (fun g hg => h g (List.mem_cons_of_mem _ hg))
    · rw [if_pos hu]
      exact ih groups (fun g hg => h g (List.mem_cons_of_mem _ hg))

/-- Resolving the groups of the grants a second time creates none. -/
theorem loadGroups_idem (gs : List Grant) (groups : List Models.Group) :
    loadGroups gs (loadGroups gs groups) = loadGroups gs groups :=
  loadGroups_fixed gs _ (loadGroups_has gs groups)

/-! ## Users and their access keys -/

theorem loadUser_ok (env : Env) (t t1 : UserTables) (u : User)
    (h : loadUser env t u = (none, t1)) :
    u.identityName ≠ [] ∧
    t1.identities = resolveIdentity t.identities u.identityName ∧
    (u.Password ≠ [] → env.GenerateFromPassword u.Password ≠ none) ∧
    (u.AccessKey = [] → t1.access_keys = t.access_keys) ∧
    (u.AccessKey ≠ [] →
      loadAccessKey env t.access_keys u.identityName u.AccessKey = (none, t1.access_keys)) := by
  unfold loadUser at h
  by_cases hn : u.identityName = []
  · rw [if_pos hn] at h
    exact absurd (congrArg Prod.fst h) (by simp)
  · rw [if_neg hn] at h
    simp only at h
    by_cases hp : u.Password = []
    · simp only [hp, if_true] at h
      by_cases hk : u.AccessKey = []
      · simp only [hk, if_true, Prod.mk.injEq, true_and] at h
        subst h
        exact ⟨hn, rfl, fun c => absurd hp c, fun _ => rfl, fun c => absurd hk c⟩
      · simp only [hk, if_false] at h
        rcases hl : loadAccessKey env t.access_keys u.identityName u.AccessKey with ⟨e, keys⟩
        rw [hl] at h
        cases e with
        | some e => exact absurd (congrArg Prod.fst h) (by simp)
        | none =>
          simp only [Prod.mk.injEq, true_and] at h
          subst h
          exact ⟨hn, rfl, fun c => absurd hp c, fun c => absurd c hk, fun _ => rfl⟩
    · simp only [hp, if_false] at h
      cases hg : env.GenerateFromPassword u.Password with
      | none =>
        rw [hg] at h
        exact absurd (congrArg Prod.fst h) (by simp)
      | some hash =>
        rw [hg] at h
        simp only at h
        by_cases hk : u.AccessKey = []
        · simp only [hk, if_true, Prod.mk.injEq, true_and] at h
          subst h
          exact ⟨hn, rfl, fun _ => by simp, fun _ => rfl, fun c => absurd hk c⟩
        · simp only [hk, if_false] at h
          rcases hl : loadAccessKey env t.access_keys u.identityName u.AccessKey with ⟨e, keys⟩
          rw [hl] at h
          cases e with
          | some e => exact absurd (congrArg Prod.fst h) (by simp)
          | none =>
            simp only [Prod.mk.injEq, true_and] at h
            subst h
            exact ⟨hn, rfl, fun _ => by simp, fun c => absurd c hk, fun _ => rfl⟩

theorem loadUser_intro (env : Env) (t : UserTables) (u : User) (keys : List Models.AccessKey)
    (hn : u.identityName ≠ [])
    (hp : u.Password ≠ [] → env.GenerateFromPassword u.Password ≠ none)
    (hk : u.AccessKey ≠ [] →
      loadAccessKey env t.access_keys u.identityName u.AccessKey = (none, keys))
    (hk0 : u.AccessKey = [] → keys = t.access_keys) :
    ∃ t1, loadUser env t u = (none, t1) ∧
      t1.identities = resolveIdentity t.identities u.identityName ∧
      t1.access_keys = keys := by
  unfold loadUser
  rw [if_neg hn]
  simp only
  by_cases hpw : u.Password = []
  · simp only [hpw, if_true]
    by_cases hkey : u.AccessKey = []
    · simp only [hkey, if_true]
      exact ⟨_, rfl, rfl, (hk0 hkey).symm⟩
    · simp only [hkey, if_false, hk hkey]
      exact ⟨_, rfl, rfl, rfl⟩
  · simp only [hpw, if_false]
    cases hg : env.GenerateFromPassword u.Password with
    | none => exact absurd hg (hp hpw)
    | some hash =>
      simp only
      by_cases hkey : u.AccessKey = []
      · simp only [hkey, if_true]
        exact ⟨_, rfl, rfl, (hk0 hkey).symm⟩
      · simp only [hkey, if_false, hk hkey]
        exact ⟨_, rfl, rfl, rfl⟩

theorem find_KeyID (keys : List Models.AccessKey) (keyID : GoString) :
    (keys.find? (fun k => decide (k.KeyID = keyID)) = none ∧
      keyID ∉ keys.map Models.AccessKey.KeyID) ∨
    (∃ found, keys.find? (fun k => decide (k.KeyID = keyID)) = some found ∧
      found ∈ keys ∧ found.KeyID = keyID) := by
  cases h : keys.find? (fun k => decide (k.KeyID = keyID)) with
  | none =>
    left
    refine ⟨rfl, ?_⟩
    intro hmem
    obtain ⟨k, hk, hkn⟩ := List.mem_map.mp hmem
    have := List.find?_eq_none.mp h k hk
    simp [hkn] at this
  | some found =>
    right
    refine ⟨found, rfl, List.mem_of_find?_eq_some h, ?_⟩
    have := List.find?_some h
    simpa using this

/-- A successful `loadAccessKey` leaves a row of the `KeyID` issued for the
identity, keeps the `KeyID` and the owner of every row, and keeps the `KeyID`s
distinct. -/
theorem loadAccessKey_ok (env : Env) (keys keys1 : List Models.AccessKey)
    (identity key : GoString) (h : loadAccessKey env keys identity key = (none, keys1)) :
    ∃ keyID secret, parseAccessKey key = some (keyID, secret) ∧
      (∃ k ∈ keys1, k.KeyID = keyID ∧ k.IssuedFor = identity) ∧
      (∀ k ∈ keys, ∃ k1 ∈ keys1, k1.KeyID = k.KeyID ∧ k1.IssuedFor = k.IssuedFor) ∧
      ((keys.map Models.AccessKey.KeyID).Nodup → (keys1.map Models.AccessKey.KeyID).Nodup) := by
  unfold loadAccessKey at h
  cases hp : parseAccessKey key with
  | none =>
    rw [hp] at h
    exact absurd (congrArg Prod.fst h) (by simp)
  | some ks =>
    obtain ⟨keyID, secret⟩ := ks
    rw [hp] at h
    simp only at h
    refine ⟨keyID, secret, rfl, ?_⟩
    rcases find_KeyID keys keyID with ⟨hf, hnot⟩ | ⟨found, hf, hmem, hid⟩
    · rw [hf] at h
      simp only [Prod.mk.injEq, true_and] at h
      subst h
      refine ⟨⟨_, List.mem_append_right _ (List.mem_singleton.mpr rfl), rfl, rfl⟩, ?_, ?_⟩
      · intro k hk
        exact ⟨k, List.mem_append_left _ hk, rfl, rfl⟩
      · intro hnd
        rw [List.map_append, List.nodup_append]
        refine ⟨hnd, List.nodup_singleton _, ?_⟩
        intro a ha hb
        simp only [List.map_cons, List.map_nil, List.mem_singleton] at hb
        exact hnot (hb ▸ ha)
    · rw [hf] at h
      simp only at h
      by_cases hc : found.IssuedFor ≠ identity
      · rw [if_pos hc] at h
        exact absurd (congrArg Prod.fst h) (by simp)
      · rw [if_neg hc] at h
        simp only [Prod.mk.injEq, true_and] at h
        subst h
        refine ⟨⟨{ found with SecretChecksum := env.sha256 secret }, ?_, hid,
          not_not.mp hc⟩, ?_, ?_⟩
        · exact List.mem_map.mpr ⟨found, hmem, by rw [if_pos hid]⟩
        · intro k hk
          by_cases hkk : k.KeyID = keyID
          · exact ⟨{ k with SecretChecksum := env.sha256 secret },
              List.mem_map.mpr ⟨k, hk, by rw [if_pos hkk]⟩, rfl, rfl⟩
          · exact ⟨k, List.mem_map.mpr ⟨k, hk, by rw [if_neg hkk]⟩, rfl, rfl⟩
        · intro hnd
          have hmap : (keys.map (fun k => if k.KeyID = keyID then
              ({ k with SecretChecksum := env.sha256 secret } : Models.AccessKey) else k)).map
              Models.AccessKey.KeyID = keys.map Models.AccessKey.KeyID := by
            rw [List.map_map]
            apply List.map_congr_left
            intro k _
            by_cases hkk : k.KeyID = keyID
            · simp [hkk]
            · simp [hkk]
          rw [hmap]
          exact hnd

/-- A `loadAccessKey` on keys that agree with the entry about the owner of
its `KeyID` succeeds, and the keys still agree with every entry that agrees
with this one. -/
theorem loadAccessKey_again (env : Env) (keys : List Models.AccessKey)
    (identity key keyID secret : GoString) (hp : parseAccessKey key = some (keyID, secret))
    (hagree : ∀ k ∈ keys, k.KeyID = keyID → k.IssuedFor = identity) :
    ∃ keys1, loadAccessKey env keys identity key = (none, keys1) ∧
      ∀ k1 ∈ keys1, (∃ k ∈ keys, k1.KeyID = k.KeyID ∧ k1.IssuedFor = k.IssuedFor) ∨
        (k1.KeyID = keyID ∧ k1.IssuedFor = identity) := by
  unfold loadAccessKey
  rw [hp]
  simp only
  rcases find_KeyID keys keyID with ⟨hf, _⟩ | ⟨found, hf, hmem, hid⟩
  · rw [hf]
    refine ⟨_, rfl, ?_⟩
    intro k1 hk1
    rcases List.mem_append.mp hk1 with h | h
    · exact Or.inl ⟨k1, h, rfl, rfl⟩
    · rw [List.mem_singleton.mp h]
      exact Or.inr ⟨rfl, rfl⟩
  · rw [hf]
    simp only
    rw [if_neg (not_not.mpr (hagree found hmem hid))]
    refine ⟨_, rfl, ?_⟩
    intro k1 hk1
    obtain ⟨k, hk, rfl⟩ := List.mem_map.mp hk1
    left
    by_cases hkk : k.KeyID = keyID
    · exact ⟨k, hk, by rw [if_pos hkk], by rw [if_pos hkk]⟩
    · exact ⟨k, hk, by rw [if_neg hkk], by rw [if_neg hkk]⟩

theorem parseAccessKey_nil_of_some (key keyID secret : GoString)
    (h : parseAccessKey key = some (keyID, secret)) : key ≠ [] := by
  intro hk
  subst hk
  simp [parseAccessKey] at h

/-- A successful `loadUsers` appends config-managed identities of new names,
leaves for every entry with an access key a row of its `KeyID` issued for its
identity, keeps the `KeyID` and the owner of every row, and keeps the `KeyID`s
distinct. -/
theorem loadUsers_ok (env : Env) :
    ∀ (us : List User) (t t1 : UserTables), loadUsers env us t = (none, t1) →
      extendsIdentities t.identities t1.identities ∧
      (∀ u ∈ us, ∀ keyID secret, parseAccessKey u.AccessKey = some (keyID, secret) →
        ∃ k ∈ t1.access_keys, k.KeyID = keyID ∧ k.IssuedFor = u.identityName) ∧
      (∀ k ∈ t.access_keys, ∃ k1 ∈ t1.access_keys,
        k1.KeyID = k.KeyID ∧ k1.IssuedFor = k.IssuedFor) ∧
      ((t.access_keys.map Models.AccessKey.KeyID).Nodup →
        (t1.access_keys.map Models.AccessKey.KeyID).Nodup) := by
  intro us
  induction us with
  | nil =>
    intro t t1 h
    simp only [loadUsers, Prod.mk.injEq, true_and] at h
    subst h
    exact ⟨extendsIdentities_refl _, fun u hu => absurd hu (List.not_mem_nil _),
      fun k hk => ⟨k, hk, rfl, rfl⟩, fun h => h⟩
  | cons u us ih =>
    intro t t1 h
    unfold loadUsers at h
    rcases hl : loadUser env t u with ⟨e, mid⟩
    rw [hl] at h
    cases e with
    | some e => exact absurd (congrArg Prod.fst h) (by simp)
    | none =>
      simp only at h
      obtain ⟨_, hid, _, hk0, hk1⟩ := loadUser_ok env t mid u hl
      obtain ⟨i1, i2, i3, i4⟩ := ih mid t1 h
      -- the step on the access keys
      have hstep : (∀ keyID secret, parseAccessKey u.AccessKey = some (keyID, secret) →
            ∃ k ∈ mid.access_keys, k.KeyID = keyID ∧ k.IssuedFor = u.identityName) ∧
          (∀ k ∈ t.access_keys, ∃ k1 ∈ mid.access_keys,
            k1.KeyID = k.KeyID ∧ k1.IssuedFor = k.IssuedFor) ∧
          ((t.access_keys.map Models.AccessKey.KeyID).Nodup →
            (mid.access_keys.map Models.AccessKey.KeyID).Nodup) := by
        by_cases hkey : u.AccessKey = []
        · rw [hk0 hkey]
          refine ⟨?_, fun k hk => ⟨k, hk, rfl, rfl⟩, fun h => h⟩
          intro keyID secret hp
          exact absurd hkey (parseAccessKey_nil_of_some _ _ _ hp)
        · obtain ⟨keyID, secret, hp, a1, a2, a3⟩ := loadAccessKey_ok env _ _ _ _ (hk1 hkey)
          refine ⟨?_, a2, a3⟩
          intro keyID' secret' hp'
          rw [hp] at hp'
          simp only [Option.some.injEq, Prod.mk.injEq] at hp'
          rw [← hp'.1]
          exact a1
      refine ⟨?_, ?_, ?_, fun h => i4 (hstep.2.2 h)⟩
      · refine extendsIdentities_trans _ _ _ ?_ i1
        rw [hid]
        exact resolveIdentity_extends _ _
      · intro v hv keyID secret hp
        rcases List.mem_cons.mp hv with rfl | hv'
        · obtain ⟨k, hk, h1, h2⟩ := hstep.1 keyID secret hp
          obtain ⟨k1, hk1m, h3, h4⟩ := i3 k hk
          exact ⟨k1, hk1m, h3.trans h1, h4.trans h2⟩
        · exact i2 v hv' keyID secret hp
      · intro k hk
        obtain ⟨k', hk', h1, h2⟩ := hstep.2.1 k hk
        obtain ⟨k1, hk1m, h3, h4⟩ := i3 k' hk'
        exact ⟨k1, hk1m, h3.trans h1, h4.trans h2⟩

/-- After a successful `loadUsers` on keys of distinct `KeyID`s the keys agree
with the entries, and no two entries declare one `KeyID` for two identities. -/
theorem loadUsers_keysAgree (env : Env) (us : List User) (t t1 : UserTables)
    (h : loadUsers env us t = (none, t1))
    (hnd : (t.access_keys.map Models.AccessKey.KeyID).Nodup) :
    keysAgree us t1.access_keys ∧
    (∀ u ∈ us, ∀ v ∈ us, ∀ keyID s1 s2, parseAccessKey u.AccessKey = some (keyID, s1) →
      parseAccessKey v.AccessKey = some (keyID, s2) → u.identityName = v.identityName) := by
  obtain ⟨_, h2, _, h4⟩ := loadUsers_ok env us t t1 h
  have hnd1 := h4 hnd
  constructor
  · intro k hk u hu keyID secret hp hkid
    obtain ⟨k', hk', h5, h6⟩ := h2 u hu keyID secret hp
    have : k = k' := List.inj_on_of_nodup_map hnd1 hk hk' (hkid.trans h5.symm)
    rw [this]
    exact h6
  · intro u hu v hv keyID s1 s2 hp1 hp2
    obtain ⟨k, hk, h5, h6⟩ := h2 u hu keyID s1 hp1
    obtain ⟨k', hk', h7, h8⟩ := h2 v hv keyID s2 hp2
    have : k = k' := List.inj_on_of_nodup_map hnd1 hk hk' (h5.trans h7.symm)
    rw [← h6, ← h8, this]

/-- A `loadUsers` that has succeeded succeeds again from the same identities
and from any credentials and keys, as long as the keys agree with the entries;
it leaves the same identities. -/
theorem loadUsers_again (env : Env) (all : List User)
    (hcons : ∀ u ∈ all, ∀ v ∈ all, ∀ keyID s1 s2,
      parseAccessKey u.AccessKey = some (keyID, s1) →
      parseAccessKey v.AccessKey = some (keyID, s2) → u.identityName = v.identityName) :
    ∀ (us : List User) (t t1 t' : UserTables), (∀ u ∈ us, u ∈ all) →
      loadUsers env us t = (none, t1) → t'.identities = t.identities →
      keysAgree all t'.access_keys →
      ∃ t1', loadUsers env us t' = (none, t1') ∧ t1'.identities = t1.identities := by
  intro us
  induction us with
  | nil =>
    intro t t1 t' _ h hi _
    simp only [loadUsers, Prod.mk.injEq, true_and] at h
    subst h
    exact ⟨t', rfl, hi⟩
  | cons u us ih =>
    intro t t1 t' hsub h hi hagree
    have hu : u ∈ all := hsub u (List.mem_cons_self _ _)
    unfold loadUsers at h
    rcases hl : loadUser env t u with ⟨e, mid⟩
    rw [hl] at h
    cases e with
    | some e => exact absurd (congrArg Prod.fst h) (by simp)
    | none =>
      simp only at h
      obtain ⟨hn, hid, hpw, _, hk1⟩ := loadUser_ok env t mid u hl
      -- the access key of the entry loads again
      have hkeys : ∃ keys, (u.AccessKey ≠ [] →
            loadAccessKey env t'.access_keys u.identityName u.AccessKey = (none, keys)) ∧
          (u.AccessKey = [] → keys = t'.access_keys) ∧ keysAgree all keys := by
        by_cases hkey : u.AccessKey = []
        · exact ⟨t'.access_keys, fun c => absurd hkey c, fun _ => rfl, hagree⟩
        · obtain ⟨keyID, secret, hp, _⟩ := loadAccessKey_ok env _ _ _ _ (hk1 hkey)
          obtain ⟨keys, hload, hrows⟩ := loadAccessKey_again env t'.access_keys u.identityName
            u.AccessKey keyID secret hp (fun k hk hkid => hagree k hk u hu keyID secret hp hkid)
          refine ⟨keys, fun _ => hload, fun c => absurd c hkey, ?_⟩
          intro k1 hk1m v hv keyID' secret' hp' hkid'
          rcases hrows k1 hk1m with ⟨k, hk, h1, h2⟩ | ⟨h1, h2⟩
          · rw [h2]
            exact hagree k hk v hv keyID' secret' hp' (h1.symm.trans hkid')
          · rw [h2]
            exact hcons u hu v hv keyID secret secret' hp (by rw [h1.symm.trans hkid']; exact hp')
      obtain ⟨keys, hk, hk0, hagree1⟩ := hkeys
      obtain ⟨mid', hl', hid', hkeys'⟩ := loadUser_intro env t' u keys hn hpw hk hk0
      obtain ⟨t1', hrest, hres⟩ := ih mid t1 mid'
        (fun v hv => hsub v (List.mem_cons_of_mem _ hv)) h
        (by rw [hid', hid, hi]) (by rw [hkeys']; exact hagree1)
      refine ⟨t1', ?_, hres⟩
      unfold loadUsers
      rw [hl']
      exact hrest

theorem keysAgree_filter (us : List User) (keys : List Models.AccessKey)
    (p : Models.AccessKey → Bool) (h : keysAgree us keys) : keysAgree us (keys.filter p) :=
  fun k hk => h k (List.mem_filter.mp hk).1

/-! ## The three loads of a reconciliation -/

theorem loadAll_ok (env : Env) (config : Config) (x y : Store)
    (h : loadAll env config x = (none, y)) :
    ∃ ut gt,
      loadProviders env config.Providers x.providers = (none, y.providers) ∧
      loadUsers env config.Users
        { identities := x.identities, credentials := x.credentials,
          access_keys := x.access_keys } = (none, ut) ∧
      loadGrants config.Grants
        { identities := ut.identities, groups := x.groups, grants := x.grants } = (none, gt) ∧
      y.identities = gt.identities ∧ y.groups = gt.groups ∧ y.grants = gt.grants ∧
      y.credentials = ut.credentials ∧ y.access_keys = ut.access_keys := by
  unfold loadAll at h
  rcases hp : loadProviders env config.Providers x.providers with ⟨e1, providers⟩
  rw [hp] at h
  cases e1 with
  | some e1 => exact absurd (congrArg Prod.fst h) (by simp)
  | none =>
    simp only at h
    rcases hu : loadUsers env config.Users
      { identities := x.identities, credentials := x.credentials,
        access_keys := x.access_keys } with ⟨e2, ut⟩
    rw [hu] at h
    cases e2 with
    | some e2 => exact absurd (congrArg Prod.fst h) (by simp)
    | none =>
      simp only at h
      rcases hg : loadGrants config.Grants
        { identities := ut.identities, groups := x.groups, grants := x.grants } with ⟨e3, gt⟩
      rw [hg] at h
      cases e3 with
      | some e3 => exact absurd (congrArg Prod.fst h) (by simp)
      | none =>
        simp only [Prod.mk.injEq, true_and] at h
        subst h
        exact ⟨ut, gt, rfl, rfl, hg, rfl, rfl, rfl, rfl, rfl⟩

theorem loadAll_intro (env : Env) (config : Config) (x : Store)
    (providers : List Models.Provider) (ut : UserTables) (gt : GrantTables)
    (hp : loadProviders env config.Providers x.providers = (none, providers))
    (hu : loadUsers env config.Users
      { identities := x.identities, credentials := x.credentials,
        access_keys := x.access_keys } = (none, ut))
    (hg : loadGrants config.Grants
      { identities := ut.identities, groups := x.groups, grants := x.grants } = (none, gt)) :
    loadAll env config x =
      (none, { providers := providers, identities := gt.identities, groups := gt.groups,
               grants := gt.grants, credentials := ut.credentials,
               access_keys := ut.access_keys }) := by
  unfold loadAll
  rw [hp]
  simp only
  rw [hu]
  simp only
  rw [hg]

/-- What a successful load leaves on a store: the providers, identities and
grants that were there, followed by the rows of the configuration. -/
theorem loadAll_extends (env : Env) (config : Config) (x y : Store)
    (h : loadAll env config x = (none, y)) :
    (y.providers = x.providers ++ config.Providers.map (Provider.row env) ∧
      ∀ p ∈ config.Providers, p.Name ∉ x.providers.map Models.Provider.Name) ∧
    extendsIdentities x.identities y.identities ∧
    extendsGrants config.Grants x.grants y.grants ∧
    y.groups = loadGroups config.Grants x.groups := by
  obtain ⟨ut, gt, hp, hu, hg, e1, e2, e3, _, _⟩ := loadAll_ok env config x y h
  obtain ⟨u1, _, _, _⟩ := loadUsers_ok env _ _ _ hu
  obtain ⟨g1, g2, g3, _⟩ := loadGrants_ok _ _ _ hg
  refine ⟨loadProviders_ok env _ _ _ hp, ?_, ?_, ?_⟩
  · rw [e1]
    exact extendsIdentities_trans _ _ _ u1 g1
  · rw [e3]
    exact g2
  · rw [e2]
    exact g3

/-! ## Idempotence -/

/-- C19: on a store whose grants to identities name identities of the store
and whose access keys have distinct `KeyID`s, a `loadConfig` that has
succeeded succeeds again with the same configuration on the store it has
left, and leaves the same providers, grants, groups and identities, row by
row: nothing is duplicated and no attribute changes. -/
theorem loadConfig_idempotent (env : Env) (db : Store) (config : Config)
    (hrefer : db.grantsRefer) (hkeys : db.keyIDsUnique)
    (hok : (loadConfig env db config).1 = none) :
    (loadConfig env (loadConfig env db config).2 config).1 = none ∧
    (loadConfig env (loadConfig env db config).2 config).2.providers =
      (loadConfig env db config).2.providers ∧
    (loadConfig env (loadConfig env db config).2 config).2.grants =
      (loadConfig env db config).2.grants ∧
    (loadConfig env (loadConfig env db config).2 config).2.groups =
      (loadConfig env db config).2.groups ∧
    (loadConfig env (loadConfig env db config).2 config).2.identities =
      (loadConfig env db config).2.identities := by
  have hl := loadAll_of_loadConfig env db config hok
  generalize (loadConfig env db config).2 = y at hl ⊢
  obtain ⟨hP, hPa, hI, hIa, hR, hRa, href, hk⟩ := deleteManaged_ensureAnchors_spec db
  generalize deleteManaged (ensureAnchors db) = x at hl hP hPa hI hIa hR hRa href hk
  have href := href hrefer
  have hk := hk hkeys
  obtain ⟨ut, gt, hp, hu, hg, e1, e2, e3, e4, e5⟩ := loadAll_ok env config x y hl
  obtain ⟨⟨xP, xPn⟩, xI, xR, xG⟩ := loadAll_extends env config x y hl
  -- the anchors are in the store that the first call has left
  have hfix : ensureAnchors y = y := by
    apply ensureAnchors_fixed
    · obtain ⟨p, hp, hn⟩ := hPa
      exact ⟨p, by rw [xP]; exact List.mem_append_left _ hp, hn⟩
    · obtain ⟨i, hi, hn⟩ := hIa
      obtain ⟨new, hnew, _⟩ := xI
      exact ⟨i, by rw [hnew]; exact List.mem_append_left _ hi, hn⟩
    · obtain ⟨g, hg, hn⟩ := hRa
      obtain ⟨new, hnew, _⟩ := xR
      exact ⟨g, by rw [hnew]; exact List.mem_append_left _ hg, hn⟩
  -- the deletion takes the store back to where the first load began
  obtain ⟨d1, d2, d3, d4, d5⟩ := deleteManaged_of_extends config.Grants x y hP hPa hI hIa hR hRa
    href ⟨_, xP, fun p hp => by
      obtain ⟨q, hq, rfl⟩ := List.mem_map.mp hp
      exact ⟨rfl, xPn q hq⟩⟩ xI xR
  -- the providers load as before
  have hp2 : loadProviders env config.Providers (deleteManaged y).providers =
      (none, y.providers) := by rw [d1]; exact hp
  -- the users load as before
  obtain ⟨hagree, hcons⟩ := loadUsers_keysAgree env config.Users _ ut hu hk
  obtain ⟨ut', hu2, hui⟩ := loadUsers_again env config.Users hcons config.Users _ ut
    { identities := (deleteManaged y).identities, credentials := (deleteManaged y).credentials,
      access_keys := (deleteManaged y).access_keys }
    (fun _ h => h) hu d2
    (by
      show keysAgree config.Users (deleteManaged y).access_keys
      rw [d5, e5]
      exact keysAgree_filter _ _ _ hagree)
  -- the grants load as before, and find their groups
  obtain ⟨_, _, g3, g4⟩ := loadGrants_ok _ _ _ hg
  have hg2 : loadGrants config.Grants
      { identities := ut'.identities, groups := (deleteManaged y).groups,
        grants := (deleteManaged y).grants } = (none, gt) := by
    have := g4 y.groups
    simp only at this
    rw [hui, d4, d3, this, e2, g3, loadGroups_idem]
    rw [← g3]
  have hl2 := loadAll_intro env config (deleteManaged y) y.providers ut' gt hp2 hu2 hg2
  have hc2 : loadConfig env y config = (none, _) :=
    loadConfig_of_loadAll env y config _ (by rw [hfix]; exact hl2)
  rw [hc2]
  exact ⟨rfl, rfl, e3.symm, e2.symm, e1.symm⟩

/-- The configuration of `TestLoadConfigUpdate`, with users, a password and an
access key, loads twice on `runtimeStore` with the same providers, grants,
groups and identities. -/
theorem loadConfig_idempotent_witness :
    (loadConfig sampleEnv (loadConfig sampleEnv runtimeStore updateConfig).2 updateConfig).1 =
      none ∧
    (loadConfig sampleEnv (loadConfig sampleEnv runtimeStore updateConfig).2
        updateConfig).2.providers =
      (loadConfig sampleEnv runtimeStore updateConfig).2.providers ∧
    (loadConfig sampleEnv (loadConfig sampleEnv runtimeStore updateConfig).2
        updateConfig).2.grants =
      (loadConfig sampleEnv runtimeStore updateConfig).2.grants ∧
    (loadConfig sampleEnv (loadConfig sampleEnv runtimeStore updateConfig).2
        updateConfig).2.groups =
      (loadConfig sampleEnv runtimeStore updateConfig).2.groups ∧
    (loadConfig sampleEnv (loadConfig sampleEnv runtimeStore updateConfig).2
        updateConfig).2.identities =
      (loadConfig sampleEnv runtimeStore updateConfig).2.identities :=
  loadConfig_idempotent sampleEnv runtimeStore updateConfig
    (fun g hg n hn => by
      rw [List.mem_singleton.mp hg] at hn
      injection hn with h
      rw [← h]
      decide)
    (by decide) (by decide)

/-! ## Replace semantics -/

theorem resolveGroup_sub (groups : List Models.Group) (n : GoString) :
    ∀ g ∈ groups, g ∈ resolveGroup groups n := by
  intro g hg
  unfold resolveGroup
  split
  · exact hg
  · exact List.mem_append_left _ hg

theorem loadGroups_sub :
    ∀ (gs : List Grant) (groups : List Models.Group), ∀ g ∈ groups, g ∈ loadGroups gs groups := by
  intro gs
  induction gs with
  | nil => intro groups g hg; exact hg
  | cons a gs ih =>
    intro groups g hg
    unfold loadGroups
    apply ih
    split
    · exact hg
    · exact resolveGroup_sub groups a.Group g hg

theorem loadAll_empty (env : Env) (x : Store) : loadAll env {} x = (none, x) := rfl

/-- What a successful `loadConfig` leaves: the anchors; no config-managed
provider but the internal one and the rows of the configuration; no
config-managed grant but the connector grant and rows of the configuration;
and every group that was there. -/
theorem loadConfig_ok (env : Env) (db : Store) (config : Config)
    (hok : (loadConfig env db config).1 = none) :
    (∃ p ∈ (loadConfig env db config).2.providers, p.Name = InternalInfraProviderName) ∧
    (∃ i ∈ (loadConfig env db config).2.identities,
      i.Name = InternalInfraConnectorIdentityName) ∧
    (∃ g ∈ (loadConfig env db config).2.grants, g.sameTuple connectorGrant = true) ∧
    (∀ p ∈ (loadConfig env db config).2.providers, p.CreatedBy = Origin.config →
      p.Name = InternalInfraProviderName ∨ ∃ q ∈ config.Providers, p = q.row env) ∧
    (∀ g ∈ (loadConfig env db config).2.grants, g.CreatedBy = Origin.config →
      g.sameTuple connectorGrant = true ∨ ∃ e ∈ config.Grants, g = e.row) ∧
    (∀ g ∈ db.groups, g ∈ (loadConfig env db config).2.groups) := by
  have hl := loadAll_of_loadConfig env db config hok
  generalize (loadConfig env db config).2 = y at hl ⊢
  obtain ⟨hP, hPa, hI, hIa, hR, hRa, _, _⟩ := deleteManaged_ensureAnchors_spec db
  have hG : (deleteManaged (ensureAnchors db)).groups = db.groups := rfl
  generalize deleteManaged (ensureAnchors db) = x at hl hP hPa hI hIa hR hRa hG
  obtain ⟨⟨xP, _⟩, ⟨newI, xI, _⟩, ⟨newR, xR, hnewR⟩, xG⟩ := loadAll_extends env config x y hl
  refine ⟨?_, ?_, ?_, ?_, ?_, ?_⟩
  · obtain ⟨p, hp, hn⟩ := hPa
    exact ⟨p, by rw [xP]; exact List.mem_append_left _ hp, hn⟩
  · obtain ⟨i, hi, hn⟩ := hIa
    exact ⟨i, by rw [xI]; exact List.mem_append_left _ hi, hn⟩
  · obtain ⟨g, hg, hn⟩ := hRa
    exact ⟨g, by rw [xR]; exact List.mem_append_left _ hg, hn⟩
  · intro p hp hc
    rw [xP] at hp
    rcases List.mem_append.mp hp with h | h
    · rcases hP p h with h1 | h1
      · exact absurd hc h1
      · exact Or.inl h1
    · obtain ⟨q, hq, rfl⟩ := List.mem_map.mp h
      exact Or.inr ⟨q, hq, rfl⟩
  · intro g hg hc
    rw [xR] at hg
    rcases List.mem_append.mp hg with h | h
    · rcases hR g h with h1 | h1
      · exact absurd hc h1
      · exact Or.inl h1
    · exact Or.inr (hnewR g h).1
  · intro g hg
    rw [xG, hG]
    exact loadGroups_sub _ _ g hg

/-- The empty configuration after a configuration, on a store that had no
providers and no grants: the internal provider and the connector grant are
what is left of them. -/
theorem loadConfig_then_empty (env : Env) (db : Store) (a : Config)
    (hp : db.providers = []) (hg : db.grants = [])
    (hok : (loadConfig env db a).1 = none) :
    loadConfig env (loadConfig env db a).2 {} =
      (none, deleteManaged (loadConfig env db a).2) ∧
    (deleteManaged (loadConfig env db a).2).providers = [infraProvider] ∧
    (deleteManaged (loadConfig env db a).2).grants = [connectorGrant] := by
  have hl := loadAll_of_loadConfig env db a hok
  generalize (loadConfig env db a).2 = y at hl ⊢
  obtain ⟨hP, hPa, hI, hIa, hR, hRa, href, _⟩ := deleteManaged_ensureAnchors_spec db
  -- the store the load began on
  have hxP : (deleteManaged (ensureAnchors db)).providers = [infraProvider] := by
    simp only [deleteManaged, ensureAnchors, hp]
    rfl
  have hxR : (deleteManaged (ensureAnchors db)).grants = [connectorGrant] := by
    obtain ⟨g0, hg0, hg0t⟩ := hRa
    have hE : (ensureAnchors db).grants = [connectorGrant] := by
      simp only [ensureAnchors, hg]
      rfl
    have hsub : ∀ g ∈ (deleteManaged (ensureAnchors db)).grants, g = connectorGrant := by
      intro g hg
      have := (List.mem_filter.mp hg).1
      rw [hE] at this
      exact List.mem_singleton.mp this
    have hfil : (deleteManaged (ensureAnchors db)).grants =
        [connectorGrant].filter (fun g =>
          (decide (g.CreatedBy ≠ Origin.config) || g.sameTuple connectorGrant) &&
          !((ensureAnchors db).managedIdentities.any
            (fun n => decide (g.Subject = Subject.identity n)))) := by
      simp only [deleteManaged, hE]
    rw [hfil, List.filter_cons]
    split
    · rfl
    · exfalso
      rw [hfil, List.filter_cons] at hg0
      rename_i hc
      rw [if_neg hc] at hg0
      exact absurd hg0 (List.not_mem_nil _)
  have hrefx : (deleteManaged (ensureAnchors db)).grantsRefer := by
    intro g hg n hsub
    rw [hxR] at hg
    rw [List.mem_singleton.mp hg] at hsub
    obtain ⟨i, hi, hin⟩ := hIa
    have : n = InternalInfraConnectorIdentityName := by
      have h' : Subject.identity InternalInfraConnectorIdentityName = Subject.identity n := hsub
      injection h' with h''
      exact h''.symm
    rw [this, ← hin]
    exact List.mem_map_of_mem _ hi
  generalize deleteManaged (ensureAnchors db) = x at hl hP hPa hI hIa hR hRa hxP hxR hrefx
  obtain ⟨⟨xP, xPn⟩, xI, xR, _⟩ := loadAll_extends env a x y hl
  have hfix : ensureAnchors y = y := by
    apply ensureAnchors_fixed
    · obtain ⟨p, hp, hn⟩ := hPa
      exact ⟨p, by rw [xP]; exact List.mem_append_left _ hp, hn⟩
    · obtain ⟨i, hi, hn⟩ := hIa
      obtain ⟨new, hnew, _⟩ := xI
      exact ⟨i, by rw [hnew]; exact List.mem_append_left _ hi, hn⟩
    · obtain ⟨g, hg, hn⟩ := hRa
      obtain ⟨new, hnew, _⟩ := xR
      exact ⟨g, by rw [hnew]; exact List.mem_append_left _ hg, hn⟩
  obtain ⟨d1, _, d3, _, _⟩ := deleteManaged_of_extends a.Grants x y hP hPa hI hIa hR hRa
    hrefx ⟨_, xP, fun p hp => by
      obtain ⟨q, hq, rfl⟩ := List.mem_map.mp hp
      exact ⟨rfl, xPn q hq⟩⟩ xI xR
  refine ⟨?_, by rw [d1, hxP], by rw [d3, hxR]⟩
  apply loadConfig_of_loadAll
  rw [hfix]
  rfl

/-- C18 as amended: when `loadConfig` succeeds with a configuration `a` and
then with a configuration `b`, every config-managed provider left is the
internal provider or the row of an entry of `b`, and every config-managed
grant left is the connector grant or the row of an entry of `b`; the internal
provider and the connector grant are there after both calls; the groups that
were there after `a` are still there after `b`; and on a store that had no
providers and no grants, the empty configuration after `a` succeeds and leaves
the internal provider and the connector grant alone. -/
theorem loadConfig_replaces (env : Env) (db : Store) (a b : Config)
    (ha : (loadConfig env db a).1 = none)
    (hb : (loadConfig env (loadConfig env db a).2 b).1 = none) :
    (∀ p ∈ (loadConfig env (loadConfig env db a).2 b).2.providers,
      p.CreatedBy = Origin.config →
      p.Name = InternalInfraProviderName ∨ ∃ q ∈ b.Providers, p = q.row env) ∧
    (∀ g ∈ (loadConfig env (loadConfig env db a).2 b).2.grants,
      g.CreatedBy = Origin.config →
      g.sameTuple connectorGrant = true ∨ ∃ e ∈ b.Grants, g = e.row) ∧
    ((∃ p ∈ (loadConfig env db a).2.providers, p.Name = InternalInfraProviderName) ∧
      (∃ g ∈ (loadConfig env db a).2.grants, g.sameTuple connectorGrant = true) ∧
      (∃ p ∈ (loadConfig env (loadConfig env db a).2 b).2.providers,
        p.Name = InternalInfraProviderName) ∧
      (∃ g ∈ (loadConfig env (loadConfig env db a).2 b).2.grants,
        g.sameTuple connectorGrant = true)) ∧
    (∀ g ∈ (loadConfig env db a).2.groups,
      g ∈ (loadConfig env (loadConfig env db a).2 b).2.groups) ∧
    (db.providers = [] → db.grants = [] →
      (loadConfig env (loadConfig env db a).2 {}).1 = none ∧
      (loadConfig env (loadConfig env db a).2 {}).2.providers = [infraProvider] ∧
      (loadConfig env (loadConfig env db a).2 {}).2.grants = [connectorGrant]) := by
  obtain ⟨a1, _, a3, _, _, _⟩ := loadConfig_ok env db a ha
  obtain ⟨b1, _, b3, b4, b5, b6⟩ := loadConfig_ok env (loadConfig env db a).2 b hb
  refine ⟨b4, b5, ⟨a1, a3, b1, b3⟩, b6, ?_⟩
  intro hp hg
  obtain ⟨e1, e2, e3⟩ := loadConfig_then_empty env db a hp hg ha
  rw [e1]
  exact ⟨rfl, e2, e3⟩

/-- The counterexample to claim C18 as stated: after the two configurations
of `TestLoadConfigPruneConfig` on the empty store, the second of which
declares no grant and so no group, the config-managed group `Everyone` of the
first is still there. -/
theorem loadConfig_group_kept_counterexample :
    (loadConfig sampleEnv {} pruneConfig).1 = none ∧
    (loadConfig sampleEnv (loadConfig sampleEnv {} pruneConfig).2 pruneNewConfig).1 = none ∧
    pruneNewConfig.Grants = [] ∧
    (loadConfig sampleEnv (loadConfig sampleEnv {} pruneConfig).2 pruneNewConfig).2.groups =
      [{ Name := str "Everyone", CreatedBy := Origin.config }] := by
  decide

/-- The two configurations of `TestLoadConfigUpdate` on the empty store: the
providers left are `infra` and `atko`, the privileges left are `connector` and
twice `view`, and the empty configuration after the first leaves one provider
and one grant. -/
theorem loadConfig_replaces_witness :
    ((loadConfig sampleEnv (loadConfig sampleEnv {} updateConfig).2 updatedConfig).2.providers.map
        Models.Provider.Name = [str "infra", str "atko"] ∧
      (∀ p ∈ (loadConfig sampleEnv (loadConfig sampleEnv {} updateConfig).2
          updatedConfig).2.providers, p.CreatedBy = Origin.config →
        p.Name = InternalInfraProviderName ∨
          ∃ q ∈ updatedConfig.Providers, p = q.row sampleEnv)) ∧
    ((loadConfig sampleEnv (loadConfig sampleEnv {} updateConfig).2 updatedConfig).2.grants.map
        Models.Grant.Privilege = [str "connector", str "view", str "view"] ∧
      (∀ g ∈ (loadConfig sampleEnv (loadConfig sampleEnv {} updateConfig).2
          updatedConfig).2.grants, g.CreatedBy = Origin.config →
        g.sameTuple connectorGrant = true ∨ ∃ e ∈ updatedConfig.Grants, g = e.row)) ∧
    ((loadConfig sampleEnv (loadConfig sampleEnv {} updateConfig).2 {}).2.providers.length = 1 ∧
      (loadConfig sampleEnv (loadConfig sampleEnv {} updateConfig).2 {}).2.grants.length = 1) := by
  have h := loadConfig_replaces sampleEnv {} updateConfig updatedConfig (by decide) (by decide)
  have h5 := h.2.2.2.2 rfl rfl
  refine ⟨⟨by decide, h.1⟩, ⟨by decide, h.2.1⟩, ?_, ?_⟩
  · rw [h5.2.1]
    rfl
  · rw [h5.2.2]
    rfl

/-! ## Access keys, looked up by their `KeyID` -/

theorem find_KeyID_update (keys : List Models.AccessKey) (keyID keyID' : GoString)
    (c : List Byte) :
    (keys.map (fun k => if k.KeyID = keyID' then
        ({ k with SecretChecksum := c } : Models.AccessKey) else k)).find?
      (fun k => decide (k.KeyID = keyID)) =
    (keys.find? (fun k => decide (k.KeyID = keyID))).map (fun k =>
      if k.KeyID = keyID' then ({ k with SecretChecksum := c } : Models.AccessKey) else k) := by
  rw [List.find?_map]
  have hfun : ((fun k : Models.AccessKey => decide (k.KeyID = keyID)) ∘ fun k =>
      if k.KeyID = keyID' then ({ k with SecretChecksum := c } : Models.AccessKey) else k) =
      fun k => decide (k.KeyID = keyID) := by
    funext k
    by_cases h : k.KeyID = keyID'
    · simp [h]
    · simp [h]
  rw [hfun]

/-- What a successful `loadAccessKey` leaves to a lookup: the row found by the
`KeyID` of the string is issued for the identity and holds the digest of the
secret; the row it was before, if any, was issued for the identity; and the
lookup of any other `KeyID` finds what it found before. -/
theorem loadAccessKey_find (env : Env) (keys keys1 : List Models.AccessKey)
    (identity key keyID secret : GoString)
    (h : loadAccessKey env keys identity key = (none, keys1))
    (hp : parseAccessKey key = some (keyID, secret)) :
    (∃ k, keys1.find? (fun k => decide (k.KeyID = keyID)) = some k ∧
      k.IssuedFor = identity ∧ k.SecretChecksum = env.sha256 secret) ∧
    (∀ k0, keys.find? (fun k => decide (k.KeyID = keyID)) = some k0 →
      k0.IssuedFor = identity) ∧
    (∀ other, other ≠ keyID →
      keys1.find? (fun k => decide (k.KeyID = other)) =
        keys.find? (fun k => decide (k.KeyID = other))) ∧
    keys1.map (fun k => if k.KeyID = keyID then
        ({ k with SecretChecksum := env.sha256 secret } : Models.AccessKey) else k) = keys1 := by
  unfold loadAccessKey at h
  rw [hp] at h
  simp only at h
  cases hf : keys.find? (fun k => decide (k.KeyID = keyID)) with
  | none =>
    rw [hf] at h
    simp only [Prod.mk.injEq, true_and] at h
    subst h
    have hnone := List.find?_eq_none.mp hf
    refine ⟨⟨{ KeyID := keyID, SecretChecksum := env.sha256 secret, IssuedFor := identity },
      ?_, rfl, rfl⟩, fun k0 h0 => absurd h0 (by simp), ?_, ?_⟩
    · rw [List.find?_append, hf]
      simp
    · intro other hne
      rw [List.find?_append]
      have : List.find? (fun k => decide (k.KeyID = other))
          [({ KeyID := keyID, SecretChecksum := env.sha256 secret, IssuedFor := identity } :
            Models.AccessKey)] = none := by
        rw [List.find?_eq_none]
        intro x hx
        rw [List.mem_singleton.mp hx]
        simpa using fun h => hne h.symm
      rw [this]
      cases List.find? (fun k => decide (k.KeyID = other)) keys <;> rfl
    · rw [List.map_append]
      congr 1
      · conv_rhs => rw [← List.map_id keys]
        apply List.map_congr_left
        intro k hk
        have := hnone k hk
        simp only [decide_eq_true_eq] at this
        rw [if_neg this]
        rfl
      · simp
  | some found =>
    rw [hf] at h
    simp only at h
    by_cases hc : found.IssuedFor ≠ identity
    · rw [if_pos hc] at h
      exact absurd (congrArg Prod.fst h) (by simp)
    · rw [if_neg hc] at h
      simp only [Prod.mk.injEq, true_and] at h
      subst h
      have hid : found.KeyID = keyID := by simpa using List.find?_some hf
      refine ⟨⟨{ found with SecretChecksum := env.sha256 secret }, ?_, not_not.mp hc, rfl⟩,
        ?_, ?_, ?_⟩
      · rw [find_KeyID_update, hf]
        simp only [Option.map_some', if_pos hid]
      · intro k0 h0
        cases h0
        exact not_not.mp hc
      · intro other hne
        rw [find_KeyID_update]
        cases ho : keys.find? (fun k => decide (k.KeyID = other)) with
        | none => rfl
        | some k =>
          have hk : k.KeyID = other := by simpa using List.find?_some ho
          simp only [Option.map_some']
          rw [if_neg (by rw [hk]; exact hne)]
      · rw [List.map_map]
        apply List.map_congr_left
        intro k _
        by_cases hk : k.KeyID = keyID
        · simp [hk]
        · simp [hk]

/-- C21: after a successful `loadAccessKey` of the key string `k` for the
identity `i`, the same call succeeds again and leaves the keys as they are,
with a row of the `KeyID` of `k` that is issued for `i` and holds the digest of
its secret, the only row of that `KeyID` if the `KeyID`s were distinct before;
and for any other identity `j` the call fails with the conflict error that
names `j`, and leaves the keys as they are, the key still issued for `i`. -/
theorem loadAccessKey_again_or_conflict (env : Env) (keys keys1 : List Models.AccessKey)
    (i k : GoString) (h : loadAccessKey env keys i k = (none, keys1)) :
    loadAccessKey env keys1 i k = (none, keys1) ∧
    (∃ keyID secret found, parseAccessKey k = some (keyID, secret) ∧
      keys1.find? (fun r => decide (r.KeyID = keyID)) = some found ∧
      found.IssuedFor = i ∧ found.SecretChecksum = env.sha256 secret ∧
      ((keys.map Models.AccessKey.KeyID).Nodup →
        (keys1.filter (fun r => decide (r.KeyID = keyID))).length = 1)) ∧
    (∀ j, j ≠ i →
      loadAccessKey env keys1 j k =
        (some ("access key assigned to \"" ++ goText j ++
          "\" is already assigned to another user, a user's access key must have a unique ID"),
          keys1)) := by
  obtain ⟨keyID, secret, hp, _, _, hnd⟩ := loadAccessKey_ok env keys keys1 i k h
  obtain ⟨⟨found, hf, hfi, hfc⟩, _, _, hfix⟩ := loadAccessKey_find env keys keys1 i k keyID
    secret h hp
  have hmem : found ∈ keys1 := List.mem_of_find?_eq_some hf
  have hid : found.KeyID = keyID := by simpa using List.find?_some hf
  refine ⟨?_, ⟨keyID, secret, found, hp, hf, hfi, hfc, ?_⟩, ?_⟩
  · unfold loadAccessKey
    rw [hp]
    simp only [hf]
    rw [if_neg (not_not.mpr hfi), hfix]
  · intro hn
    have := Server.filter_length_one Models.AccessKey.KeyID keys1 found (hnd hn) hmem
    rw [hid] at this
    exact this
  · intro j hj
    unfold loadAccessKey
    rw [hp]
    simp only [hf]
    rw [if_pos (by rw [hfi]; exact fun h => hj h.symm)]

/-- The key string of `TestLoadAccessKey`, loaded for `bob` on an empty table:
it loads again for `bob`, is the one row of its `KeyID`, and is refused for
`alice` with the error of the test. -/
theorem loadAccessKey_again_or_conflict_witness :
    loadAccessKey sampleEnv
        (loadAccessKey sampleEnv [] (str "bob") (str "aaaaaaaaaa.bbbbbbbbbbbbbbbbbbbbbbbb")).2
        (str "bob") (str "aaaaaaaaaa.bbbbbbbbbbbbbbbbbbbbbbbb") =
      (none,
        (loadAccessKey sampleEnv [] (str "bob") (str "aaaaaaaaaa.bbbbbbbbbbbbbbbbbbbbbbbb")).2) ∧
    (loadAccessKey sampleEnv
        (loadAccessKey sampleEnv [] (str "bob") (str "aaaaaaaaaa.bbbbbbbbbbbbbbbbbbbbbbbb")).2
        (str "alice") (str "aaaaaaaaaa.bbbbbbbbbbbbbbbbbbbbbbbb")).1 =
      some ("access key assigned to \"alice\" is already assigned to another user, " ++
        "a user's access key must have a unique ID") := by
  have h := loadAccessKey_again_or_conflict sampleEnv []
    (loadAccessKey sampleEnv [] (str "bob") (str "aaaaaaaaaa.bbbbbbbbbbbbbbbbbbbbbbbb")).2
    (str "bob") (str "aaaaaaaaaa.bbbbbbbbbbbbbbbbbbbbbbbb") (by decide)
  refine ⟨h.1, ?_⟩
  rw [h.2.2 (str "alice") (by decide)]
  decide

theorem parseAccessKey_dot (secret : GoString) :
    ∀ keyID : GoString, (46 : Byte) ∉ keyID →
      parseAccessKey (keyID ++ (46 : Byte) :: secret) = some (keyID, secret) := by
  intro keyID
  induction keyID with
  | nil => intro _; rfl
  | cons c cs ih =>
    intro h
    have hc : c ≠ (46 : Byte) := fun hc => h (by rw [hc]; exact List.mem_cons_self _ _)
    have hcv : c.val ≠ 46 := fun hv => hc (Fin.ext hv)
    have hcs : (46 : Byte) ∉ cs := fun hm => h (List.mem_cons_of_mem _ hm)
    have hih := ih hcs
    rw [List.cons_append]
    unfold parseAccessKey
    rw [if_neg hcv, hih]

/-- Through a successful `loadUsers`, whose entries declare the `KeyID` with
one secret only, the lookup of the `KeyID` ends at a row issued for the
identity of an entry that declares it, with the digest of the secret. -/
theorem loadUsers_find (env : Env) (keyID secret identity : GoString) :
    ∀ (us : List User) (t t1 : UserTables), loadUsers env us t = (none, t1) →
      (∀ v ∈ us, ∀ s, parseAccessKey v.AccessKey = some (keyID, s) → s = secret) →
      ((∃ u ∈ us, parseAccessKey u.AccessKey = some (keyID, secret) ∧
          u.identityName = identity) ∨
        (∃ k, t.access_keys.find? (fun k => decide (k.KeyID = keyID)) = some k ∧
          k.IssuedFor = identity ∧ k.SecretChecksum = env.sha256 secret)) →
      ∃ k, t1.access_keys.find? (fun k => decide (k.KeyID = keyID)) = some k ∧
        k.IssuedFor = identity ∧ k.SecretChecksum = env.sha256 secret := by
  intro us
  induction us with
  | nil =>
    intro t t1 h _ hor
    simp only [loadUsers, Prod.mk.injEq, true_and] at h
    subst h
    rcases hor with ⟨u, hu, _⟩ | h
    · exact absurd hu (List.not_mem_nil _)
    · exact h
  | cons v us ih =>
    intro t t1 h hsame hor
    unfold loadUsers at h
    rcases hl : loadUser env t v with ⟨e, mid⟩
    rw [hl] at h
    cases e with
    | some e => exact absurd (congrArg Prod.fst h) (by simp)
    | none =>
      simp only at h
      obtain ⟨_, _, _, hk0, hk1⟩ := loadUser_ok env t mid v hl
      apply ih mid t1 h (fun w hw => hsame w (List.mem_cons_of_mem _ hw))
      rcases hor with ⟨u, hu, hup, hun⟩ | ⟨k, hk, hki, hkc⟩
      · rcases List.mem_cons.mp hu with rfl | hu'
        · right
          have hne := parseAccessKey_nil_of_some _ _ _ hup
          obtain ⟨a, _, _, _⟩ := loadAccessKey_find env _ _ _ _ keyID secret (hk1 hne) hup
          rw [hun] at a
          exact a
        · exact Or.inl ⟨u, hu', hup, hun⟩
      · right
        by_cases hkey : v.AccessKey = []
        · rw [hk0 hkey]
          exact ⟨k, hk, hki, hkc⟩
        · obtain ⟨keyID', secret', hp, _⟩ := loadAccessKey_ok env _ _ _ _ (hk1 hkey)
          obtain ⟨⟨k1, a1, a2, a3⟩, b, c, _⟩ := loadAccessKey_find env _ _ _ _ keyID' secret'
            (hk1 hkey) hp
          by_cases hkk : keyID' = keyID
          · subst hkk
            have hs : secret' = secret := hsame v (List.mem_cons_self _ _) secret' hp
            refine ⟨k1, a1, ?_, by rw [a3, hs]⟩
            rw [a2, ← b k hk]
            exact hki
          · rw [c keyID (fun h => hkk h.symm)]
            exact ⟨k, hk, hki, hkc⟩

/-- C22 as amended: when a configuration loads and one of its users declares
the access key `keyID.secret`, with no dot in `keyID`, and every entry that
declares this `KeyID` declares it with this secret, the access key found by
`keyID` in the store is issued for the identity of the user and holds the
SHA-256 digest of `secret`. -/
theorem loadConfig_stores_key (env : Env) (db : Store) (config : Config) (u : User)
    (keyID secret : GoString) (hok : (loadConfig env db config).1 = none)
    (hu : u ∈ config.Users) (hk : u.AccessKey = keyID ++ (46 : Byte) :: secret)
    (hdot : (46 : Byte) ∉ keyID)
    (hsame : ∀ v ∈ config.Users, ∀ s, parseAccessKey v.AccessKey = some (keyID, s) →
      s = secret) :
    ∃ k, (loadConfig env db config).2.access_keys.find?
        (fun k => decide (k.KeyID = keyID)) = some k ∧
      k.IssuedFor = u.identityName ∧ k.SecretChecksum = env.sha256 secret := by
  have hl := loadAll_of_loadConfig env db config hok
  generalize (loadConfig env db config).2 = y at hl ⊢
  obtain ⟨ut, gt, _, hus, _, _, _, _, _, e5⟩ := loadAll_ok env config _ y hl
  rw [e5]
  exact loadUsers_find env keyID secret u.identityName config.Users _ ut hus hsame
    (Or.inl ⟨u, hu, by rw [hk]; exact parseAccessKey_dot secret keyID hdot, rfl⟩)

/-- The counterexample to claim C22 as stated: a configuration that declares
the key `aaaaaaaaaa` for `sue` twice, with two secrets, loads; the key stored
under `aaaaaaaaaa` holds the digest of the second secret, not that of the part
after the dot of the first string. -/
theorem loadConfig_key_overwritten_counterexample :
    (loadConfig sampleEnv {} twoSecretsConfig).1 = none ∧
    (∃ u ∈ twoSecretsConfig.Users,
      u.AccessKey = str "aaaaaaaaaa" ++ (46 : Byte) :: str "bbbbbbbbbbbbbbbbbbbbbbbb") ∧
    (loadConfig sampleEnv {} twoSecretsConfig).2.access_keys =
      [{ KeyID := str "aaaaaaaaaa",
         SecretChecksum := sampleEnv.sha256 (str "cccccccccccccccccccccccc"),
         IssuedFor := str "sue" }] ∧
    sampleEnv.sha256 (str "cccccccccccccccccccccccc") ≠
      sampleEnv.sha256 (str "bbbbbbbbbbbbbbbbbbbbbbbb") := by
  decide

/-- The users of `TestLoadConfigWithUsers`: the key of `sue` is found by
`aaaaaaaaaa`, issued for `sue`, with the digest of the 24 letters `b`. -/
theorem loadConfig_stores_key_witness :
    ∃ k, (loadConfig sampleEnv {} usersConfig).2.access_keys.find?
        (fun k => decide (k.KeyID = str "aaaaaaaaaa")) = some k ∧
      k.IssuedFor = str "sue" ∧
      k.SecretChecksum = sampleEnv.sha256 (str "bbbbbbbbbbbbbbbbbbbbbbbb") :=
  loadConfig_stores_key sampleEnv {} usersConfig
    { Name := str "sue", AccessKey := str "aaaaaaaaaa.bbbbbbbbbbbbbbbbbbbbbbbb" }
    (str "aaaaaaaaaa") (str "bbbbbbbbbbbbbbbbbbbbbbbb") (by decide) (by decide) (by decide)
    (by decide) (by
      intro v hv s hs
      have h4 : ∀ w ∈ usersConfig.Users, ∀ p, parseAccessKey w.AccessKey = some p →
          p.1 = str "aaaaaaaaaa" → p.2 = str "bbbbbbbbbbbbbbbbbbbbbbbb" := by decide
      exact h4 v hv (str "aaaaaaaaaa", s) hs rfl)

end Reconciler
